import Mathlib

/-!
# NetworkModule/mqtt.c : packet codec, message queue and client engine

A shallow embedding of `src/NetworkModule/mqtt.c`, and of the temperature string and the
CRC of `src/NetworkModule/DS18B20.c`.

Conventions of the embedding

* A byte is a `Nat` below 256; a buffer is a `List Nat`; a C string is the list of
  its characters (without the terminating NUL), so `strlen` is `List.length`.
* Objects of a fixed width are reduced explicitly: `uint16_t` values modulo `2^16`,
  `uint32_t` values modulo `2^32`, and a value stored in an `int16_t` goes through
  `toInt16`.  Operands promoted to `int` inside an expression are not reduced, except
  where the value can leave a 16-bit `int`: the product `client->keep_alive * 3` of
  `__mqtt_send` and the shift `(*buf & 0x7F) << lshift` of `mqtt_unpack_fixed_header`
  are reduced to the width `int_bits` of the `int` of the tool set.
* Pointers into a buffer are byte offsets (`Int`) from the start of that buffer.
* A function that writes through an advancing pointer returns the list of bytes
  it has written, in order, next to its C return value; the caller stores them
  with `writeAt`.
* Pointer arguments are non-null (the `NULL` guards of the C code are not
  modelled), except the optional `user_name` and `password` of a connect request.
* A function that moves its write pointer by a computed amount keeps the offset of
  the pointer from the start of the buffer and stores with `put`; a store below the
  start of the buffer is not part of the bytes it returns.
* `__mqtt_pack_str` counts the characters with an `int16_t`, which is exact for
  strings of at most 32767 characters; for longer strings the model lets the loop
  copy `length` characters.
-/

namespace MQTT

/-! ## Constants of the absent headers -/

/-- Names of the `MQTT_ERROR_*` constants that `mqtt.c` uses. -/
inductive MQTTErrors
  | MQTT_ERROR_NULLPTR
  | MQTT_ERROR_CONTROL_FORBIDDEN_TYPE
  | MQTT_ERROR_CONTROL_INVALID_FLAGS
  | MQTT_ERROR_INVALID_REMAINING_LENGTH
  | MQTT_ERROR_MALFORMED_REQUEST
  | MQTT_ERROR_MALFORMED_RESPONSE
  | MQTT_ERROR_CONNACK_FORBIDDEN_FLAGS
  | MQTT_ERROR_CONNACK_FORBIDDEN_CODE
  | MQTT_ERROR_RESPONSE_INVALID_CONTROL_TYPE
  | MQTT_ERROR_CONNECT_NOT_CALLED
  | MQTT_ERROR_SEND_BUFFER_IS_FULL
  | MQTT_ERROR_ACK_OF_UNKNOWN
  | MQTT_ERROR_CONNECT_CLIENT_ID_REFUSED
  | MQTT_ERROR_CONNECTION_REFUSED
  | MQTT_ERROR_SUBSCRIBE_FAILED
  deriving DecidableEq, Repr

/-- Modelled from the spec: `enum MQTTQueuedMessageState` of `mqtt.h`. -/
inductive MQTTQueuedMessageState
  | MQTT_QUEUED_UNSENT
  | MQTT_QUEUED_AWAITING_ACK
  | MQTT_QUEUED_COMPLETE
  deriving DecidableEq, Repr

/-- Modelled from the spec: `struct mqtt_queued_message` of `mqtt.h`.  `start` is the
offset of the first byte of the message from `mem_start`. -/
structure mqtt_queued_message where
  start : Int
  size : Nat
  state : MQTTQueuedMessageState
  time_sent : Nat
  control_type : Nat
  packet_id : Nat
  deriving DecidableEq, Repr

/-- Modelled from the spec: `mqtt.h` and `main.h` are not among the sources, so the
values they define and that the wire format does not fix are parameters.  The spec
says that a genuine error is "a negative code"; the results are `int16_t`.
`sizeof_queued_message` is `sizeof(struct mqtt_queued_message)`.  `mqtt_mq_currsz`
is the macro of that name, the available-space query, taken as a function of the
offsets of `mem_end`, `curr` and `queue_tail`.  `int_bits` is the width of `int` and
`unsigned int` of the tool set, in which `client->keep_alive * 3` and the shift
`(*buf & 0x7F) << lshift` of `mqtt_unpack_fixed_header` are evaluated: the C standard
requires at least 16 bits, and the tool set for the STM8 that the header of `mqtt.c`
names has 16.  `descriptor_bytes` is the object representation of a
`struct mqtt_queued_message`, the `sizeof_queued_message` bytes that a descriptor
occupies in the region of the queue. -/
structure Consts where
  code : MQTTErrors → Int
  MQTT_OK : Int
  sizeof_queued_message : Nat
  descriptor_bytes : mqtt_queued_message → List Nat
  descriptor_bytes_length : ∀ msg, (descriptor_bytes msg).length = sizeof_queued_message
  mqtt_mq_currsz : Int → Int → Int → Nat
  MQTT_PROTOCOL_LEVEL : Nat
  MQTT_START_COMPLETE : Nat
  int_bits : Nat
  int_bits_ge : 16 ≤ int_bits
  code_neg : ∀ e, code e < 0
  code_ge : ∀ e, -32768 ≤ code e
  ok_nonneg : 0 ≤ MQTT_OK
  ok_le : MQTT_OK ≤ 32767
  sizeof_pos : 0 < sizeof_queued_message

/-- One admissible choice of the constants, used to evaluate the model on concrete
inputs: `MQTT_OK = 1`, the errors numbered upwards from `INT16_MIN + 1`, a
descriptor of 12 bytes (`start` and `size` of 2 bytes each, most significant byte
first, 1 byte of `state`, 4 bytes of `time_sent`, 1 byte of `control_type`, 2 bytes of
`packet_id`), protocol level 4, an `int` of 16 bits, and the available space as the spec
words it: "capacity minus (data front offset) minus (space consumed by existing
descriptors)". -/
def sampleConsts : Consts where
  code := fun e => -32767 + (e.toCtorIdx : Int)
  MQTT_OK := 1
  sizeof_queued_message := 12
  descriptor_bytes := fun msg =>
    [(msg.start % 65536).toNat / 256, (msg.start % 65536).toNat % 256,
     msg.size / 256 % 256, msg.size % 256, msg.state.toCtorIdx,
     msg.time_sent / 16777216 % 256, msg.time_sent / 65536 % 256,
     msg.time_sent / 256 % 256, msg.time_sent % 256,
     msg.control_type % 256, msg.packet_id / 256 % 256, msg.packet_id % 256]
  descriptor_bytes_length := fun _ => rfl
  mqtt_mq_currsz := fun _ curr queue_tail => (queue_tail - curr).toNat
  MQTT_PROTOCOL_LEVEL := 4
  MQTT_START_COMPLETE := 20
  int_bits := 16
  int_bits_ge := by decide
  code_neg := by intro e; cases e <;> decide
  code_ge := by intro e; cases e <;> decide
  ok_nonneg := by decide
  ok_le := by decide
  sizeof_pos := by decide

/-- Modelled from the spec: `enum MQTTControlPacketType` of `mqtt.h`; the values are
the indices that the comments of the tables `control_type_is_valid`,
`required_flags` and `mask_required_flags` give to each name. -/
def MQTT_CONTROL_CONNECT : Nat := 1
/-- Modelled from the spec: see `MQTT_CONTROL_CONNECT`. -/
def MQTT_CONTROL_CONNACK : Nat := 2
/-- Modelled from the spec: see `MQTT_CONTROL_CONNECT`. -/
def MQTT_CONTROL_PUBLISH : Nat := 3
/-- Modelled from the spec: see `MQTT_CONTROL_CONNECT`. -/
def MQTT_CONTROL_SUBSCRIBE : Nat := 8
/-- Modelled from the spec: see `MQTT_CONTROL_CONNECT`. -/
def MQTT_CONTROL_SUBACK : Nat := 9
/-- Modelled from the spec: see `MQTT_CONTROL_CONNECT`. -/
def MQTT_CONTROL_PINGREQ : Nat := 12
/-- Modelled from the spec: see `MQTT_CONTROL_CONNECT`. -/
def MQTT_CONTROL_PINGRESP : Nat := 13
/-- Modelled from the spec: see `MQTT_CONTROL_CONNECT`. -/
def MQTT_CONTROL_DISCONNECT : Nat := 14

/-- Modelled from the spec: connect-flag bits of `mqtt.h` (the protocol's connect
flags byte: bit 0 reserved, bit 2 will flag, bit 5 will retain, bit 6 password,
bit 7 user name). -/
def MQTT_CONNECT_RESERVED : Nat := 1
/-- Modelled from the spec: see `MQTT_CONNECT_RESERVED`. -/
def MQTT_CONNECT_WILL_FLAG : Nat := 4
/-- Modelled from the spec: see `MQTT_CONNECT_RESERVED`. -/
def MQTT_CONNECT_WILL_RETAIN : Nat := 32
/-- Modelled from the spec: see `MQTT_CONNECT_RESERVED`. -/
def MQTT_CONNECT_PASSWORD : Nat := 64
/-- Modelled from the spec: see `MQTT_CONNECT_RESERVED`. -/
def MQTT_CONNECT_USER_NAME : Nat := 128

/-- Modelled from the spec: publish flag bits of `mqtt.h` (duplicate = bit 3,
quality = bits 2..1, retain = bit 0). -/
def MQTT_PUBLISH_DUP : Nat := 8
/-- Modelled from the spec: see `MQTT_PUBLISH_DUP`. -/
def MQTT_PUBLISH_QOS_MASK : Nat := 6
/-- Modelled from the spec: see `MQTT_PUBLISH_DUP`. -/
def MQTT_PUBLISH_RETAIN : Nat := 1

/-- Modelled from the spec: connack return codes of `mqtt.h` (0 accepted,
2 identifier rejected). -/
def MQTT_CONNACK_ACCEPTED : Nat := 0
/-- Modelled from the spec: see `MQTT_CONNACK_ACCEPTED`. -/
def MQTT_CONNACK_REFUSED_IDENTIFIER_REJECTED : Nat := 2
/-- Modelled from the spec: suback return code for a failed subscription. -/
def MQTT_SUBACK_FAILURE : Nat := 128

/-! ## Machine integers and memory -/

/-- Conversion of an integer value to `int16_t` (two's complement wrap). -/
def toInt16 (z : Int) : Int := (z + 32768) % 65536 - 32768

/-- Conversion to `uint16_t`. -/
def toUInt16 (z : Int) : Nat := (z % 65536).toNat

/-- Conversion of an integer value to an `int` of `bits` bits (two's complement wrap). -/
def toIntOfWidth (bits : Nat) (z : Int) : Int :=
  (z + 2 ^ (bits - 1)) % 2 ^ bits - 2 ^ (bits - 1)

/-- Conversion to `uint32_t`. -/
def toUInt32 (z : Int) : Nat := (z % 4294967296).toNat

/-- Stores `bytes` into `mem` from offset `off` on (cells outside `mem` are not
part of the model). -/
def writeAt (mem : List Nat) (off : Nat) (bytes : List Nat) : List Nat :=
  mem.take off ++ (bytes.take (mem.length - off)) ++ mem.drop (off + bytes.length)

/-- Stores `bytes` into `mem` from the offset `off` on, which may lie below the start of
`mem` (cells outside `mem` are not part of the model). -/
def writeAtOffset (mem : List Nat) (off : Int) (bytes : List Nat) : List Nat :=
  if 0 ≤ off then writeAt mem off.toNat bytes
  else writeAt mem 0 (bytes.drop (-off).toNat)

/-- Stores `bytes` at offset `pos` from the start of a buffer of which the bytes
`out`, from offset 0 to `out.length`, have been written so far; the result is the
content of the buffer from offset 0 on.  The part of a store that lies below offset 0
is outside the buffer and is left out.  (The pack functions never store beyond
`out.length`.) -/
def put (out : List Nat) (pos : Int) (bytes : List Nat) : List Nat :=
  if 0 ≤ pos then out.take pos.toNat ++ bytes ++ out.drop (pos.toNat + bytes.length)
  else bytes.drop (-pos).toNat ++ out.drop (bytes.length - (-pos).toNat)

/-! ## Fixed header -/

/-- Modelled from the spec: `struct mqtt_fixed_header` of `mqtt.h`: control type,
control flags (a 4-bit field) and the `uint32_t` remaining length. -/
structure mqtt_fixed_header where
  control_type : Nat
  control_flags : Nat
  remaining_length : Nat
  deriving DecidableEq, Repr

/-- The table `control_type_is_valid[]`. -/
def control_type_is_valid : List Nat :=
  [0x00, 0x01, 0x01, 0x01, 0x01, 0x01, 0x01, 0x01,
   0x01, 0x01, 0x01, 0x01, 0x01, 0x01, 0x01, 0x00]

/-- The table `required_flags[]`. -/
def required_flags : List Nat :=
  [0x00, 0x00, 0x00, 0x00, 0x00, 0x00, 0x02, 0x00,
   0x02, 0x00, 0x02, 0x00, 0x00, 0x00, 0x00, 0x00]

/-- The table `mask_required_flags[]`. -/
def mask_required_flags : List Nat :=
  [0x00, 0x0F, 0x0F, 0x00, 0x0F, 0x0F, 0x0F, 0x0F,
   0x0F, 0x0F, 0x0F, 0x0F, 0x0F, 0x0F, 0x0F, 0x00]

/-- `mqtt_fixed_header_rule_violation`.  The flags test of the source compares the
masked difference with `1`. -/
def mqtt_fixed_header_rule_violation (K : Consts) (fixed_header : mqtt_fixed_header) : Int :=
  let control_type := fixed_header.control_type % 256
  let control_flags := fixed_header.control_flags % 256
  if control_type_is_valid.getD control_type 0 ≠ 0x01 then
    K.code .MQTT_ERROR_CONTROL_FORBIDDEN_TYPE
  else if ((control_flags ^^^ required_flags.getD control_type 0)
            &&& mask_required_flags.getD control_type 0) = 1 then
    K.code .MQTT_ERROR_CONTROL_INVALID_FLAGS
  else 0

/-- The `do ... while` loop of `mqtt_pack_fixed_header` that writes the remaining
length.  `bufsz` is the capacity left before the `--bufsz` of the iteration, `out`
the bytes written so far.  The first component of the result is `none` when the
loop leaves through `if (bufsz == 0) return 0`, otherwise the capacity left when
the loop ends; the second component is the bytes written.  `fuel` bounds the
number of iterations: a `uint32_t` is exhausted after five shifts by 7
(`pack_length_loop_fuel`). -/
def pack_length_loop : Nat → Nat → Nat → List Nat → Option Nat × List Nat
  | 0, bufsz, _, out => (some bufsz, out)
  | fuel + 1, bufsz, remaining_length, out =>
    let bufsz := bufsz - 1
    if bufsz = 0 then (none, out)
    else
      let b := remaining_length &&& 0x7F
      let b := if remaining_length > 127 then b ||| 0x80 else b
      let remaining_length := remaining_length >>> 7
      if b &&& 0x80 ≠ 0 then pack_length_loop fuel bufsz remaining_length (out ++ [b])
      else (some bufsz, out ++ [b])

/-- `mqtt_pack_fixed_header`: the `int16_t` result and the bytes written. -/
def mqtt_pack_fixed_header (K : Consts) (bufsz : Nat) (fixed_header : mqtt_fixed_header) :
    Int × List Nat :=
  let errcode := mqtt_fixed_header_rule_violation K fixed_header
  if errcode ≠ 0 then (errcode, [])
  else if bufsz = 0 then (0, [])
  else
    let b0 := (((fixed_header.control_type <<< 4) &&& 0xF0) % 256)
                ||| ((fixed_header.control_flags &&& 0x0F) % 256)
    match pack_length_loop 5 bufsz (fixed_header.remaining_length % 2 ^ 32) [b0] with
    | (none, out) => (0, out)
    | (some bufsz, out) =>
      let bufsz := bufsz - 1
      if bufsz < fixed_header.remaining_length % 2 ^ 32 then (0, out)
      else (toInt16 out.length, out)

/-! ## Responses -/

/-- Modelled from the spec: `struct mqtt_response_connack` of `mqtt.h`. -/
structure mqtt_response_connack where
  session_present_flag : Nat
  return_code : Nat
  deriving DecidableEq, Repr

/-- Modelled from the spec: `struct mqtt_response_publish` of `mqtt.h`; the pointers
`topic_name` and `application_message` are offsets into the decoded buffer. -/
structure mqtt_response_publish where
  dup_flag : Nat
  qos_level : Nat
  retain_flag : Nat
  topic_name_size : Nat
  topic_name : Nat
  application_message : Nat
  application_message_size : Nat
  deriving DecidableEq, Repr

/-- Modelled from the spec: `struct mqtt_response_suback` of `mqtt.h`; the pointer
`return_codes` is an offset into the decoded buffer. -/
structure mqtt_response_suback where
  packet_id : Nat
  return_codes : Nat
  num_return_codes : Nat
  deriving DecidableEq, Repr

/-- Modelled from the spec: `struct mqtt_response` of `mqtt.h`: the fixed header and
the decoded body.  The three variants of `decoded` are kept side by side. -/
structure mqtt_response where
  fixed_header : mqtt_fixed_header
  connack : mqtt_response_connack
  publish : mqtt_response_publish
  suback : mqtt_response_suback
  deriving DecidableEq, Repr

/-- The `do ... while` loop of `mqtt_unpack_fixed_header` that reads the remaining
length.  `pos` is the offset of `buf` from `start`, `bufsz` the bytes left there.
The first component of the result is the value of an early `return`, if any; then
come the final `pos`, `bufsz` and `remaining_length`.  `fuel` bounds the number
of iterations: the fifth one leaves through `lshift == 28`
(`unpack_length_loop_fuel`).  The shift `(*buf & 0x7F) << lshift` has the type `int`:
its value is reduced to the width `int_bits` before it is converted to `uint32_t` and
added. -/
def unpack_length_loop (K : Consts) (buf : List Nat) :
    Nat → Nat → Nat → Nat → Nat → Option Int × Nat × Nat × Nat
  | 0, pos, bufsz, _, remaining_length => (none, pos, bufsz, remaining_length)
  | fuel + 1, pos, bufsz, lshift, remaining_length =>
    if lshift = 28 then
      (some (K.code .MQTT_ERROR_INVALID_REMAINING_LENGTH), pos, bufsz, remaining_length)
    else
      let bufsz := bufsz - 1
      let pos := pos + 1
      if bufsz = 0 then (some 0, pos, bufsz, remaining_length)
      else
        let b := buf.getD pos 0
        let remaining_length :=
          toUInt32 (remaining_length + toIntOfWidth K.int_bits (((b &&& 0x7F) <<< lshift : Nat)))
        let lshift := lshift + 7
        if b &&& 0x80 ≠ 0 then unpack_length_loop K buf fuel pos bufsz lshift remaining_length
        else (none, pos, bufsz, remaining_length)

/-- `mqtt_unpack_fixed_header`: the `int16_t` result and the response as the call
leaves it (the fields of the fixed header are stored as they are parsed). -/
def mqtt_unpack_fixed_header (K : Consts) (response : mqtt_response) (buf : List Nat)
    (bufsz : Nat) : Int × mqtt_response :=
  if bufsz = 0 then (0, response)
  else
    let b0 := buf.getD 0 0
    let fh : mqtt_fixed_header :=
      { control_type := (b0 >>> 4) % 256, control_flags := (b0 &&& 0x0F) % 256,
        remaining_length := 0 }
    match unpack_length_loop K buf 5 0 bufsz 0 0 with
    | (some rv, _, _, remaining_length) =>
      (rv, { response with fixed_header := { fh with remaining_length := remaining_length } })
    | (none, pos, bufsz, remaining_length) =>
      let bufsz := bufsz - 1
      let pos := pos + 1
      let fh := { fh with remaining_length := remaining_length }
      let response := { response with fixed_header := fh }
      let errcode := mqtt_fixed_header_rule_violation K fh
      if errcode ≠ 0 then (errcode, response)
      else if bufsz < remaining_length then (0, response)
      else (toInt16 pos, response)


/-! ## The remaining-length code, as the spec words it -/

/-- The spec's remaining-length encoding: "7 bits at a time, low-order first,
continuation flagged by the high bit of each encoded byte".  `fuel` bounds the
number of bytes. -/
def encode_remaining_length : Nat → Nat → List Nat
  | 0, _ => []
  | fuel + 1, n =>
    if n ≤ 127 then [n] else (n % 128 + 128) :: encode_remaining_length fuel (n / 128)

/-- Number of bytes of the remaining-length field of a `uint32_t` value. -/
def remaining_length_size (n : Nat) : Nat := (encode_remaining_length 5 n).length

/-- The value of a remaining-length field as the spec words it: 7 bits of each byte,
the low-order group first. -/
def decode_remaining_length : List Nat → Nat
  | [] => 0
  | b :: rest => b % 128 + 128 * decode_remaining_length rest


/-- A response whose fields are all zero, used to evaluate the decoders. -/
def sampleResponse : mqtt_response :=
  { fixed_header := ⟨0, 0, 0⟩, connack := ⟨0, 0⟩, publish := ⟨0, 0, 0, 0, 0, 0, 0⟩,
    suback := ⟨0, 0, 0⟩ }

/-! ## Integers and strings on the wire -/

/-- Modelled from the spec: `HTONS` of `uipopt.h` is absent; "multi-byte integers are
big-endian on the wire regardless of host byte order".  `__mqtt_pack_uint16`
returns 2 and writes the two bytes of `integer`, high byte first. -/
def __mqtt_pack_uint16 (integer : Nat) : Int × List Nat :=
  (2, [(integer / 256) % 256, integer % 256])

/-- `__mqtt_unpack_uint16` at offset `pos` of `buf` (big-endian, see
`__mqtt_pack_uint16`). -/
def __mqtt_unpack_uint16 (buf : List Nat) (pos : Nat) : Nat :=
  (buf.getD pos 0 % 256) * 256 + buf.getD (pos + 1) 0 % 256

/-- Modelled from the spec: the macro `__mqtt_packed_cstrlen` of `mqtt.h` is absent;
the source says "mqtt_string length is strlen + 2". -/
def __mqtt_packed_cstrlen (x : List Nat) : Nat := 2 + x.length

/-- `__mqtt_pack_str`: the `uint16_t` length, then that many characters of `str`; the
result is `length + 2` as an `int16_t`. -/
def __mqtt_pack_str (str : List Nat) : Int × List Nat :=
  let length := str.length % 65536
  (toInt16 ((length : Int) + 2), (__mqtt_pack_uint16 length).2 ++ str.take length)

/-- The bytes that `memcpy(buf, src, n)` stores: the first `n` bytes found at `src`
(cells behind the end of the list `src` read as 0). -/
def memcpy (src : List Nat) (n : Nat) : List Nat := (src ++ List.replicate n 0).take n

/-! ## Wire formats, as the spec words them -/

/-- The spec's "big-endian 16-bit" integer on the wire: the high byte first. -/
def uint16_be (x : Nat) : List Nat := [x / 256 % 256, x % 256]

/-- The spec's "length-prefixed" string: its 16-bit length, then its raw bytes. -/
def length_prefixed (s : List Nat) : List Nat := uint16_be s.length ++ s

/-- An optional length-prefixed field of the spec: an absent one takes no byte. -/
def optional_field : Option (List Nat) → List Nat
  | some s => length_prefixed s
  | none => []

/-- The bytes of a connect request behind its fixed header, as the spec words them:
"protocol name length (`0x00 0x04`) + "MQTT", protocol level byte, connect-flags byte,
keep-alive (big-endian 16-bit), then length-prefixed client id, length-prefixed will
topic + 16-bit will-message length + raw will bytes, length-prefixed user name,
length-prefixed password", the last two when they are supplied. -/
def connect_variable_part (protocol_level flags keep_alive : Nat)
    (client_id will_topic will_message : List Nat) (user_name password : Option (List Nat)) :
    List Nat :=
  [0x00, 0x04, 77, 81, 84, 84, protocol_level, flags] ++ uint16_be keep_alive
    ++ length_prefixed client_id ++ length_prefixed will_topic
    ++ uint16_be will_message.length ++ will_message
    ++ optional_field user_name ++ optional_field password


/-! ## Packing requests -/

/-- `mqtt_pack_connection_request`: the `int16_t` result and the bytes written.
`user_name` and `password` are `none` for a `NULL` pointer; `buf` is the offset of the
write pointer from `start`. -/
def mqtt_pack_connection_request (K : Consts) (bufsz : Nat) (client_id will_topic : List Nat)
    (will_message : List Nat) (will_message_size : Nat) (user_name password : Option (List Nat))
    (connect_flags : Nat) (keep_alive : Nat) : Int × List Nat :=
  let connect_flags := (connect_flags &&& (255 - MQTT_CONNECT_RESERVED)) % 256
  let remaining_length := 10
  let remaining_length := (remaining_length + __mqtt_packed_cstrlen client_id) % 65536
  let connect_flags := connect_flags ||| MQTT_CONNECT_WILL_FLAG
  let connect_flags := connect_flags ||| MQTT_CONNECT_WILL_RETAIN
  let remaining_length := (remaining_length + __mqtt_packed_cstrlen will_topic) % 65536
  let remaining_length := (remaining_length + (2 + will_message_size)) % 65536
  let (connect_flags, remaining_length) :=
    match user_name with
    | some user_name =>
      (connect_flags ||| MQTT_CONNECT_USER_NAME,
        (remaining_length + __mqtt_packed_cstrlen user_name) % 65536)
    | none => (connect_flags &&& (255 - MQTT_CONNECT_USER_NAME), remaining_length)
  let (connect_flags, remaining_length) :=
    match password with
    | some password =>
      (connect_flags ||| MQTT_CONNECT_PASSWORD,
        (remaining_length + __mqtt_packed_cstrlen password) % 65536)
    | none => (connect_flags &&& (255 - MQTT_CONNECT_PASSWORD), remaining_length)
  let fixed_header : mqtt_fixed_header :=
    { control_type := MQTT_CONTROL_CONNECT, control_flags := 0x00,
      remaining_length := remaining_length }
  let (rv, out) := mqtt_pack_fixed_header K bufsz fixed_header
  if rv ≤ 0 then (rv, out)
  else
    let bufsz := toUInt16 ((bufsz : Int) - rv)
    if bufsz < fixed_header.remaining_length then (0, out)
    else
      let buf : Int := rv
      let out := put out buf [0x00, 0x04, 77, 81, 84, 84, K.MQTT_PROTOCOL_LEVEL % 256, connect_flags]
      let buf := buf + 8
      let out := put out buf (__mqtt_pack_uint16 keep_alive).2
      let buf := buf + (__mqtt_pack_uint16 keep_alive).1
      let out := put out buf (__mqtt_pack_str client_id).2
      let buf := buf + (__mqtt_pack_str client_id).1
      let (out, buf) :=
        if connect_flags &&& MQTT_CONNECT_WILL_FLAG ≠ 0 then
          let out := put out buf (__mqtt_pack_str will_topic).2
          let buf := buf + (__mqtt_pack_str will_topic).1
          let out := put out buf (__mqtt_pack_uint16 will_message_size).2
          let buf := buf + (__mqtt_pack_uint16 will_message_size).1
          let out := put out buf (memcpy will_message will_message_size)
          (out, buf + (will_message_size : Int))
        else (out, buf)
      let (out, buf) :=
        if connect_flags &&& MQTT_CONNECT_USER_NAME ≠ 0 then
          (put out buf (__mqtt_pack_str (user_name.getD [])).2,
            buf + (__mqtt_pack_str (user_name.getD [])).1)
        else (out, buf)
      let (out, buf) :=
        if connect_flags &&& MQTT_CONNECT_PASSWORD ≠ 0 then
          (put out buf (__mqtt_pack_str (password.getD [])).2,
            buf + (__mqtt_pack_str (password.getD [])).1)
        else (out, buf)
      (toInt16 buf, out)

/-- `mqtt_pack_disconnect`. -/
def mqtt_pack_disconnect (K : Consts) (bufsz : Nat) : Int × List Nat :=
  mqtt_pack_fixed_header K bufsz
    { control_type := MQTT_CONTROL_DISCONNECT, control_flags := 0, remaining_length := 0 }

/-- `mqtt_pack_ping_request`. -/
def mqtt_pack_ping_request (K : Consts) (bufsz : Nat) : Int × List Nat :=
  mqtt_pack_fixed_header K bufsz
    { control_type := MQTT_CONTROL_PINGREQ, control_flags := 0, remaining_length := 0 }

/-- `mqtt_pack_publish_request`: the `int16_t` result and the bytes written.  The
argument `packet_id` of the source is not used by it; `buf` is the offset of the write
pointer from `start`. -/
def mqtt_pack_publish_request (K : Consts) (bufsz : Nat) (topic_name : List Nat)
    (packet_id : Nat) (application_message : List Nat) (application_message_size : Nat)
    (publish_flags : Nat) : Int × List Nat :=
  let _ := packet_id
  let remaining_length := __mqtt_packed_cstrlen topic_name % 2 ^ 32
  let remaining_length := (remaining_length + application_message_size) % 2 ^ 32
  let publish_flags := (publish_flags &&& (255 - MQTT_PUBLISH_DUP)) % 256
  let fixed_header : mqtt_fixed_header :=
    { control_type := MQTT_CONTROL_PUBLISH, control_flags := publish_flags,
      remaining_length := remaining_length }
  let (rv, out) := mqtt_pack_fixed_header K bufsz fixed_header
  if rv ≤ 0 then (rv, out)
  else
    let bufsz := toUInt16 ((bufsz : Int) - rv)
    if bufsz < remaining_length then (0, out)
    else
      let buf : Int := rv
      let out := put out buf (__mqtt_pack_str topic_name).2
      let buf := buf + (__mqtt_pack_str topic_name).1
      let out := put out buf (memcpy application_message application_message_size)
      let buf := buf + (application_message_size : Int)
      (toInt16 buf, out)

/-- `mqtt_pack_subscribe_request`: the `int16_t` result and the bytes written; `buf` is
the offset of the write pointer from `start`. -/
def mqtt_pack_subscribe_request (K : Consts) (bufsz : Nat) (packet_id : Nat)
    (topic : List Nat) : Int × List Nat :=
  let remaining_length := 2
  let remaining_length := (remaining_length + (__mqtt_packed_cstrlen topic + 1)) % 2 ^ 32
  let fixed_header : mqtt_fixed_header :=
    { control_type := MQTT_CONTROL_SUBSCRIBE, control_flags := 2,
      remaining_length := remaining_length }
  let (rv, out) := mqtt_pack_fixed_header K bufsz fixed_header
  if rv ≤ 0 then (rv, out)
  else
    let bufsz := toUInt16 ((bufsz : Int) - rv)
    if bufsz < fixed_header.remaining_length then (0, out)
    else
      let buf : Int := rv
      let out := put out buf (__mqtt_pack_uint16 packet_id).2
      let buf := buf + (__mqtt_pack_uint16 packet_id).1
      let out := put out buf (__mqtt_pack_str topic).2
      let buf := buf + (__mqtt_pack_str topic).1
      let out := put out buf [0]
      let buf := buf + 1
      (toInt16 buf, out)

/-! ## Sizes of the requests, as the spec words them -/

/-- The spec's remaining length of a connect request: the variable header (10), the
client id, the will topic and the will message, each with its 2-byte length, and
the user name and the password when present. -/
def connect_remaining_length (client_id will_topic : List Nat) (will_message_size : Nat)
    (user_name password : Option (List Nat)) : Nat :=
  10 + (client_id.length + 2) + (will_topic.length + 2) + (2 + will_message_size)
    + (match user_name with
       | some u => u.length + 2
       | none => 0)
    + (match password with
       | some p => p.length + 2
       | none => 0)

/-- Total encoded size of a packet of remaining length `n`: the first byte, the
remaining-length field and `n` bytes. -/
def packet_size (n : Nat) : Nat := 1 + remaining_length_size n + n

/-! ## Message queue -/

/-- Modelled from the spec: `struct mqtt_message_queue` of `mqtt.h`.  `mem` is the
content of the region, `mem_end` and `curr` are offsets from `mem_start`.  The
descriptors, which the source keeps at the end of the region between `queue_tail` and
`mem_end`, are read from the list `queue`: `queue[i]` is `*mqtt_mq_get(mq, i)` and the
last element is `*queue_tail`.  `mqtt_mq_register` stores the bytes of the new
descriptor in `mem`; the assignments to single fields of a queued descriptor and the
move of the descriptors in `mqtt_mq_clean`, which stay between `queue_tail` and
`mem_end`, are followed in `queue` only. -/
structure mqtt_message_queue where
  mem : List Nat
  mem_end : Int
  curr : Int
  curr_sz : Nat
  queue : List mqtt_queued_message
  deriving DecidableEq, Repr

/-- Offset of `mq->queue_tail` from `mem_start`: the descriptors lie between it and
`mem_end`. -/
def mqtt_message_queue.queue_tail (K : Consts) (mq : mqtt_message_queue) : Int :=
  mq.mem_end - (K.sizeof_queued_message : Int) * (mq.queue.length : Int)

/-- Modelled from the spec: the macro `mqtt_mq_length` of `mqtt.h`, the number of
descriptors between `queue_tail` and `mem_end`. -/
def mqtt_mq_length (mq : mqtt_message_queue) : Nat := mq.queue.length

/-- `mqtt_mq_init` (for `buf != NULL`). -/
def mqtt_mq_init (K : Consts) (buf : List Nat) (bufsz : Nat) : mqtt_message_queue :=
  { mem := buf, mem_end := bufsz, curr := 0, queue := [],
    curr_sz := K.mqtt_mq_currsz bufsz 0 bufsz }

/-- `mqtt_mq_register`.  `stale` is the content of the descriptor slot before the
call: the source leaves `control_type`, `packet_id` and `time_sent` as they are.
The new descriptor is the last element of `queue`, and its bytes are stored in the
region at the new `queue_tail`, over whatever the region holds there. -/
def mqtt_mq_register (K : Consts) (mq : mqtt_message_queue) (nbytes : Nat)
    (stale : mqtt_queued_message) : mqtt_message_queue :=
  let msg : mqtt_queued_message :=
    { stale with start := mq.curr, size := nbytes,
                 state := MQTTQueuedMessageState.MQTT_QUEUED_UNSENT }
  let queue := mq.queue ++ [msg]
  let queue_tail : Int := mq.mem_end - (K.sizeof_queued_message : Int) * (queue.length : Int)
  let curr := mq.curr + nbytes
  { mq with mem := writeAtOffset mq.mem queue_tail (K.descriptor_bytes msg),
            queue := queue, curr := curr,
            curr_sz := K.mqtt_mq_currsz mq.mem_end curr queue_tail }

/-- The first loop of `mqtt_mq_clean`: the index of `new_head`, counted from
`mqtt_mq_get(mq, 0)`; it is the length of the queue when the loop runs past
`queue_tail`. -/
def mqtt_mq_clean_scan : List mqtt_queued_message → Nat
  | [] => 0
  | msg :: rest =>
    if msg.state ≠ MQTTQueuedMessageState.MQTT_QUEUED_COMPLETE then 0
    else mqtt_mq_clean_scan rest + 1

/-- The bytes of `mem` after `memmove(mem + dst, mem + src, n)`. -/
def memmove (mem : List Nat) (dst src n : Nat) : List Nat :=
  writeAt mem dst ((mem.drop src).take n)

/-- `mqtt_mq_clean`. -/
def mqtt_mq_clean (K : Consts) (mq : mqtt_message_queue) : mqtt_message_queue :=
  let new_head := mqtt_mq_clean_scan mq.queue
  if mq.queue.length ≤ new_head then
    { mq with curr := 0, queue := [],
              curr_sz := K.mqtt_mq_currsz mq.mem_end 0 mq.mem_end }
  else if new_head = 0 then mq
  else
    let start := (mq.queue.getD new_head
      ⟨0, 0, MQTTQueuedMessageState.MQTT_QUEUED_UNSENT, 0, 0, 0⟩).start
    let n := toUInt16 (mq.curr - start)
    let removing := toUInt16 start
    let mem := memmove mq.mem 0 start.toNat n
    let curr : Int := n
    let queue := (mq.queue.drop new_head).map (fun msg => { msg with start := msg.start - removing })
    { mq with mem := mem, curr := curr, queue := queue,
              curr_sz := K.mqtt_mq_currsz mq.mem_end curr
                (mq.mem_end - (K.sizeof_queued_message : Int) * (queue.length : Int)) }

/-- The assignment `mqtt_mq_get(mq, i)->state = state` of the engine. -/
def mqtt_mq_set_state (mq : mqtt_message_queue) (i : Nat) (state : MQTTQueuedMessageState) :
    mqtt_message_queue :=
  { mq with queue := mq.queue.modify (fun msg => { msg with state := state }) i }

/-! ## Well-formed queues and runs of queue operations -/

/-- The messages of the descriptors lie one after the other: the first one starts at
offset `a`, each one starts where the previous one ends, and the last one ends at
offset `b`. -/
def mq_chain : List mqtt_queued_message → Int → Int → Prop
  | [], a, b => a = b
  | msg :: rest, a, b => msg.start = a ∧ mq_chain rest (a + msg.size) b

/-- Decision procedure for `mq_chain`. -/
instance mq_chain_decidable : ∀ (l : List mqtt_queued_message) (a b : Int),
    Decidable (mq_chain l a b)
  | [], a, b => inferInstanceAs (Decidable (a = b))
  | msg :: rest, a, b =>
    @instDecidableAnd _ _ _ (mq_chain_decidable rest (a + msg.size) b)

/-- A well-formed queue: the region is that of a `uint16_t` capacity, the messages
fill the data area from `mem_start` to `curr`, the data front does not pass the
descriptor front, and `curr_sz` is the value of `mqtt_mq_currsz`. -/
structure mq_well_formed (K : Consts) (mq : mqtt_message_queue) : Prop where
  mem_end_nonneg : 0 ≤ mq.mem_end
  mem_end_lt : mq.mem_end < 65536
  chain : mq_chain mq.queue 0 mq.curr
  no_overlap : mq.curr ≤ mq.queue_tail K
  curr_sz_eq : mq.curr_sz = K.mqtt_mq_currsz mq.mem_end mq.curr (mq.queue_tail K)

/-- One operation on the queue: a call of `mqtt_mq_register`, a call of
`mqtt_mq_clean`, or the engine changing the state of the descriptor of index `i`. -/
inductive mq_op
  | register (nbytes : Nat) (stale : mqtt_queued_message)
  | clean
  | set_state (i : Nat) (state : MQTTQueuedMessageState)

/-- Effect of one operation. -/
def mq_step (K : Consts) (mq : mqtt_message_queue) : mq_op → mqtt_message_queue
  | .register nbytes stale => mqtt_mq_register K mq nbytes stale
  | .clean => mqtt_mq_clean K mq
  | .set_state i state => mqtt_mq_set_state mq i state

/-- Effect of a sequence of operations. -/
def mq_run (K : Consts) : mqtt_message_queue → List mq_op → mqtt_message_queue
  | mq, [] => mq
  | mq, op :: ops => mq_run K (mq_step K mq op) ops

/-- Every `mqtt_mq_register` of the sequence is called with a byte length no larger
than `curr_sz` at that moment. -/
def mq_ops_within_curr_sz (K : Consts) : mqtt_message_queue → List mq_op → Prop
  | _, [] => True
  | mq, op :: ops =>
    (match op with
      | .register nbytes _ => nbytes ≤ mq.curr_sz
      | _ => True) ∧ mq_ops_within_curr_sz K (mq_step K mq op) ops

/-- Every `mqtt_mq_register` of the sequence is called with a byte length that leaves
room for the bytes and for the new descriptor below the descriptor front. -/
def mq_ops_leave_room (K : Consts) : mqtt_message_queue → List mq_op → Prop
  | _, [] => True
  | mq, op :: ops =>
    (match op with
      | .register nbytes _ =>
        mq.curr + (nbytes : Int) + (K.sizeof_queued_message : Int) ≤ mq.queue_tail K
      | _ => True) ∧ mq_ops_leave_room K (mq_step K mq op) ops

/-- A descriptor whose fields are all zero, used as the former content of a
descriptor slot when the model is evaluated. -/
def sampleMessage : mqtt_queued_message :=
  ⟨0, 0, MQTTQueuedMessageState.MQTT_QUEUED_UNSENT, 0, 0, 0⟩

/-- The queue of the compaction scenario: on a fresh queue three messages of 10, 20
and 5 bytes are registered (`s1`, `s2`, `s3` are the former contents of the three
descriptor slots) and the second one is marked `Complete`. -/
def scenario_queue (K : Consts) (buf : List Nat) (bufsz : Nat)
    (s1 s2 s3 : mqtt_queued_message) : mqtt_message_queue :=
  mqtt_mq_set_state
    (mqtt_mq_register K
      (mqtt_mq_register K (mqtt_mq_register K (mqtt_mq_init K buf bufsz) 10 s1) 20 s2) 5 s3)
    1 MQTTQueuedMessageState.MQTT_QUEUED_COMPLETE

/-- Modelled from the spec: the macro `mqtt_mq_currsz` of `mqtt.h` is absent; the spec
says "Available-space query: capacity minus (data front offset) minus (space consumed
by existing descriptors)".  The arguments are the offsets of `mem_end`, `curr` and
`queue_tail` from `mem_start`: the capacity is `mem_end` and the descriptors take the
bytes from `queue_tail` to `mem_end`.  The result is an unsigned size, 0 when the
difference is negative. -/
def mqtt_mq_currsz_spec (mem_end curr queue_tail : Int) : Nat :=
  (mem_end - curr - (mem_end - queue_tail)).toNat

/-- The available space of a queue as the spec words it: capacity minus the data-front
offset minus the bytes occupied by the existing descriptors. -/
def available_space (K : Consts) (mq : mqtt_message_queue) : Nat :=
  (mq.mem_end - mq.curr - (K.sizeof_queued_message : Int) * (mqtt_mq_length mq : Int)).toNat

/-- A queue with a completed message in front of a pending one: on a fresh queue over
the 40 bytes `0, 1, ..., 39` a message of 3 bytes and a message of 2 bytes are
registered, and the first one is marked `Complete`. -/
def pending_queue (K : Consts) : mqtt_message_queue :=
  mqtt_mq_set_state
    (mqtt_mq_register K
      (mqtt_mq_register K (mqtt_mq_init K (List.range 40) 40) 3 sampleMessage) 2 sampleMessage)
    0 MQTTQueuedMessageState.MQTT_QUEUED_COMPLETE

/-- The capacity contract of a pack function for a packet of `total` bytes: the result
is 0 exactly when the capacity is smaller than `total`, otherwise it is `total`; hence
it is never negative and never exceeds the capacity. -/
def pack_contract (rv : Int) (bufsz total : Nat) : Prop :=
  (rv = 0 ↔ bufsz < total) ∧ (¬ bufsz < total → rv = (total : Int)) ∧ 0 ≤ rv ∧ rv ≤ (bufsz : Int)

/-! ## Unpacking responses -/

/-- `mqtt_unpack_connack_response`; `pos` is the offset of the body in `buf`. -/
def mqtt_unpack_connack_response (K : Consts) (response : mqtt_response) (buf : List Nat)
    (pos : Nat) : Int × mqtt_response :=
  if response.fixed_header.remaining_length ≠ 2 then
    (K.code .MQTT_ERROR_MALFORMED_RESPONSE, response)
  else if buf.getD pos 0 &&& 0xFE ≠ 0 then
    (K.code .MQTT_ERROR_CONNACK_FORBIDDEN_FLAGS, response)
  else
    let response :=
      { response with
        connack := { response.connack with session_present_flag := buf.getD pos 0 } }
    if buf.getD (pos + 1) 0 > 5 then
      (K.code .MQTT_ERROR_CONNACK_FORBIDDEN_CODE, response)
    else
      (2, { response with
            connack := { response.connack with return_code := buf.getD (pos + 1) 0 } })

/-- `mqtt_unpack_publish_response`; `pos` is the offset of the body in `buf`. -/
def mqtt_unpack_publish_response (K : Consts) (response : mqtt_response) (buf : List Nat)
    (pos : Nat) : Int × mqtt_response :=
  let fixed_header := response.fixed_header
  let publish : mqtt_response_publish :=
    { response.publish with
      dup_flag := ((fixed_header.control_flags &&& MQTT_PUBLISH_DUP) >>> 3) % 256,
      qos_level := ((fixed_header.control_flags &&& MQTT_PUBLISH_QOS_MASK) >>> 1) % 256,
      retain_flag := (fixed_header.control_flags &&& MQTT_PUBLISH_RETAIN) % 256 }
  if fixed_header.remaining_length < 4 then
    (K.code .MQTT_ERROR_MALFORMED_RESPONSE, { response with publish := publish })
  else
    let topic_name_size := __mqtt_unpack_uint16 buf pos
    let application_message_size :=
      toUInt16 ((fixed_header.remaining_length : Int) - topic_name_size - 2)
    let publish :=
      { publish with
        topic_name_size := topic_name_size,
        topic_name := pos + 2,
        application_message := pos + 2 + topic_name_size,
        application_message_size := application_message_size }
    (toInt16 ((2 : Int) + topic_name_size + application_message_size),
      { response with publish := publish })

/-- `mqtt_unpack_suback_response`; `pos` is the offset of the body in `buf`. -/
def mqtt_unpack_suback_response (K : Consts) (response : mqtt_response) (buf : List Nat)
    (pos : Nat) : Int × mqtt_response :=
  let remaining_length := response.fixed_header.remaining_length
  if remaining_length < 3 then (K.code .MQTT_ERROR_MALFORMED_RESPONSE, response)
  else
    let packet_id := __mqtt_unpack_uint16 buf pos
    let remaining_length := remaining_length - 2
    (toInt16 ((2 : Int) + remaining_length),
      { response with
        suback := { packet_id := packet_id, return_codes := pos + 2,
                    num_return_codes := remaining_length % 65536 } })

/-- `mqtt_unpack_response`. -/
def mqtt_unpack_response (K : Consts) (response : mqtt_response) (buf : List Nat)
    (bufsz : Nat) : Int × mqtt_response :=
  let (rv, response) := mqtt_unpack_fixed_header K response buf bufsz
  if rv ≤ 0 then (rv, response)
  else
    let pos := rv.toNat
    let control_type := response.fixed_header.control_type
    if control_type = MQTT_CONTROL_PINGRESP then (rv, response)
    else if control_type = MQTT_CONTROL_CONNACK ∨ control_type = MQTT_CONTROL_PUBLISH
        ∨ control_type = MQTT_CONTROL_SUBACK then
      let (rv', response) :=
        if control_type = MQTT_CONTROL_CONNACK then
          mqtt_unpack_connack_response K response buf pos
        else if control_type = MQTT_CONTROL_PUBLISH then
          mqtt_unpack_publish_response K response buf pos
        else mqtt_unpack_suback_response K response buf pos
      if rv' < 0 then (rv', response)
      else (toInt16 (rv + rv'), response)
    else (K.code .MQTT_ERROR_RESPONSE_INVALID_CONTROL_TYPE, response)

/-! ## Client -/

/-- Modelled from the spec: the receive buffer of `struct mqtt_client` (`mqtt.h`):
"a separate fixed-size receive buffer with its own write cursor/remaining-capacity
counters".  `mem` is the content from `mem_start` on, `curr` an offset from
`mem_start`. -/
structure mqtt_recv_buffer where
  mem : List Nat
  mem_size : Nat
  curr : Int
  curr_sz : Int
  deriving DecidableEq, Repr

/-- Modelled from the spec: `struct mqtt_client` of `mqtt.h`, with the fields that
`mqtt.c` uses.  The widths of `error`, `response_timeout`, `number_of_timeouts`,
`send_offset`, `time_of_last_send` and of the descriptor field `time_sent` are fixed
by the absent header; the model does not reduce them.  The publish callback is not
a field: the calls made to it are listed in the result of `__mqtt_recv`. -/
structure mqtt_client where
  mq : mqtt_message_queue
  recv_buffer : mqtt_recv_buffer
  error : Int
  response_timeout : Int
  number_of_timeouts : Int
  send_offset : Int
  keep_alive : Nat
  time_of_last_send : Nat
  pid_lfsr : Nat
  deriving DecidableEq, Repr

/-- `mqtt_mq_find`: the index `i` of the descriptor `mqtt_mq_get(mq, i)` that the
scan returns, `none` for `NULL`.  `packet_id` is `none` for a `NULL` pointer. -/
def mqtt_mq_find_from (control_type : Nat) (packet_id : Option Nat) :
    List mqtt_queued_message → Nat → Option Nat
  | [], _ => none
  | curr :: rest, i =>
    if curr.control_type = control_type ∧
        ((packet_id = none ∧ curr.state ≠ MQTTQueuedMessageState.MQTT_QUEUED_COMPLETE) ∨
         (packet_id ≠ none ∧ packet_id = some curr.packet_id)) then some i
    else mqtt_mq_find_from control_type packet_id rest (i + 1)

/-- A descriptor that `mqtt_mq_find` looks for, as the spec words it: "same control
type, and either the given packet id or, when no id is given, a state other than
Complete". -/
def mq_matches (control_type : Nat) (packet_id : Option Nat) (msg : mqtt_queued_message) :
    Prop :=
  msg.control_type = control_type ∧
    match packet_id with
    | some p => msg.packet_id = p
    | none => msg.state ≠ MQTTQueuedMessageState.MQTT_QUEUED_COMPLETE

instance (control_type : Nat) (packet_id : Option Nat) (msg : mqtt_queued_message) :
    Decidable (mq_matches control_type packet_id msg) := by
  unfold mq_matches
  cases packet_id <;> exact inferInstance

/-- `mqtt_mq_find`, scanning from `mqtt_mq_get(mq, 0)` down to `queue_tail`. -/
def mqtt_mq_find (mq : mqtt_message_queue) (control_type : Nat) (packet_id : Option Nat) :
    Option Nat :=
  mqtt_mq_find_from control_type packet_id mq.queue 0

/-- The `do ... while` loop of `__mqtt_next_pid` on the `uint16_t` field `pid_lfsr`: one
step of the shift register, then the scan of the queue for a descriptor that holds the
value.  `fuel` bounds the number of iterations (the source repeats until a value is
free); the result is `none` when the fuel runs out. -/
def __mqtt_next_pid_loop (queue : List mqtt_queued_message) : Nat → Nat → Option Nat
  | 0, _ => none
  | fuel + 1, pid_lfsr =>
    let lsb := pid_lfsr &&& 1
    let pid_lfsr := pid_lfsr >>> 1
    let pid_lfsr := if lsb ≠ 0 then (pid_lfsr ^^^ 0xB400) % 65536 else pid_lfsr
    let pid_exists := queue.any (fun curr => decide (curr.packet_id = pid_lfsr))
    if pid_exists then __mqtt_next_pid_loop queue fuel pid_lfsr else some pid_lfsr

/-- `__mqtt_next_pid`: the value returned and the client afterwards, `none` when the
loop has not ended within `fuel` iterations. -/
def __mqtt_next_pid (fuel : Nat) (client : mqtt_client) : Option (Nat × mqtt_client) :=
  let client := if client.pid_lfsr = 0 then { client with pid_lfsr := 163 } else client
  match __mqtt_next_pid_loop client.mq.queue fuel client.pid_lfsr with
  | some pid_lfsr => some (pid_lfsr, { client with pid_lfsr := pid_lfsr })
  | none => none

/-- The step of the identifier generator as the spec words it: "a linear-feedback shift
register (taps corresponding to polynomial mask `0xB400`)", that is
`x -> (x >> 1) XOR (0xB400 if x is odd, else 0)`. -/
def lfsr_step (x : Nat) : Nat := (x >>> 1) ^^^ (if x % 2 = 1 then 0xB400 else 0)

/-- The seed of the identifier generator as the spec words it: "seeded to `163` the
first time it would otherwise be zero". -/
def lfsr_seed (pid_lfsr : Nat) : Nat := if pid_lfsr = 0 then 163 else pid_lfsr

/-- The macro `MQTT_CLIENT_TRY_PACK`.  `pack_call` is the pack call as a function of
the capacity `client->mq.curr_sz`; the bytes it writes are stored at
`client->mq.curr`.  The first component of the result is the value of the `return`
that the macro executes, `none` when it runs to its end; the message is then
registered and its descriptor is the last element of the queue. -/
def MQTT_CLIENT_TRY_PACK (K : Consts) (client : mqtt_client)
    (pack_call : Nat → Int × List Nat) (stale : mqtt_queued_message) :
    Option Int × mqtt_client :=
  if client.error < 0 then (some client.error, client)
  else
    let (tmp, out) := pack_call client.mq.curr_sz
    let client :=
      { client with mq := { client.mq with mem := writeAt client.mq.mem client.mq.curr.toNat out } }
    if tmp < 0 then (some tmp, { client with error := tmp })
    else if tmp = 0 then
      let client := { client with mq := mqtt_mq_clean K client.mq }
      let (tmp, out) := pack_call client.mq.curr_sz
      let client :=
        { client with
          mq := { client.mq with mem := writeAt client.mq.mem client.mq.curr.toNat out } }
      if tmp < 0 then (some tmp, { client with error := tmp })
      else if tmp = 0 then
        (some (K.code .MQTT_ERROR_SEND_BUFFER_IS_FULL),
          { client with error := K.code .MQTT_ERROR_SEND_BUFFER_IS_FULL })
      else (none, { client with mq := mqtt_mq_register K client.mq (toUInt16 tmp) stale })
    else (none, { client with mq := mqtt_mq_register K client.mq (toUInt16 tmp) stale })

/-- The assignment `msg->control_type = control_type` on the descriptor that
`mqtt_mq_register` has returned, the last one of the queue. -/
def set_last_control_type (mq : mqtt_message_queue) (control_type : Nat) : mqtt_message_queue :=
  let last := mq.queue.length - 1
  { mq with queue := mq.queue.modify (fun msg => { msg with control_type := control_type }) last }

/-- `__mqtt_ping`: the result and the client afterwards. -/
def __mqtt_ping (K : Consts) (client : mqtt_client) (stale : mqtt_queued_message) :
    Int × mqtt_client :=
  match MQTT_CLIENT_TRY_PACK K client (fun bufsz => mqtt_pack_ping_request K bufsz) stale with
  | (some rv, client) => (rv, client)
  | (none, client) =>
    (K.MQTT_OK, { client with mq := set_last_control_type client.mq MQTT_CONTROL_PINGREQ })

/-- One call of `mqtt_pal_sendall(buf, len)`: `start` is the offset of `buf` from the
start of the queue region. -/
structure pal_call where
  start : Int
  len : Int
  deriving DecidableEq, Repr

/-- The `for` loop of `__mqtt_send` over the descriptors that are left, the first of
which is `mqtt_mq_get(&client->mq, i)`.  `second_counter` is the time, `pal k` the
result of the call number `k` of `mqtt_pal_sendall` in this `__mqtt_send`.  The
result holds the value of a `return` inside the loop (`none` when the loop ends or
leaves through `break`), the descriptors as the loop leaves them, the client, and
the calls of `mqtt_pal_sendall` in order. -/
def __mqtt_send_loop (K : Consts) (second_counter : Nat) (pal : Nat → Int) :
    List mqtt_queued_message → Nat → mqtt_client →
      Option Int × List mqtt_queued_message × mqtt_client × List pal_call
  | [], _, client => (none, [], client, [])
  | msg :: rest, k, client =>
    let (resend, client) :=
      if msg.state = MQTTQueuedMessageState.MQTT_QUEUED_UNSENT then (true, client)
      else if msg.state = MQTTQueuedMessageState.MQTT_QUEUED_AWAITING_ACK then
        if (second_counter : Int) > (msg.time_sent : Int) + client.response_timeout then
          (true, { client with number_of_timeouts := client.number_of_timeouts + 1,
                               send_offset := 0 })
        else (false, client)
      else (false, client)
    if resend = false then
      let (r, rest, client, calls) := __mqtt_send_loop K second_counter pal rest k client
      (r, msg :: rest, client, calls)
    else
      let call : pal_call :=
        { start := msg.start + client.send_offset, len := (msg.size : Int) - client.send_offset }
      let tmp := pal k
      if tmp < 0 then (some tmp, msg :: rest, { client with error := tmp }, [call])
      else
        let client := { client with send_offset := client.send_offset + tmp }
        if client.send_offset < (msg.size : Int) then (none, msg :: rest, client, [call])
        else
          let client := { client with send_offset := 0 }
          let client := { client with time_of_last_send := second_counter }
          let msg := { msg with time_sent := client.time_of_last_send }
          if msg.control_type = MQTT_CONTROL_DISCONNECT ∨ msg.control_type = MQTT_CONTROL_PUBLISH
          then
            let msg := { msg with state := MQTTQueuedMessageState.MQTT_QUEUED_COMPLETE }
            let (r, rest, client, calls) :=
              __mqtt_send_loop K second_counter pal rest (k + 1) client
            (r, msg :: rest, client, call :: calls)
          else if msg.control_type = MQTT_CONTROL_CONNECT
              ∨ msg.control_type = MQTT_CONTROL_SUBSCRIBE
              ∨ msg.control_type = MQTT_CONTROL_PINGREQ then
            let msg := { msg with state := MQTTQueuedMessageState.MQTT_QUEUED_AWAITING_ACK }
            let (r, rest, client, calls) :=
              __mqtt_send_loop K second_counter pal rest (k + 1) client
            (r, msg :: rest, client, call :: calls)
          else
            (some (K.code .MQTT_ERROR_MALFORMED_REQUEST), msg :: rest,
              { client with error := K.code .MQTT_ERROR_MALFORMED_REQUEST }, [call])

/-- Result of `__mqtt_send`: the value returned, the client afterwards and the calls
of `mqtt_pal_sendall`, in order. -/
structure send_result where
  rv : Int
  client : mqtt_client
  calls : List pal_call
  deriving DecidableEq, Repr

/-- `__mqtt_send`.  `second_counter` and `mqtt_start` are the globals of these names,
`pal` gives the results of the successive calls of `mqtt_pal_sendall`, `stale` is the
former content of the descriptor slot that a keep-alive ping would take. -/
def __mqtt_send (K : Consts) (second_counter mqtt_start : Nat) (pal : Nat → Int)
    (stale : mqtt_queued_message) (client : mqtt_client) : send_result :=
  if client.error < 0 ∧ client.error ≠ K.code .MQTT_ERROR_SEND_BUFFER_IS_FULL then
    { rv := client.error, client := client, calls := [] }
  else
    let (r, queue, client, calls) :=
      __mqtt_send_loop K second_counter pal client.mq.queue 0 client
    let client := { client with mq := { client.mq with queue := queue } }
    match r with
    | some rv => { rv := rv, client := client, calls := calls }
    | none =>
      let keep_alive_timeout :=
        (client.time_of_last_send
          + ((client.keep_alive * 3) % 2 ^ K.int_bits / 4) % 2 ^ 32) % 2 ^ 32
      if second_counter > keep_alive_timeout ∧ mqtt_start = K.MQTT_START_COMPLETE then
        let (rv, client) := __mqtt_ping K client stale
        if rv ≠ K.MQTT_OK then { rv := rv, client := { client with error := rv }, calls := calls }
        else { rv := K.MQTT_OK, client := client, calls := calls }
      else { rv := K.MQTT_OK, client := client, calls := calls }

/-- Result of `__mqtt_recv`: the value returned, the client afterwards, whether the
globals `connack_received` and `suback_received` were set to 1, and the decoded
publications handed to `publish_response_callback`, in order. -/
structure recv_result where
  rv : Int
  client : mqtt_client
  connack_received : Bool
  suback_received : Bool
  published : List mqtt_response_publish
  deriving DecidableEq, Repr

/-- The `switch` of `__mqtt_recv` on the control type of the decoded response. -/
def __mqtt_recv_switch (K : Consts) (response : mqtt_response) (client : mqtt_client) :
    recv_result :=
  let control_type := response.fixed_header.control_type
  if control_type = MQTT_CONTROL_CONNACK then
    match mqtt_mq_find client.mq MQTT_CONTROL_CONNECT none with
    | none =>
      { rv := K.code .MQTT_ERROR_ACK_OF_UNKNOWN,
        client := { client with error := K.code .MQTT_ERROR_ACK_OF_UNKNOWN },
        connack_received := true, suback_received := false, published := [] }
    | some msg =>
      let client :=
        { client with
          mq := mqtt_mq_set_state client.mq msg MQTTQueuedMessageState.MQTT_QUEUED_COMPLETE }
      if response.connack.return_code ≠ MQTT_CONNACK_ACCEPTED then
        if response.connack.return_code = MQTT_CONNACK_REFUSED_IDENTIFIER_REJECTED then
          { rv := K.code .MQTT_ERROR_CONNECT_CLIENT_ID_REFUSED,
            client := { client with error := K.code .MQTT_ERROR_CONNECT_CLIENT_ID_REFUSED },
            connack_received := true, suback_received := false, published := [] }
        else
          { rv := K.code .MQTT_ERROR_CONNECTION_REFUSED,
            client := { client with error := K.code .MQTT_ERROR_CONNECTION_REFUSED },
            connack_received := true, suback_received := false, published := [] }
      else
        { rv := K.MQTT_OK, client := client, connack_received := true,
          suback_received := false, published := [] }
  else if control_type = MQTT_CONTROL_PUBLISH then
    { rv := K.MQTT_OK, client := client, connack_received := false, suback_received := false,
      published := [response.publish] }
  else if control_type = MQTT_CONTROL_SUBACK then
    match mqtt_mq_find client.mq MQTT_CONTROL_SUBSCRIBE (some response.suback.packet_id) with
    | none =>
      { rv := K.code .MQTT_ERROR_ACK_OF_UNKNOWN,
        client := { client with error := K.code .MQTT_ERROR_ACK_OF_UNKNOWN },
        connack_received := false, suback_received := true, published := [] }
    | some msg =>
      let client :=
        { client with
          mq := mqtt_mq_set_state client.mq msg MQTTQueuedMessageState.MQTT_QUEUED_COMPLETE }
      if client.recv_buffer.mem.getD response.suback.return_codes 0 = MQTT_SUBACK_FAILURE then
        { rv := K.code .MQTT_ERROR_SUBSCRIBE_FAILED,
          client := { client with error := K.code .MQTT_ERROR_SUBSCRIBE_FAILED },
          connack_received := false, suback_received := true, published := [] }
      else
        { rv := K.MQTT_OK, client := client, connack_received := false,
          suback_received := true, published := [] }
  else if control_type = MQTT_CONTROL_PINGRESP then
    match mqtt_mq_find client.mq MQTT_CONTROL_PINGREQ none with
    | none =>
      { rv := K.code .MQTT_ERROR_ACK_OF_UNKNOWN,
        client := { client with error := K.code .MQTT_ERROR_ACK_OF_UNKNOWN },
        connack_received := false, suback_received := false, published := [] }
    | some msg =>
      { rv := K.MQTT_OK,
        client :=
          { client with
            mq := mqtt_mq_set_state client.mq msg MQTTQueuedMessageState.MQTT_QUEUED_COMPLETE },
        connack_received := false, suback_received := false, published := [] }
  else
    { rv := K.code .MQTT_ERROR_MALFORMED_RESPONSE,
      client := { client with error := K.code .MQTT_ERROR_MALFORMED_RESPONSE },
      connack_received := false, suback_received := false, published := [] }

/-- `__mqtt_recv`.  `uip_len` is the global of that name, `response` the content of
the local variable `response` before it is decoded (it is not initialised by the
source). -/
def __mqtt_recv (K : Consts) (uip_len : Nat) (response : mqtt_response)
    (client : mqtt_client) : recv_result :=
  let rv : Int := if uip_len > 0 then toInt16 uip_len else -1
  let client :=
    { client with
      recv_buffer :=
        { client.recv_buffer with curr := client.recv_buffer.curr + rv,
                                  curr_sz := client.recv_buffer.curr_sz - rv } }
  let (consumed, response) :=
    mqtt_unpack_response K response client.recv_buffer.mem (toUInt16 client.recv_buffer.curr)
  if consumed < 0 then
    { rv := consumed, client := { client with error := consumed }, connack_received := false,
      suback_received := false, published := [] }
  else
    let r := __mqtt_recv_switch K response client
    { r with
      client :=
        { r.client with
          recv_buffer :=
            { r.client.recv_buffer with curr := 0,
                                        curr_sz := r.client.recv_buffer.mem_size } } }

/-! ## Scenarios of the client engine, as the spec words them -/

/-- The descriptor of index `i` is a queued CONNECT that is not yet `Complete`. -/
def pending_connect (queue : List mqtt_queued_message) (i : Nat) : Prop :=
  i < queue.length ∧ (queue.getD i sampleMessage).control_type = MQTT_CONTROL_CONNECT ∧
    (queue.getD i sampleMessage).state ≠ MQTTQueuedMessageState.MQTT_QUEUED_COMPLETE

/-- Outcome of `__mqtt_recv` on a connack with return code `rc`, `r` being the result
and `client` the client before the call: the first pending CONNECT descriptor (in
the order of `mqtt_mq_get`) is marked `Complete` and nothing else changes in the
queue; return code 0 gives `MQTT_OK` and leaves `client->error` as it was, return
code 2 returns and latches `MQTT_ERROR_CONNECT_CLIENT_ID_REFUSED`, return codes 1, 3,
4 and 5 return and latch `MQTT_ERROR_CONNECTION_REFUSED`. -/
def connack_outcome (K : Consts) (client : mqtt_client) (rc : Nat) (r : recv_result) : Prop :=
  ∃ i, pending_connect client.mq.queue i ∧ (∀ j, j < i → ¬ pending_connect client.mq.queue j) ∧
    r.client.mq = mqtt_mq_set_state client.mq i MQTTQueuedMessageState.MQTT_QUEUED_COMPLETE ∧
    (r.client.mq.queue.getD i sampleMessage).state
      = MQTTQueuedMessageState.MQTT_QUEUED_COMPLETE ∧
    (rc = 0 → r.rv = K.MQTT_OK ∧ r.client.error = client.error) ∧
    (rc = 2 → r.rv = K.code .MQTT_ERROR_CONNECT_CLIENT_ID_REFUSED ∧
      r.client.error = K.code .MQTT_ERROR_CONNECT_CLIENT_ID_REFUSED) ∧
    (rc = 1 ∨ rc = 3 ∨ rc = 4 ∨ rc = 5 →
      r.rv = K.code .MQTT_ERROR_CONNECTION_REFUSED ∧
      r.client.error = K.code .MQTT_ERROR_CONNECTION_REFUSED)

/-- A client for the scenarios: a 140-byte send buffer that holds a CONNECT of 20
bytes, sent at time 5 and awaiting its acknowledgement, and a receive buffer with the
content `recv`. -/
def sampleClient (recv : List Nat) : mqtt_client :=
  { mq := { mem := List.replicate 140 0, mem_end := 140, curr := 20, curr_sz := 108,
            queue := [⟨0, 20, MQTTQueuedMessageState.MQTT_QUEUED_AWAITING_ACK, 5,
                        MQTT_CONTROL_CONNECT, 0⟩] },
    recv_buffer := { mem := recv, mem_size := 60, curr := 0, curr_sz := 60 },
    error := 1, response_timeout := 30, number_of_timeouts := 0, send_offset := 0,
    keep_alive := 60, time_of_last_send := 5, pid_lfsr := 0 }

/-- The descriptor `msg` is not due for a (re)send at time `second_counter`: it is
`Complete`, or it awaits its acknowledgement and has not timed out. -/
def not_due (second_counter : Nat) (response_timeout : Int) (msg : mqtt_queued_message) :
    Prop :=
  msg.state = MQTTQueuedMessageState.MQTT_QUEUED_COMPLETE ∨
  (msg.state = MQTTQueuedMessageState.MQTT_QUEUED_AWAITING_ACK ∧
    ¬ ((second_counter : Int) > (msg.time_sent : Int) + response_timeout))

/-- Decision procedure for `not_due`. -/
instance not_due_decidable (second_counter : Nat) (response_timeout : Int)
    (msg : mqtt_queued_message) : Decidable (not_due second_counter response_timeout msg) := by
  unfold not_due
  infer_instance

/-- The guard at the entry of `__mqtt_send`: the client is in an error state other
than buffer-full, and nothing is sent. -/
def send_blocked (K : Consts) (client : mqtt_client) : Prop :=
  client.error < 0 ∧ client.error ≠ K.code .MQTT_ERROR_SEND_BUFFER_IS_FULL

/-- Decision procedure for `send_blocked`. -/
instance send_blocked_decidable (K : Consts) (client : mqtt_client) :
    Decidable (send_blocked K client) := by
  unfold send_blocked
  infer_instance

/-- The keep-alive test at the end of `__mqtt_send`, for a client whose last send was
at `time_of_last_send`: a ping request is due. -/
def keep_alive_due (K : Consts) (second_counter mqtt_start time_of_last_send keep_alive : Nat) :
    Prop :=
  second_counter
      > (time_of_last_send + ((keep_alive * 3) % 2 ^ K.int_bits / 4) % 2 ^ 32) % 2 ^ 32 ∧
    mqtt_start = K.MQTT_START_COMPLETE

/-- Decision procedure for `keep_alive_due`. -/
instance keep_alive_due_decidable (K : Consts)
    (second_counter mqtt_start time_of_last_send keep_alive : Nat) :
    Decidable (keep_alive_due K second_counter mqtt_start time_of_last_send keep_alive) := by
  unfold keep_alive_due
  infer_instance

/-- A client for the send scenarios: the queue holds a CONNECT of 20 bytes sent at
time 5, still awaiting its acknowledgement, and `msg`, a message of 10 bytes behind
it. -/
def sampleSendClient (msg : mqtt_queued_message) : mqtt_client :=
  { mq := { mem := List.replicate 140 0, mem_end := 140, curr := 30, curr_sz := 86,
            queue := [⟨0, 20, MQTTQueuedMessageState.MQTT_QUEUED_AWAITING_ACK, 5,
                        MQTT_CONTROL_CONNECT, 0⟩, msg] },
    recv_buffer := { mem := [], mem_size := 60, curr := 0, curr_sz := 60 },
    error := 1, response_timeout := 30, number_of_timeouts := 0, send_offset := 0,
    keep_alive := 60, time_of_last_send := 5, pid_lfsr := 0 }

/-- An Unsent PUBLISH of 10 bytes at offset 20. -/
def samplePublish : mqtt_queued_message :=
  ⟨20, 10, MQTTQueuedMessageState.MQTT_QUEUED_UNSENT, 0, MQTT_CONTROL_PUBLISH, 7⟩

/-- A SUBSCRIBE of 10 bytes at offset 20, sent at time 2 and awaiting its
acknowledgement. -/
def sampleSubscribe : mqtt_queued_message :=
  ⟨20, 10, MQTTQueuedMessageState.MQTT_QUEUED_AWAITING_ACK, 2, MQTT_CONTROL_SUBSCRIBE, 7⟩

/-- A client for the suback scenarios: the queue of `sampleSendClient sampleSubscribe`
(a SUBSCRIBE with packet id 7 that awaits its acknowledgement, behind a CONNECT) and a
receive buffer with the content `recv`. -/
def sampleSubackClient (recv : List Nat) : mqtt_client :=
  { sampleSendClient sampleSubscribe with
    recv_buffer := { mem := recv, mem_size := 60, curr := 0, curr_sz := 60 } }

/-- The steps of the state machine that the spec allows to a queued descriptor in one
send phase, `a` being the descriptor before and `b` the same descriptor after: the
message and its identity stay, "no transition leaves `Complete`", only a PUBLISH or a
DISCONNECT goes to `Complete` (the "types with no acknowledgement expected"), and nothing
goes back to `Unsent`. -/
def send_step (a b : mqtt_queued_message) : Prop :=
  b.start = a.start ∧ b.size = a.size ∧ b.control_type = a.control_type ∧
  b.packet_id = a.packet_id ∧
  (a.state = MQTTQueuedMessageState.MQTT_QUEUED_COMPLETE → b = a) ∧
  (b.state = MQTTQueuedMessageState.MQTT_QUEUED_COMPLETE →
    a.state = MQTTQueuedMessageState.MQTT_QUEUED_COMPLETE ∨
    a.control_type = MQTT_CONTROL_DISCONNECT ∨ a.control_type = MQTT_CONTROL_PUBLISH) ∧
  (b.state = MQTTQueuedMessageState.MQTT_QUEUED_UNSENT →
    a.state = MQTTQueuedMessageState.MQTT_QUEUED_UNSENT)

/-- A client whose queue holds one CONNECT of 20 bytes that has not been sent yet, and a
receive buffer with the content `recv`. -/
def sampleUnsentClient (recv : List Nat) : mqtt_client :=
  { sampleClient recv with
    mq := { (sampleClient recv).mq with
            queue := [⟨0, 20, MQTTQueuedMessageState.MQTT_QUEUED_UNSENT, 0,
                        MQTT_CONTROL_CONNECT, 0⟩] } }

/-! ## Proof devices and DS18B20 -/

/-- The `n`-fold step of the shift register, written so that each value is computed
before the next step is taken; it stops at 0, which the register never reaches from a
non-zero value. -/
def lfsr_run : Nat → Nat → Nat
  | 0, x => x
  | n + 1, x =>
    match lfsr_step x with
    | 0 => 0
    | y + 1 => lfsr_run n (y + 1)

/-! ## DS18B20: the temperature string (`DS18B20.c`) -/

/-- The table `dec_temp[]`, "used for rounding the decimal part of temperatures": the
character of the decimal digit for each value of the four fraction bits. -/
def dec_temp : List Nat :=
  [48, 49, 49, 50, 51, 51, 52, 52, 53, 54, 54, 55, 56, 56, 57, 57]

/-- What `convert_temperature` puts into the string for a sensor that exists: the
character `sign_char` (`OctetArray[0]`), the value `whole_temp` that it passes to
`emb_itoa` for the digits before the point, and the character of the decimal digit
(`OctetArray[5]`). -/
structure temperature_string where
  sign_char : Nat
  whole_temp : Int
  decimal_char : Nat
  deriving DecidableEq, Repr

/-- `convert_temperature` for a sensor that exists; `scratch0` and `scratch1` are the
bytes `DS18B20_scratch[device_num][0]` and `[1]`.  `whole_temp` is an `int16_t`: after
the first three statements it holds the 16 bits `scratch1:scratch0`.  The `int32_t`
values of the Fahrenheit branch stay far below 2^31; `/` truncates towards zero and `&`
acts on the two's complement. -/
def convert_temperature (scratch0 scratch1 degCorF : Nat) : temperature_string :=
  let whole_temp : Int := toInt16 (((scratch1 % 256) * 256 + scratch0 % 256 : Nat) : Int)
  let sign_char := 32
  if degCorF % 256 = 0 then
    let (whole_temp, sign_char) :=
      if (scratch1 % 256) &&& 0x80 = 0x80 then (toInt16 (-whole_temp), 45)
      else (whole_temp, sign_char)
    let decimal_temp := (toUInt16 whole_temp &&& 0x000f) % 256
    let whole_temp : Int := (((toUInt16 whole_temp &&& 0x07f0) >>> 4 : Nat) : Int)
    { sign_char := sign_char, whole_temp := whole_temp,
      decimal_char := dec_temp.getD decimal_temp 0 }
  else
    let F_temp0 : Int := whole_temp
    let F_temp1 : Int := F_temp0
    let F_temp1 : Int := (F_temp1 + 880) * 180
    let F_temp2 : Int := Int.tdiv F_temp1 100
    let F_temp2 : Int := F_temp2 - 1072
    let whole_temp : Int := toInt16 (Int.tdiv F_temp2 16)
    let decimal_temp : Nat := (F_temp2 % 16).toNat % 256
    let (whole_temp, decimal_temp, sign_char) :=
      if F_temp2 < 0 then
        (toInt16 (whole_temp * -1), (((decimal_temp ^^^ 0xf) + 1) &&& 0x0f) % 256, 45)
      else (whole_temp, decimal_temp, sign_char)
    { sign_char := sign_char, whole_temp := whole_temp,
      decimal_char := dec_temp.getD decimal_temp 0 }

/-- The temperature that the string shows, in tenths of a degree: the sign, the whole
part and the decimal digit. -/
def shown_tenths (t : temperature_string) : Int :=
  (if t.sign_char = 45 then -1 else 1) * (10 * t.whole_temp + ((t.decimal_char : Int) - 48))

/-- The result of `convert_temperature` in Fahrenheit mode for the raw 16-bit reading
`r` of the sensor (a two's complement number of sixteenths of a degree Celsius). -/
def fahrenheit_string (r : Int) : temperature_string :=
  convert_temperature (toUInt16 r % 256) (toUInt16 r / 256) 1

/-- The exact Fahrenheit value of the raw reading `r`: `(r/16) * 9/5 + 32`. -/
def fahrenheit_exact (r : Int) : ℚ := (r : ℚ) / 16 * 9 / 5 + 32

/-- A rational number rounded to one decimal (to the nearest tenth). -/
def round_one_decimal (x : ℚ) : ℚ := (round (10 * x) : ℚ) / 10

/-- The check that the temperature shown by `t` lies within 0.1 degree of the exact
value `e / 80`: both are compared in eightieths of a degree. -/
def shown_within (t : temperature_string) (e : Int) : Bool :=
  match t with
  | ⟨s, w, d⟩ =>
    match (if s = 45 then -1 else 1) * (10 * w + ((d : Int) - 48)) with
    | v => decide (e - 8 * v ≤ 8 ∧ 8 * v - e ≤ 8)

/-- `P` holds for every number below `n`. -/
def all_below (P : Nat → Bool) : Nat → Bool
  | 0 => true
  | n + 1 => P n && all_below P n

/-! ## DS18B20: the CRC of the ROM code (`DS18B20.c`) -/

/-- One pass through the body of the inner loop of `dallas_crc8`, on the `uint8_t`
variables `crc` and `inbyte`. -/
def dallas_crc8_bit (crc inbyte : Nat) : Nat × Nat :=
  let mix := ((crc ^^^ inbyte) &&& 0x01) % 256
  let crc := crc >>> 1
  let crc := if mix ≠ 0 then (crc ^^^ 0x8C) % 256 else crc
  let inbyte := inbyte >>> 1
  (crc, inbyte)

/-- The inner loop of `dallas_crc8`, `n` being the number of passes that are left
(8 at the start). -/
def dallas_crc8_inner : Nat → Nat → Nat → Nat
  | 0, crc, _ => crc
  | n + 1, crc, inbyte =>
    dallas_crc8_inner n (dallas_crc8_bit crc inbyte).1 (dallas_crc8_bit crc inbyte).2

/-- The outer loop of `dallas_crc8`, `n` being the number of bytes that are left and
`i` the index of the next one. -/
def dallas_crc8_outer (data : List Nat) : Nat → Nat → Nat → Nat
  | 0, _, crc => crc
  | n + 1, i, crc =>
    let inbyte := data.getD i 0 % 256
    dallas_crc8_outer data n (i + 1) (dallas_crc8_inner 8 crc inbyte)

/-- `dallas_crc8(data, size)`, `size` being a `uint8_t`. -/
def dallas_crc8 (data : List Nat) (size : Nat) : Nat :=
  dallas_crc8_outer data (size % 256) 0 0

/-- The shift step of a reflected CRC-8 with polynomial `0x8C`: the register moves one
bit to the right and the polynomial is added when the bit that leaves is 1. -/
def crc8_maxim_shift (x : Nat) : Nat :=
  if x % 2 = 1 then (x >>> 1) ^^^ 0x8C else x >>> 1

/-- The Dallas/Maxim CRC-8 of a byte sequence as the claim words it: initial value 0,
reflected polynomial `0x8C`, the bits of each byte consumed least-significant first
(the byte is added to the register, which is then shifted 8 times). -/
def crc8_maxim (d : List Nat) : Nat :=
  d.foldl (fun crc byte => crc8_maxim_shift^[8] (crc ^^^ byte)) 0


/-! ## The operations of the client -/

/-- `mqtt_init` for pointers that are not `NULL` (the function then returns `MQTT_OK`):
the client after the call.  `stale` is the content of `*client` before the call: the
fields `keep_alive` and `time_of_last_send` are not assigned. -/
def mqtt_init (K : Consts) (stale : mqtt_client) (sendbuf : List Nat) (sendbufsz : Nat)
    (recvbuf : List Nat) (recvbufsz : Nat) : mqtt_client :=
  { stale with
    mq := mqtt_mq_init K sendbuf sendbufsz,
    recv_buffer := { mem := recvbuf, mem_size := recvbufsz, curr := 0, curr_sz := recvbufsz },
    error := K.code .MQTT_ERROR_CONNECT_NOT_CALLED,
    response_timeout := 30,
    number_of_timeouts := 0,
    pid_lfsr := 0,
    send_offset := 0 }

/-- The assignment `msg->packet_id = packet_id` on the descriptor that
`mqtt_mq_register` has returned, the last one of the queue. -/
def set_last_packet_id (mq : mqtt_message_queue) (packet_id : Nat) : mqtt_message_queue :=
  let last := mq.queue.length - 1
  { mq with queue := mq.queue.modify (fun msg => { msg with packet_id := packet_id }) last }

/-- `mqtt_connect`: the result and the client afterwards.  `stale` is the former content
of the descriptor slot that the request takes. -/
def mqtt_connect (K : Consts) (client : mqtt_client) (client_id will_topic : List Nat)
    (will_message : List Nat) (will_message_size : Nat) (user_name password : Option (List Nat))
    (connect_flags keep_alive : Nat) (stale : mqtt_queued_message) : Int × mqtt_client :=
  let client := { client with keep_alive := keep_alive }
  let client :=
    if client.error = K.code .MQTT_ERROR_CONNECT_NOT_CALLED then
      { client with error := K.MQTT_OK }
    else client
  match MQTT_CLIENT_TRY_PACK K client
      (fun bufsz => mqtt_pack_connection_request K bufsz client_id will_topic will_message
        will_message_size user_name password connect_flags keep_alive) stale with
  | (some rv, client) => (rv, client)
  | (none, client) =>
    (K.MQTT_OK, { client with mq := set_last_control_type client.mq MQTT_CONTROL_CONNECT })

/-- `mqtt_publish`: the result and the client afterwards, `none` when the loop of
`__mqtt_next_pid` has not ended within `fuel` passes. -/
def mqtt_publish (K : Consts) (fuel : Nat) (client : mqtt_client)
    (topic_name application_message : List Nat) (application_message_size publish_flags : Nat)
    (stale : mqtt_queued_message) : Option (Int × mqtt_client) :=
  match __mqtt_next_pid fuel client with
  | none => none
  | some (packet_id, client) =>
    match MQTT_CLIENT_TRY_PACK K client
        (fun bufsz => mqtt_pack_publish_request K bufsz topic_name packet_id
          application_message application_message_size publish_flags) stale with
    | (some rv, client) => some (rv, client)
    | (none, client) =>
      some (K.MQTT_OK,
        { client with
          mq := set_last_packet_id (set_last_control_type client.mq MQTT_CONTROL_PUBLISH)
                  packet_id })

/-- `mqtt_subscribe`: the result and the client afterwards, `none` when the loop of
`__mqtt_next_pid` has not ended within `fuel` passes. -/
def mqtt_subscribe (K : Consts) (fuel : Nat) (client : mqtt_client) (topic_name : List Nat)
    (stale : mqtt_queued_message) : Option (Int × mqtt_client) :=
  match __mqtt_next_pid fuel client with
  | none => none
  | some (packet_id, client) =>
    match MQTT_CLIENT_TRY_PACK K client
        (fun bufsz => mqtt_pack_subscribe_request K bufsz packet_id topic_name) stale with
    | (some rv, client) => some (rv, client)
    | (none, client) =>
      some (K.MQTT_OK,
        { client with
          mq := set_last_packet_id (set_last_control_type client.mq MQTT_CONTROL_SUBSCRIBE)
                  packet_id })

/-- `mqtt_ping`. -/
def mqtt_ping (K : Consts) (client : mqtt_client) (stale : mqtt_queued_message) :
    Int × mqtt_client :=
  __mqtt_ping K client stale

/-- `mqtt_disconnect`: the result and the client afterwards. -/
def mqtt_disconnect (K : Consts) (client : mqtt_client) (stale : mqtt_queued_message) :
    Int × mqtt_client :=
  match MQTT_CLIENT_TRY_PACK K client (fun bufsz => mqtt_pack_disconnect K bufsz) stale with
  | (some rv, client) => (rv, client)
  | (none, client) =>
    (K.MQTT_OK, { client with mq := set_last_control_type client.mq MQTT_CONTROL_DISCONNECT })

/-- Result of `mqtt_sync`: the value returned, the client afterwards, what `__mqtt_recv`
reports, the calls of `mqtt_pal_sendall`, and the value stored in the global
`MQTT_error_status` (`none` when `mqtt_sync` returns before it stores one). -/
structure sync_result where
  rv : Int
  client : mqtt_client
  connack_received : Bool
  suback_received : Bool
  published : List mqtt_response_publish
  calls : List pal_call
  MQTT_error_status : Option Nat
  deriving DecidableEq, Repr

/-- `mqtt_sync`.  `uip_newdata` and `uip_acked` are the results of the macros of these
names, `uip_len` is the global; the other arguments are those of `__mqtt_recv` and
`__mqtt_send`. -/
def mqtt_sync (K : Consts) (uip_newdata uip_acked : Bool) (uip_len : Nat)
    (response : mqtt_response) (second_counter mqtt_start : Nat) (pal : Nat → Int)
    (stale : mqtt_queued_message) (client : mqtt_client) : sync_result :=
  let received : Option recv_result :=
    if (uip_newdata || uip_acked) ∧ uip_len > 0 then
      some (__mqtt_recv K uip_len response client)
    else none
  match received with
  | some r =>
    if r.rv ≠ K.MQTT_OK then
      { rv := r.rv, client := r.client, connack_received := r.connack_received,
        suback_received := r.suback_received, published := r.published, calls := [],
        MQTT_error_status := none }
    else
      let s := __mqtt_send K second_counter mqtt_start pal stale r.client
      { rv := s.rv, client := s.client, connack_received := r.connack_received,
        suback_received := r.suback_received, published := r.published, calls := s.calls,
        MQTT_error_status := some (if s.rv = K.MQTT_OK then 1 else 0) }
  | none =>
    let s := __mqtt_send K second_counter mqtt_start pal stale client
    { rv := s.rv, client := s.client, connack_received := false, suback_received := false,
      published := [], calls := s.calls,
      MQTT_error_status := some (if s.rv = K.MQTT_OK then 1 else 0) }

/-- One call of the application into the client: one of the five operations that
enqueue a request. -/
inductive enqueue_op
  | connect (client_id will_topic will_message : List Nat) (will_message_size : Nat)
      (user_name password : Option (List Nat)) (connect_flags keep_alive : Nat)
  | publish (topic_name application_message : List Nat)
      (application_message_size publish_flags : Nat)
  | subscribe (topic_name : List Nat)
  | ping
  | disconnect

/-- The control type that an operation stores in the descriptor of its request. -/
def enqueue_op.control_type : enqueue_op → Nat
  | .connect .. => MQTT_CONTROL_CONNECT
  | .publish .. => MQTT_CONTROL_PUBLISH
  | .subscribe .. => MQTT_CONTROL_SUBSCRIBE
  | .ping => MQTT_CONTROL_PINGREQ
  | .disconnect => MQTT_CONTROL_DISCONNECT

/-- The call of the operation `op`: the result and the client afterwards (`none` when
`__mqtt_next_pid` has not returned within `fuel` passes). -/
def enqueue (K : Consts) (fuel : Nat) (stale : mqtt_queued_message) :
    enqueue_op → mqtt_client → Option (Int × mqtt_client)
  | .connect client_id will_topic will_message will_message_size user_name password
      connect_flags keep_alive, client =>
    some (mqtt_connect K client client_id will_topic will_message will_message_size user_name
      password connect_flags keep_alive stale)
  | .publish topic_name application_message application_message_size publish_flags, client =>
    mqtt_publish K fuel client topic_name application_message application_message_size
      publish_flags stale
  | .subscribe topic_name, client => mqtt_subscribe K fuel client topic_name stale
  | .ping, client => some (mqtt_ping K client stale)
  | .disconnect, client => some (mqtt_disconnect K client stale)

/-- The statements of the operation `op` that come before `MQTT_CLIENT_TRY_PACK`: the
client as the macro finds it, the pack call of the operation as a function of the
capacity, and the packet id that the operation stores in the descriptor, if it stores
one. -/
def enqueue_entry (K : Consts) (fuel : Nat) :
    enqueue_op → mqtt_client → Option (mqtt_client × (Nat → Int × List Nat) × Option Nat)
  | .connect client_id will_topic will_message will_message_size user_name password
      connect_flags keep_alive, client =>
    let client := { client with keep_alive := keep_alive }
    let client :=
      if client.error = K.code .MQTT_ERROR_CONNECT_NOT_CALLED then
        { client with error := K.MQTT_OK }
      else client
    some (client,
      fun bufsz => mqtt_pack_connection_request K bufsz client_id will_topic will_message
        will_message_size user_name password connect_flags keep_alive, none)
  | .publish topic_name application_message application_message_size publish_flags, client =>
    match __mqtt_next_pid fuel client with
    | none => none
    | some (packet_id, client) =>
      some (client,
        fun bufsz => mqtt_pack_publish_request K bufsz topic_name packet_id
          application_message application_message_size publish_flags, some packet_id)
  | .subscribe topic_name, client =>
    match __mqtt_next_pid fuel client with
    | none => none
    | some (packet_id, client) =>
      some (client, fun bufsz => mqtt_pack_subscribe_request K bufsz packet_id topic_name,
        some packet_id)
  | .ping, client => some (client, fun bufsz => mqtt_pack_ping_request K bufsz, none)
  | .disconnect, client => some (client, fun bufsz => mqtt_pack_disconnect K bufsz, none)

/-- A client whose send buffer of 140 bytes is full: one PUBLISH of 127 bytes, sent and
Complete, and its descriptor of 12 bytes leave 1 byte. -/
def sampleFullClient : mqtt_client :=
  { sampleClient [] with
    mq := { mem := List.replicate 140 0, mem_end := 140, curr := 127, curr_sz := 1,
            queue := [⟨0, 127, MQTTQueuedMessageState.MQTT_QUEUED_COMPLETE, 5,
                        MQTT_CONTROL_PUBLISH, 7⟩] } }

/-- The call of `mqtt_unpack_response` that `__mqtt_recv` makes: its result and the
response that it leaves. -/
def __mqtt_recv_unpack (K : Consts) (uip_len : Nat) (response : mqtt_response)
    (client : mqtt_client) : Int × mqtt_response :=
  let rv : Int := if uip_len > 0 then toInt16 uip_len else -1
  mqtt_unpack_response K response client.recv_buffer.mem
    (toUInt16 (client.recv_buffer.curr + rv))

/-! ## Runs of the client -/

/-- One step in the life of a client: a call of one of the operations that enqueue a
request, or a call of `mqtt_sync`, before which the network stack has put the bytes
`inbound` into the receive buffer. -/
inductive client_op
  | enqueue (op : enqueue_op) (stale : mqtt_queued_message)
  | sync (inbound : List Nat) (uip_newdata uip_acked : Bool) (uip_len : Nat)
      (response : mqtt_response) (second_counter mqtt_start : Nat) (pal : Nat → Int)
      (stale : mqtt_queued_message)

/-- What a step returns and offers to the transport: the value returned (`none` when
`__mqtt_next_pid` has not returned within 65535 passes) and the calls of
`mqtt_pal_sendall`. -/
structure step_report where
  rv : Option Int
  calls : List pal_call
  deriving DecidableEq, Repr

/-- The client after a step, and the report of the step. -/
def client_step (K : Consts) : client_op → mqtt_client → mqtt_client × step_report
  | .enqueue op stale, client =>
    match enqueue K 65535 stale op client with
    | some (rv, client) => (client, { rv := some rv, calls := [] })
    | none => (client, { rv := none, calls := [] })
  | .sync inbound uip_newdata uip_acked uip_len response second_counter mqtt_start pal stale,
      client =>
    let r := mqtt_sync K uip_newdata uip_acked uip_len response second_counter mqtt_start pal
      stale { client with recv_buffer := { client.recv_buffer with mem := inbound } }
    (r.client, { rv := some r.rv, calls := r.calls })

/-- The client after a run of steps, and the reports of the steps in order. -/
def client_run (K : Consts) : List client_op → mqtt_client → mqtt_client × List step_report
  | [], client => (client, [])
  | op :: ops, client =>
    let (client, report) := client_step K op client
    let (client, reports) := client_run K ops client
    (client, report :: reports)

/-- A client fresh from `mqtt_init`, with a send buffer of 140 bytes (the size of
`mqtt_sendbuf`) and a receive buffer of 60 bytes. -/
def freshClient : mqtt_client :=
  mqtt_init sampleConsts (sampleClient []) (List.replicate 140 0) 140 (List.replicate 60 0) 60

/-- A run in which an acknowledgement arrives late.  The CONNECT request (21 bytes) is
sent at time 0; at time 31 it has timed out and is sent again, and the transport accepts
10 of its 21 bytes; then the connack arrives; then the application enqueues a ping
request (2 bytes). -/
def late_ack_run : List client_op :=
  [ .enqueue (.connect [97] [119] [1] 1 none none 0 60) sampleMessage,
    .sync [] false false 0 sampleResponse 0 20 (fun _ => 21) sampleMessage,
    .sync [] false false 0 sampleResponse 31 20 (fun _ => 10) sampleMessage,
    .sync [0x20, 2, 0, 0] true false 4 sampleResponse 31 20 (fun _ => 0) sampleMessage,
    .enqueue .ping sampleMessage ]

/-- A run in which the send buffer fills up.  After the CONNECT request a publication of
115 bytes does not fit into the 140 bytes; the CONNECT request is then sent and
acknowledged, so that a clean would free the whole buffer; then the application publishes
a message of 6 bytes. -/
def buffer_full_run : List client_op :=
  [ .enqueue (.connect [97] [119] [1] 1 none none 0 60) sampleMessage,
    .enqueue (.publish [116] (List.replicate 110 0) 110 0) sampleMessage,
    .sync [] false false 0 sampleResponse 0 20 (fun _ => 21) sampleMessage,
    .sync [0x20, 2, 0, 0] true false 4 sampleResponse 1 20 (fun _ => 0) sampleMessage,
    .enqueue (.publish [116] [1] 1 0) sampleMessage ]

/-- Whether a step is a call of `mqtt_sync`. -/
def client_op.is_sync : client_op → Bool
  | .sync .. => true
  | .enqueue .. => false

/-- The client of `buffer_full_run` after the publication has been refused. -/
def bufferFullClient : mqtt_client :=
  (client_run sampleConsts (List.take 2 buffer_full_run) freshClient).1

/-- A run that connects: the CONNECT request, with the keep-alive interval `keep_alive`,
is enqueued, then sent at time 0, then acknowledged at time 1. -/
def connected_run (keep_alive : Nat) : List client_op :=
  [ .enqueue (.connect [97] [119] [1] 1 none none 0 keep_alive) sampleMessage,
    .sync [] false false 0 sampleResponse 0 20 (fun _ => 21) sampleMessage,
    .sync [0x20, 2, 0, 0] true false 4 sampleResponse 1 20 (fun _ => 0) sampleMessage ]

/-- The client after `connected_run`, from a fresh client. -/
def connectedClient (keep_alive : Nat) : mqtt_client :=
  (client_run sampleConsts (connected_run keep_alive) freshClient).1

/-- A run in which a Complete message lies behind a message that is offered from a stale
offset.  The CONNECT request (21 bytes) is sent at time 0; at time 31 it has timed out
and is sent again, and the transport accepts 10 of its 21 bytes; the application enqueues
a ping request (2 bytes, at offset 21) and a subscription to the topic "abcde" (12
bytes, at offset 23, packet id `0xB451`); the suback of that packet id arrives, while the
CONNECT request is once more sent in part; then the connack arrives. -/
def complete_offered_run : List client_op :=
  [ .enqueue (.connect [97] [119] [1] 1 none none 0 60) sampleMessage,
    .sync [] false false 0 sampleResponse 0 20 (fun _ => 21) sampleMessage,
    .sync [] false false 0 sampleResponse 31 20 (fun _ => 10) sampleMessage,
    .enqueue .ping sampleMessage,
    .enqueue (.subscribe [97, 98, 99, 100, 101]) sampleMessage,
    .sync [0x90, 3, 0xB4, 0x51, 0] true false 5 sampleResponse 31 20 (fun _ => 10) sampleMessage,
    .sync [0x20, 2, 0, 0] true false 4 sampleResponse 31 20 (fun _ => 0) sampleMessage ]
/-! ## Bit-level facts -/

theorem and_7F (n : Nat) : n &&& 0x7F = n % 128 := Nat.and_pow_two_sub_one_eq_mod n 7

theorem shr_7 (n : Nat) : n >>> 7 = n / 128 := Nat.shiftRight_eq_div_pow n 7

set_option maxRecDepth 100000 in
theorem byte_bits : ∀ x < 128, (x ||| 0x80 = x + 128) ∧ (x &&& 0x80 = 0) ∧
    ((x + 128) &&& 0x80 = 128) ∧ ((x + 128) &&& 0x7F = x) := by decide

set_option maxRecDepth 100000 in
theorem first_byte_bits : ∀ ct < 16, ∀ fl < 16,
    ((((ct <<< 4) &&& 0xF0) % 256 ||| (fl &&& 0x0F) % 256) = ct * 16 + fl) ∧
    (((ct * 16 + fl) >>> 4) % 256 = ct) ∧ (((ct * 16 + fl) &&& 0x0F) % 256 = fl) := by decide

theorem pack_length_loop_last (fuel bufsz rl : Nat) (out : List Nat) (h : rl ≤ 127)
    (hb : 2 ≤ bufsz) :
    pack_length_loop (fuel + 1) bufsz rl out = (some (bufsz - 1), out ++ [rl]) := by
  have h1 : ¬ (bufsz - 1 = 0) := by omega
  have h2 : ¬ (rl > 127) := by omega
  have h3 : rl % 128 = rl := Nat.mod_eq_of_lt (by omega)
  have h4 := (byte_bits rl (by omega)).2.1
  simp [pack_length_loop, h1, h2, and_7F, h3, h4]

theorem pack_length_loop_more (fuel bufsz rl : Nat) (out : List Nat) (h : 127 < rl)
    (hb : 2 ≤ bufsz) :
    pack_length_loop (fuel + 1) bufsz rl out
      = pack_length_loop fuel (bufsz - 1) (rl / 128) (out ++ [rl % 128 + 128]) := by
  have h1 : ¬ (bufsz - 1 = 0) := by omega
  have hlt : rl % 128 < 128 := Nat.mod_lt _ (by decide)
  obtain ⟨h4, -, h5, -⟩ := byte_bits (rl % 128) hlt
  simp [pack_length_loop, h1, h, and_7F, shr_7, h4, h5]

theorem pack_length_loop_short (fuel bufsz rl : Nat) (out : List Nat) (hb : bufsz ≤ 1) :
    pack_length_loop (fuel + 1) bufsz rl out = (none, out) := by
  have h1 : bufsz - 1 = 0 := by omega
  simp [pack_length_loop, h1]


theorem toInt16_of_range (z : Int) (h1 : -32768 ≤ z) (h2 : z ≤ 32767) : toInt16 z = z := by
  unfold toInt16
  omega

theorem encode_remaining_length_length_pos (fuel n : Nat) :
    0 < (encode_remaining_length (fuel + 1) n).length := by
  unfold encode_remaining_length
  split <;> simp

theorem encode_remaining_length_length_le (fuel n : Nat) :
    (encode_remaining_length fuel n).length ≤ fuel := by
  induction fuel generalizing n with
  | zero => simp [encode_remaining_length]
  | succ f ih =>
    unfold encode_remaining_length
    split
    · simp
    · simpa using ih (n / 128)

theorem encode_remaining_length_last (fuel n : Nat) (h : n ≤ 127) :
    encode_remaining_length (fuel + 1) n = [n] := by
  simp [encode_remaining_length, h]

theorem encode_remaining_length_more (fuel n : Nat) (h : 127 < n) :
    encode_remaining_length (fuel + 1) n
      = (n % 128 + 128) :: encode_remaining_length fuel (n / 128) := by
  have : ¬ n ≤ 127 := by omega
  simp [encode_remaining_length, this]

theorem pack_length_loop_eq (fuel : Nat) : ∀ (bufsz rl : Nat) (out : List Nat),
    rl < 128 ^ (fuel + 1) →
    pack_length_loop (fuel + 1) bufsz rl out =
      if bufsz ≤ (encode_remaining_length (fuel + 1) rl).length then
        (none, out ++ (encode_remaining_length (fuel + 1) rl).take (bufsz - 1))
      else
        (some (bufsz - (encode_remaining_length (fuel + 1) rl).length),
          out ++ encode_remaining_length (fuel + 1) rl) := by
  induction fuel with
  | zero =>
    intro bufsz rl out h
    have h' : rl ≤ 127 := by omega
    by_cases hb : 2 ≤ bufsz
    · rw [pack_length_loop_last _ _ _ _ h' hb]
      have : ¬ bufsz ≤ 1 := by omega
      simp [encode_remaining_length, h', this]
    · have hb' : bufsz ≤ 1 := by omega
      rw [pack_length_loop_short _ _ _ _ hb']
      have : bufsz - 1 = 0 := by omega
      simp [encode_remaining_length, h', hb', this]
  | succ f ih =>
    intro bufsz rl out h
    by_cases hb : 2 ≤ bufsz
    · by_cases h' : rl ≤ 127
      · rw [pack_length_loop_last _ _ _ _ h' hb]
        have : ¬ bufsz ≤ 1 := by omega
        rw [encode_remaining_length]
        simp [h', this]
      · have h'' : 127 < rl := by omega
        rw [pack_length_loop_more _ _ _ _ h'' hb]
        have hdiv : rl / 128 < 128 ^ (f + 1) := by
          rw [Nat.div_lt_iff_lt_mul (by decide)]
          calc rl < 128 ^ (f + 1 + 1) := h
            _ = 128 ^ (f + 1) * 128 := by ring
        rw [ih _ _ _ hdiv]
        rw [encode_remaining_length_more (f + 1) rl h'']
        simp only [List.length_cons]
        have hpos := encode_remaining_length_length_pos f (rl / 128)
        by_cases hc : bufsz - 1 ≤ (encode_remaining_length (f + 1) (rl / 128)).length
        · have hc' : bufsz ≤ (encode_remaining_length (f + 1) (rl / 128)).length + 1 := by omega
          have e1 : bufsz - 1 = (bufsz - 1 - 1) + 1 := by omega
          simp only [hc, hc', if_true]
          rw [e1, List.take_succ_cons]
          simp
        · have hc' : ¬ bufsz ≤ (encode_remaining_length (f + 1) (rl / 128)).length + 1 := by
            omega
          simp only [hc, hc', if_false]
          simp
          omega
    · have hb' : bufsz ≤ 1 := by omega
      rw [pack_length_loop_short _ _ _ _ hb']
      have hpos := encode_remaining_length_length_pos (f + 1) rl
      have h1 : bufsz ≤ (encode_remaining_length (f + 1 + 1) rl).length := by omega
      have : bufsz - 1 = 0 := by omega
      simp [h1, this]


/-! ## `mqtt_pack_fixed_header` -/

theorem remaining_length_size_pos (n : Nat) : 0 < remaining_length_size n :=
  encode_remaining_length_length_pos 4 n

theorem remaining_length_size_le (n : Nat) : remaining_length_size n ≤ 5 :=
  encode_remaining_length_length_le 5 n

theorem pack_length_loop_five (bufsz rl : Nat) (out : List Nat) (h : rl < 2 ^ 32) :
    pack_length_loop 5 bufsz rl out =
      if bufsz ≤ remaining_length_size rl then
        (none, out ++ (encode_remaining_length 5 rl).take (bufsz - 1))
      else (some (bufsz - remaining_length_size rl), out ++ encode_remaining_length 5 rl) := by
  have hn' : rl < 128 ^ (4 + 1) := by
    calc rl < 2 ^ 32 := h
      _ ≤ 128 ^ (4 + 1) := by norm_num
  exact pack_length_loop_eq 4 bufsz rl out hn'

theorem pack_fixed_header_fits_mod (K : Consts) (ct fl n bufsz : Nat) (hct : ct < 16)
    (hn : n < 2 ^ 32)
    (hv : mqtt_fixed_header_rule_violation K ⟨ct, fl, n⟩ = 0)
    (hcap : 1 + remaining_length_size n + n ≤ bufsz) :
    mqtt_pack_fixed_header K bufsz ⟨ct, fl, n⟩
      = (((1 + remaining_length_size n : Nat) : Int),
          (ct * 16 + fl % 16) :: encode_remaining_length 5 n) := by
  have hpos := remaining_length_size_pos n
  have hle := remaining_length_size_le n
  have hfl : fl % 16 < 16 := Nat.mod_lt _ (by decide)
  have hb0 := (first_byte_bits ct hct (fl % 16) hfl).1
  have hand : fl &&& 0x0F = fl % 16 := Nat.and_pow_two_sub_one_eq_mod fl 4
  have hand' : (fl % 16) &&& 0x0F = fl % 16 := by
    rw [Nat.and_pow_two_sub_one_eq_mod (fl % 16) 4]; exact Nat.mod_eq_of_lt hfl
  rw [hand'] at hb0
  have hmod : n % 2 ^ 32 = n := Nat.mod_eq_of_lt hn
  have hloop := pack_length_loop_five bufsz n [ct * 16 + fl % 16] hn
  have hnot : ¬ bufsz ≤ remaining_length_size n := by omega
  rw [if_neg hnot] at hloop
  have hb : ¬ bufsz = 0 := by omega
  unfold mqtt_pack_fixed_header
  simp only [hv, ne_eq, not_true_eq_false, if_false, hb, hand, hb0, hmod]
  rw [hloop]
  have hlt : ¬ (bufsz - remaining_length_size n - 1 < n) := by omega
  simp only [hlt, if_false, List.singleton_append, List.length_cons]
  rw [toInt16_of_range]
  · unfold remaining_length_size; congr 1; push_cast; ring
  · omega
  · have : (encode_remaining_length 5 n).length ≤ 5 := hle
    push_cast; omega

theorem pack_fixed_header_fits (K : Consts) (ct fl n bufsz : Nat) (hct : ct < 16)
    (hfl : fl < 16) (hn : n < 2 ^ 32)
    (hv : mqtt_fixed_header_rule_violation K ⟨ct, fl, n⟩ = 0)
    (hcap : 1 + remaining_length_size n + n ≤ bufsz) :
    mqtt_pack_fixed_header K bufsz ⟨ct, fl, n⟩
      = (((1 + remaining_length_size n : Nat) : Int),
          (ct * 16 + fl) :: encode_remaining_length 5 n) := by
  have h := pack_fixed_header_fits_mod K ct fl n bufsz hct hn hv hcap
  rwa [Nat.mod_eq_of_lt hfl] at h

theorem pack_fixed_header_short (K : Consts) (ct fl n bufsz : Nat) (hn : n < 2 ^ 32)
    (hv : mqtt_fixed_header_rule_violation K ⟨ct, fl, n⟩ = 0)
    (hcap : bufsz < 1 + remaining_length_size n + n) :
    (mqtt_pack_fixed_header K bufsz ⟨ct, fl, n⟩).1 = 0 := by
  have hmod : n % 2 ^ 32 = n := Nat.mod_eq_of_lt hn
  unfold mqtt_pack_fixed_header
  simp only [hv, ne_eq, not_true_eq_false, if_false, hmod]
  by_cases hb : bufsz = 0
  · simp [hb]
  · simp only [hb, if_false]
    rw [pack_length_loop_five bufsz n _ hn]
    by_cases hc : bufsz ≤ remaining_length_size n
    · simp [hc]
    · have hlt : bufsz - remaining_length_size n - 1 < n := by omega
      simp [hc, hlt]


/-! ## `mqtt_unpack_fixed_header` -/

/-- A value below `2 ^ (int_bits - 1)` is not changed by the conversion to `int`. -/
theorem toIntOfWidth_of_fits (bits t : Nat) (hbits : 1 ≤ bits) (h : t < 2 ^ (bits - 1)) :
    toIntOfWidth bits (t : Int) = (t : Int) := by
  have hp : (2 : Int) ^ bits = 2 * 2 ^ (bits - 1) := by
    rw [← pow_succ']
    congr 1
    omega
  have h' : (t : Int) < 2 ^ (bits - 1) := by exact_mod_cast h
  have h0 : (0 : Int) ≤ (t : Int) := Int.natCast_nonneg t
  unfold toIntOfWidth
  rw [Int.emod_eq_of_lt (by omega) (by omega)]
  omega

/-- The term `(*buf & 0x7F) << lshift` of the loop of `mqtt_unpack_fixed_header` is
added as it is when it fits the `int` of the tool set. -/
theorem length_term_fits (K : Consts) (rl t : Nat) (h : t < 2 ^ (K.int_bits - 1)) :
    toUInt32 ((rl : Int) + toIntOfWidth K.int_bits (t : Int)) = (rl + t) % 2 ^ 32 := by
  have hb := K.int_bits_ge
  rw [toIntOfWidth_of_fits K.int_bits t (by omega) h]
  unfold toUInt32
  have e : ((rl : Int) + (t : Int)) % 4294967296 = (((rl + t) % 2 ^ 32 : Nat) : Int) := by
    push_cast
    rfl
  rw [e, Int.toNat_ofNat]

/-- Every value below 32768 fits the `int` of the tool set. -/
theorem fits_int_of_lt (K : Consts) (n : Nat) (h : n < 32768) : n < 2 ^ (K.int_bits - 1) := by
  have hb := K.int_bits_ge
  calc n < 2 ^ 15 := h
    _ ≤ 2 ^ (K.int_bits - 1) := Nat.pow_le_pow_right (by decide) (by omega)

theorem unpack_length_loop_last (K : Consts) (buf : List Nat) (fuel pos bufsz lshift rl b : Nat)
    (hl : lshift ≠ 28) (hb : 2 ≤ bufsz) (hbyte : buf.getD (pos + 1) 0 = b) (hlt : b < 128)
    (hfit : b * 2 ^ lshift < 2 ^ (K.int_bits - 1)) :
    unpack_length_loop K buf (fuel + 1) pos bufsz lshift rl
      = (none, pos + 1, bufsz - 1, (rl + b * 2 ^ lshift) % 2 ^ 32) := by
  have h1 : ¬ (bufsz - 1 = 0) := by omega
  have h3 : b % 128 = b := Nat.mod_eq_of_lt hlt
  have h4 := (byte_bits b hlt).2.1
  simp only [unpack_length_loop, hl, h1, hbyte, and_7F, h3, h4, Nat.shiftLeft_eq, if_false,
    ne_eq, not_true_eq_false, length_term_fits K rl _ hfit]

theorem unpack_length_loop_more (K : Consts) (buf : List Nat) (fuel pos bufsz lshift rl x : Nat)
    (hl : lshift ≠ 28) (hb : 2 ≤ bufsz) (hbyte : buf.getD (pos + 1) 0 = x + 128)
    (hlt : x < 128) (hfit : x * 2 ^ lshift < 2 ^ (K.int_bits - 1)) :
    unpack_length_loop K buf (fuel + 1) pos bufsz lshift rl
      = unpack_length_loop K buf fuel (pos + 1) (bufsz - 1) (lshift + 7)
          ((rl + x * 2 ^ lshift) % 2 ^ 32) := by
  have h1 : ¬ (bufsz - 1 = 0) := by omega
  obtain ⟨-, -, h5, h6⟩ := byte_bits x hlt
  simp only [unpack_length_loop, hl, h1, hbyte, h5, h6, Nat.shiftLeft_eq, if_false, ne_eq,
    not_false_eq_true, if_true, length_term_fits K rl _ hfit]
  simp

theorem unpack_length_loop_encode (K : Consts) (buf : List Nat) (f : Nat) :
    ∀ (n pos bufsz lshift rl fuel : Nat), n < 128 ^ (f + 1) →
      (∀ i, i < (encode_remaining_length (f + 1) n).length →
        buf.getD (pos + 1 + i) 0 = (encode_remaining_length (f + 1) n).getD i 0) →
      (encode_remaining_length (f + 1) n).length < bufsz →
      lshift + 7 * (encode_remaining_length (f + 1) n).length ≤ 28 →
      (encode_remaining_length (f + 1) n).length ≤ fuel →
      n * 2 ^ lshift < 2 ^ (K.int_bits - 1) →
      unpack_length_loop K buf fuel pos bufsz lshift rl
        = (none, pos + (encode_remaining_length (f + 1) n).length,
            bufsz - (encode_remaining_length (f + 1) n).length,
            (rl + n * 2 ^ lshift) % 2 ^ 32) := by
  induction f with
  | zero =>
    intro n pos bufsz lshift rl fuel hn hbuf hsz hsh hfuel hfit
    have h' : n ≤ 127 := by omega
    rw [encode_remaining_length_last 0 n h'] at hbuf hsz hsh hfuel ⊢
    simp only [List.length_singleton] at hbuf hsz hsh hfuel ⊢
    obtain ⟨fuel', rfl⟩ : ∃ k, fuel = k + 1 := ⟨fuel - 1, by omega⟩
    have hb0 := hbuf 0 (by omega)
    simp only [Nat.add_zero, List.getD_cons_zero] at hb0
    exact unpack_length_loop_last K buf fuel' pos bufsz lshift rl n (by omega) (by omega) hb0
      (by omega) hfit
  | succ f ih =>
    intro n pos bufsz lshift rl fuel hn hbuf hsz hsh hfuel hfit
    by_cases h' : n ≤ 127
    · rw [encode_remaining_length_last (f + 1) n h'] at hbuf hsz hsh hfuel ⊢
      simp only [List.length_singleton] at hbuf hsz hsh hfuel ⊢
      obtain ⟨fuel', rfl⟩ : ∃ k, fuel = k + 1 := ⟨fuel - 1, by omega⟩
      have hb0 := hbuf 0 (by omega)
      simp only [Nat.add_zero, List.getD_cons_zero] at hb0
      exact unpack_length_loop_last K buf fuel' pos bufsz lshift rl n (by omega) (by omega) hb0
        (by omega) hfit
    · have h'' : 127 < n := by omega
      have hfit1 : n % 128 * 2 ^ lshift < 2 ^ (K.int_bits - 1) :=
        lt_of_le_of_lt (Nat.mul_le_mul_right _ (Nat.mod_le n 128)) hfit
      have hfit2 : n / 128 * 2 ^ (lshift + 7) < 2 ^ (K.int_bits - 1) := by
        refine lt_of_le_of_lt ?_ hfit
        rw [pow_add, show (2 : Nat) ^ 7 = 128 by norm_num, Nat.mul_comm (2 ^ lshift) 128,
          ← Nat.mul_assoc]
        exact Nat.mul_le_mul_right _ (Nat.div_mul_le_self n 128)
      rw [encode_remaining_length_more (f + 1) n h''] at hbuf hsz hsh hfuel ⊢
      simp only [List.length_cons] at hbuf hsz hsh hfuel ⊢
      obtain ⟨fuel', rfl⟩ : ∃ k, fuel = k + 1 := ⟨fuel - 1, by omega⟩
      have hb0 := hbuf 0 (by omega)
      simp only [Nat.add_zero, List.getD_cons_zero] at hb0
      have hx : n % 128 < 128 := Nat.mod_lt _ (by decide)
      rw [unpack_length_loop_more K buf fuel' pos bufsz lshift rl (n % 128) (by omega) (by omega)
        hb0 hx hfit1]
      have hdiv : n / 128 < 128 ^ (f + 1) := by
        rw [Nat.div_lt_iff_lt_mul (by decide)]
        calc n < 128 ^ (f + 1 + 1) := hn
          _ = 128 ^ (f + 1) * 128 := by ring
      have hbuf' : ∀ i, i < (encode_remaining_length (f + 1) (n / 128)).length →
          buf.getD (pos + 1 + 1 + i) 0 = (encode_remaining_length (f + 1) (n / 128)).getD i 0 := by
        intro i hi
        have := hbuf (i + 1) (by omega)
        simp only [List.getD_cons_succ] at this
        rw [← this]
        congr 1
        omega
      rw [ih (n / 128) (pos + 1) (bufsz - 1) (lshift + 7) _ fuel' hdiv hbuf' (by omega) (by omega)
        (by omega) hfit2]
      have e1 : pos + 1 + (encode_remaining_length (f + 1) (n / 128)).length
          = pos + ((encode_remaining_length (f + 1) (n / 128)).length + 1) := by omega
      have e2 : bufsz - 1 - (encode_remaining_length (f + 1) (n / 128)).length
          = bufsz - ((encode_remaining_length (f + 1) (n / 128)).length + 1) := by omega
      have e3 : ((rl + n % 128 * 2 ^ lshift) % 2 ^ 32 + n / 128 * 2 ^ (lshift + 7)) % 2 ^ 32
          = (rl + n * 2 ^ lshift) % 2 ^ 32 := by
        rw [Nat.mod_add_mod]
        congr 1
        have hsplit : n = n % 128 + 128 * (n / 128) := (Nat.mod_add_div n 128).symm
        conv_rhs => rw [hsplit]
        rw [pow_add]
        ring
      rw [e1, e2, e3]


theorem encode_remaining_length_fuel (f : Nat) : ∀ (n g : Nat), n < 128 ^ (f + 1) →
    encode_remaining_length (f + 1 + g) n = encode_remaining_length (f + 1) n := by
  induction f with
  | zero =>
    intro n g hn
    have h' : n ≤ 127 := by omega
    rw [show 0 + 1 + g = g + 1 by omega, encode_remaining_length_last g n h',
      encode_remaining_length_last 0 n h']
  | succ f ih =>
    intro n g hn
    by_cases h' : n ≤ 127
    · rw [show f + 1 + 1 + g = (f + 1 + g) + 1 by omega, encode_remaining_length_last _ n h',
        encode_remaining_length_last _ n h']
    · have h'' : 127 < n := by omega
      have hdiv : n / 128 < 128 ^ (f + 1) := by
        rw [Nat.div_lt_iff_lt_mul (by decide)]
        calc n < 128 ^ (f + 1 + 1) := hn
          _ = 128 ^ (f + 1) * 128 := by ring
      rw [show f + 1 + 1 + g = (f + 1 + g) + 1 by omega, encode_remaining_length_more _ n h'',
        encode_remaining_length_more _ n h'', ih _ g hdiv]

theorem remaining_length_size_le_four (n : Nat) (hn : n < 2 ^ 28) :
    remaining_length_size n ≤ 4 ∧ encode_remaining_length 5 n = encode_remaining_length 4 n := by
  have h := encode_remaining_length_fuel 3 n 1 (by norm_num; omega)
  have h2 := encode_remaining_length_length_le 4 n
  constructor
  · unfold remaining_length_size
    rw [show (5 : Nat) = 3 + 1 + 1 from rfl, h]
    exact h2
  · exact h

theorem unpack_fixed_header_of_encode (K : Consts) (r0 : mqtt_response) (ct fl n bufsz : Nat)
    (rest : List Nat) (hct : ct < 16) (hfl : fl < 16) (hn : n < 2 ^ 28)
    (hfit : n < 2 ^ (K.int_bits - 1))
    (hv : mqtt_fixed_header_rule_violation K ⟨ct, fl, n⟩ = 0)
    (hsz : 1 + remaining_length_size n + n ≤ bufsz) :
    mqtt_unpack_fixed_header K r0 ((ct * 16 + fl) :: encode_remaining_length 5 n ++ rest) bufsz
      = (((1 + remaining_length_size n : Nat) : Int),
          { r0 with fixed_header := ⟨ct, fl, n⟩ }) := by
  obtain ⟨hle, he⟩ := remaining_length_size_le_four n hn
  have hpos := remaining_length_size_pos n
  obtain ⟨-, hb1, hb2⟩ := first_byte_bits ct hct fl hfl
  have hlen : (encode_remaining_length (3 + 1) n).length = remaining_length_size n := by
    unfold remaining_length_size; rw [he]
  have hloop := unpack_length_loop_encode K
    ((ct * 16 + fl) :: encode_remaining_length 5 n ++ rest) 3 n 0 bufsz 0 0 5
    (by norm_num; omega)
    (by
      intro i hi
      rw [show 0 + 1 + i = i + 1 by omega, he]
      simp only [List.cons_append, List.getD_cons_succ]
      rw [List.getD_append _ _ _ _ hi])
    (by rw [hlen]; omega) (by rw [hlen]; omega) (by rw [hlen]; omega)
    (by rw [pow_zero, Nat.mul_one]; exact hfit)
  rw [hlen] at hloop
  have hb : ¬ bufsz = 0 := by omega
  have hmod : n % 2 ^ 32 = n := Nat.mod_eq_of_lt (by omega)
  unfold mqtt_unpack_fixed_header
  simp only [hb, if_false, List.cons_append, List.getD_cons_zero]
  simp only [List.cons_append] at hloop
  rw [hloop]
  simp only [hb1, hb2, pow_zero, Nat.mul_one, Nat.zero_add, hmod, hv, ne_eq, not_true_eq_false,
    if_false]
  have hlt : ¬ (bufsz - remaining_length_size n - 1 < n) := by omega
  simp only [hlt, if_false]
  rw [toInt16_of_range]
  · congr 1; push_cast; ring
  · omega
  · push_cast; omega

/-- The fixed header is decoded as soon as the buffer holds all of it, whether or not
the body is complete. -/
theorem unpack_fixed_header_header (K : Consts) (r0 : mqtt_response) (ct fl n bufsz : Nat)
    (rest : List Nat) (hct : ct < 16) (hfl : fl < 16) (hn : n < 2 ^ 28)
    (hfit : n < 2 ^ (K.int_bits - 1))
    (hsz : 1 + remaining_length_size n ≤ bufsz) :
    (mqtt_unpack_fixed_header K r0 ((ct * 16 + fl) :: encode_remaining_length 5 n ++ rest)
      bufsz).2.fixed_header = ⟨ct, fl, n⟩ := by
  obtain ⟨hle, he⟩ := remaining_length_size_le_four n hn
  have hpos := remaining_length_size_pos n
  obtain ⟨-, hb1, hb2⟩ := first_byte_bits ct hct fl hfl
  have hlen : (encode_remaining_length (3 + 1) n).length = remaining_length_size n := by
    unfold remaining_length_size; rw [he]
  have hloop := unpack_length_loop_encode K
    ((ct * 16 + fl) :: encode_remaining_length 5 n ++ rest) 3 n 0 bufsz 0 0 5
    (by norm_num; omega)
    (by
      intro i hi
      rw [show 0 + 1 + i = i + 1 by omega, he]
      simp only [List.cons_append, List.getD_cons_succ]
      rw [List.getD_append _ _ _ _ hi])
    (by rw [hlen]; omega) (by rw [hlen]; omega) (by rw [hlen]; omega)
    (by rw [pow_zero, Nat.mul_one]; exact hfit)
  rw [hlen] at hloop
  have hb : ¬ bufsz = 0 := by omega
  have hmod : n % 2 ^ 32 = n := Nat.mod_eq_of_lt (by omega)
  unfold mqtt_unpack_fixed_header
  simp only [hb, if_false, List.cons_append, List.getD_cons_zero]
  simp only [List.cons_append] at hloop
  rw [hloop]
  simp only [hb1, hb2, pow_zero, Nat.mul_one, Nat.zero_add, hmod]
  split_ifs <;> rfl

theorem put_end (out : List Nat) (pos : Int) (bytes : List Nat) (h : pos = (out.length : Int)) :
    put out pos bytes = out ++ bytes := by
  subst h
  unfold put
  rw [if_pos (Int.ofNat_nonneg _)]
  simp

theorem put_below (out : List Nat) (pos : Int) (bytes : List Nat)
    (h : pos + (bytes.length : Int) ≤ 0) : put out pos bytes = out := by
  unfold put
  by_cases hp : 0 ≤ pos
  · have hb : bytes.length = 0 := by omega
    have hz : pos = 0 := by omega
    subst hz
    rw [List.length_eq_zero] at hb
    subst hb
    simp
  · rw [if_neg hp]
    have h1 : bytes.length ≤ (-pos).toNat := by omega
    rw [List.drop_of_length_le h1, Nat.sub_eq_zero_of_le h1]
    simp

theorem put_preserves (pre out : List Nat) (pos : Int) (bytes : List Nat) (hp : pre <+: out)
    (h : (pre.length : Int) ≤ pos ∨ pos + (bytes.length : Int) ≤ 0) :
    pre <+: put out pos bytes := by
  rcases h with h | h
  · unfold put
    rw [if_pos (by omega), List.append_assoc]
    refine List.IsPrefix.trans ?_ (List.prefix_append _ _)
    rw [List.prefix_take_iff]
    exact ⟨hp, by omega⟩
  · rw [put_below out pos bytes h]
    exact hp

theorem toInt16_cases (n : Nat) (h : n < 65536) :
    (n < 32768 ∧ toInt16 (n : Int) = (n : Int)) ∨
    (32768 ≤ n ∧ toInt16 (n : Int) = (n : Int) - 65536) := by
  unfold toInt16
  by_cases h1 : n < 32768
  · left
    refine ⟨h1, ?_⟩
    omega
  · right
    refine ⟨by omega, ?_⟩
    omega

theorem pack_str_fst (str : List Nat) :
    (__mqtt_pack_str str).1 = toInt16 (((str.length % 65536 + 2 : Nat) : Int)) := by
  simp [__mqtt_pack_str]

theorem pack_str_fst_short (str : List Nat) (h : str.length ≤ 32765) :
    (__mqtt_pack_str str).1 = (str.length : Int) + 2 := by
  rw [pack_str_fst, Nat.mod_eq_of_lt (by omega)]
  rcases toInt16_cases (str.length + 2) (by omega) with ⟨-, h2⟩ | ⟨h1, -⟩
  · rw [h2]; push_cast; rfl
  · omega

theorem pack_str_snd (str : List Nat) (h : str.length < 65536) :
    (__mqtt_pack_str str).2 = length_prefixed str := by
  have h1 : str.length % 65536 = str.length := Nat.mod_eq_of_lt h
  simp [__mqtt_pack_str, __mqtt_pack_uint16, length_prefixed, uint16_be, h1]

theorem pack_uint16_snd (x : Nat) : (__mqtt_pack_uint16 x).2 = uint16_be x := rfl

theorem uint16_be_length (x : Nat) : (uint16_be x).length = 2 := rfl

theorem length_prefixed_length (s : List Nat) : (length_prefixed s).length = s.length + 2 := by
  simp [length_prefixed, uint16_be]

theorem pack_uint16_fst (x : Nat) : (__mqtt_pack_uint16 x).1 = 2 := rfl


/-! ## Packing requests -/

theorem rule_violation_connect (K : Consts) (n : Nat) :
    mqtt_fixed_header_rule_violation K ⟨MQTT_CONTROL_CONNECT, 0, n⟩ = 0 := by
  simp [mqtt_fixed_header_rule_violation, MQTT_CONTROL_CONNECT, control_type_is_valid,
    required_flags, mask_required_flags]

theorem rule_violation_publish (K : Consts) (fl n : Nat) :
    mqtt_fixed_header_rule_violation K ⟨MQTT_CONTROL_PUBLISH, fl, n⟩ = 0 := by
  simp [mqtt_fixed_header_rule_violation, MQTT_CONTROL_PUBLISH, control_type_is_valid,
    required_flags, mask_required_flags]

theorem rule_violation_subscribe (K : Consts) (n : Nat) :
    mqtt_fixed_header_rule_violation K ⟨MQTT_CONTROL_SUBSCRIBE, 2, n⟩ = 0 := by
  simp [mqtt_fixed_header_rule_violation, MQTT_CONTROL_SUBSCRIBE, control_type_is_valid,
    required_flags, mask_required_flags]

theorem rule_violation_pingreq (K : Consts) (n : Nat) :
    mqtt_fixed_header_rule_violation K ⟨MQTT_CONTROL_PINGREQ, 0, n⟩ = 0 := by
  simp [mqtt_fixed_header_rule_violation, MQTT_CONTROL_PINGREQ, control_type_is_valid,
    required_flags, mask_required_flags]

theorem rule_violation_disconnect (K : Consts) (n : Nat) :
    mqtt_fixed_header_rule_violation K ⟨MQTT_CONTROL_DISCONNECT, 0, n⟩ = 0 := by
  simp [mqtt_fixed_header_rule_violation, MQTT_CONTROL_DISCONNECT, control_type_is_valid,
    required_flags, mask_required_flags]

theorem pack_str_length (str : List Nat) :
    (__mqtt_pack_str str).2.length = str.length % 65536 + 2 := by
  have : str.length % 65536 ≤ str.length := Nat.mod_le _ _
  simp [__mqtt_pack_str, __mqtt_pack_uint16]
  omega

theorem pack_uint16_length (x : Nat) : (__mqtt_pack_uint16 x).2.length = 2 := by
  simp [__mqtt_pack_uint16]

theorem memcpy_length (src : List Nat) (n : Nat) : (memcpy src n).length = n := by
  simp [memcpy]

theorem toUInt16_sub (a b : Nat) (h : b ≤ a) (ha : a < 65536) :
    toUInt16 ((a : Int) - (b : Nat)) = a - b := by
  unfold toUInt16
  omega

set_option maxRecDepth 100000 in
theorem connect_flag_bits : ∀ x < 256,
    ((((x ||| 4) ||| 32) &&& 127) &&& 191) &&& 4 ≠ 0 ∧
    ((((x ||| 4) ||| 32) &&& 127) &&& 191) &&& 128 = 0 ∧
    ((((x ||| 4) ||| 32) &&& 127) &&& 191) &&& 64 = 0 ∧
    ((((x ||| 4) ||| 32) ||| 128) &&& 191) &&& 4 ≠ 0 ∧
    ((((x ||| 4) ||| 32) ||| 128) &&& 191) &&& 128 ≠ 0 ∧
    ((((x ||| 4) ||| 32) ||| 128) &&& 191) &&& 64 = 0 ∧
    ((((x ||| 4) ||| 32) &&& 127) ||| 64) &&& 4 ≠ 0 ∧
    ((((x ||| 4) ||| 32) &&& 127) ||| 64) &&& 128 = 0 ∧
    ((((x ||| 4) ||| 32) &&& 127) ||| 64) &&& 64 ≠ 0 ∧
    ((((x ||| 4) ||| 32) ||| 128) ||| 64) &&& 4 ≠ 0 ∧
    ((((x ||| 4) ||| 32) ||| 128) ||| 64) &&& 128 ≠ 0 ∧
    ((((x ||| 4) ||| 32) ||| 128) ||| 64) &&& 64 ≠ 0 := by decide

set_option maxRecDepth 100000 in
theorem connect_flag_bit0 : ∀ c < 256,
    (((((c &&& 254) % 256 ||| 4) ||| 32) &&& 127) &&& 191) &&& 1 = 0 ∧
    (((((c &&& 254) % 256 ||| 4) ||| 32) ||| 128) &&& 191) &&& 1 = 0 ∧
    (((((c &&& 254) % 256 ||| 4) ||| 32) &&& 127) ||| 64) &&& 1 = 0 ∧
    (((((c &&& 254) % 256 ||| 4) ||| 32) ||| 128) ||| 64) &&& 1 = 0 := by decide

theorem and_254_mod (c : Nat) : (c &&& 254) % 256 = ((c % 256) &&& 254) % 256 := by
  have h : c % 256 = c &&& 255 := (Nat.and_pow_two_sub_one_eq_mod c 8).symm
  rw [h, Nat.and_assoc]
  rfl

/-- The bits of the connect-flags byte that the claims speak of. -/
theorem connect_flag_byte (c : Nat) :
    ((((((c &&& 254) % 256 ||| 4) ||| 32) &&& 127) &&& 191) < 256 ∧
      (((((c &&& 254) % 256 ||| 4) ||| 32) &&& 127) &&& 191) &&& 1 = 0) ∧
    ((((((c &&& 254) % 256 ||| 4) ||| 32) ||| 128) &&& 191) < 256 ∧
      (((((c &&& 254) % 256 ||| 4) ||| 32) ||| 128) &&& 191) &&& 1 = 0) ∧
    ((((((c &&& 254) % 256 ||| 4) ||| 32) &&& 127) ||| 64) < 256 ∧
      (((((c &&& 254) % 256 ||| 4) ||| 32) &&& 127) ||| 64) &&& 1 = 0) ∧
    ((((((c &&& 254) % 256 ||| 4) ||| 32) ||| 128) ||| 64) < 256 ∧
      (((((c &&& 254) % 256 ||| 4) ||| 32) ||| 128) ||| 64) &&& 1 = 0) := by
  have hx : (c &&& 254) % 256 < 2 ^ 8 := Nat.mod_lt _ (by decide)
  obtain ⟨h1, h2, h3, h4⟩ := connect_flag_bit0 (c % 256) (Nat.mod_lt _ (by decide))
  rw [← and_254_mod] at h1 h2 h3 h4
  have o4 : (c &&& 254) % 256 ||| 4 < 2 ^ 8 := Nat.or_lt_two_pow hx (by decide)
  have o32 : ((c &&& 254) % 256 ||| 4) ||| 32 < 2 ^ 8 := Nat.or_lt_two_pow o4 (by decide)
  have a127 : (((c &&& 254) % 256 ||| 4) ||| 32) &&& 127 < 2 ^ 8 :=
    lt_of_le_of_lt Nat.and_le_left o32
  have o128 : (((c &&& 254) % 256 ||| 4) ||| 32) ||| 128 < 2 ^ 8 :=
    Nat.or_lt_two_pow o32 (by decide)
  exact ⟨⟨lt_of_le_of_lt Nat.and_le_left a127, h1⟩, ⟨lt_of_le_of_lt Nat.and_le_left o128, h2⟩,
    ⟨Nat.or_lt_two_pow a127 (by decide), h3⟩, ⟨Nat.or_lt_two_pow o128 (by decide), h4⟩⟩

theorem connect_length_mod (client_id will_topic : List Nat) (will_message_size : Nat)
    (user_name password : Option (List Nat)) :
    (match password with
      | some p =>
        ((match user_name with
          | some u =>
            (((10 + __mqtt_packed_cstrlen client_id) % 65536 + __mqtt_packed_cstrlen will_topic)
              % 65536 + (2 + will_message_size)) % 65536 + __mqtt_packed_cstrlen u
          | none =>
            ((10 + __mqtt_packed_cstrlen client_id) % 65536 + __mqtt_packed_cstrlen will_topic)
              % 65536 + (2 + will_message_size)) % 65536 + __mqtt_packed_cstrlen p) % 65536
      | none =>
        (match user_name with
          | some u =>
            (((10 + __mqtt_packed_cstrlen client_id) % 65536 + __mqtt_packed_cstrlen will_topic)
              % 65536 + (2 + will_message_size)) % 65536 + __mqtt_packed_cstrlen u
          | none =>
            ((10 + __mqtt_packed_cstrlen client_id) % 65536 + __mqtt_packed_cstrlen will_topic)
              % 65536 + (2 + will_message_size)) % 65536)
      = connect_remaining_length client_id will_topic will_message_size user_name password
          % 65536 := by
  cases user_name <;> cases password <;>
    simp only [connect_remaining_length, __mqtt_packed_cstrlen] <;> omega

theorem pack_connection_request_short (K : Consts) (bufsz : Nat) (client_id will_topic : List Nat)
    (will_message : List Nat) (will_message_size : Nat) (user_name password : Option (List Nat))
    (connect_flags keep_alive : Nat)
    (hN : connect_remaining_length client_id will_topic will_message_size user_name password
      < 65536)
    (hcap : bufsz < packet_size
      (connect_remaining_length client_id will_topic will_message_size user_name password)) :
    (mqtt_pack_connection_request K bufsz client_id will_topic will_message will_message_size
      user_name password connect_flags keep_alive).1 = 0 := by
  unfold packet_size at hcap
  have hmod := connect_length_mod client_id will_topic will_message_size user_name password
  rw [Nat.mod_eq_of_lt hN] at hmod
  have h0 := pack_fixed_header_short K MQTT_CONTROL_CONNECT 0 _ bufsz
    (show connect_remaining_length client_id will_topic will_message_size user_name password
      < 2 ^ 32 by omega) (rule_violation_connect K _) hcap
  cases user_name <;> cases password <;>
  · simp only [mqtt_pack_connection_request]
    simp only at hmod
    rw [hmod]
    simp [h0]

theorem optional_field_length_le (o : Option (List Nat)) (n : Nat)
    (h : ∀ s, o = some s → s.length ≤ n) : (optional_field o).length ≤ n + 2 := by
  cases o with
  | none => simp [optional_field]
  | some s => have := h s rfl; simp [optional_field, length_prefixed_length]; omega

/-- The bytes of a connect request, for strings that `__mqtt_pack_str` reports with
their true size. -/
theorem pack_connection_request_wire (K : Consts) (bufsz : Nat)
    (client_id will_topic : List Nat) (will_message : List Nat) (will_message_size : Nat)
    (user_name password : Option (List Nat)) (connect_flags keep_alive : Nat)
    (hb : bufsz < 65536) (hc : client_id.length ≤ 32765) (hw : will_topic.length ≤ 32765)
    (hu : ∀ u, user_name = some u → u.length ≤ 32765)
    (hp : ∀ p, password = some p → p.length ≤ 32765)
    (hcap : packet_size
      (connect_remaining_length client_id will_topic will_message_size user_name password)
        ≤ bufsz) :
    ∃ flags : Nat, flags < 256 ∧ flags &&& 4 ≠ 0 ∧ flags &&& 1 = 0 ∧
      (flags &&& 128 ≠ 0 ↔ user_name.isSome = true) ∧
      (flags &&& 64 ≠ 0 ↔ password.isSome = true) ∧
      mqtt_pack_connection_request K bufsz client_id will_topic will_message will_message_size
        user_name password connect_flags keep_alive
      = (toInt16 (packet_size
          (connect_remaining_length client_id will_topic will_message_size user_name password)),
         (MQTT_CONTROL_CONNECT * 16) ::
           (encode_remaining_length 5
             (connect_remaining_length client_id will_topic will_message_size user_name password)
           ++ ([0x00, 0x04, 77, 81, 84, 84, K.MQTT_PROTOCOL_LEVEL % 256, flags]
             ++ (uint16_be keep_alive ++ (length_prefixed client_id
             ++ (length_prefixed will_topic ++ (uint16_be will_message_size
             ++ (memcpy will_message will_message_size
             ++ (optional_field user_name ++ optional_field password))))))))) := by
  unfold packet_size at hcap ⊢
  have hpos := remaining_length_size_pos
    (connect_remaining_length client_id will_topic will_message_size user_name password)
  have hle := remaining_length_size_le
    (connect_remaining_length client_id will_topic will_message_size user_name password)
  have hN : connect_remaining_length client_id will_topic will_message_size user_name password
      < 65536 := by omega
  have hmod := connect_length_mod client_id will_topic will_message_size user_name password
  rw [Nat.mod_eq_of_lt hN] at hmod
  have h0 := pack_fixed_header_fits K MQTT_CONTROL_CONNECT 0 _ bufsz (by decide) (by decide)
    (show connect_remaining_length client_id will_topic will_message_size user_name password
      < 2 ^ 32 by omega) (rule_violation_connect K _) hcap
  have hx : (connect_flags &&& 254) % 256 < 256 := Nat.mod_lt _ (by decide)
  obtain ⟨b1, b2, b3, b4, b5, b6, b7, b8, b9, b10, b11, b12⟩ := connect_flag_bits _ hx
  obtain ⟨⟨c1, c2⟩, ⟨c3, c4⟩, ⟨c5, c6⟩, ⟨c7, c8⟩⟩ := connect_flag_byte connect_flags
  have hrv : ¬ ((1 + remaining_length_size
      (connect_remaining_length client_id will_topic will_message_size user_name password) : Nat)
      : Int) ≤ 0 := by push_cast; omega
  have hsub := toUInt16_sub bufsz (1 + remaining_length_size
      (connect_remaining_length client_id will_topic will_message_size user_name password))
      (by omega) hb
  have hfit : ¬ (bufsz - (1 + remaining_length_size
      (connect_remaining_length client_id will_topic will_message_size user_name password))
      < connect_remaining_length client_id will_topic will_message_size user_name password) := by
    omega
  have hsz : (encode_remaining_length 5
      (connect_remaining_length client_id will_topic will_message_size user_name password)).length
      = remaining_length_size
        (connect_remaining_length client_id will_topic will_message_size user_name password) :=
    rfl
  rcases user_name with _ | u <;> rcases password with _ | p
  · refine ⟨_, c1, b1, c2, by simpa using b2, by simpa using b3, ?_⟩
    simp only [mqtt_pack_connection_request]
    simp only at hmod
    rw [hmod, h0]
    simp only [hrv, if_false, hsub, hfit, MQTT_CONNECT_RESERVED, MQTT_CONNECT_WILL_FLAG,
      MQTT_CONNECT_WILL_RETAIN, MQTT_CONNECT_USER_NAME, MQTT_CONNECT_PASSWORD, Nat.reduceSub,
      b1, b2, b3, ne_eq, not_true_eq_false, not_false_eq_true, if_true,
      pack_str_fst_short client_id hc, pack_str_fst_short will_topic hw,
      pack_str_snd client_id (by omega), pack_str_snd will_topic (by omega),
      pack_uint16_fst, pack_uint16_snd]
    simp (disch := simp only [List.length_cons, List.length_append, List.length_nil, hsz,
      memcpy_length, uint16_be_length, length_prefixed_length]; push_cast; omega) only [put_end]
    simp only [List.append_assoc, List.cons_append, optional_field, List.append_nil]
    refine Prod.ext ?_ rfl
    simp only [connect_remaining_length] at hN ⊢
    congr 1
    push_cast
    omega
  · have hp' := hp p rfl
    refine ⟨_, c5, b7, c6, by simpa using b8, by simpa using b9, ?_⟩
    simp only [mqtt_pack_connection_request]
    simp only at hmod
    rw [hmod, h0]
    simp only [hrv, if_false, hsub, hfit, MQTT_CONNECT_RESERVED, MQTT_CONNECT_WILL_FLAG,
      MQTT_CONNECT_WILL_RETAIN, MQTT_CONNECT_USER_NAME, MQTT_CONNECT_PASSWORD, Nat.reduceSub,
      b7, b8, b9, ne_eq, not_true_eq_false, not_false_eq_true, if_true,
      pack_str_fst_short client_id hc, pack_str_fst_short will_topic hw,
      pack_str_snd client_id (by omega), pack_str_snd will_topic (by omega),
      pack_uint16_fst, pack_uint16_snd, Option.getD_some,
      pack_str_fst_short p hp', pack_str_snd p (by omega)]
    simp (disch := simp only [List.length_cons, List.length_append, List.length_nil, hsz,
      memcpy_length, uint16_be_length, length_prefixed_length]; push_cast; omega) only [put_end]
    simp only [List.append_assoc, List.cons_append, optional_field, List.append_nil]
    refine Prod.ext ?_ rfl
    simp only [connect_remaining_length] at hN ⊢
    congr 1
    push_cast
    omega
  · have hu' := hu u rfl
    refine ⟨_, c3, b4, c4, by simpa using b5, by simpa using b6, ?_⟩
    simp only [mqtt_pack_connection_request]
    simp only at hmod
    rw [hmod, h0]
    simp only [hrv, if_false, hsub, hfit, MQTT_CONNECT_RESERVED, MQTT_CONNECT_WILL_FLAG,
      MQTT_CONNECT_WILL_RETAIN, MQTT_CONNECT_USER_NAME, MQTT_CONNECT_PASSWORD, Nat.reduceSub,
      b4, b5, b6, ne_eq, not_true_eq_false, not_false_eq_true, if_true,
      pack_str_fst_short client_id hc, pack_str_fst_short will_topic hw,
      pack_str_snd client_id (by omega), pack_str_snd will_topic (by omega),
      pack_uint16_fst, pack_uint16_snd, Option.getD_some,
      pack_str_fst_short u hu', pack_str_snd u (by omega)]
    simp (disch := simp only [List.length_cons, List.length_append, List.length_nil, hsz,
      memcpy_length, uint16_be_length, length_prefixed_length]; push_cast; omega) only [put_end]
    simp only [List.append_assoc, List.cons_append, optional_field, List.append_nil]
    refine Prod.ext ?_ rfl
    simp only [connect_remaining_length] at hN ⊢
    congr 1
    push_cast
    omega
  · have hu' := hu u rfl
    have hp' := hp p rfl
    refine ⟨_, c7, b10, c8, by simpa using b11, by simpa using b12, ?_⟩
    simp only [mqtt_pack_connection_request]
    simp only at hmod
    rw [hmod, h0]
    simp only [hrv, if_false, hsub, hfit, MQTT_CONNECT_RESERVED, MQTT_CONNECT_WILL_FLAG,
      MQTT_CONNECT_WILL_RETAIN, MQTT_CONNECT_USER_NAME, MQTT_CONNECT_PASSWORD, Nat.reduceSub,
      b10, b11, b12, ne_eq, not_true_eq_false, not_false_eq_true, if_true,
      pack_str_fst_short client_id hc, pack_str_fst_short will_topic hw,
      pack_str_snd client_id (by omega), pack_str_snd will_topic (by omega),
      pack_uint16_fst, pack_uint16_snd, Option.getD_some,
      pack_str_fst_short u hu', pack_str_snd u (by omega), pack_str_fst_short p hp',
      pack_str_snd p (by omega)]
    simp (disch := simp only [List.length_cons, List.length_append, List.length_nil, hsz,
      memcpy_length, uint16_be_length, length_prefixed_length]; push_cast; omega) only [put_end]
    simp only [List.append_assoc, List.cons_append, optional_field, List.append_nil]
    refine Prod.ext ?_ rfl
    simp only [connect_remaining_length] at hN ⊢
    congr 1
    push_cast
    omega


theorem pack_str_fst_cases (str : List Nat) (h : str.length + 2 < 65536) :
    (__mqtt_pack_str str).1 = (str.length : Int) + 2 ∨
    (32766 ≤ str.length ∧ (__mqtt_pack_str str).1 = (str.length : Int) + 2 - 65536) := by
  rw [pack_str_fst, Nat.mod_eq_of_lt (by omega)]
  rcases toInt16_cases (str.length + 2) h with ⟨-, h2⟩ | ⟨h1, h2⟩
  · left; rw [h2]; push_cast; rfl
  · right; refine ⟨by omega, ?_⟩; rw [h2]; push_cast; rfl

/-- The fixed header of a connect request stays in place whatever the strings are: a
store made after the write pointer has gone back ends below the start of the buffer. -/
theorem pack_connection_request_header (K : Consts) (bufsz : Nat)
    (client_id will_topic : List Nat) (will_message : List Nat) (will_message_size : Nat)
    (connect_flags keep_alive : Nat) (hb : bufsz < 65536)
    (hcap : packet_size
      (connect_remaining_length client_id will_topic will_message_size none none) ≤ bufsz) :
    (MQTT_CONTROL_CONNECT * 16) :: encode_remaining_length 5
        (connect_remaining_length client_id will_topic will_message_size none none)
      <+: (mqtt_pack_connection_request K bufsz client_id will_topic will_message
        will_message_size none none connect_flags keep_alive).2 := by
  unfold packet_size at hcap
  have hpos := remaining_length_size_pos
    (connect_remaining_length client_id will_topic will_message_size none none)
  have hle := remaining_length_size_le
    (connect_remaining_length client_id will_topic will_message_size none none)
  have hN : connect_remaining_length client_id will_topic will_message_size none none
      < 65536 := by omega
  have hmod := connect_length_mod client_id will_topic will_message_size none none
  rw [Nat.mod_eq_of_lt hN] at hmod
  have h0 := pack_fixed_header_fits K MQTT_CONTROL_CONNECT 0 _ bufsz (by decide) (by decide)
    (show connect_remaining_length client_id will_topic will_message_size none none
      < 2 ^ 32 by omega) (rule_violation_connect K _) hcap
  have hx : (connect_flags &&& 254) % 256 < 256 := Nat.mod_lt _ (by decide)
  obtain ⟨b1, b2, b3, -⟩ := connect_flag_bits _ hx
  have hrv : ¬ ((1 + remaining_length_size
      (connect_remaining_length client_id will_topic will_message_size none none) : Nat)
      : Int) ≤ 0 := by push_cast; omega
  have hsub := toUInt16_sub bufsz (1 + remaining_length_size
      (connect_remaining_length client_id will_topic will_message_size none none))
      (by omega) hb
  have hfit : ¬ (bufsz - (1 + remaining_length_size
      (connect_remaining_length client_id will_topic will_message_size none none))
      < connect_remaining_length client_id will_topic will_message_size none none) := by
    omega
  have hsz : (encode_remaining_length 5
      (connect_remaining_length client_id will_topic will_message_size none none)).length
      = remaining_length_size
        (connect_remaining_length client_id will_topic will_message_size none none) :=
    rfl
  have hcl : client_id.length < 65536 := by
    simp only [connect_remaining_length] at hN; omega
  have hwl : will_topic.length < 65536 := by
    simp only [connect_remaining_length] at hN; omega
  have hc := pack_str_fst_cases client_id (by
    simp only [connect_remaining_length] at hN; omega)
  have hw := pack_str_fst_cases will_topic (by
    simp only [connect_remaining_length] at hN; omega)
  generalize hd1 : (__mqtt_pack_str client_id).1 = d1 at hc
  generalize hd2 : (__mqtt_pack_str will_topic).1 = d2 at hw
  have key : ∀ r : Int × List Nat,
      r = mqtt_pack_connection_request K bufsz client_id will_topic will_message
        will_message_size none none connect_flags keep_alive →
      (MQTT_CONTROL_CONNECT * 16) :: encode_remaining_length 5
        (connect_remaining_length client_id will_topic will_message_size none none)
        <+: r.2 := by
    intro r hr
    simp only [mqtt_pack_connection_request] at hr
    simp only at hmod
    rw [hmod, h0] at hr
    simp only [hrv, if_false, hsub, hfit, MQTT_CONNECT_RESERVED, MQTT_CONNECT_WILL_FLAG,
      MQTT_CONNECT_WILL_RETAIN, MQTT_CONNECT_USER_NAME, MQTT_CONNECT_PASSWORD,
      Nat.reduceSub] at hr
    rw [if_neg (not_not.mpr b3), if_neg (not_not.mpr b2), if_pos b1] at hr
    dsimp only at hr
    simp only [pack_uint16_fst, pack_uint16_snd, hd1, hd2, pack_str_snd client_id hcl,
      pack_str_snd will_topic hwl] at hr
    rw [hr]
    simp only [connect_remaining_length] at hcap hN hsz ⊢
    refine put_preserves _ _ _ _ (put_preserves _ _ _ _ (put_preserves _ _ _ _ (put_preserves _ _ _ _
      (put_preserves _ _ _ _ (put_preserves _ _ _ _ (List.prefix_refl _) ?_) ?_) ?_) ?_) ?_) ?_
    all_goals
      simp only [List.length_cons, List.length_nil, hsz, memcpy_length, uint16_be_length,
        length_prefixed_length]
      push_cast
      omega
  exact key _ rfl


/-- The value of the remaining-length field that encodes `n`, read as the spec words the
code, is `n`. -/
theorem decode_encode_remaining_length (f : Nat) : ∀ n : Nat, n < 128 ^ (f + 1) →
    decode_remaining_length (encode_remaining_length (f + 1) n) = n := by
  induction f with
  | zero =>
    intro n hn
    have h' : n ≤ 127 := by omega
    rw [encode_remaining_length_last 0 n h']
    simp only [decode_remaining_length]
    omega
  | succ f ih =>
    intro n hn
    by_cases h' : n ≤ 127
    · rw [encode_remaining_length_last (f + 1) n h']
      simp only [decode_remaining_length]
      omega
    · have h'' : 127 < n := by omega
      have hdiv : n / 128 < 128 ^ (f + 1) := by
        rw [Nat.div_lt_iff_lt_mul (by decide)]
        calc n < 128 ^ (f + 1 + 1) := hn
          _ = 128 ^ (f + 1) * 128 := by ring
      rw [encode_remaining_length_more (f + 1) n h'']
      simp only [decode_remaining_length]
      rw [ih _ hdiv]
      omega

/-- C3: with user name and password absent and a buffer that holds the packet,
`mqtt_pack_connection_request` writes a fixed header (first byte `0x10`) whose
remaining-length field encodes exactly `10 + (L+2) + (T+2) + (2+W)`, for a client id
of `L` bytes, a will topic of `T` bytes and a will message of `W` bytes: the bytes
written start with that encoding, the value of the field (7 bits of each byte, the
low-order group first) is that number, and `mqtt_unpack_fixed_header` reads it back from
the bytes written when it fits the `int` of the tool set. -/
theorem connect_request_remaining_length (K : Consts) (r0 : mqtt_response) (bufsz : Nat)
    (client_id will_topic will_message : List Nat) (will_message_size : Nat)
    (connect_flags keep_alive : Nat) (hb : bufsz < 65536)
    (hcap : packet_size
      (10 + (client_id.length + 2) + (will_topic.length + 2) + (2 + will_message_size))
        ≤ bufsz) :
    (mqtt_pack_connection_request K bufsz client_id will_topic will_message will_message_size
        none none connect_flags keep_alive).2.take
        (1 + remaining_length_size
          (10 + (client_id.length + 2) + (will_topic.length + 2) + (2 + will_message_size)))
      = 0x10 :: encode_remaining_length 5
          (10 + (client_id.length + 2) + (will_topic.length + 2) + (2 + will_message_size)) ∧
    decode_remaining_length (encode_remaining_length 5
        (10 + (client_id.length + 2) + (will_topic.length + 2) + (2 + will_message_size)))
      = 10 + (client_id.length + 2) + (will_topic.length + 2) + (2 + will_message_size) ∧
    (10 + (client_id.length + 2) + (will_topic.length + 2) + (2 + will_message_size)
        < 2 ^ (K.int_bits - 1) →
      (mqtt_unpack_fixed_header K r0
          (mqtt_pack_connection_request K bufsz client_id will_topic will_message
            will_message_size none none connect_flags keep_alive).2
          (mqtt_pack_connection_request K bufsz client_id will_topic will_message
            will_message_size none none connect_flags keep_alive).2.length).2.fixed_header
        = ⟨MQTT_CONTROL_CONNECT, 0,
            10 + (client_id.length + 2) + (will_topic.length + 2)
              + (2 + will_message_size)⟩) := by
  have hN : connect_remaining_length client_id will_topic will_message_size none none
      = 10 + (client_id.length + 2) + (will_topic.length + 2) + (2 + will_message_size) := by
    simp [connect_remaining_length]
  rw [← hN] at hcap ⊢
  obtain ⟨t, ht⟩ := pack_connection_request_header K bufsz client_id will_topic will_message
    will_message_size connect_flags keep_alive hb hcap
  rw [← ht]
  unfold packet_size at hcap
  have hlt : connect_remaining_length client_id will_topic will_message_size none none
      < 2 ^ 28 := by omega
  have hlen : (MQTT_CONTROL_CONNECT * 16 :: encode_remaining_length 5
      (connect_remaining_length client_id will_topic will_message_size none none)).length
      = 1 + remaining_length_size
        (connect_remaining_length client_id will_topic will_message_size none none) := by
    simp [remaining_length_size]; omega
  refine ⟨?_, ?_, fun hfit => ?_⟩
  · rw [← hlen, List.take_left']
    · rfl
    · rfl
  · exact decode_encode_remaining_length 4 _ (by norm_num; omega)
  · have hun := unpack_fixed_header_header K r0 MQTT_CONTROL_CONNECT 0
      (connect_remaining_length client_id will_topic will_message_size none none)
      (MQTT_CONTROL_CONNECT * 16 :: encode_remaining_length 5
        (connect_remaining_length client_id will_topic will_message_size none none) ++ t).length
      t (by decide) (by decide) hlt hfit
      (by rw [List.length_append, hlen]; omega)
    simp only [Nat.add_zero] at hun
    exact hun

/-- Witness of `connect_request_remaining_length`: client id "ab", will topic "w", a
will message of 3 bytes, in the 140-byte send buffer. -/
theorem connect_request_remaining_length_witness :
    (mqtt_pack_connection_request sampleConsts 140 [97, 98] [119] [1, 2, 3] 3
        none none 0 60).2.take
        (1 + remaining_length_size (10 + ([97, 98].length + 2) + ([119].length + 2) + (2 + 3)))
      = 0x10 :: encode_remaining_length 5
          (10 + ([97, 98].length + 2) + ([119].length + 2) + (2 + 3)) ∧
    (mqtt_unpack_fixed_header sampleConsts sampleResponse
        (mqtt_pack_connection_request sampleConsts 140 [97, 98] [119] [1, 2, 3] 3
          none none 0 60).2
        (mqtt_pack_connection_request sampleConsts 140 [97, 98] [119] [1, 2, 3] 3
          none none 0 60).2.length).2.fixed_header
      = ⟨MQTT_CONTROL_CONNECT, 0, 10 + ([97, 98].length + 2) + ([119].length + 2) + (2 + 3)⟩ :=
  ⟨(connect_request_remaining_length sampleConsts sampleResponse 140 [97, 98] [119] [1, 2, 3] 3
      0 60 (by decide) (by decide)).1,
    (connect_request_remaining_length sampleConsts sampleResponse 140 [97, 98] [119] [1, 2, 3] 3
      0 60 (by decide) (by decide)).2.2 (by decide)⟩


/-! ## Message queue -/

theorem mq_chain_le : ∀ (l : List mqtt_queued_message) (a b : Int), mq_chain l a b → a ≤ b
  | [], a, b, h => by simp only [mq_chain] at h; omega
  | msg :: rest, a, b, h => by
    simp only [mq_chain] at h
    have := mq_chain_le rest _ _ h.2
    omega

theorem mq_chain_append : ∀ (l : List mqtt_queued_message) (a b : Int) (msg : mqtt_queued_message),
    mq_chain l a b → msg.start = b → mq_chain (l ++ [msg]) a (b + msg.size)
  | [], a, b, msg, h, hs => by
    simp only [mq_chain] at h
    simp only [List.nil_append, mq_chain]
    subst h
    exact ⟨hs, rfl⟩
  | m :: rest, a, b, msg, h, hs => by
    simp only [mq_chain] at h
    simp only [List.cons_append, mq_chain]
    exact ⟨h.1, mq_chain_append rest _ _ msg h.2 hs⟩

theorem mq_chain_modify_state (s : MQTTQueuedMessageState) :
    ∀ (l : List mqtt_queued_message) (i : Nat) (a b : Int),
    mq_chain l a b → mq_chain (l.modify (fun msg => { msg with state := s }) i) a b
  | [], i, a, b, h => by cases i <;> simpa [List.modify] using h
  | m :: rest, 0, a, b, h => by
    simp only [mq_chain] at h
    simpa [List.modify, mq_chain] using h
  | m :: rest, i + 1, a, b, h => by
    simp only [mq_chain] at h
    simp only [List.modify_succ_cons, mq_chain]
    exact ⟨h.1, mq_chain_modify_state s rest i _ _ h.2⟩

theorem mq_chain_drop (d : mqtt_queued_message) :
    ∀ (l : List mqtt_queued_message) (i : Nat) (a b : Int), mq_chain l a b → i < l.length →
      a ≤ (l.getD i d).start ∧ mq_chain (l.drop i) (l.getD i d).start b
  | [], i, a, b, _, hi => by simp at hi
  | m :: rest, 0, a, b, h, _ => by
    have h' := h
    simp only [mq_chain] at h
    simp only [List.getD_cons_zero, List.drop_zero]
    refine ⟨by omega, ?_⟩
    rw [h.1]
    exact h'
  | m :: rest, i + 1, a, b, h, hi => by
    simp only [mq_chain] at h
    simp only [List.length_cons] at hi
    have := mq_chain_drop d rest i _ _ h.2 (by omega)
    simp only [List.getD_cons_succ, List.drop_succ_cons]
    exact ⟨by omega, this.2⟩

theorem mq_chain_shift (r : Int) : ∀ (l : List mqtt_queued_message) (a b : Int), mq_chain l a b →
    mq_chain (l.map (fun msg => { msg with start := msg.start - r })) (a - r) (b - r)
  | [], a, b, h => by
    simp only [mq_chain] at h
    simp only [List.map_nil, mq_chain]
    omega
  | m :: rest, a, b, h => by
    simp only [mq_chain] at h
    simp only [List.map_cons, mq_chain]
    refine ⟨by omega, ?_⟩
    have := mq_chain_shift r rest _ _ h.2
    rw [show a - r + (m.size : Int) = a + m.size - r by omega]
    exact this

theorem toUInt16_of_range (z : Int) (h0 : 0 ≤ z) (h1 : z < 65536) : (toUInt16 z : Int) = z := by
  unfold toUInt16
  omega

theorem mq_init_well_formed (K : Consts) (buf : List Nat) (bufsz : Nat) (hb : bufsz < 65536) :
    mq_well_formed K (mqtt_mq_init K buf bufsz) where
  mem_end_nonneg := by simp [mqtt_mq_init]
  mem_end_lt := by simp [mqtt_mq_init]; omega
  chain := by simp [mqtt_mq_init, mq_chain]
  no_overlap := by simp [mqtt_mq_init, mqtt_message_queue.queue_tail]
  curr_sz_eq := by simp [mqtt_mq_init, mqtt_message_queue.queue_tail]

theorem mq_register_well_formed (K : Consts) (mq : mqtt_message_queue) (nbytes : Nat)
    (stale : mqtt_queued_message) (h : mq_well_formed K mq)
    (hroom : mq.curr + (nbytes : Int) + (K.sizeof_queued_message : Int) ≤ mq.queue_tail K) :
    mq_well_formed K (mqtt_mq_register K mq nbytes stale) where
  mem_end_nonneg := h.mem_end_nonneg
  mem_end_lt := h.mem_end_lt
  chain := by
    simp only [mqtt_mq_register]
    exact mq_chain_append mq.queue 0 mq.curr _ h.chain rfl
  no_overlap := by
    simp only [mqtt_mq_register, mqtt_message_queue.queue_tail, List.length_append,
      List.length_singleton] at hroom ⊢
    push_cast
    linarith
  curr_sz_eq := by
    simp only [mqtt_mq_register, mqtt_message_queue.queue_tail]

theorem mq_set_state_well_formed (K : Consts) (mq : mqtt_message_queue) (i : Nat)
    (s : MQTTQueuedMessageState) (h : mq_well_formed K mq) :
    mq_well_formed K (mqtt_mq_set_state mq i s) where
  mem_end_nonneg := h.mem_end_nonneg
  mem_end_lt := h.mem_end_lt
  chain := by
    simp only [mqtt_mq_set_state]
    exact mq_chain_modify_state s _ _ _ _ h.chain
  no_overlap := by
    have := h.no_overlap
    simpa [mqtt_mq_set_state, mqtt_message_queue.queue_tail] using this
  curr_sz_eq := by
    have := h.curr_sz_eq
    simpa [mqtt_mq_set_state, mqtt_message_queue.queue_tail] using this


theorem writeAt_length (mem : List Nat) (off : Nat) (bytes : List Nat) :
    (writeAt mem off bytes).length = mem.length := by
  simp only [writeAt, List.length_append, List.length_take, List.length_drop]
  omega

theorem memmove_length (mem : List Nat) (dst src n : Nat) :
    (memmove mem dst src n).length = mem.length := writeAt_length _ _ _

theorem mq_clean_scan_le : ∀ l : List mqtt_queued_message, mqtt_mq_clean_scan l ≤ l.length
  | [] => by simp [mqtt_mq_clean_scan]
  | m :: rest => by
    have := mq_clean_scan_le rest
    simp only [mqtt_mq_clean_scan, List.length_cons]
    split <;> omega

theorem mq_clean_scan_state (d : mqtt_queued_message) : ∀ l : List mqtt_queued_message,
    mqtt_mq_clean_scan l < l.length →
      (l.getD (mqtt_mq_clean_scan l) d).state ≠ MQTTQueuedMessageState.MQTT_QUEUED_COMPLETE
  | [], h => by simp at h
  | m :: rest, h => by
    simp only [mqtt_mq_clean_scan, List.length_cons] at h ⊢
    by_cases hm : m.state ≠ MQTTQueuedMessageState.MQTT_QUEUED_COMPLETE
    · simp [hm]
    · simp only [hm, if_false] at h ⊢
      simp only [List.getD_cons_succ]
      exact mq_clean_scan_state d rest (by omega)

theorem mq_clean_scan_before : ∀ (l : List mqtt_queued_message) (i : Nat),
    i < mqtt_mq_clean_scan l → ∀ d, (l.getD i d).state = MQTTQueuedMessageState.MQTT_QUEUED_COMPLETE
  | [], i, h, d => by simp [mqtt_mq_clean_scan] at h
  | m :: rest, i, h, d => by
    simp only [mqtt_mq_clean_scan] at h
    by_cases hm : m.state ≠ MQTTQueuedMessageState.MQTT_QUEUED_COMPLETE
    · simp [hm] at h
    · simp only [hm, if_false] at h
      cases i with
      | zero => simpa using hm
      | succ j =>
        simp only [List.getD_cons_succ]
        exact mq_clean_scan_before rest j (by omega) d

theorem mq_clean_well_formed (K : Consts) (mq : mqtt_message_queue) (h : mq_well_formed K mq) :
    mq_well_formed K (mqtt_mq_clean K mq) := by
  unfold mqtt_mq_clean
  by_cases h1 : mq.queue.length ≤ mqtt_mq_clean_scan mq.queue
  · simp only [h1, if_true]
    exact {
      mem_end_nonneg := h.mem_end_nonneg
      mem_end_lt := h.mem_end_lt
      chain := by simp [mq_chain]
      no_overlap := by
        have := h.mem_end_nonneg
        simpa [mqtt_message_queue.queue_tail] using this
      curr_sz_eq := by simp [mqtt_message_queue.queue_tail] }
  · simp only [h1, if_false]
    by_cases h2 : mqtt_mq_clean_scan mq.queue = 0
    · simp only [h2, if_true]
      exact h
    · simp only [h2, if_false]
      have hlt : mqtt_mq_clean_scan mq.queue < mq.queue.length := by omega
      obtain ⟨hs0, hch⟩ := mq_chain_drop ⟨0, 0, MQTTQueuedMessageState.MQTT_QUEUED_UNSENT, 0, 0, 0⟩
        mq.queue (mqtt_mq_clean_scan mq.queue) 0 mq.curr h.chain hlt
      have hle := mq_chain_le _ _ _ hch
      have hno := h.no_overlap
      have hend := h.mem_end_lt
      have hD : (0 : Int) ≤ (K.sizeof_queued_message : Int) * (mq.queue.length : Int) := by
        positivity
      unfold mqtt_message_queue.queue_tail at hno
      generalize hst : (mq.queue.getD (mqtt_mq_clean_scan mq.queue)
        ⟨0, 0, MQTTQueuedMessageState.MQTT_QUEUED_UNSENT, 0, 0, 0⟩).start = start at hs0 hch hle ⊢
      have hrem : (toUInt16 start : Int) = start := toUInt16_of_range _ hs0 (by omega)
      have hn : (toUInt16 (mq.curr - start) : Int) = mq.curr - start :=
        toUInt16_of_range _ (by omega) (by omega)
      exact {
        mem_end_nonneg := h.mem_end_nonneg
        mem_end_lt := h.mem_end_lt
        chain := by
          simp only [hrem, hn]
          have := mq_chain_shift start _ _ _ hch
          simpa using this
        no_overlap := by
          simp only [mqtt_message_queue.queue_tail, hn, List.length_map, List.length_drop]
          have hsub : ((mq.queue.length - mqtt_mq_clean_scan mq.queue : Nat) : Int)
              ≤ (mq.queue.length : Int) := by omega
          have := mul_le_mul_of_nonneg_left hsub
            (show (0 : Int) ≤ (K.sizeof_queued_message : Int) by positivity)
          linarith
        curr_sz_eq := by simp only [mqtt_message_queue.queue_tail] }

theorem mq_step_well_formed (K : Consts) (mq : mqtt_message_queue) (op : mq_op)
    (h : mq_well_formed K mq) (hroom : mq_ops_leave_room K mq [op]) :
    mq_well_formed K (mq_step K mq op) := by
  cases op with
  | register nbytes stale =>
    exact mq_register_well_formed K mq nbytes stale h hroom.1
  | clean => exact mq_clean_well_formed K mq h
  | set_state i s => exact mq_set_state_well_formed K mq i s h

theorem mq_run_well_formed (K : Consts) : ∀ (ops : List mq_op) (mq : mqtt_message_queue),
    mq_well_formed K mq → mq_ops_leave_room K mq ops → mq_well_formed K (mq_run K mq ops)
  | [], mq, h, _ => h
  | op :: ops, mq, h, hroom => by
    simp only [mq_run]
    exact mq_run_well_formed K ops _
      (mq_step_well_formed K mq op h ⟨hroom.1, trivial⟩) hroom.2


/-- If `mqtt_mq_currsz` reports a positive size only when that many bytes and one more
descriptor fit below the descriptor front, then a `mqtt_mq_register` of at least one
and at most `curr_sz` bytes leaves room. -/
theorem mq_leave_room_of_curr_sz (K : Consts) (mq : mqtt_message_queue) (nbytes : Nat)
    (hK : ∀ e c t : Int, 0 < K.mqtt_mq_currsz e c t →
      c + (K.mqtt_mq_currsz e c t : Int) + (K.sizeof_queued_message : Int) ≤ t)
    (h : mq_well_formed K mq) (h0 : 0 < nbytes) (h1 : nbytes ≤ mq.curr_sz) :
    mq.curr + (nbytes : Int) + (K.sizeof_queued_message : Int) ≤ mq.queue_tail K := by
  have hsz := h.curr_sz_eq
  have := hK mq.mem_end mq.curr (mq.queue_tail K) (by omega)
  rw [← hsz] at this
  omega

/-- C4, as stated, fails: on the 140-byte region (descriptors of 12 bytes) a
`mqtt_mq_register` of 128 bytes followed by one of 0 bytes, each no larger than
`curr_sz` at that moment, leaves the data front (128) above the descriptor front
(116). -/
theorem queue_no_overlap_counterexample :
    mq_ops_within_curr_sz sampleConsts (mqtt_mq_init sampleConsts (List.replicate 140 0) 140)
      [mq_op.register 128 sampleMessage, mq_op.register 0 sampleMessage] ∧
    ¬ ((mq_run sampleConsts (mqtt_mq_init sampleConsts (List.replicate 140 0) 140)
          [mq_op.register 128 sampleMessage, mq_op.register 0 sampleMessage]).curr
        ≤ (mq_run sampleConsts (mqtt_mq_init sampleConsts (List.replicate 140 0) 140)
          [mq_op.register 128 sampleMessage, mq_op.register 0 sampleMessage]).queue_tail
            sampleConsts) := by
  refine ⟨⟨by decide, by decide, trivial⟩, by decide⟩

/-- C4 (amended): starting from `mqtt_mq_init` on a region of any `uint16_t` capacity,
after every sequence of `mqtt_mq_register` calls, each with a byte length that leaves
room for the bytes and for the new descriptor below the descriptor front, of state
changes of descriptors and of `mqtt_mq_clean` calls, the data front `curr` does not
exceed the descriptor front `queue_tail`. -/
theorem queue_no_overlap (K : Consts) (buf : List Nat) (bufsz : Nat) (ops : List mq_op)
    (hb : bufsz < 65536) (hroom : mq_ops_leave_room K (mqtt_mq_init K buf bufsz) ops) :
    (mq_run K (mqtt_mq_init K buf bufsz) ops).curr
      ≤ (mq_run K (mqtt_mq_init K buf bufsz) ops).queue_tail K :=
  (mq_run_well_formed K ops _ (mq_init_well_formed K buf bufsz hb) hroom).no_overlap

/-- Witness of `queue_no_overlap`: three messages are registered in the 140-byte
region, the first two are completed and the queue is compacted. -/
theorem queue_no_overlap_witness :
    (mq_run sampleConsts (mqtt_mq_init sampleConsts (List.replicate 140 0) 140)
        [mq_op.register 10 sampleMessage, mq_op.register 20 sampleMessage,
         mq_op.register 5 sampleMessage,
         mq_op.set_state 0 MQTTQueuedMessageState.MQTT_QUEUED_COMPLETE,
         mq_op.set_state 1 MQTTQueuedMessageState.MQTT_QUEUED_COMPLETE, mq_op.clean]).curr
      ≤ (mq_run sampleConsts (mqtt_mq_init sampleConsts (List.replicate 140 0) 140)
        [mq_op.register 10 sampleMessage, mq_op.register 20 sampleMessage,
         mq_op.register 5 sampleMessage,
         mq_op.set_state 0 MQTTQueuedMessageState.MQTT_QUEUED_COMPLETE,
         mq_op.set_state 1 MQTTQueuedMessageState.MQTT_QUEUED_COMPLETE,
         mq_op.clean]).queue_tail sampleConsts :=
  queue_no_overlap sampleConsts (List.replicate 140 0) 140 _ (by decide)
    ⟨by decide, by decide, by decide, trivial, trivial, trivial, trivial⟩

theorem mq_clean_scan_map (f : mqtt_queued_message → mqtt_queued_message)
    (hf : ∀ msg, (f msg).state = msg.state) :
    ∀ l : List mqtt_queued_message, mqtt_mq_clean_scan (l.map f) = mqtt_mq_clean_scan l
  | [] => rfl
  | m :: rest => by
    simp only [List.map_cons, mqtt_mq_clean_scan, hf, mq_clean_scan_map f hf rest]

theorem mq_clean_scan_drop : ∀ l : List mqtt_queued_message,
    mqtt_mq_clean_scan (l.drop (mqtt_mq_clean_scan l)) = 0
  | [] => by simp [mqtt_mq_clean_scan]
  | m :: rest => by
    by_cases hm : m.state ≠ MQTTQueuedMessageState.MQTT_QUEUED_COMPLETE
    · simp [mqtt_mq_clean_scan, hm]
    · simp only [mqtt_mq_clean_scan, hm, if_false, List.drop_succ_cons]
      exact mq_clean_scan_drop rest

theorem mq_clean_scan_zero_of_none_complete : ∀ l : List mqtt_queued_message,
    (∀ msg ∈ l, msg.state ≠ MQTTQueuedMessageState.MQTT_QUEUED_COMPLETE) →
      mqtt_mq_clean_scan l = 0
  | [], _ => rfl
  | m :: rest, h => by
    have := h m (List.mem_cons_self _ _)
    simp [mqtt_mq_clean_scan, this]

theorem mq_clean_clean (K : Consts) (mq : mqtt_message_queue) :
    mqtt_mq_clean K (mqtt_mq_clean K mq) = mqtt_mq_clean K mq := by
  by_cases h1 : mq.queue.length ≤ mqtt_mq_clean_scan mq.queue
  · have hR : mqtt_mq_clean K mq
        = { mq with curr := 0, queue := [],
                    curr_sz := K.mqtt_mq_currsz mq.mem_end 0 mq.mem_end } := by
      simp [mqtt_mq_clean, h1]
    rw [hR]
    simp [mqtt_mq_clean, mqtt_mq_clean_scan]
  · by_cases h2 : mqtt_mq_clean_scan mq.queue = 0
    · have h1' : ¬ mq.queue.length ≤ 0 := by omega
      have hR : mqtt_mq_clean K mq = mq := by
        rw [mqtt_mq_clean]
        simp only [h2]
        rw [if_neg h1', if_pos trivial]
      rw [hR, hR]
    · have hscan : mqtt_mq_clean_scan (mqtt_mq_clean K mq).queue = 0 := by
        simp only [mqtt_mq_clean, h1, h2, if_false]
        refine Eq.trans (mq_clean_scan_map _ ?_ _) (mq_clean_scan_drop _)
        intro msg
        rfl
      have hlen : ¬ (mqtt_mq_clean K mq).queue.length ≤ 0 := by
        simp only [mqtt_mq_clean, h1, h2, if_false, List.length_map, List.length_drop]
        omega
      generalize mqtt_mq_clean K mq = R at hscan hlen
      simp [mqtt_mq_clean, hscan, hlen]

/-- C5: `mqtt_mq_clean` leaves a well-formed queue without a `Complete` descriptor
unchanged (cursors, available space, descriptors and data bytes), and on every queue
a second `mqtt_mq_clean` in a row changes nothing. -/
theorem clean_idempotent (K : Consts) (mq : mqtt_message_queue) :
    (mq_well_formed K mq →
      (∀ msg ∈ mq.queue, msg.state ≠ MQTTQueuedMessageState.MQTT_QUEUED_COMPLETE) →
      mqtt_mq_clean K mq = mq) ∧
    mqtt_mq_clean K (mqtt_mq_clean K mq) = mqtt_mq_clean K mq := by
  refine ⟨?_, mq_clean_clean K mq⟩
  intro hwf hnone
  have hscan := mq_clean_scan_zero_of_none_complete mq.queue hnone
  by_cases h1 : mq.queue.length ≤ 0
  · have hq : mq.queue = [] := List.length_eq_zero.mp (by omega)
    have hch := hwf.chain
    have hsz := hwf.curr_sz_eq
    rw [hq] at hch
    simp only [mq_chain] at hch
    simp only [mqtt_message_queue.queue_tail, hq, List.length_nil, Nat.cast_zero, mul_zero,
      sub_zero, ← hch] at hsz
    cases mq with
    | mk mem mem_end curr curr_sz queue =>
      simp only at hq hch hsz
      subst hq hch
      simp [mqtt_mq_clean, mqtt_mq_clean_scan, hsz]
  · simp [mqtt_mq_clean, hscan, h1]

/-- Witness of `clean_idempotent`: a queue of two messages that are not `Complete`. -/
theorem clean_idempotent_witness :
    mqtt_mq_clean sampleConsts
        (mq_run sampleConsts (mqtt_mq_init sampleConsts (List.replicate 140 0) 140)
          [mq_op.register 10 sampleMessage, mq_op.register 20 sampleMessage])
      = mq_run sampleConsts (mqtt_mq_init sampleConsts (List.replicate 140 0) 140)
          [mq_op.register 10 sampleMessage, mq_op.register 20 sampleMessage] :=
  (clean_idempotent sampleConsts
      (mq_run sampleConsts (mqtt_mq_init sampleConsts (List.replicate 140 0) 140)
        [mq_op.register 10 sampleMessage, mq_op.register 20 sampleMessage])).1
    (mq_run_well_formed sampleConsts _ _ (mq_init_well_formed sampleConsts _ 140 (by decide))
      ⟨by decide, by decide, trivial⟩)
    (by decide)


/-- C6: on a fresh queue, after registering three messages of 10, 20 and 5 bytes and
marking only the second one `Complete`, `mqtt_mq_clean` changes nothing: the data
front stays at offset 35, the queue still holds three descriptors, and the first and
the third descriptor keep the byte ranges `[0,10)` and `[30,35)`. -/
theorem clean_scenario_reclaims_nothing (K : Consts) (buf : List Nat) (bufsz : Nat)
    (s1 s2 s3 : mqtt_queued_message) :
    mqtt_mq_clean K (scenario_queue K buf bufsz s1 s2 s3) = scenario_queue K buf bufsz s1 s2 s3 ∧
    (mqtt_mq_clean K (scenario_queue K buf bufsz s1 s2 s3)).curr = 35 ∧
    mqtt_mq_length (mqtt_mq_clean K (scenario_queue K buf bufsz s1 s2 s3)) = 3 ∧
    (mqtt_mq_clean K (scenario_queue K buf bufsz s1 s2 s3)).queue.map
        (fun msg => (msg.start, msg.size, msg.state))
      = [(0, 10, MQTTQueuedMessageState.MQTT_QUEUED_UNSENT),
         (10, 20, MQTTQueuedMessageState.MQTT_QUEUED_COMPLETE),
         (30, 5, MQTTQueuedMessageState.MQTT_QUEUED_UNSENT)] := by
  have h : mqtt_mq_clean K (scenario_queue K buf bufsz s1 s2 s3)
      = scenario_queue K buf bufsz s1 s2 s3 := by
    simp [mqtt_mq_clean, scenario_queue, mqtt_mq_set_state, mqtt_mq_register, mqtt_mq_init,
      mqtt_mq_clean_scan, List.modify]
  rw [h]
  refine ⟨rfl, ?_, ?_, ?_⟩
  · simp [scenario_queue, mqtt_mq_set_state, mqtt_mq_register, mqtt_mq_init]
  · simp [mqtt_mq_length, scenario_queue, mqtt_mq_set_state, mqtt_mq_register, mqtt_mq_init]
  · simp [scenario_queue, mqtt_mq_set_state, mqtt_mq_register, mqtt_mq_init, List.modify]


/-- C2, the code at the failing input: `mqtt_fixed_header_rule_violation` returns 0
for a CONNECT header with flags 2, although the flags differ from the required
flags (0) under the mask (`0x0F`); the masked difference is 2 and the source tests
it against 1. -/
theorem fixed_header_rule_violation_accepts_connect_flags_two (K : Consts) :
    mqtt_fixed_header_rule_violation K ⟨MQTT_CONTROL_CONNECT, 2, 0⟩ = 0 ∧
    control_type_is_valid.getD MQTT_CONTROL_CONNECT 0 = 1 ∧
    (2 ^^^ required_flags.getD MQTT_CONTROL_CONNECT 0)
      &&& mask_required_flags.getD MQTT_CONTROL_CONNECT 0 = 2 := by
  refine ⟨?_, by decide, by decide⟩
  have h : ¬ ((2 : Nat) &&& 15 = 1) := by decide
  simp [mqtt_fixed_header_rule_violation, MQTT_CONTROL_CONNECT, control_type_is_valid,
    required_flags, mask_required_flags, h]

set_option maxRecDepth 100000 in
/-- What `mqtt_fixed_header_rule_violation` computes for a 4-bit type and 4-bit
flags: the forbidden-type error for a type that is not valid, the invalid-flags
error when the masked difference is exactly 1, and 0 otherwise. -/
theorem fixed_header_rule_violation_eq (K : Consts) (ct fl n : Nat) (hct : ct < 16)
    (hfl : fl < 16) :
    mqtt_fixed_header_rule_violation K ⟨ct, fl, n⟩ =
      if control_type_is_valid.getD ct 0 ≠ 1 then
        K.code MQTTErrors.MQTT_ERROR_CONTROL_FORBIDDEN_TYPE
      else if (fl ^^^ required_flags.getD ct 0) &&& mask_required_flags.getD ct 0 = 1 then
        K.code MQTTErrors.MQTT_ERROR_CONTROL_INVALID_FLAGS
      else 0 := by
  have h1 : ct % 256 = ct := Nat.mod_eq_of_lt (by omega)
  have h2 : fl % 256 = fl := Nat.mod_eq_of_lt (by omega)
  simp only [mqtt_fixed_header_rule_violation, h1, h2]


theorem publish_length_mod (topic_name : List Nat) (application_message_size : Nat)
    (h : 2 + topic_name.length + application_message_size < 2 ^ 32) :
    (__mqtt_packed_cstrlen topic_name % 2 ^ 32 + application_message_size) % 2 ^ 32
      = 2 + topic_name.length + application_message_size := by
  unfold __mqtt_packed_cstrlen
  omega

theorem pack_publish_request_short (K : Consts) (bufsz : Nat) (topic_name : List Nat)
    (packet_id : Nat) (application_message : List Nat) (application_message_size : Nat)
    (publish_flags : Nat)
    (hN : 2 + topic_name.length + application_message_size < 2 ^ 32)
    (hcap : bufsz < packet_size (2 + topic_name.length + application_message_size)) :
    (mqtt_pack_publish_request K bufsz topic_name packet_id application_message
      application_message_size publish_flags).1 = 0 := by
  have h0 := pack_fixed_header_short K MQTT_CONTROL_PUBLISH
    ((publish_flags &&& (255 - MQTT_PUBLISH_DUP)) % 256) _ bufsz hN
    (rule_violation_publish K _ _) hcap
  simp only [mqtt_pack_publish_request]
  rw [publish_length_mod topic_name application_message_size hN]
  simp [h0]

/-- The bytes of a publish request, for a topic that `__mqtt_pack_str` reports with its
true size. -/
theorem pack_publish_request_fits (K : Consts) (bufsz : Nat) (topic_name : List Nat)
    (packet_id : Nat) (application_message : List Nat) (application_message_size : Nat)
    (publish_flags : Nat) (hb : bufsz < 65536) (ht : topic_name.length ≤ 32765)
    (hcap : packet_size (2 + topic_name.length + application_message_size) ≤ bufsz) :
    mqtt_pack_publish_request K bufsz topic_name packet_id application_message
        application_message_size publish_flags
      = (toInt16 (packet_size (2 + topic_name.length + application_message_size)),
         (MQTT_CONTROL_PUBLISH * 16 + ((publish_flags &&& (255 - MQTT_PUBLISH_DUP)) % 256) % 16)
           :: (encode_remaining_length 5 (2 + topic_name.length + application_message_size)
             ++ (length_prefixed topic_name
               ++ memcpy application_message application_message_size))) := by
  unfold packet_size at hcap ⊢
  have hpos := remaining_length_size_pos (2 + topic_name.length + application_message_size)
  have hN : 2 + topic_name.length + application_message_size < 2 ^ 32 := by omega
  have h0 := pack_fixed_header_fits_mod K MQTT_CONTROL_PUBLISH
    ((publish_flags &&& (255 - MQTT_PUBLISH_DUP)) % 256) _ bufsz (by decide) hN
    (rule_violation_publish K _ _) hcap
  have hrv : ¬ ((1 + remaining_length_size
      (2 + topic_name.length + application_message_size) : Nat) : Int) ≤ 0 := by
    push_cast; omega
  have hsub := toUInt16_sub bufsz (1 + remaining_length_size
      (2 + topic_name.length + application_message_size)) (by omega) hb
  have hfit : ¬ (bufsz - (1 + remaining_length_size
      (2 + topic_name.length + application_message_size))
      < 2 + topic_name.length + application_message_size) := by omega
  have hsz : (encode_remaining_length 5
      (2 + topic_name.length + application_message_size)).length
      = remaining_length_size (2 + topic_name.length + application_message_size) := rfl
  simp only [mqtt_pack_publish_request]
  rw [publish_length_mod topic_name application_message_size hN, h0]
  simp only [hrv, if_false, hsub, hfit, pack_str_fst_short topic_name ht,
    pack_str_snd topic_name (by omega)]
  simp (disch := simp only [List.length_cons, List.length_append, List.length_nil, hsz,
      memcpy_length, length_prefixed_length]; push_cast; omega) only [put_end]
  simp only [List.append_assoc, List.cons_append]
  refine Prod.ext ?_ rfl
  simp only
  congr 1
  push_cast
  omega

theorem subscribe_length_mod (topic : List Nat) (h : 2 + (2 + topic.length) + 1 < 2 ^ 32) :
    (2 + (__mqtt_packed_cstrlen topic + 1)) % 2 ^ 32 = 2 + (2 + topic.length) + 1 := by
  unfold __mqtt_packed_cstrlen
  omega

theorem pack_subscribe_request_short (K : Consts) (bufsz packet_id : Nat) (topic : List Nat)
    (hN : 2 + (2 + topic.length) + 1 < 2 ^ 32)
    (hcap : bufsz < packet_size (2 + (2 + topic.length) + 1)) :
    (mqtt_pack_subscribe_request K bufsz packet_id topic).1 = 0 := by
  have h0 := pack_fixed_header_short K MQTT_CONTROL_SUBSCRIBE 2 _ bufsz hN
    (rule_violation_subscribe K _) hcap
  simp only [mqtt_pack_subscribe_request]
  rw [subscribe_length_mod topic hN]
  simp [h0]

/-- The bytes of a subscribe request, for a topic that `__mqtt_pack_str` reports with
its true size. -/
theorem pack_subscribe_request_fits (K : Consts) (bufsz packet_id : Nat) (topic : List Nat)
    (hb : bufsz < 65536) (ht : topic.length ≤ 32765)
    (hcap : packet_size (2 + (2 + topic.length) + 1) ≤ bufsz) :
    mqtt_pack_subscribe_request K bufsz packet_id topic
      = (toInt16 (packet_size (2 + (2 + topic.length) + 1)),
         (MQTT_CONTROL_SUBSCRIBE * 16 + 2)
           :: (encode_remaining_length 5 (2 + (2 + topic.length) + 1)
             ++ (uint16_be packet_id ++ (length_prefixed topic ++ [0])))) := by
  unfold packet_size at hcap ⊢
  have hpos := remaining_length_size_pos (2 + (2 + topic.length) + 1)
  have hN : 2 + (2 + topic.length) + 1 < 2 ^ 32 := by omega
  have h0 := pack_fixed_header_fits K MQTT_CONTROL_SUBSCRIBE 2 _ bufsz (by decide) (by decide) hN
    (rule_violation_subscribe K _) hcap
  have hrv : ¬ ((1 + remaining_length_size (2 + (2 + topic.length) + 1) : Nat) : Int) ≤ 0 := by
    push_cast; omega
  have hsub := toUInt16_sub bufsz (1 + remaining_length_size (2 + (2 + topic.length) + 1))
    (by omega) hb
  have hfit : ¬ (bufsz - (1 + remaining_length_size (2 + (2 + topic.length) + 1))
      < 2 + (2 + topic.length) + 1) := by omega
  have hsz : (encode_remaining_length 5 (2 + (2 + topic.length) + 1)).length
      = remaining_length_size (2 + (2 + topic.length) + 1) := rfl
  simp only [mqtt_pack_subscribe_request]
  rw [subscribe_length_mod topic hN, h0]
  simp only [hrv, if_false, hsub, hfit, pack_str_fst_short topic ht,
    pack_str_snd topic (by omega), pack_uint16_fst, pack_uint16_snd]
  simp (disch := simp only [List.length_cons, List.length_append, List.length_nil, hsz,
      uint16_be_length, length_prefixed_length]; push_cast; omega) only [put_end]
  simp only [List.append_assoc, List.cons_append]
  refine Prod.ext ?_ rfl
  simp only
  congr 1
  push_cast
  omega

theorem packet_size_zero : packet_size 0 = 2 := by decide

theorem pack_ping_request_eq (K : Consts) (bufsz : Nat) :
    (mqtt_pack_ping_request K bufsz).1 = if bufsz < 2 then 0 else 2 := by
  unfold mqtt_pack_ping_request
  by_cases h : bufsz < 2
  · rw [if_pos h]
    exact pack_fixed_header_short K MQTT_CONTROL_PINGREQ 0 0 bufsz (by decide)
      (rule_violation_pingreq K 0) (by have := packet_size_zero; unfold packet_size at this; omega)
  · rw [if_neg h, pack_fixed_header_fits K MQTT_CONTROL_PINGREQ 0 0 bufsz (by decide) (by decide)
      (by decide) (rule_violation_pingreq K 0) (by have := packet_size_zero; unfold packet_size at this; omega)]
    rfl

theorem pack_disconnect_eq (K : Consts) (bufsz : Nat) :
    (mqtt_pack_disconnect K bufsz).1 = if bufsz < 2 then 0 else 2 := by
  unfold mqtt_pack_disconnect
  by_cases h : bufsz < 2
  · rw [if_pos h]
    exact pack_fixed_header_short K MQTT_CONTROL_DISCONNECT 0 0 bufsz (by decide)
      (rule_violation_disconnect K 0) (by have := packet_size_zero; unfold packet_size at this; omega)
  · rw [if_neg h, pack_fixed_header_fits K MQTT_CONTROL_DISCONNECT 0 0 bufsz (by decide)
      (by decide) (by decide) (rule_violation_disconnect K 0)
      (by have := packet_size_zero; unfold packet_size at this; omega)]
    rfl


theorem pack_contract_of (rv : Int) (bufsz total : Nat) (h1 : bufsz < total → rv = 0)
    (h2 : total ≤ bufsz → rv = toInt16 total) (ht : 0 < total) (ht' : total ≤ 32767) :
    pack_contract rv bufsz total := by
  have h16 : toInt16 (total : Int) = total := toInt16_of_range _ (by omega) (by omega)
  unfold pack_contract
  by_cases h : bufsz < total
  · have := h1 h
    refine ⟨?_, ?_, ?_, ?_⟩ <;> simp [this, h]
  · have := h2 (by omega)
    rw [h16] at this
    refine ⟨?_, ?_, ?_, ?_⟩
    · constructor
      · intro h0; omega
      · intro h0; omega
    · intro _; exact this
    · omega
    · omega

theorem packet_size_pos (n : Nat) : 0 < packet_size n := by
  unfold packet_size
  omega

/-- C10, as stated, fails: a publish of topic "a" and 40000 payload bytes into a
capacity of 65535 has a total encoded size of 40007 bytes, which fits, but the
`int16_t` result is negative (-25529). -/
theorem pack_capacity_contract_counterexample :
    packet_size (2 + [97].length + 40000) ≤ 65535 ∧
    (mqtt_pack_publish_request sampleConsts 65535 [97] 7 (List.replicate 40000 0) 40000 0).1 < 0 ∧
    ¬ pack_contract
        (mqtt_pack_publish_request sampleConsts 65535 [97] 7 (List.replicate 40000 0) 40000 0).1
        65535 (packet_size (2 + [97].length + 40000)) := by
  have hp : packet_size (2 + [97].length + 40000) = 40007 := by decide
  have h := pack_publish_request_fits sampleConsts 65535 [97] 7 (List.replicate 40000 0) 40000 0
    (by decide) (by decide) (by rw [hp]; decide)
  rw [hp] at h
  have hrv : (mqtt_pack_publish_request sampleConsts 65535 [97] 7
      (List.replicate 40000 0) 40000 0).1 = -25529 := by
    rw [h]
    decide
  refine ⟨by rw [hp]; decide, by rw [hrv]; decide, ?_⟩
  rw [hrv]
  intro hc
  have := hc.2.2.1
  omega

/-- C10 (amended): for a `uint16_t` capacity `bufsz` and inputs whose total encoded
size (fixed-header bytes plus remaining length) is at most 32767, the largest
`int16_t`, each of `mqtt_pack_connection_request`, `mqtt_pack_publish_request`,
`mqtt_pack_subscribe_request`, `mqtt_pack_ping_request` and `mqtt_pack_disconnect`
returns 0 exactly when `bufsz` is smaller than the total encoded size and otherwise
exactly that size; the result is never negative and never exceeds `bufsz`. -/
theorem pack_capacity_contract (K : Consts) (bufsz : Nat) (hb : bufsz < 65536) :
    (∀ (client_id will_topic will_message : List Nat) (will_message_size : Nat)
        (user_name password : Option (List Nat)) (connect_flags keep_alive : Nat),
      packet_size (connect_remaining_length client_id will_topic will_message_size
        user_name password) ≤ 32767 →
      pack_contract
        (mqtt_pack_connection_request K bufsz client_id will_topic will_message
          will_message_size user_name password connect_flags keep_alive).1
        bufsz
        (packet_size (connect_remaining_length client_id will_topic will_message_size
          user_name password))) ∧
    (∀ (topic_name : List Nat) (packet_id : Nat) (application_message : List Nat)
        (application_message_size publish_flags : Nat),
      packet_size (2 + topic_name.length + application_message_size) ≤ 32767 →
      pack_contract
        (mqtt_pack_publish_request K bufsz topic_name packet_id application_message
          application_message_size publish_flags).1
        bufsz (packet_size (2 + topic_name.length + application_message_size))) ∧
    (∀ (packet_id : Nat) (topic : List Nat),
      packet_size (2 + (2 + topic.length) + 1) ≤ 32767 →
      pack_contract (mqtt_pack_subscribe_request K bufsz packet_id topic).1
        bufsz (packet_size (2 + (2 + topic.length) + 1))) ∧
    pack_contract (mqtt_pack_ping_request K bufsz).1 bufsz (packet_size 0) ∧
    pack_contract (mqtt_pack_disconnect K bufsz).1 bufsz (packet_size 0) := by
  refine ⟨?_, ?_, ?_, ?_, ?_⟩
  · intro client_id will_topic will_message will_message_size user_name password connect_flags
      keep_alive hsz
    have hN : connect_remaining_length client_id will_topic will_message_size user_name password
        < 65536 := by unfold packet_size at hsz; omega
    refine pack_contract_of _ _ _ ?_ ?_ (packet_size_pos _) hsz
    · intro h
      exact pack_connection_request_short K bufsz client_id will_topic will_message
        will_message_size user_name password connect_flags keep_alive hN h
    · intro h
      have hrl := remaining_length_size_pos (connect_remaining_length client_id will_topic
        will_message_size user_name password)
      unfold packet_size at hsz
      obtain ⟨flags, -, -, -, -, -, hpack⟩ := pack_connection_request_wire K bufsz client_id
        will_topic will_message will_message_size user_name password connect_flags keep_alive hb
        (by simp only [connect_remaining_length] at hsz; omega)
        (by simp only [connect_remaining_length] at hsz; omega)
        (by
          intro u hu
          subst hu
          simp only [connect_remaining_length] at hsz
          omega)
        (by
          intro p hp
          subst hp
          cases user_name <;> simp only [connect_remaining_length] at hsz <;> omega)
        h
      rw [hpack]
  · intro topic_name packet_id application_message application_message_size publish_flags hsz
    have hN : 2 + topic_name.length + application_message_size < 2 ^ 32 := by
      unfold packet_size at hsz; omega
    refine pack_contract_of _ _ _ ?_ ?_ (packet_size_pos _) hsz
    · intro h
      exact pack_publish_request_short K bufsz topic_name packet_id application_message
        application_message_size publish_flags hN h
    · intro h
      rw [pack_publish_request_fits K bufsz topic_name packet_id application_message
        application_message_size publish_flags hb (by unfold packet_size at hsz; omega) h]
  · intro packet_id topic hsz
    have hN : 2 + (2 + topic.length) + 1 < 2 ^ 32 := by unfold packet_size at hsz; omega
    refine pack_contract_of _ _ _ ?_ ?_ (packet_size_pos _) hsz
    · intro h
      exact pack_subscribe_request_short K bufsz packet_id topic hN h
    · intro h
      rw [pack_subscribe_request_fits K bufsz packet_id topic hb
        (by unfold packet_size at hsz; omega) h]
  · rw [packet_size_zero]
    refine pack_contract_of _ _ _ ?_ ?_ (by decide) (by decide)
    · intro h; rw [pack_ping_request_eq, if_pos h]
    · intro h; rw [pack_ping_request_eq, if_neg (by omega)]; rfl
  · rw [packet_size_zero]
    refine pack_contract_of _ _ _ ?_ ?_ (by decide) (by decide)
    · intro h; rw [pack_disconnect_eq, if_pos h]
    · intro h; rw [pack_disconnect_eq, if_neg (by omega)]; rfl

/-- Witness of `pack_capacity_contract`: a publish of topic "a" with 3 payload bytes
into the 140-byte send buffer. -/
theorem pack_capacity_contract_witness :
    pack_contract (mqtt_pack_publish_request sampleConsts 140 [97] 7 [1, 2, 3] 3 0).1 140
      (packet_size (2 + [97].length + 3)) :=
  (pack_capacity_contract sampleConsts 140 (by decide)).2.1 [97] 7 [1, 2, 3] 3 0 (by decide)


/-! ## Receiving a connack -/

theorem rule_violation_connack (K : Consts) (n : Nat) :
    mqtt_fixed_header_rule_violation K ⟨MQTT_CONTROL_CONNACK, 0, n⟩ = 0 := by
  simp [mqtt_fixed_header_rule_violation, MQTT_CONTROL_CONNACK, control_type_is_valid,
    required_flags, mask_required_flags]

theorem toUInt16_toInt16 (n : Nat) (h : n < 65536) : toUInt16 (0 + toInt16 (n : Int)) = n := by
  unfold toUInt16 toInt16
  omega

/-- Decoding a well-formed connack record: `mqtt_unpack_response` consumes its 4
bytes and stores the session-present flag and the return code. -/
theorem unpack_response_connack (K : Consts) (response : mqtt_response) (sp rc bufsz : Nat)
    (rest : List Nat) (hsp : sp ≤ 1) (hrc : rc ≤ 5) (hsz : 4 ≤ bufsz) :
    mqtt_unpack_response K response (0x20 :: 2 :: sp :: rc :: rest) bufsz
      = (4, { response with fixed_header := ⟨MQTT_CONTROL_CONNACK, 0, 2⟩,
                            connack := ⟨sp, rc⟩ }) := by
  have henc : encode_remaining_length 5 2 = [2] := by decide
  have hsize : remaining_length_size 2 = 1 := by decide
  have hun := unpack_fixed_header_of_encode K response MQTT_CONTROL_CONNACK 0 2 bufsz
    (sp :: rc :: rest) (by decide) (by decide) (by decide) (fits_int_of_lt K 2 (by decide))
    (rule_violation_connack K 2) (by rw [hsize]; omega)
  rw [henc, hsize] at hun
  have hun' : mqtt_unpack_fixed_header K response (0x20 :: 2 :: sp :: rc :: rest) bufsz
      = (2, { response with fixed_header := ⟨MQTT_CONTROL_CONNACK, 0, 2⟩ }) := hun
  have hbits : sp &&& 0xFE = 0 := by
    interval_cases sp <;> rfl
  have hrc' : ¬ rc > 5 := by omega
  simp only [mqtt_unpack_response, hun']
  simp [MQTT_CONTROL_CONNACK, MQTT_CONTROL_PINGRESP, MQTT_CONTROL_PUBLISH, MQTT_CONTROL_SUBACK,
    mqtt_unpack_connack_response, hbits, hrc']
  rfl


theorem mq_find_from_none_cons (ct : Nat) (m : mqtt_queued_message)
    (rest : List mqtt_queued_message) (i0 : Nat) :
    mqtt_mq_find_from ct none (m :: rest) i0
      = if m.control_type = ct ∧ m.state ≠ MQTTQueuedMessageState.MQTT_QUEUED_COMPLETE then
          some i0
        else mqtt_mq_find_from ct none rest (i0 + 1) := by
  simp [mqtt_mq_find_from]

theorem mq_find_from_none_some (ct : Nat) : ∀ (l : List mqtt_queued_message) (i0 i : Nat),
    mqtt_mq_find_from ct none l i0 = some i →
      ∃ j, i = i0 + j ∧ j < l.length ∧
        (l.getD j sampleMessage).control_type = ct ∧
        (l.getD j sampleMessage).state ≠ MQTTQueuedMessageState.MQTT_QUEUED_COMPLETE ∧
        ∀ j', j' < j → ¬ ((l.getD j' sampleMessage).control_type = ct ∧
          (l.getD j' sampleMessage).state ≠ MQTTQueuedMessageState.MQTT_QUEUED_COMPLETE)
  | [], i0, i, h => by simp [mqtt_mq_find_from] at h
  | m :: rest, i0, i, h => by
    rw [mq_find_from_none_cons] at h
    by_cases hm : m.control_type = ct ∧
        m.state ≠ MQTTQueuedMessageState.MQTT_QUEUED_COMPLETE
    · rw [if_pos hm] at h
      refine ⟨0, by simpa using h.symm, by simp, hm.1, hm.2, ?_⟩
      intro j' hj'
      omega
    · rw [if_neg hm] at h
      obtain ⟨j, hj, hlt, h1, h2, h3⟩ := mq_find_from_none_some ct rest (i0 + 1) i h
      refine ⟨j + 1, by omega, by simp; omega, by simpa using h1, by simpa using h2, ?_⟩
      intro j' hj'
      cases j' with
      | zero => simpa using hm
      | succ k =>
        have := h3 k (by omega)
        simpa using this

theorem mq_find_from_none_exists (ct : Nat) : ∀ (l : List mqtt_queued_message) (i0 : Nat),
    (∃ msg ∈ l, msg.control_type = ct ∧
      msg.state ≠ MQTTQueuedMessageState.MQTT_QUEUED_COMPLETE) →
    ∃ i, mqtt_mq_find_from ct none l i0 = some i
  | [], i0, h => by simp at h
  | m :: rest, i0, h => by
    rw [mq_find_from_none_cons]
    by_cases hm : m.control_type = ct ∧
        m.state ≠ MQTTQueuedMessageState.MQTT_QUEUED_COMPLETE
    · exact ⟨i0, by rw [if_pos hm]⟩
    · obtain ⟨msg, hmem, h1, h2⟩ := h
      rcases List.mem_cons.mp hmem with rfl | hmem'
      · exact absurd ⟨h1, h2⟩ hm
      · obtain ⟨i, hi⟩ := mq_find_from_none_exists ct rest (i0 + 1) ⟨msg, hmem', h1, h2⟩
        exact ⟨i, by rw [if_neg hm]; exact hi⟩

theorem getD_modify_state (s : MQTTQueuedMessageState) :
    ∀ (l : List mqtt_queued_message) (i : Nat), i < l.length →
      ((l.modify (fun msg => { msg with state := s }) i).getD i sampleMessage).state = s
  | [], i, h => by simp at h
  | m :: rest, 0, _ => by simp [List.modify]
  | m :: rest, i + 1, h => by
    simp only [List.modify_succ_cons, List.getD_cons_succ]
    exact getD_modify_state s rest i (by simpa using h)

/-- C7: when a CONNECT descriptor is queued and not yet `Complete` and a well-formed
connack (session-present flag `sp ≤ 1`, return code `rc ≤ 5`) lies at the start of the
receive buffer, `__mqtt_recv` marks the pending CONNECT descriptor `Complete` for
every return code; for return code 0 it returns `MQTT_OK` and leaves `client->error`
unchanged, for return code 2 it returns and latches
`MQTT_ERROR_CONNECT_CLIENT_ID_REFUSED`, for return codes 1, 3, 4 and 5 it returns and
latches `MQTT_ERROR_CONNECTION_REFUSED`. -/
theorem connack_handling (K : Consts) (uip_len : Nat) (response : mqtt_response)
    (client : mqtt_client) (sp rc : Nat) (rest : List Nat)
    (hbuf : client.recv_buffer.mem = 0x20 :: 2 :: sp :: rc :: rest)
    (hcurr : client.recv_buffer.curr = 0) (hlen : 4 ≤ uip_len) (hlen' : uip_len < 65536)
    (hsp : sp ≤ 1) (hrc : rc ≤ 5)
    (hq : ∃ msg ∈ client.mq.queue, msg.control_type = MQTT_CONTROL_CONNECT ∧
      msg.state ≠ MQTTQueuedMessageState.MQTT_QUEUED_COMPLETE) :
    connack_outcome K client rc (__mqtt_recv K uip_len response client) := by
  obtain ⟨i, hi⟩ := mq_find_from_none_exists MQTT_CONTROL_CONNECT client.mq.queue 0 hq
  obtain ⟨j, hj, hlt, h1, h2, h3⟩ := mq_find_from_none_some MQTT_CONTROL_CONNECT _ _ _ hi
  have hij : i = j := by omega
  subst hij
  have hfind : mqtt_mq_find client.mq MQTT_CONTROL_CONNECT none = some i := hi
  have hpos : uip_len > 0 := by omega
  have hsz : toUInt16 (0 + toInt16 (uip_len : Int)) = uip_len := toUInt16_toInt16 _ hlen'
  have hdec := unpack_response_connack K response sp rc uip_len rest hsp hrc hlen
  have hneg : ¬ ((4 : Int) < 0) := by decide
  have hsz' : toUInt16 (toInt16 (uip_len : Int)) = uip_len := by
    have := hsz
    rwa [zero_add] at this
  refine ⟨i, ⟨hlt, h1, h2⟩, ?_, ?_, ?_, ?_, ?_, ?_⟩
  · intro j' hj' hp
    exact h3 j' hj' ⟨hp.2.1, hp.2.2⟩
  · simp only [__mqtt_recv, hpos, if_true, hcurr, hsz, hbuf, hdec, hneg, if_false,
      __mqtt_recv_switch, hfind]
    split_ifs <;> rfl
  · simp only [__mqtt_recv, hpos, if_true, hcurr, hsz, hbuf, hdec, hneg, if_false,
      __mqtt_recv_switch, hfind]
    have := getD_modify_state MQTTQueuedMessageState.MQTT_QUEUED_COMPLETE client.mq.queue i hlt
    split_ifs <;> exact this
  · intro h0
    subst h0
    simp [__mqtt_recv, hpos, hcurr, hsz', hbuf, hdec, __mqtt_recv_switch, hfind,
      MQTT_CONNACK_ACCEPTED]
  · intro h0
    subst h0
    simp [__mqtt_recv, hpos, hcurr, hsz', hbuf, hdec, __mqtt_recv_switch, hfind,
      MQTT_CONNACK_ACCEPTED, MQTT_CONNACK_REFUSED_IDENTIFIER_REJECTED]
  · intro h0
    have hne0 : rc ≠ 0 := by omega
    have hne2 : rc ≠ 2 := by omega
    simp [__mqtt_recv, hpos, hcurr, hsz', hbuf, hdec, __mqtt_recv_switch, hfind,
      MQTT_CONNACK_ACCEPTED, MQTT_CONNACK_REFUSED_IDENTIFIER_REJECTED, hne0, hne2]

/-- Witness of `connack_handling`: a CONNECT sent and awaiting its acknowledgement,
then a connack with return code 2 ("identifier rejected"). -/
theorem connack_handling_witness :
    connack_outcome sampleConsts (sampleClient [0x20, 2, 0, 2]) 2
      (__mqtt_recv sampleConsts 4 sampleResponse (sampleClient [0x20, 2, 0, 2])) :=
  connack_handling sampleConsts 4 sampleResponse (sampleClient [0x20, 2, 0, 2]) 0 2 [] rfl rfl
    (by decide) (by decide) (by decide) (by decide)
    ⟨_, List.mem_singleton.mpr rfl, rfl, by decide⟩


/-! ## The send phase -/

theorem send_loop_not_due (K : Consts) (second_counter : Nat) (pal : Nat → Int) :
    ∀ (l : List mqtt_queued_message) (k : Nat) (client : mqtt_client),
      (∀ m ∈ l, not_due second_counter client.response_timeout m) →
      __mqtt_send_loop K second_counter pal l k client = (none, l, client, [])
  | [], k, client, _ => rfl
  | m :: rest, k, client, h => by
    have hm := h m (List.mem_cons_self _ _)
    have hrest := send_loop_not_due K second_counter pal rest k client
      (fun x hx => h x (List.mem_cons_of_mem _ hx))
    rcases hm with hc | ⟨ha, ht⟩
    · simp [__mqtt_send_loop, hc, hrest]
    · simp [__mqtt_send_loop, ha, ht, hrest]

theorem send_loop_append_not_due (K : Consts) (second_counter : Nat) (pal : Nat → Int) :
    ∀ (pre l : List mqtt_queued_message) (k : Nat) (client : mqtt_client),
      (∀ m ∈ pre, not_due second_counter client.response_timeout m) →
      __mqtt_send_loop K second_counter pal (pre ++ l) k client
        = ((__mqtt_send_loop K second_counter pal l k client).1,
           pre ++ (__mqtt_send_loop K second_counter pal l k client).2.1,
           (__mqtt_send_loop K second_counter pal l k client).2.2.1,
           (__mqtt_send_loop K second_counter pal l k client).2.2.2)
  | [], l, k, client, _ => by simp
  | m :: rest, l, k, client, h => by
    have hm := h m (List.mem_cons_self _ _)
    have hrest := send_loop_append_not_due K second_counter pal rest l k client
      (fun x hx => h x (List.mem_cons_of_mem _ hx))
    rcases hm with hc | ⟨ha, ht⟩
    · simp [__mqtt_send_loop, hc, hrest]
    · simp [__mqtt_send_loop, ha, ht, hrest]

/-- `__mqtt_send` when the client is not blocked, the loop ends without `return` and
no keep-alive ping is due. -/
theorem send_of_loop (K : Consts) (second_counter mqtt_start : Nat) (pal : Nat → Int)
    (stale : mqtt_queued_message) (client client' : mqtt_client)
    (queue : List mqtt_queued_message) (calls : List pal_call)
    (herr : ¬ send_blocked K client)
    (hloop : __mqtt_send_loop K second_counter pal client.mq.queue 0 client
      = (none, queue, client', calls))
    (hka : ¬ keep_alive_due K second_counter mqtt_start client'.time_of_last_send
      client'.keep_alive) :
    __mqtt_send K second_counter mqtt_start pal stale client
      = { rv := K.MQTT_OK,
          client := { client' with mq := { client'.mq with queue := queue } },
          calls := calls } := by
  unfold send_blocked at herr
  unfold keep_alive_due at hka
  simp only [__mqtt_send, herr, if_false, hloop, hka]


theorem send_loop_unsent_partial (K : Consts) (second_counter : Nat) (pal : Nat → Int)
    (msg : mqtt_queued_message) (rest : List mqtt_queued_message) (k : Nat)
    (client : mqtt_client) (hstate : msg.state = MQTTQueuedMessageState.MQTT_QUEUED_UNSENT)
    (h0 : 0 ≤ pal k) (h1 : client.send_offset + pal k < (msg.size : Int)) :
    __mqtt_send_loop K second_counter pal (msg :: rest) k client
      = (none, msg :: rest, { client with send_offset := client.send_offset + pal k },
          [⟨msg.start + client.send_offset, (msg.size : Int) - client.send_offset⟩]) := by
  have h0' : ¬ pal k < 0 := by omega
  simp [__mqtt_send_loop, hstate, h0', h1]

theorem send_loop_unsent_publish (K : Consts) (second_counter : Nat) (pal : Nat → Int)
    (msg : mqtt_queued_message) (rest : List mqtt_queued_message) (k : Nat)
    (client : mqtt_client) (hstate : msg.state = MQTTQueuedMessageState.MQTT_QUEUED_UNSENT)
    (hct : msg.control_type = MQTT_CONTROL_PUBLISH)
    (h0 : 0 ≤ pal k) (h1 : ¬ client.send_offset + pal k < (msg.size : Int))
    (hrest : ∀ m ∈ rest, not_due second_counter client.response_timeout m) :
    __mqtt_send_loop K second_counter pal (msg :: rest) k client
      = (none,
          { msg with time_sent := second_counter,
                     state := MQTTQueuedMessageState.MQTT_QUEUED_COMPLETE } :: rest,
          { client with send_offset := 0, time_of_last_send := second_counter },
          [⟨msg.start + client.send_offset, (msg.size : Int) - client.send_offset⟩]) := by
  have h0' : ¬ pal k < 0 := by omega
  have hr := send_loop_not_due K second_counter pal rest (k + 1)
    { client with send_offset := 0, time_of_last_send := second_counter } hrest
  simp [__mqtt_send_loop, hstate, h0', h1, hct, hr]

/-- C8: a client whose only due message is an Unsent PUBLISH `msg` of `S` bytes, with
`send_offset` 0: every other descriptor is not due at either call, the client is not
in a blocking error state and no keep-alive ping is due.  If the transport accepts
`h` bytes, `0 < h < S`, during one `__mqtt_send`, the whole message has been offered
once, the queue is as before (the descriptor is still Unsent and its `time_sent`
untouched) and `send_offset` is `h`.  The next `__mqtt_send` offers exactly the
`S - h` bytes from offset `h` of the message on; when the transport accepts them all,
the descriptor is `Complete`, sent at the time of that call, and `send_offset` is 0.
Both calls return `MQTT_OK`. -/
theorem partial_send_resumption (K : Consts) (client : mqtt_client)
    (pre post : List mqtt_queued_message) (msg : mqtt_queued_message) (h : Nat)
    (now1 now2 mqtt_start1 mqtt_start2 : Nat) (pal1 pal2 : Nat → Int)
    (stale1 stale2 : mqtt_queued_message)
    (hq : client.mq.queue = pre ++ msg :: post)
    (hstate : msg.state = MQTTQueuedMessageState.MQTT_QUEUED_UNSENT)
    (hct : msg.control_type = MQTT_CONTROL_PUBLISH)
    (hoff : client.send_offset = 0)
    (herr : ¬ send_blocked K client)
    (hothers : ∀ m ∈ pre ++ post, not_due now1 client.response_timeout m ∧
      not_due now2 client.response_timeout m)
    (hh0 : 0 < h) (hh1 : h < msg.size)
    (hpal1 : pal1 0 = (h : Int)) (hpal2 : pal2 0 = (msg.size : Int) - (h : Int))
    (hka1 : ¬ keep_alive_due K now1 mqtt_start1 client.time_of_last_send client.keep_alive)
    (hka2 : ¬ keep_alive_due K now2 mqtt_start2 now2 client.keep_alive) :
    __mqtt_send K now1 mqtt_start1 pal1 stale1 client
      = { rv := K.MQTT_OK, client := { client with send_offset := h },
          calls := [⟨msg.start, msg.size⟩] } ∧
    __mqtt_send K now2 mqtt_start2 pal2 stale2
        (__mqtt_send K now1 mqtt_start1 pal1 stale1 client).client
      = { rv := K.MQTT_OK,
          client :=
            { client with
              send_offset := 0, time_of_last_send := now2,
              mq := { client.mq with
                      queue := pre ++ { msg with
                        time_sent := now2,
                        state := MQTTQueuedMessageState.MQTT_QUEUED_COMPLETE } :: post } },
          calls := [⟨msg.start + h, (msg.size : Int) - h⟩] } := by
  have hpre1 : ∀ m ∈ pre, not_due now1 client.response_timeout m :=
    fun m hm => (hothers m (List.mem_append_left _ hm)).1
  have hpre2 : ∀ m ∈ pre, not_due now2 client.response_timeout m :=
    fun m hm => (hothers m (List.mem_append_left _ hm)).2
  have hpost2 : ∀ m ∈ post, not_due now2 client.response_timeout m :=
    fun m hm => (hothers m (List.mem_append_right _ hm)).2
  -- first call
  have hstep1 := send_loop_unsent_partial K now1 pal1 msg post 0 client hstate
    (by rw [hpal1]; omega) (by rw [hpal1, hoff]; omega)
  have hloop1 : __mqtt_send_loop K now1 pal1 client.mq.queue 0 client
      = (none, pre ++ msg :: post, { client with send_offset := h },
          [⟨msg.start, msg.size⟩]) := by
    rw [hq, send_loop_append_not_due K now1 pal1 pre (msg :: post) 0 client hpre1, hstep1]
    simp [hoff, hpal1]
  have hsend1 := send_of_loop K now1 mqtt_start1 pal1 stale1 client
    { client with send_offset := h } (pre ++ msg :: post) [⟨msg.start, msg.size⟩] herr hloop1 hka1
  have hc1 : ({ ({ client with send_offset := h } : mqtt_client) with
      mq := { ({ client with send_offset := h } : mqtt_client).mq with
              queue := pre ++ msg :: post } } : mqtt_client)
      = { client with send_offset := h } := by
    cases client with
    | mk mq recv_buffer error response_timeout number_of_timeouts send_offset keep_alive
        time_of_last_send pid_lfsr =>
      cases mq
      simp only at hq
      simp [hq]
  rw [hc1] at hsend1
  refine ⟨hsend1, ?_⟩
  -- second call
  rw [hsend1]
  have hstep2 := send_loop_unsent_publish K now2 pal2 msg post 0
    { client with send_offset := h } hstate hct (by rw [hpal2]; omega)
    (by rw [hpal2]; simp) hpost2
  have hloop2 : __mqtt_send_loop K now2 pal2
      ({ client with send_offset := h } : mqtt_client).mq.queue 0 { client with send_offset := h }
      = (none,
          pre ++ { msg with time_sent := now2,
                            state := MQTTQueuedMessageState.MQTT_QUEUED_COMPLETE } :: post,
          { client with send_offset := 0, time_of_last_send := now2 },
          [⟨msg.start + h, (msg.size : Int) - h⟩]) := by
    show __mqtt_send_loop K now2 pal2 client.mq.queue 0 { client with send_offset := h } = _
    rw [hq, send_loop_append_not_due K now2 pal2 pre (msg :: post) 0
      { client with send_offset := h } hpre2, hstep2]
  have herr2 : ¬ send_blocked K { client with send_offset := h } := herr
  exact send_of_loop K now2 mqtt_start2 pal2 stale2 { client with send_offset := h }
    { client with send_offset := 0, time_of_last_send := now2 } _ _ herr2 hloop2 hka2


/-- Witness of `partial_send_resumption`: behind a CONNECT that awaits its
acknowledgement, a PUBLISH of 10 bytes of which the transport first accepts 4 bytes
(at time 10) and then the other 6 (at time 11). -/
theorem partial_send_resumption_witness :
    __mqtt_send sampleConsts 10 0 (fun _ => 4) sampleMessage (sampleSendClient samplePublish)
      = { rv := sampleConsts.MQTT_OK,
          client := { sampleSendClient samplePublish with send_offset := (4 : Nat) },
          calls := [⟨samplePublish.start, samplePublish.size⟩] } ∧
    __mqtt_send sampleConsts 11 0 (fun _ => 6) sampleMessage
        (__mqtt_send sampleConsts 10 0 (fun _ => 4) sampleMessage
          (sampleSendClient samplePublish)).client
      = { rv := sampleConsts.MQTT_OK,
          client :=
            { sampleSendClient samplePublish with
              send_offset := 0, time_of_last_send := 11,
              mq := { (sampleSendClient samplePublish).mq with
                      queue := [⟨0, 20, MQTTQueuedMessageState.MQTT_QUEUED_AWAITING_ACK, 5,
                                  MQTT_CONTROL_CONNECT, 0⟩] ++ { samplePublish with
                        time_sent := 11,
                        state := MQTTQueuedMessageState.MQTT_QUEUED_COMPLETE } :: [] } },
          calls := [⟨samplePublish.start + (4 : Nat), (samplePublish.size : Int) - (4 : Nat)⟩] } :=
  partial_send_resumption sampleConsts (sampleSendClient samplePublish)
    [⟨0, 20, MQTTQueuedMessageState.MQTT_QUEUED_AWAITING_ACK, 5, MQTT_CONTROL_CONNECT, 0⟩] []
    samplePublish 4 10 11 0 0 (fun _ => 4) (fun _ => 6) sampleMessage sampleMessage
    rfl rfl rfl rfl (by decide) (by decide) (by decide) (by decide) rfl rfl (by decide)
    (by decide)

theorem try_pack_number_of_timeouts (K : Consts) (client : mqtt_client)
    (pack_call : Nat → Int × List Nat) (stale : mqtt_queued_message) :
    (MQTT_CLIENT_TRY_PACK K client pack_call stale).2.number_of_timeouts
      = client.number_of_timeouts := by
  unfold MQTT_CLIENT_TRY_PACK
  simp only
  split_ifs <;> rfl

theorem ping_number_of_timeouts (K : Consts) (client : mqtt_client)
    (stale : mqtt_queued_message) :
    (__mqtt_ping K client stale).2.number_of_timeouts = client.number_of_timeouts := by
  have h := try_pack_number_of_timeouts K client (fun bufsz => mqtt_pack_ping_request K bufsz)
    stale
  unfold __mqtt_ping
  split
  · next rv c heq => rw [heq] at h; exact h
  · next c heq => rw [heq] at h; exact h

/-- The calls of `mqtt_pal_sendall` and the timeout counter after `__mqtt_send` are
those of its loop. -/
theorem send_calls_timeouts (K : Consts) (second_counter mqtt_start : Nat) (pal : Nat → Int)
    (stale : mqtt_queued_message) (client : mqtt_client) (herr : ¬ send_blocked K client) :
    (__mqtt_send K second_counter mqtt_start pal stale client).calls
      = (__mqtt_send_loop K second_counter pal client.mq.queue 0 client).2.2.2 ∧
    (__mqtt_send K second_counter mqtt_start pal stale client).client.number_of_timeouts
      = (__mqtt_send_loop K second_counter pal client.mq.queue 0 client).2.2.1.number_of_timeouts
    := by
  unfold send_blocked at herr
  rcases hl : __mqtt_send_loop K second_counter pal client.mq.queue 0 client with
    ⟨r, queue, client', calls⟩
  simp only [__mqtt_send, herr, if_false, hl]
  cases r with
  | some rv => exact ⟨rfl, rfl⟩
  | none =>
    simp only
    have hp := ping_number_of_timeouts K
      { client' with mq := { client'.mq with queue := queue } } stale
    split_ifs with h1 h2
    · exact ⟨rfl, hp⟩
    · exact ⟨rfl, hp⟩
    · exact ⟨rfl, rfl⟩


theorem send_loop_timeout_any (K : Consts) (second_counter : Nat) (pal : Nat → Int)
    (msg : mqtt_queued_message) (rest : List mqtt_queued_message) (k : Nat)
    (client : mqtt_client)
    (hstate : msg.state = MQTTQueuedMessageState.MQTT_QUEUED_AWAITING_ACK)
    (hct : msg.control_type = MQTT_CONTROL_SUBSCRIBE)
    (hto : (second_counter : Int) > (msg.time_sent : Int) + client.response_timeout)
    (hrest : ∀ m ∈ rest, not_due second_counter client.response_timeout m) :
    (__mqtt_send_loop K second_counter pal (msg :: rest) k client).2.2.2
        = [⟨msg.start, msg.size⟩] ∧
    (__mqtt_send_loop K second_counter pal (msg :: rest) k client).2.2.1.number_of_timeouts
        = client.number_of_timeouts + 1 := by
  have hr := send_loop_not_due K second_counter pal rest (k + 1)
    { client with number_of_timeouts := client.number_of_timeouts + 1, send_offset := 0,
                  time_of_last_send := second_counter } hrest
  by_cases h0 : pal k < 0
  · simp [__mqtt_send_loop, hstate, hto, h0]
  · by_cases h1 : pal k < (msg.size : Int)
    · simp [__mqtt_send_loop, hstate, hto, h0, h1]
    · simp [__mqtt_send_loop, hstate, hto, h0, h1, hct, MQTT_CONTROL_SUBSCRIBE,
        MQTT_CONTROL_DISCONNECT, MQTT_CONTROL_PUBLISH, hr]

theorem send_loop_timeout_accepted (K : Consts) (second_counter : Nat) (pal : Nat → Int)
    (msg : mqtt_queued_message) (rest : List mqtt_queued_message) (k : Nat)
    (client : mqtt_client)
    (hstate : msg.state = MQTTQueuedMessageState.MQTT_QUEUED_AWAITING_ACK)
    (hct : msg.control_type = MQTT_CONTROL_SUBSCRIBE)
    (hto : (second_counter : Int) > (msg.time_sent : Int) + client.response_timeout)
    (hpal : pal k = (msg.size : Int))
    (hrest : ∀ m ∈ rest, not_due second_counter client.response_timeout m) :
    __mqtt_send_loop K second_counter pal (msg :: rest) k client
      = (none,
          { msg with time_sent := second_counter,
                     state := MQTTQueuedMessageState.MQTT_QUEUED_AWAITING_ACK } :: rest,
          { client with number_of_timeouts := client.number_of_timeouts + 1, send_offset := 0,
                        time_of_last_send := second_counter },
          [⟨msg.start, msg.size⟩]) := by
  have hr := send_loop_not_due K second_counter pal rest (k + 1)
    { client with number_of_timeouts := client.number_of_timeouts + 1, send_offset := 0,
                  time_of_last_send := second_counter } hrest
  simp [__mqtt_send_loop, hstate, hto, hpal, hct, MQTT_CONTROL_SUBSCRIBE,
    MQTT_CONTROL_DISCONNECT, MQTT_CONTROL_PUBLISH, hr]

/-- C9: a SUBSCRIBE descriptor `msg` in state AwaitingAck, last sent at `time_sent`,
every other descriptor not being due and the client not being in a blocking error
state.  If `second_counter > time_sent +
response_timeout`, `__mqtt_send` offers the whole message from its first byte, and
nothing else, and `number_of_timeouts` grows by exactly 1; when the transport
accepts the bytes (and no keep-alive ping is due) the call returns `MQTT_OK`,
`client->error` is unchanged, `send_offset` is 0 and the descriptor awaits its
acknowledgement again, sent at `second_counter`.  Otherwise nothing is offered and
`number_of_timeouts` is unchanged. -/
theorem ack_timeout_resend (K : Consts) (client : mqtt_client)
    (pre post : List mqtt_queued_message) (msg : mqtt_queued_message)
    (second_counter mqtt_start : Nat) (pal : Nat → Int) (stale : mqtt_queued_message)
    (hq : client.mq.queue = pre ++ msg :: post)
    (hstate : msg.state = MQTTQueuedMessageState.MQTT_QUEUED_AWAITING_ACK)
    (hct : msg.control_type = MQTT_CONTROL_SUBSCRIBE)
    (herr : ¬ send_blocked K client)
    (hothers : ∀ m ∈ pre ++ post, not_due second_counter client.response_timeout m) :
    ((second_counter : Int) > (msg.time_sent : Int) + client.response_timeout →
      (__mqtt_send K second_counter mqtt_start pal stale client).calls
        = [⟨msg.start, msg.size⟩] ∧
      (__mqtt_send K second_counter mqtt_start pal stale client).client.number_of_timeouts
        = client.number_of_timeouts + 1 ∧
      (pal 0 = (msg.size : Int) →
        ¬ keep_alive_due K second_counter mqtt_start second_counter client.keep_alive →
        __mqtt_send K second_counter mqtt_start pal stale client
          = { rv := K.MQTT_OK,
              client :=
                { client with
                  number_of_timeouts := client.number_of_timeouts + 1, send_offset := 0,
                  time_of_last_send := second_counter,
                  mq := { client.mq with
                          queue := pre ++ { msg with
                            time_sent := second_counter,
                            state := MQTTQueuedMessageState.MQTT_QUEUED_AWAITING_ACK } :: post } },
              calls := [⟨msg.start, msg.size⟩] })) ∧
    (¬ (second_counter : Int) > (msg.time_sent : Int) + client.response_timeout →
      (__mqtt_send K second_counter mqtt_start pal stale client).calls = [] ∧
      (__mqtt_send K second_counter mqtt_start pal stale client).client.number_of_timeouts
        = client.number_of_timeouts) := by
  have hpre : ∀ m ∈ pre, not_due second_counter client.response_timeout m :=
    fun m hm => hothers m (List.mem_append_left _ hm)
  have hpost : ∀ m ∈ post, not_due second_counter client.response_timeout m :=
    fun m hm => hothers m (List.mem_append_right _ hm)
  obtain ⟨hcalls, hnum⟩ := send_calls_timeouts K second_counter mqtt_start pal stale client herr
  have happ := send_loop_append_not_due K second_counter pal pre (msg :: post) 0 client hpre
  constructor
  · intro hto
    obtain ⟨h1, h2⟩ := send_loop_timeout_any K second_counter pal msg post 0 client hstate hct
      hto hpost
    refine ⟨?_, ?_, ?_⟩
    · rw [hcalls, hq, happ]; exact h1
    · rw [hnum, hq, happ]; exact h2
    · intro hpal hka
      have hstep := send_loop_timeout_accepted K second_counter pal msg post 0 client hstate hct
        hto hpal hpost
      have hloop : __mqtt_send_loop K second_counter pal client.mq.queue 0 client
          = (none,
              pre ++ { msg with time_sent := second_counter,
                                state := MQTTQueuedMessageState.MQTT_QUEUED_AWAITING_ACK } :: post,
              { client with number_of_timeouts := client.number_of_timeouts + 1,
                            send_offset := 0, time_of_last_send := second_counter },
              [⟨msg.start, msg.size⟩]) := by
        rw [hq, happ, hstep]
      exact send_of_loop K second_counter mqtt_start pal stale client _ _ _ herr hloop hka
  · intro hto
    have hall : ∀ m ∈ client.mq.queue, not_due second_counter client.response_timeout m := by
      intro m hm
      rw [hq] at hm
      rcases List.mem_append.mp hm with h | h
      · exact hpre m h
      · rcases List.mem_cons.mp h with rfl | h'
        · exact Or.inr ⟨hstate, hto⟩
        · exact hpost m h'
    have hloop := send_loop_not_due K second_counter pal client.mq.queue 0 client hall
    refine ⟨?_, ?_⟩
    · rw [hcalls, hloop]
    · rw [hnum, hloop]


/-- Witness of `ack_timeout_resend`: a SUBSCRIBE sent at time 2 with a response
timeout of 30 seconds; at time 34 it is offered again as a whole, the transport
accepts its 10 bytes, the timeout counter goes from 0 to 1 and the call returns
`MQTT_OK`. -/
theorem ack_timeout_resend_witness :
    (__mqtt_send sampleConsts 34 0 (fun _ => 10) sampleMessage
        (sampleSendClient sampleSubscribe)).calls
      = [⟨sampleSubscribe.start, sampleSubscribe.size⟩] ∧
    (__mqtt_send sampleConsts 34 0 (fun _ => 10) sampleMessage
        (sampleSendClient sampleSubscribe)).client.number_of_timeouts
      = (sampleSendClient sampleSubscribe).number_of_timeouts + 1 ∧
    (__mqtt_send sampleConsts 34 0 (fun _ => 10) sampleMessage
        (sampleSendClient sampleSubscribe)).rv = sampleConsts.MQTT_OK :=
  have h := (ack_timeout_resend sampleConsts (sampleSendClient sampleSubscribe)
    [⟨0, 20, MQTTQueuedMessageState.MQTT_QUEUED_AWAITING_ACK, 5, MQTT_CONTROL_CONNECT, 0⟩] []
    sampleSubscribe 34 0 (fun _ => 10) sampleMessage rfl rfl rfl (by decide) (by decide)).1
    (by decide)
  ⟨h.1, h.2.1, congrArg send_result.rv (h.2.2 rfl (by decide))⟩


/-! ## The fuel of the two length loops is never exhausted -/

/-- More than five iterations are never needed to write a `uint32_t` remaining length:
with any larger bound the loop of `mqtt_pack_fixed_header` gives the same result. -/
theorem pack_length_loop_fuel (g bufsz rl : Nat) (out : List Nat) (h : rl < 2 ^ 32) :
    pack_length_loop (5 + g) bufsz rl out = pack_length_loop 5 bufsz rl out := by
  have h5 : rl < 128 ^ (4 + 1) := by
    calc rl < 2 ^ 32 := h
      _ ≤ 128 ^ (4 + 1) := by norm_num
  have hg : rl < 128 ^ (4 + g + 1) := by
    calc rl < 128 ^ (4 + 1) := h5
      _ ≤ 128 ^ (4 + g + 1) := Nat.pow_le_pow_right (by decide) (by omega)
  have e := encode_remaining_length_fuel 4 rl g h5
  rw [show 5 + g = 4 + g + 1 by omega, pack_length_loop_eq (4 + g) bufsz rl out hg,
    show (5 : Nat) = 4 + 1 from rfl, pack_length_loop_eq 4 bufsz rl out h5,
    show 4 + g + 1 = 4 + 1 + g by omega, e]

theorem unpack_length_loop_succ (K : Consts) (buf : List Nat)
    (fuel pos bufsz lshift rl : Nat) :
    unpack_length_loop K buf (fuel + 1) pos bufsz lshift rl =
      if lshift = 28 then
        (some (K.code .MQTT_ERROR_INVALID_REMAINING_LENGTH), pos, bufsz, rl)
      else if bufsz - 1 = 0 then (some 0, pos + 1, bufsz - 1, rl)
      else if buf.getD (pos + 1) 0 &&& 0x80 ≠ 0 then
        unpack_length_loop K buf fuel (pos + 1) (bufsz - 1) (lshift + 7)
          (toUInt32 ((rl : Int)
            + toIntOfWidth K.int_bits (((buf.getD (pos + 1) 0 &&& 0x7F) <<< lshift : Nat) : Int)))
      else
        (none, pos + 1, bufsz - 1,
          toUInt32 ((rl : Int)
            + toIntOfWidth K.int_bits (((buf.getD (pos + 1) 0 &&& 0x7F) <<< lshift : Nat) : Int))) := by
  simp only [unpack_length_loop]

theorem unpack_length_loop_cont (K : Consts) (buf : List Nat) (fuel pos bufsz lshift rl : Nat)
    (hl : lshift ≠ 28) (hb : 2 ≤ bufsz) (hbit : buf.getD (pos + 1) 0 &&& 0x80 ≠ 0) :
    unpack_length_loop K buf (fuel + 1) pos bufsz lshift rl
      = unpack_length_loop K buf fuel (pos + 1) (bufsz - 1) (lshift + 7)
          (toUInt32 ((rl : Int)
            + toIntOfWidth K.int_bits (((buf.getD (pos + 1) 0 &&& 0x7F) <<< lshift : Nat) : Int))) := by
  have h1 : ¬ (bufsz - 1 = 0) := by omega
  rw [unpack_length_loop_succ, if_neg hl, if_neg h1, if_pos hbit]

/-- A byte from 128 to 255 has the continuation bit. -/
theorem continuation_bit (c : Nat) (h1 : 128 ≤ c) (h2 : c < 256) : c &&& 0x80 ≠ 0 := by
  obtain ⟨-, -, h5, -⟩ := byte_bits (c - 128) (by omega)
  rw [show c - 128 + 128 = c by omega] at h5
  rw [h5]
  decide

theorem unpack_length_loop_fuel_aux (K : Consts) (buf : List Nat) (n : Nat) :
    ∀ (pos bufsz rl g : Nat), n ≤ 4 →
      unpack_length_loop K buf (n + 1 + g) pos bufsz (28 - 7 * n) rl
        = unpack_length_loop K buf (n + 1) pos bufsz (28 - 7 * n) rl := by
  induction n with
  | zero =>
    intro pos bufsz rl g _
    rw [show 0 + 1 + g = g + 1 by omega]
    simp [unpack_length_loop]
  | succ n ih =>
    intro pos bufsz rl g hn
    have hl : 28 - 7 * (n + 1) ≠ 28 := by omega
    have hl' : 28 - 7 * (n + 1) + 7 = 28 - 7 * n := by omega
    rw [show n + 1 + 1 + g = (n + 1 + g) + 1 by omega, unpack_length_loop_succ,
      unpack_length_loop_succ K buf (n + 1)]
    simp only [hl, if_false, hl']
    split_ifs
    · rfl
    · exact ih _ _ _ g (by omega)
    · rfl

/-- More than five iterations are never needed to read the remaining length: the
fifth one leaves through `lshift == 28`, so with any larger bound the loop of
`mqtt_unpack_fixed_header` gives the same result. -/
theorem unpack_length_loop_fuel (K : Consts) (buf : List Nat) (g bufsz : Nat) :
    unpack_length_loop K buf (5 + g) 0 bufsz 0 0 = unpack_length_loop K buf 5 0 bufsz 0 0 := by
  have := unpack_length_loop_fuel_aux K buf 4 0 bufsz 0 g (le_refl _)
  simpa [show 4 + 1 + g = 5 + g by omega] using this


/-! ## Decoding a fixed header from arbitrary bytes -/

theorem unpack_length_loop_end (K : Consts) (buf : List Nat) (fuel pos bufsz lshift rl : Nat)
    (hl : lshift ≠ 28) (hb : bufsz ≤ 1) :
    unpack_length_loop K buf (fuel + 1) pos bufsz lshift rl = (some 0, pos + 1, bufsz - 1, rl) := by
  have h1 : bufsz - 1 = 0 := by omega
  simp only [unpack_length_loop, hl, h1, if_false, if_true]

theorem unpack_length_loop_too_long (K : Consts) (buf : List Nat) (fuel pos bufsz rl : Nat) :
    unpack_length_loop K buf (fuel + 1) pos bufsz 28 rl
      = (some (K.code .MQTT_ERROR_INVALID_REMAINING_LENGTH), pos, bufsz, rl) := by
  simp only [unpack_length_loop, if_true]

/-- The loop on a complete length field `cont ++ [last]`. -/
theorem unpack_length_loop_field (K : Consts) (buf : List Nat) (last : Nat) (hlast : last < 128) :
    ∀ (cont : List Nat) (pos bufsz lshift rl fuel : Nat),
      (∀ b ∈ cont, 128 ≤ b ∧ b < 256) →
      (∀ i, i < cont.length + 1 → buf.getD (pos + 1 + i) 0 = (cont ++ [last]).getD i 0) →
      cont.length + 1 < bufsz →
      lshift + 7 * (cont.length + 1) ≤ 28 →
      cont.length + 1 ≤ fuel →
      decode_remaining_length (cont ++ [last]) * 2 ^ lshift < 2 ^ (K.int_bits - 1) →
      unpack_length_loop K buf fuel pos bufsz lshift rl
        = (none, pos + (cont.length + 1), bufsz - (cont.length + 1),
            (rl + decode_remaining_length (cont ++ [last]) * 2 ^ lshift) % 2 ^ 32) := by
  intro cont
  induction cont with
  | nil =>
    intro pos bufsz lshift rl fuel _ hbuf hsz hsh hfuel hfit
    obtain ⟨fuel', rfl⟩ : ∃ k, fuel = k + 1 := ⟨fuel - 1, by simp at hfuel; omega⟩
    have hb0 := hbuf 0 (by simp)
    simp only [Nat.add_zero, List.nil_append, List.getD_cons_zero] at hb0
    simp only [List.length_nil, Nat.zero_add] at hsz hsh ⊢
    have hd : decode_remaining_length ([] ++ [last]) = last := by
      simp [decode_remaining_length, Nat.mod_eq_of_lt hlast]
    rw [hd] at hfit
    rw [unpack_length_loop_last K buf fuel' pos bufsz lshift rl last (by omega) (by omega) hb0
      hlast hfit]
    simp [decode_remaining_length, Nat.mod_eq_of_lt hlast]
  | cons c cont ih =>
    intro pos bufsz lshift rl fuel hc hbuf hsz hsh hfuel hfit
    simp only [List.length_cons] at hbuf hsz hsh hfuel ⊢
    obtain ⟨fuel', rfl⟩ : ∃ k, fuel = k + 1 := ⟨fuel - 1, by omega⟩
    obtain ⟨hc1, hc2⟩ := hc c (List.mem_cons_self _ _)
    have hb0 := hbuf 0 (by omega)
    simp only [Nat.add_zero, List.cons_append, List.getD_cons_zero] at hb0
    have hcm' : c % 128 = c - 128 := by omega
    have hd : decode_remaining_length (c :: cont ++ [last])
        = (c - 128) + 128 * decode_remaining_length (cont ++ [last]) := by
      simp only [List.cons_append, decode_remaining_length, hcm', List.append_eq]
    rw [hd] at hfit
    have hfit1 : (c - 128) * 2 ^ lshift < 2 ^ (K.int_bits - 1) :=
      lt_of_le_of_lt (Nat.mul_le_mul_right _ (Nat.le_add_right _ _)) hfit
    have hfit2 : decode_remaining_length (cont ++ [last]) * 2 ^ (lshift + 7)
        < 2 ^ (K.int_bits - 1) := by
      refine lt_of_le_of_lt ?_ hfit
      rw [pow_add, show (2 : Nat) ^ 7 = 128 by norm_num, Nat.mul_comm (2 ^ lshift) 128,
        ← Nat.mul_assoc, Nat.mul_comm _ 128]
      exact Nat.mul_le_mul_right _ (Nat.le_add_left _ _)
    rw [unpack_length_loop_more K buf fuel' pos bufsz lshift rl (c - 128) (by omega) (by omega)
      (by rw [hb0]; omega) (by omega) hfit1]
    have hbuf' : ∀ i, i < cont.length + 1 →
        buf.getD (pos + 1 + 1 + i) 0 = (cont ++ [last]).getD i 0 := by
      intro i hi
      have := hbuf (i + 1) (by omega)
      simp only [List.cons_append, List.getD_cons_succ] at this
      rw [← this]
      congr 1
      omega
    rw [ih (pos + 1) (bufsz - 1) (lshift + 7) _ fuel'
      (fun b hb => hc b (List.mem_cons_of_mem _ hb)) hbuf' (by omega) (by omega) (by omega)
      hfit2]
    have e1 : pos + 1 + (cont.length + 1) = pos + (cont.length + 1 + 1) := by omega
    have e2 : bufsz - 1 - (cont.length + 1) = bufsz - (cont.length + 1 + 1) := by omega
    have e3 : ((rl + (c - 128) * 2 ^ lshift) % 2 ^ 32
          + decode_remaining_length (cont ++ [last]) * 2 ^ (lshift + 7)) % 2 ^ 32
        = (rl + decode_remaining_length (c :: cont ++ [last]) * 2 ^ lshift) % 2 ^ 32 := by
      rw [Nat.mod_add_mod]
      congr 1
      have hcm : c % 128 = c - 128 := by omega
      simp only [List.cons_append, decode_remaining_length, hcm, List.append_eq]
      rw [pow_add]
      ring
    rw [e1, e2, e3]

/-- The loop on a complete length field `cont ++ [last]` ends behind the field without a
`return`, whatever value it has read. -/
theorem unpack_length_loop_field_flow (K : Consts) (buf : List Nat) (last : Nat)
    (hlast : last < 128) :
    ∀ (cont : List Nat) (pos bufsz lshift rl fuel : Nat),
      (∀ b ∈ cont, 128 ≤ b ∧ b < 256) →
      (∀ i, i < cont.length + 1 → buf.getD (pos + 1 + i) 0 = (cont ++ [last]).getD i 0) →
      cont.length + 1 < bufsz →
      lshift + 7 * (cont.length + 1) ≤ 28 →
      cont.length + 1 ≤ fuel →
      ∃ r, unpack_length_loop K buf fuel pos bufsz lshift rl
        = (none, pos + (cont.length + 1), bufsz - (cont.length + 1), r) := by
  intro cont
  induction cont with
  | nil =>
    intro pos bufsz lshift rl fuel _ hbuf hsz hsh hfuel
    obtain ⟨fuel', rfl⟩ : ∃ k, fuel = k + 1 := ⟨fuel - 1, by simp at hfuel; omega⟩
    have hb0 := hbuf 0 (by simp)
    simp only [Nat.add_zero, List.nil_append, List.getD_cons_zero] at hb0
    simp only [List.length_nil, Nat.zero_add] at hsz hsh ⊢
    have h1 : ¬ (bufsz - 1 = 0) := by omega
    have h4 : ¬ (buf.getD (pos + 1) 0 &&& 0x80 ≠ 0) := by
      rw [hb0, (byte_bits last hlast).2.1]
      exact fun h => h rfl
    rw [unpack_length_loop_succ, if_neg (by omega), if_neg h1, if_neg h4]
    exact ⟨_, rfl⟩
  | cons c cont ih =>
    intro pos bufsz lshift rl fuel hc hbuf hsz hsh hfuel
    simp only [List.length_cons] at hbuf hsz hsh hfuel ⊢
    obtain ⟨fuel', rfl⟩ : ∃ k, fuel = k + 1 := ⟨fuel - 1, by omega⟩
    obtain ⟨hc1, hc2⟩ := hc c (List.mem_cons_self _ _)
    have hb0 := hbuf 0 (by omega)
    simp only [Nat.add_zero, List.cons_append, List.getD_cons_zero] at hb0
    rw [unpack_length_loop_cont K buf fuel' pos bufsz lshift rl (by omega) (by omega)
      (by rw [hb0]; exact continuation_bit c hc1 hc2)]
    have hbuf' : ∀ i, i < cont.length + 1 →
        buf.getD (pos + 1 + 1 + i) 0 = (cont ++ [last]).getD i 0 := by
      intro i hi
      have := hbuf (i + 1) (by omega)
      simp only [List.cons_append, List.getD_cons_succ] at this
      rw [← this]
      congr 1
      omega
    obtain ⟨r, hr⟩ := ih (pos + 1) (bufsz - 1) (lshift + 7) _ fuel'
      (fun b hb => hc b (List.mem_cons_of_mem _ hb)) hbuf' (by omega) (by omega) (by omega)
    refine ⟨r, ?_⟩
    rw [hr]
    have e1 : pos + 1 + (cont.length + 1) = pos + (cont.length + 1 + 1) := by omega
    have e2 : bufsz - 1 - (cont.length + 1) = bufsz - (cont.length + 1 + 1) := by omega
    rw [e1, e2]

/-- The loop on a buffer that ends inside the length field, or right behind it. -/
theorem unpack_length_loop_cut (K : Consts) (buf : List Nat) :
    ∀ (cont : List Nat) (pos bufsz lshift rl fuel : Nat),
      (∀ b ∈ cont, 128 ≤ b ∧ b < 256) →
      (∀ i, i + 1 < bufsz → buf.getD (pos + 1 + i) 0 = cont.getD i 0) →
      bufsz ≤ cont.length + 1 →
      lshift + 7 * cont.length < 28 →
      cont.length + 1 ≤ fuel →
      (unpack_length_loop K buf fuel pos bufsz lshift rl).1 = some 0 := by
  intro cont
  induction cont with
  | nil =>
    intro pos bufsz lshift rl fuel _ _ hsz hsh hfuel
    obtain ⟨fuel', rfl⟩ : ∃ k, fuel = k + 1 := ⟨fuel - 1, by simp at hfuel; omega⟩
    simp only [List.length_nil, Nat.zero_add] at hsz hsh
    rw [unpack_length_loop_end K buf fuel' pos bufsz lshift rl (by omega) hsz]
  | cons c cont ih =>
    intro pos bufsz lshift rl fuel hc hbuf hsz hsh hfuel
    simp only [List.length_cons] at hsz hsh hfuel
    obtain ⟨fuel', rfl⟩ : ∃ k, fuel = k + 1 := ⟨fuel - 1, by omega⟩
    by_cases h1 : bufsz ≤ 1
    · rw [unpack_length_loop_end K buf fuel' pos bufsz lshift rl (by omega) h1]
    · obtain ⟨hc1, hc2⟩ := hc c (List.mem_cons_self _ _)
      have hb0 := hbuf 0 (by omega)
      simp only [Nat.add_zero, List.getD_cons_zero] at hb0
      rw [unpack_length_loop_cont K buf fuel' pos bufsz lshift rl (by omega) (by omega)
        (by rw [hb0]; exact continuation_bit c hc1 hc2)]
      refine ih (pos + 1) (bufsz - 1) (lshift + 7) _ fuel'
        (fun b hb => hc b (List.mem_cons_of_mem _ hb)) ?_ (by omega) (by omega) (by omega)
      intro i hi
      have := hbuf (i + 1) (by omega)
      simp only [List.getD_cons_succ] at this
      rw [← this]
      congr 1
      omega

theorem decode_remaining_length_lt : ∀ l : List Nat,
    decode_remaining_length l < 128 ^ l.length
  | [] => by simp [decode_remaining_length]
  | b :: rest => by
    have ih := decode_remaining_length_lt rest
    have hb : b % 128 < 128 := Nat.mod_lt _ (by decide)
    simp only [decode_remaining_length, List.length_cons, pow_succ]
    omega

theorem decode_remaining_length_lt_four (l : List Nat) (h : l.length ≤ 4) :
    decode_remaining_length l < 2 ^ 28 :=
  calc decode_remaining_length l < 128 ^ l.length := decode_remaining_length_lt l
    _ ≤ 128 ^ 4 := Nat.pow_le_pow_right (by decide) h
    _ = 2 ^ 28 := by norm_num

theorem record_getD (b0 last : Nat) (cont rest : List Nat) (i : Nat) (hi : i < cont.length + 1) :
    (b0 :: (cont ++ last :: rest)).getD (i + 1) 0 = (cont ++ [last]).getD i 0 := by
  rw [List.getD_cons_succ, show cont ++ last :: rest = (cont ++ [last]) ++ rest by simp]
  exact List.getD_append _ _ _ _ (by simpa using hi)

theorem record_getD_cont (b0 last : Nat) (cont rest : List Nat) (i : Nat) (hi : i < cont.length) :
    (b0 :: (cont ++ last :: rest)).getD (i + 1) 0 = cont.getD i 0 := by
  rw [List.getD_cons_succ]
  exact List.getD_append _ _ _ _ hi

/-- The result of `mqtt_unpack_fixed_header` on a buffer whose first `bufsz` bytes are
those of a record with the length field `cont ++ [last]`, the value of which fits the
`int` of the tool set when the field is read to its end. -/
theorem unpack_fixed_header_field (K : Consts) (r0 : mqtt_response) (b0 last : Nat)
    (cont rest buf : List Nat) (bufsz : Nat)
    (hcont : ∀ b ∈ cont, 128 ≤ b ∧ b < 256) (hlen : cont.length ≤ 3) (hlast : last < 128)
    (hbuf : ∀ i, i < bufsz → buf.getD i 0 = (b0 :: (cont ++ last :: rest)).getD i 0) :
    (bufsz ≤ cont.length + 1 → (mqtt_unpack_fixed_header K r0 buf bufsz).1 = 0) ∧
    (cont.length + 1 < bufsz →
      decode_remaining_length (cont ++ [last]) < 2 ^ (K.int_bits - 1) →
      mqtt_unpack_fixed_header K r0 buf bufsz
        = if mqtt_fixed_header_rule_violation K
              ⟨(b0 >>> 4) % 256, (b0 &&& 0x0F) % 256, decode_remaining_length (cont ++ [last])⟩
              ≠ 0 then
            (mqtt_fixed_header_rule_violation K
              ⟨(b0 >>> 4) % 256, (b0 &&& 0x0F) % 256, decode_remaining_length (cont ++ [last])⟩,
              { r0 with fixed_header := ⟨(b0 >>> 4) % 256, (b0 &&& 0x0F) % 256,
                  decode_remaining_length (cont ++ [last])⟩ })
          else if bufsz - (cont.length + 1) - 1 < decode_remaining_length (cont ++ [last]) then
            (0, { r0 with fixed_header := ⟨(b0 >>> 4) % 256, (b0 &&& 0x0F) % 256,
                  decode_remaining_length (cont ++ [last])⟩ })
          else
            (((1 + (cont.length + 1) : Nat) : Int),
              { r0 with fixed_header := ⟨(b0 >>> 4) % 256, (b0 &&& 0x0F) % 256,
                  decode_remaining_length (cont ++ [last])⟩ })) := by
  constructor
  · intro hsz
    unfold mqtt_unpack_fixed_header
    by_cases hb : bufsz = 0
    · rw [if_pos hb]
    · rw [if_neg hb]
      have hcut := unpack_length_loop_cut K buf cont 0 bufsz 0 0 5 hcont
        (by
          intro i hi
          rw [show 0 + 1 + i = i + 1 by omega, hbuf (i + 1) hi]
          exact record_getD_cont b0 last cont rest i (by omega))
        hsz (by omega) (by omega)
      rcases hloop : unpack_length_loop K buf 5 0 bufsz 0 0 with ⟨o, p, b, r⟩
      rw [hloop] at hcut
      simp only at hcut
      subst hcut
      rfl
  · intro hsz hfit
    have hb : ¬ bufsz = 0 := by omega
    have hloop := unpack_length_loop_field K buf last hlast cont 0 bufsz 0 0 5 hcont
      (by
        intro i hi
        rw [show 0 + 1 + i = i + 1 by omega, hbuf (i + 1) (by omega)]
        exact record_getD b0 last cont rest i hi)
      hsz (by omega) (by omega) (by rw [pow_zero, Nat.mul_one]; exact hfit)
    have hdec : decode_remaining_length (cont ++ [last]) < 2 ^ 32 := by
      have := decode_remaining_length_lt_four (cont ++ [last]) (by simp; omega)
      omega
    unfold mqtt_unpack_fixed_header
    rw [if_neg hb, hloop]
    have h0 : buf.getD 0 0 = b0 := by rw [hbuf 0 (by omega)]; rfl
    simp only [h0, pow_zero, Nat.mul_one, Nat.zero_add, Nat.mod_eq_of_lt hdec]
    split_ifs with h1 h2
    · rfl
    · rfl
    · rw [toInt16_of_range]
      · congr 1; push_cast; ring
      · push_cast; omega
      · push_cast; omega


theorem sampleConsts_code_injective : Function.Injective sampleConsts.code := by
  intro a b h
  cases a <;> cases b <;> first | rfl | (exact absurd h (by decide))

/-- C12: on every buffer of at least 5 bytes in which each of the four bytes that
follow the first byte has the continuation bit `0x80`, `mqtt_unpack_fixed_header`
returns `MQTT_ERROR_INVALID_REMAINING_LENGTH`; and on a buffer whose first `bufsz`
bytes are those of a record with a length field `cont ++ [last]` of at most 4 bytes
it does not return that error, the error constants being distinct. -/
theorem invalid_remaining_length (K : Consts) (hK : Function.Injective K.code)
    (r0 : mqtt_response) :
    (∀ (buf : List Nat) (bufsz : Nat), 5 ≤ bufsz →
      (∀ i, 1 ≤ i → i ≤ 4 → buf.getD i 0 &&& 0x80 ≠ 0) →
      (mqtt_unpack_fixed_header K r0 buf bufsz).1
        = K.code .MQTT_ERROR_INVALID_REMAINING_LENGTH) ∧
    (∀ (b0 last : Nat) (cont rest buf : List Nat) (bufsz : Nat),
      (∀ b ∈ cont, 128 ≤ b ∧ b < 256) → cont.length ≤ 3 → last < 128 →
      (∀ i, i < bufsz → buf.getD i 0 = (b0 :: (cont ++ last :: rest)).getD i 0) →
      (mqtt_unpack_fixed_header K r0 buf bufsz).1
        ≠ K.code .MQTT_ERROR_INVALID_REMAINING_LENGTH) := by
  have hneg := K.code_neg .MQTT_ERROR_INVALID_REMAINING_LENGTH
  constructor
  · intro buf bufsz hsz hbits
    have hb : ¬ bufsz = 0 := by omega
    unfold mqtt_unpack_fixed_header
    rw [if_neg hb,
      unpack_length_loop_cont K buf 4 0 bufsz 0 _ (by decide) (by omega)
        (hbits 1 (by decide) (by decide)),
      unpack_length_loop_cont K buf 3 1 (bufsz - 1) 7 _ (by decide) (by omega)
        (hbits 2 (by decide) (by decide)),
      unpack_length_loop_cont K buf 2 2 (bufsz - 1 - 1) 14 _ (by decide) (by omega)
        (hbits 3 (by decide) (by decide)),
      unpack_length_loop_cont K buf 1 3 (bufsz - 1 - 1 - 1) 21 _ (by decide) (by omega)
        (hbits 4 (by decide) (by decide)),
      unpack_length_loop_too_long]
  · intro b0 last cont rest buf bufsz hcont hlen hlast hbuf
    obtain ⟨hcut, -⟩ := unpack_fixed_header_field K r0 b0 last cont rest buf bufsz hcont hlen
      hlast hbuf
    by_cases hc : bufsz ≤ cont.length + 1
    · rw [hcut hc]
      omega
    · obtain ⟨r, hloop⟩ := unpack_length_loop_field_flow K buf last hlast cont 0 bufsz 0 0 5
        hcont
        (by
          intro i hi
          rw [show 0 + 1 + i = i + 1 by omega, hbuf (i + 1) (by omega)]
          exact record_getD b0 last cont rest i hi)
        (by omega) (by omega) (by omega)
      have hb : ¬ bufsz = 0 := by omega
      unfold mqtt_unpack_fixed_header
      rw [if_neg hb, hloop]
      simp only
      split_ifs with h1 h2
      · simp only [mqtt_fixed_header_rule_violation]
        split_ifs with h3 h4
        · exact fun h => MQTTErrors.noConfusion (hK h)
        · exact fun h => MQTTErrors.noConfusion (hK h)
        · omega
      · simp only
        omega
      · simp only
        rw [toInt16_of_range _ (by push_cast; omega) (by push_cast; omega)]
        have : (0 : Int) ≤ ((0 + (cont.length + 1) + 1 : Nat) : Int) := Int.natCast_nonneg _
        omega

/-- Witness of `invalid_remaining_length`: five bytes `30 FF FF FF FF` are refused, and
the three bytes `30 80 01` are not refused with that error. -/
theorem invalid_remaining_length_witness :
    (mqtt_unpack_fixed_header sampleConsts sampleResponse [0x30, 0xFF, 0xFF, 0xFF, 0xFF] 5).1
      = sampleConsts.code .MQTT_ERROR_INVALID_REMAINING_LENGTH ∧
    (mqtt_unpack_fixed_header sampleConsts sampleResponse [0x30, 0x80, 0x01] 3).1
      ≠ sampleConsts.code .MQTT_ERROR_INVALID_REMAINING_LENGTH :=
  ⟨(invalid_remaining_length sampleConsts sampleConsts_code_injective sampleResponse).1
      [0x30, 0xFF, 0xFF, 0xFF, 0xFF] 5 (by decide) (by decide),
    (invalid_remaining_length sampleConsts sampleConsts_code_injective sampleResponse).2
      0x30 0x01 [0x80] [] [0x30, 0x80, 0x01] 3 (by decide) (by decide) (by decide)
      (fun _ _ => rfl)⟩


/-! ## Wire formats of the requests -/

theorem memcpy_all (src : List Nat) : memcpy src src.length = src := by
  unfold memcpy
  exact List.take_left' rfl

set_option maxRecDepth 100000 in
theorem publish_first_byte : ∀ f < 256,
    MQTT_CONTROL_PUBLISH * 16 + ((f &&& (255 - MQTT_PUBLISH_DUP)) % 256) % 16
      = 0x30 ||| (f &&& 0x07) := by decide

/-- The bytes of a publish request whose topic has 32766 bytes or more:
`__mqtt_pack_str` reports a negative size, the write pointer goes back by it, and the
payload is stored below the start of the buffer. -/
theorem pack_publish_request_wrapped (K : Consts) (bufsz : Nat) (topic_name : List Nat)
    (packet_id : Nat) (application_message : List Nat) (application_message_size : Nat)
    (publish_flags : Nat) (hb : bufsz < 65536) (ht : 32766 ≤ topic_name.length)
    (hcap : packet_size (2 + topic_name.length + application_message_size) ≤ bufsz) :
    mqtt_pack_publish_request K bufsz topic_name packet_id application_message
        application_message_size publish_flags
      = (toInt16 ((packet_size (2 + topic_name.length + application_message_size) : Int)
            - 65536),
         (MQTT_CONTROL_PUBLISH * 16 + ((publish_flags &&& (255 - MQTT_PUBLISH_DUP)) % 256) % 16)
           :: (encode_remaining_length 5 (2 + topic_name.length + application_message_size)
             ++ length_prefixed topic_name)) := by
  unfold packet_size at hcap ⊢
  have hpos := remaining_length_size_pos (2 + topic_name.length + application_message_size)
  have hN : 2 + topic_name.length + application_message_size < 2 ^ 32 := by omega
  have h0 := pack_fixed_header_fits_mod K MQTT_CONTROL_PUBLISH
    ((publish_flags &&& (255 - MQTT_PUBLISH_DUP)) % 256) _ bufsz (by decide) hN
    (rule_violation_publish K _ _) hcap
  have hrv : ¬ ((1 + remaining_length_size
      (2 + topic_name.length + application_message_size) : Nat) : Int) ≤ 0 := by
    push_cast; omega
  have hsub := toUInt16_sub bufsz (1 + remaining_length_size
      (2 + topic_name.length + application_message_size)) (by omega) hb
  have hfit : ¬ (bufsz - (1 + remaining_length_size
      (2 + topic_name.length + application_message_size))
      < 2 + topic_name.length + application_message_size) := by omega
  have hsz : (encode_remaining_length 5
      (2 + topic_name.length + application_message_size)).length
      = remaining_length_size (2 + topic_name.length + application_message_size) := rfl
  have hd : (__mqtt_pack_str topic_name).1 = (topic_name.length : Int) + 2 - 65536 := by
    rcases pack_str_fst_cases topic_name (by omega) with h | ⟨-, h⟩
    · rw [pack_str_fst, Nat.mod_eq_of_lt (by omega)] at h
      rcases toInt16_cases (topic_name.length + 2) (by omega) with ⟨h1, -⟩ | ⟨-, h2⟩
      · omega
      · rw [pack_str_fst, Nat.mod_eq_of_lt (by omega), h2]; push_cast; ring
    · exact h
  simp only [mqtt_pack_publish_request]
  rw [publish_length_mod topic_name application_message_size hN, h0]
  simp only [hrv, if_false, hsub, hfit, hd, pack_str_snd topic_name (by omega)]
  simp (disch := simp only [List.length_cons, hsz]; push_cast; omega) only [put_end]
  rw [put_below]
  · simp only [List.append_assoc, List.cons_append]
    refine Prod.ext ?_ rfl
    simp only
    refine congrArg toInt16 ?_
    push_cast
    omega
  · simp only [memcpy_length]
    push_cast
    omega


theorem cons_append_ne (x y : Nat) (a b c : List Nat) (hc : c ≠ []) :
    x :: (a ++ b) ≠ y :: (a ++ (b ++ c)) := by
  intro heq
  have hlen := congrArg List.length heq
  simp only [List.length_cons, List.length_append] at hlen
  have : c.length ≠ 0 := fun h => hc (List.length_eq_zero.mp h)
  omega

/-- A publish request with a topic of 32766 bytes and the payload `01 02 03`: the bytes
written end with the topic. -/
theorem pack_publish_request_long_topic (topic : List Nat) (hl : topic.length = 32766) :
    packet_size (2 + topic.length + [1, 2, 3].length) ≤ 65535 ∧
    (mqtt_pack_publish_request sampleConsts 65535 topic 7 [1, 2, 3] 3 0).2
      = 0x30 :: (encode_remaining_length 5 (2 + 32766 + 3) ++ length_prefixed topic) ∧
    (mqtt_pack_publish_request sampleConsts 65535 topic 7 [1, 2, 3] 3 0).2
      ≠ (0x30 ||| (0 &&& 0x07)) :: (encode_remaining_length 5 (2 + 32766 + 3)
          ++ (length_prefixed topic ++ [1, 2, 3])) := by
  have h := pack_publish_request_wrapped sampleConsts 65535 topic 7 [1, 2, 3] 3 0 (by decide)
    (by rw [hl]) (by rw [hl]; decide)
  rw [hl] at h
  have h2 : (mqtt_pack_publish_request sampleConsts 65535 topic 7 [1, 2, 3] 3 0).2
      = 0x30 :: (encode_remaining_length 5 (2 + 32766 + 3) ++ length_prefixed topic) := by
    rw [h]
    rfl
  refine ⟨by rw [hl]; decide, h2, ?_⟩
  rw [h2]
  exact cons_append_ne _ _ _ _ _ (List.cons_ne_nil _ _)

/-- C13, as stated, fails: for a topic of 32766 bytes and the payload `01 02 03` a
capacity of 65535 is sufficient (the packet has 32775 bytes), but `__mqtt_pack_str`
returns `(int16_t)32768 = -32768`, the write pointer goes back by that much, and the
payload is stored below the start of the buffer: the bytes written into the buffer
are the fixed header and the topic, without the payload. -/
theorem publish_wire_format_counterexample :
    packet_size (2 + (List.replicate 32766 97).length + [1, 2, 3].length) ≤ 65535 ∧
    (mqtt_pack_publish_request sampleConsts 65535 (List.replicate 32766 97) 7 [1, 2, 3] 3 0).2
      = 0x30 :: (encode_remaining_length 5 (2 + 32766 + 3)
          ++ length_prefixed (List.replicate 32766 97)) ∧
    (mqtt_pack_publish_request sampleConsts 65535 (List.replicate 32766 97) 7 [1, 2, 3] 3 0).2
      ≠ (0x30 ||| (0 &&& 0x07)) :: (encode_remaining_length 5 (2 + 32766 + 3)
          ++ (length_prefixed (List.replicate 32766 97) ++ [1, 2, 3])) :=
  pack_publish_request_long_topic (List.replicate 32766 97) (List.length_replicate _ _)

/-- C13 (amended): for every payload, every `publish_flags` byte, every topic of at
most 32765 bytes (the largest whose encoded size `__mqtt_pack_str` returns unchanged
in its `int16_t`) and a `uint16_t` capacity that holds the packet,
`mqtt_pack_publish_request` writes the first byte `0x30 | (publish_flags & 0x07)`, in
which the duplicate bit `0x08` is 0, then the encoding of the remaining length
`(2 + topic length) + payload length`, then the topic as a 2-byte big-endian length
followed by its bytes, then the payload bytes; the bytes do not depend on
`packet_id`. -/
theorem publish_wire_format (K : Consts) (bufsz : Nat) (topic payload : List Nat)
    (packet_id publish_flags : Nat) (hb : bufsz < 65536) (hf : publish_flags < 256)
    (ht : topic.length ≤ 32765)
    (hcap : packet_size ((2 + topic.length) + payload.length) ≤ bufsz) :
    (mqtt_pack_publish_request K bufsz topic packet_id payload payload.length publish_flags).2
      = (0x30 ||| (publish_flags &&& 0x07))
          :: (encode_remaining_length 5 ((2 + topic.length) + payload.length)
            ++ (length_prefixed topic ++ payload)) := by
  rw [pack_publish_request_fits K bufsz topic packet_id payload payload.length publish_flags hb
    ht hcap, publish_first_byte publish_flags hf, memcpy_all]

/-- Witness of `publish_wire_format`: topic "ab", payload `01 02 03`, flags `0x0B`
(duplicate, quality 1, retain) in the 140-byte send buffer. -/
theorem publish_wire_format_witness :
    (mqtt_pack_publish_request sampleConsts 140 [97, 98] 7 [1, 2, 3] [1, 2, 3].length 0x0B).2
      = (0x30 ||| (0x0B &&& 0x07))
          :: (encode_remaining_length 5 ((2 + [97, 98].length) + [1, 2, 3].length)
            ++ (length_prefixed [97, 98] ++ [1, 2, 3])) :=
  publish_wire_format sampleConsts 140 [97, 98] [1, 2, 3] 7 0x0B (by decide) (by decide)
    (by decide) (by decide)


/-- The bytes of a subscribe request whose topic has 32766 bytes or more: the write
pointer goes back behind the topic, and the requested-quality byte is stored below the
start of the buffer. -/
theorem pack_subscribe_request_wrapped (K : Consts) (bufsz packet_id : Nat) (topic : List Nat)
    (hb : bufsz < 65536) (ht : 32766 ≤ topic.length)
    (hcap : packet_size (2 + (2 + topic.length) + 1) ≤ bufsz) :
    mqtt_pack_subscribe_request K bufsz packet_id topic
      = (toInt16 ((packet_size (2 + (2 + topic.length) + 1) : Int) - 65536),
         (MQTT_CONTROL_SUBSCRIBE * 16 + 2)
           :: (encode_remaining_length 5 (2 + (2 + topic.length) + 1)
             ++ (uint16_be packet_id ++ length_prefixed topic))) := by
  unfold packet_size at hcap ⊢
  have hpos := remaining_length_size_pos (2 + (2 + topic.length) + 1)
  have hN : 2 + (2 + topic.length) + 1 < 2 ^ 32 := by omega
  have h0 := pack_fixed_header_fits K MQTT_CONTROL_SUBSCRIBE 2 _ bufsz (by decide) (by decide) hN
    (rule_violation_subscribe K _) hcap
  have hrv : ¬ ((1 + remaining_length_size (2 + (2 + topic.length) + 1) : Nat) : Int) ≤ 0 := by
    push_cast; omega
  have hsub := toUInt16_sub bufsz (1 + remaining_length_size (2 + (2 + topic.length) + 1))
    (by omega) hb
  have hfit : ¬ (bufsz - (1 + remaining_length_size (2 + (2 + topic.length) + 1))
      < 2 + (2 + topic.length) + 1) := by omega
  have hsz : (encode_remaining_length 5 (2 + (2 + topic.length) + 1)).length
      = remaining_length_size (2 + (2 + topic.length) + 1) := rfl
  have hd : (__mqtt_pack_str topic).1 = (topic.length : Int) + 2 - 65536 := by
    rcases pack_str_fst_cases topic (by omega) with h | ⟨-, h⟩
    · rw [pack_str_fst, Nat.mod_eq_of_lt (by omega)] at h
      rcases toInt16_cases (topic.length + 2) (by omega) with ⟨h1, -⟩ | ⟨-, h2⟩
      · omega
      · rw [pack_str_fst, Nat.mod_eq_of_lt (by omega), h2]; push_cast; ring
    · exact h
  simp only [mqtt_pack_subscribe_request]
  rw [subscribe_length_mod topic hN, h0]
  simp only [hrv, if_false, hsub, hfit, hd, pack_str_snd topic (by omega), pack_uint16_fst,
    pack_uint16_snd]
  simp (disch := simp only [List.length_cons, List.length_append, hsz,
      uint16_be_length]; push_cast; omega) only [put_end]
  rw [put_below]
  · simp only [List.append_assoc, List.cons_append]
    refine Prod.ext ?_ rfl
    simp only
    refine congrArg toInt16 ?_
    push_cast
    omega
  · simp only [List.length_cons, List.length_nil]
    push_cast
    omega

/-- A subscribe request with a topic of 32766 bytes: the bytes written end with the
topic. -/
theorem pack_subscribe_request_long_topic (topic : List Nat) (hl : topic.length = 32766) :
    packet_size (2 + (2 + topic.length) + 1) ≤ 65535 ∧
    (mqtt_pack_subscribe_request sampleConsts 65535 258 topic).2
      = 0x82 :: (encode_remaining_length 5 (2 + (2 + 32766) + 1)
          ++ (uint16_be 258 ++ length_prefixed topic)) ∧
    (mqtt_pack_subscribe_request sampleConsts 65535 258 topic).2
      ≠ 0x82 :: (encode_remaining_length 5 (2 + (2 + 32766) + 1)
          ++ (uint16_be 258 ++ (length_prefixed topic ++ [0]))) := by
  have h := pack_subscribe_request_wrapped sampleConsts 65535 258 topic (by decide)
    (by rw [hl]) (by rw [hl]; decide)
  rw [hl] at h
  have h2 : (mqtt_pack_subscribe_request sampleConsts 65535 258 topic).2
      = 0x82 :: (encode_remaining_length 5 (2 + (2 + 32766) + 1)
          ++ (uint16_be 258 ++ length_prefixed topic)) := by
    rw [h]
    rfl
  refine ⟨by rw [hl]; decide, h2, ?_⟩
  rw [h2, ← List.append_assoc]
  exact cons_append_ne _ _ _ _ _ (List.cons_ne_nil _ _)

/-- C15, as stated, fails: for a topic of 32766 bytes a capacity of 65535 is sufficient
(the packet has 32775 bytes), but `__mqtt_pack_str` returns `(int16_t)32768 = -32768`,
the write pointer goes back by that much, and the requested-quality byte is stored
below the start of the buffer: the bytes written into the buffer end with the topic. -/
theorem subscribe_wire_format_counterexample :
    packet_size (2 + (2 + (List.replicate 32766 97).length) + 1) ≤ 65535 ∧
    (mqtt_pack_subscribe_request sampleConsts 65535 258 (List.replicate 32766 97)).2
      = 0x82 :: (encode_remaining_length 5 (2 + (2 + 32766) + 1)
          ++ (uint16_be 258 ++ length_prefixed (List.replicate 32766 97))) ∧
    (mqtt_pack_subscribe_request sampleConsts 65535 258 (List.replicate 32766 97)).2
      ≠ 0x82 :: (encode_remaining_length 5 (2 + (2 + 32766) + 1)
          ++ (uint16_be 258 ++ (length_prefixed (List.replicate 32766 97) ++ [0]))) :=
  pack_subscribe_request_long_topic (List.replicate 32766 97) (List.length_replicate _ _)

/-- C15 (amended): for every packet id, every topic of at most 32765 bytes (the largest
whose encoded size `__mqtt_pack_str` returns unchanged in its `int16_t`) and a
`uint16_t` capacity that holds the packet, `mqtt_pack_subscribe_request` writes the
first byte `0x82`, the encoding of the remaining length `2 + (2 + topic length) + 1`,
the packet id as 2 bytes big-endian, the topic as a 2-byte big-endian length followed
by its bytes, and a final requested-quality byte 0. -/
theorem subscribe_wire_format (K : Consts) (bufsz packet_id : Nat) (topic : List Nat)
    (hb : bufsz < 65536) (ht : topic.length ≤ 32765)
    (hcap : packet_size (2 + (2 + topic.length) + 1) ≤ bufsz) :
    (mqtt_pack_subscribe_request K bufsz packet_id topic).2
      = 0x82 :: (encode_remaining_length 5 (2 + (2 + topic.length) + 1)
          ++ (uint16_be packet_id ++ (length_prefixed topic ++ [0]))) := by
  rw [pack_subscribe_request_fits K bufsz packet_id topic hb ht hcap]
  rfl

/-- Witness of `subscribe_wire_format`: packet id `0x0102` and topic "ab" in the
140-byte send buffer. -/
theorem subscribe_wire_format_witness :
    (mqtt_pack_subscribe_request sampleConsts 140 0x0102 [97, 98]).2
      = 0x82 :: (encode_remaining_length 5 (2 + (2 + [97, 98].length) + 1)
          ++ (uint16_be 0x0102 ++ (length_prefixed [97, 98] ++ [0]))) :=
  subscribe_wire_format sampleConsts 140 0x0102 [97, 98] (by decide) (by decide) (by decide)


theorem pack_str_fst_long (str : List Nat) (h1 : 32766 ≤ str.length)
    (h2 : str.length + 2 < 65536) :
    (__mqtt_pack_str str).1 = (str.length : Int) + 2 - 65536 := by
  rcases pack_str_fst_cases str h2 with h | ⟨-, h⟩
  · rw [pack_str_fst, Nat.mod_eq_of_lt (by omega)] at h
    rcases toInt16_cases (str.length + 2) h2 with ⟨h3, -⟩ | ⟨-, h4⟩
    · omega
    · rw [pack_str_fst, Nat.mod_eq_of_lt (by omega), h4]; push_cast; ring
  · exact h

/-- The bytes of a connect request without user name and password whose client id has
32766 bytes or more: the write pointer goes back behind the client id, and the will
topic and the will message are stored below the start of the buffer. -/
theorem pack_connection_request_wrapped (K : Consts) (bufsz : Nat)
    (client_id will_topic : List Nat) (will_message : List Nat) (will_message_size : Nat)
    (connect_flags keep_alive : Nat) (hb : bufsz < 65536) (hc : 32766 ≤ client_id.length)
    (hcap : packet_size
      (connect_remaining_length client_id will_topic will_message_size none none) ≤ bufsz) :
    (mqtt_pack_connection_request K bufsz client_id will_topic will_message
        will_message_size none none connect_flags keep_alive).2
      = (MQTT_CONTROL_CONNECT * 16) :: (encode_remaining_length 5
            (connect_remaining_length client_id will_topic will_message_size none none)
          ++ ([0x00, 0x04, 77, 81, 84, 84, K.MQTT_PROTOCOL_LEVEL % 256,
                ((((connect_flags &&& 254) % 256 ||| 4) ||| 32) &&& 127) &&& 191]
            ++ (uint16_be keep_alive ++ length_prefixed client_id))) := by
  unfold packet_size at hcap
  have hpos := remaining_length_size_pos
    (connect_remaining_length client_id will_topic will_message_size none none)
  have hle := remaining_length_size_le
    (connect_remaining_length client_id will_topic will_message_size none none)
  have hN : connect_remaining_length client_id will_topic will_message_size none none
      < 65536 := by omega
  have hmod := connect_length_mod client_id will_topic will_message_size none none
  rw [Nat.mod_eq_of_lt hN] at hmod
  have h0 := pack_fixed_header_fits K MQTT_CONTROL_CONNECT 0 _ bufsz (by decide) (by decide)
    (show connect_remaining_length client_id will_topic will_message_size none none
      < 2 ^ 32 by omega) (rule_violation_connect K _) hcap
  have hx : (connect_flags &&& 254) % 256 < 256 := Nat.mod_lt _ (by decide)
  obtain ⟨b1, b2, b3, -⟩ := connect_flag_bits _ hx
  have hrv : ¬ ((1 + remaining_length_size
      (connect_remaining_length client_id will_topic will_message_size none none) : Nat)
      : Int) ≤ 0 := by push_cast; omega
  have hsub := toUInt16_sub bufsz (1 + remaining_length_size
      (connect_remaining_length client_id will_topic will_message_size none none))
      (by omega) hb
  have hfit : ¬ (bufsz - (1 + remaining_length_size
      (connect_remaining_length client_id will_topic will_message_size none none))
      < connect_remaining_length client_id will_topic will_message_size none none) := by
    omega
  have hsz : (encode_remaining_length 5
      (connect_remaining_length client_id will_topic will_message_size none none)).length
      = remaining_length_size
        (connect_remaining_length client_id will_topic will_message_size none none) :=
    rfl
  have hcl : client_id.length < 65536 := by
    simp only [connect_remaining_length] at hN; omega
  have hwl : will_topic.length < 65536 := by
    simp only [connect_remaining_length] at hN; omega
  have hd1 := pack_str_fst_long client_id hc (by
    simp only [connect_remaining_length] at hN; omega)
  have hw := pack_str_fst_cases will_topic (by
    simp only [connect_remaining_length] at hN; omega)
  generalize hd2 : (__mqtt_pack_str will_topic).1 = d2 at hw
  have key : ∀ r : Int × List Nat,
      r = mqtt_pack_connection_request K bufsz client_id will_topic will_message
        will_message_size none none connect_flags keep_alive →
      r.2 = (MQTT_CONTROL_CONNECT * 16) :: (encode_remaining_length 5
            (connect_remaining_length client_id will_topic will_message_size none none)
          ++ ([0x00, 0x04, 77, 81, 84, 84, K.MQTT_PROTOCOL_LEVEL % 256,
                ((((connect_flags &&& 254) % 256 ||| 4) ||| 32) &&& 127) &&& 191]
            ++ (uint16_be keep_alive ++ length_prefixed client_id))) := by
    intro r hr
    simp only [mqtt_pack_connection_request] at hr
    simp only at hmod
    rw [hmod, h0] at hr
    simp only [hrv, if_false, hsub, hfit, MQTT_CONNECT_RESERVED, MQTT_CONNECT_WILL_FLAG,
      MQTT_CONNECT_WILL_RETAIN, MQTT_CONNECT_USER_NAME, MQTT_CONNECT_PASSWORD,
      Nat.reduceSub] at hr
    rw [if_neg (not_not.mpr b3), if_neg (not_not.mpr b2), if_pos b1] at hr
    dsimp only at hr
    simp only [pack_uint16_fst, pack_uint16_snd, hd1, hd2, pack_str_snd client_id hcl,
      pack_str_snd will_topic hwl] at hr
    rw [hr]
    simp only [connect_remaining_length] at hcap hN hsz ⊢
    simp (disch := simp only [List.length_cons, List.length_append, List.length_nil, hsz,
      uint16_be_length, length_prefixed_length]; push_cast; omega) only [put_end]
    simp (disch := simp only [List.length_cons, List.length_append, List.length_nil, hsz,
      uint16_be_length, length_prefixed_length, memcpy_length]; push_cast; omega) only
      [put_below]
    simp only [List.append_assoc, List.cons_append, Nat.add_zero]
  exact key _ rfl


theorem cons_append_length_ne (x y : Nat) (a b c : List Nat) (h : b.length < c.length) :
    x :: (a ++ b) ≠ y :: (a ++ c) := by
  intro heq
  have hlen := congrArg List.length heq
  simp only [List.length_cons, List.length_append] at hlen
  omega

theorem connect_variable_part_length (pl flags ka : Nat) (c w m : List Nat) :
    (connect_variable_part pl flags ka c w m none none).length
      = 8 + 2 + (c.length + 2) + (w.length + 2) + 2 + m.length := by
  simp only [connect_variable_part, optional_field, List.length_append, List.length_cons,
    List.length_nil, uint16_be_length, length_prefixed_length]
  omega

theorem connect_variable_part_longer (pl flags ka : Nat) (c w m x : List Nat)
    (hx : x.length = 8) :
    (x ++ (uint16_be ka ++ length_prefixed c)).length
      < (connect_variable_part pl flags ka c w m none none).length := by
  rw [connect_variable_part_length]
  simp only [List.length_append, uint16_be_length, length_prefixed_length, hx]
  omega

/-- A connect request with a client id of 32766 bytes, the will topic "w" and the will
message `01 02 03`: the bytes written end with the client id. -/
theorem pack_connection_request_long_client_id (client_id : List Nat)
    (hl : client_id.length = 32766) :
    packet_size (connect_remaining_length client_id [119] 3 none none) ≤ 65535 ∧
    (mqtt_pack_connection_request sampleConsts 65535 client_id [119]
        [1, 2, 3] 3 none none 0 60).2
      = 0x10 :: (encode_remaining_length 5 (10 + (32766 + 2) + (1 + 2) + (2 + 3))
          ++ ([0x00, 0x04, 77, 81, 84, 84, 4, 36]
            ++ (uint16_be 60 ++ length_prefixed client_id))) ∧
    ∀ flags : Nat,
      (mqtt_pack_connection_request sampleConsts 65535 client_id [119]
          [1, 2, 3] 3 none none 0 60).2
        ≠ 0x10 :: (encode_remaining_length 5 (10 + (32766 + 2) + (1 + 2) + (2 + 3))
            ++ connect_variable_part 4 flags 60 client_id [119] [1, 2, 3] none none) := by
  have hN : connect_remaining_length client_id [119] 3 none none
      = 10 + (32766 + 2) + (1 + 2) + (2 + 3) := by
    simp only [connect_remaining_length, hl, List.length_singleton]
  have h := pack_connection_request_wrapped sampleConsts 65535 client_id [119] [1, 2, 3] 3
    0 60 (by decide) (by rw [hl]) (by rw [hN]; decide)
  rw [hN] at h
  have h2 : (mqtt_pack_connection_request sampleConsts 65535 client_id [119]
        [1, 2, 3] 3 none none 0 60).2
      = 0x10 :: (encode_remaining_length 5 (10 + (32766 + 2) + (1 + 2) + (2 + 3))
          ++ ([0x00, 0x04, 77, 81, 84, 84, 4, 36]
            ++ (uint16_be 60 ++ length_prefixed client_id))) := by
    rw [h]
    rfl
  refine ⟨by rw [hN]; decide, h2, ?_⟩
  intro flags
  rw [h2]
  exact cons_append_length_ne _ _ _ _ _ (connect_variable_part_longer _ _ _ _ _ _ _ rfl)

/-- C14, as stated, fails: for a client id of 32766 bytes, the will topic "w" and the
will message `01 02 03`, without user name and password, a capacity of 65535 is
sufficient (the packet has 32790 bytes), but `__mqtt_pack_str` returns
`(int16_t)32768 = -32768` for the client id, the write pointer goes back by that much,
and the will topic and the will message are stored below the start of the buffer: the
bytes written into the buffer end with the client id, whatever the flags byte. -/
theorem connect_wire_format_counterexample :
    packet_size (connect_remaining_length (List.replicate 32766 97) [119] 3 none none)
      ≤ 65535 ∧
    (mqtt_pack_connection_request sampleConsts 65535 (List.replicate 32766 97) [119]
        [1, 2, 3] 3 none none 0 60).2
      = 0x10 :: (encode_remaining_length 5 (10 + (32766 + 2) + (1 + 2) + (2 + 3))
          ++ ([0x00, 0x04, 77, 81, 84, 84, 4, 36]
            ++ (uint16_be 60 ++ length_prefixed (List.replicate 32766 97)))) ∧
    ∀ flags : Nat,
      (mqtt_pack_connection_request sampleConsts 65535 (List.replicate 32766 97) [119]
          [1, 2, 3] 3 none none 0 60).2
        ≠ 0x10 :: (encode_remaining_length 5 (10 + (32766 + 2) + (1 + 2) + (2 + 3))
            ++ connect_variable_part 4 flags 60 (List.replicate 32766 97) [119] [1, 2, 3]
                none none) :=
  pack_connection_request_long_client_id (List.replicate 32766 97) (List.length_replicate _ _)

/-- C14 (amended): for a `uint16_t` capacity that holds the packet and a client id, will
topic, user name and password of at most 32765 bytes each (the largest whose encoded
size `__mqtt_pack_str` returns unchanged in its `int16_t`), the bytes that
`mqtt_pack_connection_request` writes after the fixed header are, in order:
`0x00 0x04 'M' 'Q' 'T' 'T'`, the protocol-level byte, the connect-flags byte, the
keep-alive as 2 bytes big-endian, the length-prefixed client id, the length-prefixed
will topic, the 2-byte big-endian will-message length and the raw will bytes, then the
length-prefixed user name if and only if one was supplied, then the length-prefixed
password if and only if one was supplied; and the connect-flags byte has the user-name
and password bits set exactly for the supplied fields, the will flag set, and the
reserved bit 0 clear. -/
theorem connect_wire_format (K : Consts) (bufsz : Nat) (client_id will_topic : List Nat)
    (will_message : List Nat) (user_name password : Option (List Nat))
    (connect_flags keep_alive : Nat) (hb : bufsz < 65536)
    (hc : client_id.length ≤ 32765) (hw : will_topic.length ≤ 32765)
    (hu : ∀ u, user_name = some u → u.length ≤ 32765)
    (hp : ∀ p, password = some p → p.length ≤ 32765)
    (hcap : packet_size
      (connect_remaining_length client_id will_topic will_message.length user_name password)
        ≤ bufsz) :
    ∃ flags : Nat, flags < 256 ∧
      (flags &&& MQTT_CONNECT_USER_NAME ≠ 0 ↔ user_name.isSome = true) ∧
      (flags &&& MQTT_CONNECT_PASSWORD ≠ 0 ↔ password.isSome = true) ∧
      flags &&& MQTT_CONNECT_WILL_FLAG ≠ 0 ∧
      flags &&& MQTT_CONNECT_RESERVED = 0 ∧
      (mqtt_pack_connection_request K bufsz client_id will_topic will_message
          will_message.length user_name password connect_flags keep_alive).2
        = 0x10 :: (encode_remaining_length 5
              (connect_remaining_length client_id will_topic will_message.length user_name
                password)
            ++ connect_variable_part (K.MQTT_PROTOCOL_LEVEL % 256) flags keep_alive client_id
                will_topic will_message user_name password) := by
  obtain ⟨flags, h1, h2, h3, h4, h5, hpack⟩ := pack_connection_request_wire K bufsz client_id
    will_topic will_message will_message.length user_name password connect_flags keep_alive
    hb hc hw hu hp hcap
  refine ⟨flags, h1, h4, h5, h2, h3, ?_⟩
  rw [hpack, memcpy_all]
  simp only [connect_variable_part, List.append_assoc, List.cons_append, List.nil_append]
  rfl

/-- Witness of `connect_wire_format`: client id "ab", will topic "w", will message
`01 02 03`, user name "u", no password, in the 140-byte send buffer. -/
theorem connect_wire_format_witness :
    ∃ flags : Nat, flags < 256 ∧
      (flags &&& MQTT_CONNECT_USER_NAME ≠ 0 ↔ (some [117]).isSome = true) ∧
      (flags &&& MQTT_CONNECT_PASSWORD ≠ 0 ↔ (none : Option (List Nat)).isSome = true) ∧
      flags &&& MQTT_CONNECT_WILL_FLAG ≠ 0 ∧
      flags &&& MQTT_CONNECT_RESERVED = 0 ∧
      (mqtt_pack_connection_request sampleConsts 140 [97, 98] [119] [1, 2, 3]
          [1, 2, 3].length (some [117]) none 3 60).2
        = 0x10 :: (encode_remaining_length 5
              (connect_remaining_length [97, 98] [119] [1, 2, 3].length (some [117]) none)
            ++ connect_variable_part (sampleConsts.MQTT_PROTOCOL_LEVEL % 256) flags 60
                [97, 98] [119] [1, 2, 3] (some [117]) none) :=
  connect_wire_format sampleConsts 140 [97, 98] [119] [1, 2, 3] (some [117]) none 3 60
    (by decide) (by decide) (by decide)
    (fun u hu => by cases hu; decide) (fun p hp => by cases hp) (by decide)


/-! ## Decoding the bodies of responses -/

set_option maxRecDepth 100000 in
theorem byte_bits_1_to_7 : ∀ b < 256,
    (b &&& 0xFE ≠ 0 ↔ ∃ i ∈ [1, 2, 3, 4, 5, 6, 7], b.testBit i = true) := by decide

theorem getD_lt_of_all_lt (buf : List Nat) (hbytes : ∀ b ∈ buf, b < 256) (i : Nat) :
    buf.getD i 0 < 256 := by
  by_cases h : i < buf.length
  · rw [List.getD_eq_getElem _ _ h]
    exact hbytes _ (List.getElem_mem _)
  · rw [List.getD_eq_default _ _ (by omega)]
    decide

/-- C16: on a buffer of bytes with the body of a CONNACK record at offset `pos` (body
bytes `buf[pos]` and `buf[pos + 1]`), `mqtt_unpack_connack_response` returns `MQTT_ERROR_MALFORMED_RESPONSE` when
the remaining length is not 2; otherwise `MQTT_ERROR_CONNACK_FORBIDDEN_FLAGS` when one
of the bits 1..7 of body byte 0 is set; otherwise `MQTT_ERROR_CONNACK_FORBIDDEN_CODE`
when body byte 1 is greater than 5; otherwise it returns 2 with
`session_present_flag` = body byte 0 and `return_code` = body byte 1. -/
theorem connack_decoding (K : Consts) (response : mqtt_response) (buf : List Nat) (pos : Nat)
    (hbytes : ∀ b ∈ buf, b < 256) :
    (response.fixed_header.remaining_length ≠ 2 →
      (mqtt_unpack_connack_response K response buf pos).1
        = K.code .MQTT_ERROR_MALFORMED_RESPONSE) ∧
    (response.fixed_header.remaining_length = 2 →
      (∃ i ∈ [1, 2, 3, 4, 5, 6, 7], (buf.getD pos 0).testBit i = true) →
      (mqtt_unpack_connack_response K response buf pos).1
        = K.code .MQTT_ERROR_CONNACK_FORBIDDEN_FLAGS) ∧
    (response.fixed_header.remaining_length = 2 →
      (¬ ∃ i ∈ [1, 2, 3, 4, 5, 6, 7], (buf.getD pos 0).testBit i = true) →
      5 < buf.getD (pos + 1) 0 →
      (mqtt_unpack_connack_response K response buf pos).1
        = K.code .MQTT_ERROR_CONNACK_FORBIDDEN_CODE) ∧
    (response.fixed_header.remaining_length = 2 →
      (¬ ∃ i ∈ [1, 2, 3, 4, 5, 6, 7], (buf.getD pos 0).testBit i = true) →
      buf.getD (pos + 1) 0 ≤ 5 →
      (mqtt_unpack_connack_response K response buf pos).1 = 2 ∧
      (mqtt_unpack_connack_response K response buf pos).2.connack
        = ⟨buf.getD pos 0, buf.getD (pos + 1) 0⟩ ∧
      (mqtt_unpack_connack_response K response buf pos).2.fixed_header
        = response.fixed_header) := by
  have hbits := byte_bits_1_to_7 (buf.getD pos 0) (getD_lt_of_all_lt buf hbytes pos)
  refine ⟨?_, ?_, ?_, ?_⟩
  · intro h
    unfold mqtt_unpack_connack_response
    rw [if_pos h]
  · intro h hb
    unfold mqtt_unpack_connack_response
    rw [if_neg (not_not.mpr h), if_pos (hbits.mpr hb)]
  · intro h hb hc
    unfold mqtt_unpack_connack_response
    rw [if_neg (not_not.mpr h), if_neg (fun hx => hb (hbits.mp hx))]
    simp only
    rw [if_pos hc]
  · intro h hb hc
    unfold mqtt_unpack_connack_response
    rw [if_neg (not_not.mpr h), if_neg (fun hx => hb (hbits.mp hx))]
    simp only
    rw [if_neg (by omega)]
    exact ⟨rfl, rfl, rfl⟩

/-- Witness of `connack_decoding`: the record `20 02 01 00` (session present, accepted),
whose body starts at offset 2. -/
theorem connack_decoding_witness :
    (mqtt_unpack_connack_response sampleConsts
        { sampleResponse with fixed_header := ⟨MQTT_CONTROL_CONNACK, 0, 2⟩ }
        [0x20, 0x02, 0x01, 0x00] 2).1 = 2 ∧
    (mqtt_unpack_connack_response sampleConsts
        { sampleResponse with fixed_header := ⟨MQTT_CONTROL_CONNACK, 0, 2⟩ }
        [0x20, 0x02, 0x01, 0x00] 2).2.connack
      = ⟨[0x20, 0x02, 0x01, 0x00].getD 2 0, [0x20, 0x02, 0x01, 0x00].getD (2 + 1) 0⟩ ∧
    (mqtt_unpack_connack_response sampleConsts
        { sampleResponse with fixed_header := ⟨MQTT_CONTROL_CONNACK, 0, 2⟩ }
        [0x20, 0x02, 0x01, 0x00] 2).2.fixed_header
      = ({ sampleResponse with fixed_header := ⟨MQTT_CONTROL_CONNACK, 0, 2⟩ }
          : mqtt_response).fixed_header :=
  (connack_decoding sampleConsts
    { sampleResponse with fixed_header := ⟨MQTT_CONTROL_CONNACK, 0, 2⟩ }
    [0x20, 0x02, 0x01, 0x00] 2 (by decide)).2.2.2 rfl (by decide) (by decide)


theorem publish_flag_bits16 : ∀ x < 16,
    ((x &&& MQTT_PUBLISH_DUP) >>> 3) % 256 = x / 8 % 2 ∧
    ((x &&& MQTT_PUBLISH_QOS_MASK) >>> 1) % 256 = x / 2 % 4 ∧
    (x &&& MQTT_PUBLISH_RETAIN) % 256 = x % 2 := by decide

theorem and_low_nibble (f m : Nat) (hm : 15 &&& m = m) : f &&& m = (f % 16) &&& m := by
  have h : f % 16 = f &&& 15 := (Nat.and_pow_two_sub_one_eq_mod f 4).symm
  rw [h, Nat.and_assoc, hm]

/-- The flag fields that `mqtt_unpack_publish_response` extracts are the bits 3, 2..1
and 0 of the header flags. -/
theorem publish_flag_bits (f : Nat) :
    ((f &&& MQTT_PUBLISH_DUP) >>> 3) % 256 = f / 8 % 2 ∧
    ((f &&& MQTT_PUBLISH_QOS_MASK) >>> 1) % 256 = f / 2 % 4 ∧
    (f &&& MQTT_PUBLISH_RETAIN) % 256 = f % 2 := by
  obtain ⟨h1, h2, h3⟩ := publish_flag_bits16 (f % 16) (Nat.mod_lt _ (by decide))
  rw [and_low_nibble f MQTT_PUBLISH_DUP rfl, and_low_nibble f MQTT_PUBLISH_QOS_MASK rfl,
    and_low_nibble f MQTT_PUBLISH_RETAIN rfl, h1, h2, h3]
  omega

theorem unpack_uint16_uint16_be (pre rest : List Nat) (x : Nat) (hx : x < 65536) :
    __mqtt_unpack_uint16 (pre ++ (uint16_be x ++ rest)) pre.length = x := by
  have h0 : (pre ++ (uint16_be x ++ rest)).getD pre.length 0 = x / 256 % 256 := by
    rw [List.getD_append_right _ _ _ _ (le_refl _)]
    simp [uint16_be]
  have h1 : (pre ++ (uint16_be x ++ rest)).getD (pre.length + 1) 0 = x % 256 := by
    rw [List.getD_append_right _ _ _ _ (by omega)]
    simp [uint16_be]
  unfold __mqtt_unpack_uint16
  rw [h0, h1]
  omega

theorem drop_take_middle (pre mid rest : List Nat) :
    ((pre ++ (mid ++ rest)).drop pre.length).take mid.length = mid := by
  rw [List.drop_left, List.take_left]


/-- Publish decoding of a record whose topic lies inside it.
`mqtt_unpack_publish_response` returns `MQTT_ERROR_MALFORMED_RESPONSE` when the
remaining length `R` is below 4.  On a complete PUBLISH record with header flags `f`
whose body, at offset `pre.length` of the buffer, is the 2-byte big-endian length of
`topic`, the bytes of `topic` and the bytes of `message` (so `R` is
`2 + topic length + message length`, at least 4 and below `2^16`, the buffer size being
a `uint16_t`), it reports dup = bit 3 of `f`, qos = bits 2..1 of `f`, retain = bit 0 of
`f`, the topic size and the topic as the bytes that follow the length, and the
application message as all the remaining `R - L - 2` bytes of the record. -/
theorem publish_decoding (K : Consts) (response : mqtt_response)
    (pre topic message rest : List Nat)
    (hR : response.fixed_header.remaining_length = 2 + topic.length + message.length)
    (h4 : 4 ≤ 2 + topic.length + message.length)
    (hlt : 2 + topic.length + message.length < 65536) :
    (∀ (r : mqtt_response) (buf : List Nat) (pos : Nat),
      r.fixed_header.remaining_length < 4 →
      (mqtt_unpack_publish_response K r buf pos).1 = K.code .MQTT_ERROR_MALFORMED_RESPONSE) ∧
    (mqtt_unpack_publish_response K response
        (pre ++ (length_prefixed topic ++ (message ++ rest))) pre.length).2.publish.dup_flag
      = response.fixed_header.control_flags / 8 % 2 ∧
    (mqtt_unpack_publish_response K response
        (pre ++ (length_prefixed topic ++ (message ++ rest))) pre.length).2.publish.qos_level
      = response.fixed_header.control_flags / 2 % 4 ∧
    (mqtt_unpack_publish_response K response
        (pre ++ (length_prefixed topic ++ (message ++ rest))) pre.length).2.publish.retain_flag
      = response.fixed_header.control_flags % 2 ∧
    (mqtt_unpack_publish_response K response
        (pre ++ (length_prefixed topic ++ (message ++ rest)))
        pre.length).2.publish.topic_name_size = topic.length ∧
    ((pre ++ (length_prefixed topic ++ (message ++ rest))).drop
        (mqtt_unpack_publish_response K response
          (pre ++ (length_prefixed topic ++ (message ++ rest)))
          pre.length).2.publish.topic_name).take
        (mqtt_unpack_publish_response K response
          (pre ++ (length_prefixed topic ++ (message ++ rest)))
          pre.length).2.publish.topic_name_size = topic ∧
    (mqtt_unpack_publish_response K response
        (pre ++ (length_prefixed topic ++ (message ++ rest)))
        pre.length).2.publish.application_message_size = message.length ∧
    ((pre ++ (length_prefixed topic ++ (message ++ rest))).drop
        (mqtt_unpack_publish_response K response
          (pre ++ (length_prefixed topic ++ (message ++ rest)))
          pre.length).2.publish.application_message).take
        (mqtt_unpack_publish_response K response
          (pre ++ (length_prefixed topic ++ (message ++ rest)))
          pre.length).2.publish.application_message_size = message := by
  obtain ⟨f1, f2, f3⟩ := publish_flag_bits response.fixed_header.control_flags
  have hL : __mqtt_unpack_uint16 (pre ++ (length_prefixed topic ++ (message ++ rest)))
      pre.length = topic.length := by
    unfold length_prefixed
    rw [List.append_assoc]
    exact unpack_uint16_uint16_be pre _ topic.length (by omega)
  have hsize : toUInt16 (((2 + topic.length + message.length : Nat) : Int)
      - (topic.length : Int) - 2) = message.length := by
    unfold toUInt16
    omega
  have hnot : ¬ response.fixed_header.remaining_length < 4 := by omega
  have hout : mqtt_unpack_publish_response K response
      (pre ++ (length_prefixed topic ++ (message ++ rest))) pre.length
      = (toInt16 ((2 : Int) + (topic.length : Int) + (message.length : Int)),
          { response with publish :=
            { dup_flag := response.fixed_header.control_flags / 8 % 2,
              qos_level := response.fixed_header.control_flags / 2 % 4,
              retain_flag := response.fixed_header.control_flags % 2,
              topic_name_size := topic.length,
              topic_name := pre.length + 2,
              application_message := pre.length + 2 + topic.length,
              application_message_size := message.length } }) := by
    unfold mqtt_unpack_publish_response
    simp only [hnot, if_false, hL, f1, f2, f3]
    rw [hR, hsize]
  have htopic : ((pre ++ (length_prefixed topic ++ (message ++ rest))).drop
      (pre.length + 2)).take topic.length = topic := by
    have := drop_take_middle (pre ++ uint16_be topic.length) topic (message ++ rest)
    simp only [List.length_append, uint16_be_length, List.append_assoc] at this
    simpa only [length_prefixed, List.append_assoc] using this
  have hmsg : ((pre ++ (length_prefixed topic ++ (message ++ rest))).drop
      (pre.length + 2 + topic.length)).take message.length = message := by
    have := drop_take_middle (pre ++ (uint16_be topic.length ++ topic)) message rest
    simp only [List.length_append, uint16_be_length, List.append_assoc] at this
    rw [show pre.length + (2 + topic.length) = pre.length + 2 + topic.length by omega] at this
    simpa only [length_prefixed, List.append_assoc] using this
  refine ⟨?_, ?_⟩
  · intro r buf pos h
    unfold mqtt_unpack_publish_response
    simp only [h, if_true]
  · rw [hout]
    exact ⟨rfl, rfl, rfl, rfl, htopic, rfl, hmsg⟩

/-- Witness of `publish_decoding`: the record `3B 07 00 02 61 62 01 02 03` (flags `0x0B`,
topic "ab", message `01 02 03`), whose body starts at offset 2. -/
theorem publish_decoding_witness :
    (mqtt_unpack_publish_response sampleConsts
        { sampleResponse with fixed_header := ⟨MQTT_CONTROL_PUBLISH, 0x0B, 7⟩ }
        ([0x3B, 0x07] ++ (length_prefixed [97, 98] ++ ([1, 2, 3] ++ [])))
        [0x3B, 0x07].length).2.publish.topic_name_size = [97, 98].length ∧
    (([0x3B, 0x07] ++ (length_prefixed [97, 98] ++ ([1, 2, 3] ++ []))).drop
        (mqtt_unpack_publish_response sampleConsts
          { sampleResponse with fixed_header := ⟨MQTT_CONTROL_PUBLISH, 0x0B, 7⟩ }
          ([0x3B, 0x07] ++ (length_prefixed [97, 98] ++ ([1, 2, 3] ++ [])))
          [0x3B, 0x07].length).2.publish.application_message).take
        (mqtt_unpack_publish_response sampleConsts
          { sampleResponse with fixed_header := ⟨MQTT_CONTROL_PUBLISH, 0x0B, 7⟩ }
          ([0x3B, 0x07] ++ (length_prefixed [97, 98] ++ ([1, 2, 3] ++ [])))
          [0x3B, 0x07].length).2.publish.application_message_size = [1, 2, 3] :=
  (fun h => ⟨h.2.2.2.2.1, h.2.2.2.2.2.2.2⟩)
    (publish_decoding sampleConsts
      { sampleResponse with fixed_header := ⟨MQTT_CONTROL_PUBLISH, 0x0B, 7⟩ }
      [0x3B, 0x07] [97, 98] [1, 2, 3] [] rfl (by decide) (by decide))


/-- C17 at a failing input: the 6 bytes `30 04 00 03 61 62` are a complete PUBLISH record
with remaining length 4 whose topic length field says 3, followed in the buffer by the
record `D0 00`.  `mqtt_unpack_response` succeeds on the record (it returns 6):
`mqtt_unpack_publish_response` has tested `remaining_length < 4` only.  The topic it
reports is the 3 bytes `61 62 D0`, the last of which is the first byte of the next
record, and the application message it reports has `(uint16_t)(4 - 3 - 2) = 65535`
bytes, from offset 7 on, where the remaining `R - L - 2` bytes of the record are none. -/
theorem publish_decoding_short_record :
    (mqtt_unpack_response sampleConsts sampleResponse
        [0x30, 0x04, 0x00, 0x03, 0x61, 0x62, 0xD0, 0x00] 8).1 = 6 ∧
    (mqtt_unpack_response sampleConsts sampleResponse
        [0x30, 0x04, 0x00, 0x03, 0x61, 0x62, 0xD0, 0x00] 8).2.fixed_header
      = ⟨MQTT_CONTROL_PUBLISH, 0, 4⟩ ∧
    (mqtt_unpack_response sampleConsts sampleResponse
        [0x30, 0x04, 0x00, 0x03, 0x61, 0x62, 0xD0, 0x00] 8).2.publish
      = ⟨0, 0, 0, 3, 4, 7, 65535⟩ ∧
    ([0x30, 0x04, 0x00, 0x03, 0x61, 0x62, 0xD0, 0x00].drop 4).take 3 = [0x61, 0x62, 0xD0] ∧
    (mqtt_unpack_publish_response sampleConsts
        { sampleResponse with fixed_header := ⟨MQTT_CONTROL_PUBLISH, 0, 4⟩ }
        [0x30, 0x04, 0x00, 0x03, 0x61, 0x62, 0xD0, 0x00] 2).2.publish
      = ⟨0, 0, 0, 3, 4, 7, 65535⟩ := by
  decide

/-- C18 at the failing input: the 6 bytes `30 04 00 64 00 00` are a PUBLISH record with
remaining length 4 whose topic length field says 100.  `mqtt_unpack_response` succeeds
on them (it returns 6), `mqtt_unpack_publish_response` having compared neither the
topic size with the remaining length nor the ranges with the buffer: the decoded
topic size is 100, so `topic_name_size + 2 ≤ remaining_length` fails, the application
message size is `(uint16_t)(4 - 100 - 2) = 65438`, and the topic range (offsets 4 to
104) and the message range (from offset 104) lie outside the 6 bytes. -/
theorem publish_decode_out_of_bounds :
    (mqtt_unpack_response sampleConsts sampleResponse
        [0x30, 0x04, 0x00, 0x64, 0x00, 0x00] 6).1 = 6 ∧
    (mqtt_unpack_response sampleConsts sampleResponse
        [0x30, 0x04, 0x00, 0x64, 0x00, 0x00] 6).2.fixed_header = ⟨MQTT_CONTROL_PUBLISH, 0, 4⟩ ∧
    (mqtt_unpack_response sampleConsts sampleResponse
        [0x30, 0x04, 0x00, 0x64, 0x00, 0x00] 6).2.publish = ⟨0, 0, 0, 100, 4, 104, 65438⟩ ∧
    ¬ ((mqtt_unpack_response sampleConsts sampleResponse
          [0x30, 0x04, 0x00, 0x64, 0x00, 0x00] 6).2.publish.topic_name_size + 2
        ≤ (mqtt_unpack_response sampleConsts sampleResponse
          [0x30, 0x04, 0x00, 0x64, 0x00, 0x00] 6).2.fixed_header.remaining_length) ∧
    ¬ (2 + (mqtt_unpack_response sampleConsts sampleResponse
          [0x30, 0x04, 0x00, 0x64, 0x00, 0x00] 6).2.publish.topic_name_size
        + (mqtt_unpack_response sampleConsts sampleResponse
          [0x30, 0x04, 0x00, 0x64, 0x00, 0x00] 6).2.publish.application_message_size
        = (mqtt_unpack_response sampleConsts sampleResponse
          [0x30, 0x04, 0x00, 0x64, 0x00, 0x00] 6).2.fixed_header.remaining_length) := by
  decide


/-! ## Finding a descriptor -/

theorem mq_find_from_cons (ct : Nat) (pid : Option Nat) (m : mqtt_queued_message)
    (rest : List mqtt_queued_message) (i0 : Nat) :
    mqtt_mq_find_from ct pid (m :: rest) i0
      = if mq_matches ct pid m then some i0 else mqtt_mq_find_from ct pid rest (i0 + 1) := by
  cases pid with
  | none => simp [mqtt_mq_find_from, mq_matches]
  | some p =>
    simp only [mqtt_mq_find_from, mq_matches, Option.some.injEq]
    by_cases h : m.control_type = ct ∧ m.packet_id = p
    · rw [if_pos h, if_pos ⟨h.1, Or.inr ⟨by simp, h.2.symm⟩⟩]
    · rw [if_neg h, if_neg]
      rintro ⟨h1, h2 | ⟨-, h2⟩⟩
      · simp at h2
      · exact h ⟨h1, h2.symm⟩

theorem mq_find_from_some (ct : Nat) (pid : Option Nat) :
    ∀ (l : List mqtt_queued_message) (i0 i : Nat),
      mqtt_mq_find_from ct pid l i0 = some i ↔
        ∃ j, i = i0 + j ∧ j < l.length ∧ mq_matches ct pid (l.getD j sampleMessage) ∧
          ∀ j', j' < j → ¬ mq_matches ct pid (l.getD j' sampleMessage)
  | [], i0, i => by simp [mqtt_mq_find_from]
  | m :: rest, i0, i => by
    rw [mq_find_from_cons]
    by_cases hm : mq_matches ct pid m
    · rw [if_pos hm]
      constructor
      · intro h
        refine ⟨0, by simpa using h.symm, by simp, by simpa using hm, ?_⟩
        intro j' hj'
        omega
      · rintro ⟨j, hj, -, -, hfirst⟩
        cases j with
        | zero => simp [hj]
        | succ k => exact absurd (by simpa using hm) (hfirst 0 (by omega))
    · rw [if_neg hm, mq_find_from_some ct pid rest (i0 + 1) i]
      constructor
      · rintro ⟨j, hj, hlt, h1, h2⟩
        refine ⟨j + 1, by omega, by simp; omega, by simpa using h1, ?_⟩
        intro j' hj'
        cases j' with
        | zero => simpa using hm
        | succ k => simpa using h2 k (by omega)
      · rintro ⟨j, hj, hlt, h1, h2⟩
        cases j with
        | zero => exact absurd (by simpa using h1) hm
        | succ k =>
          refine ⟨k, by omega, by simpa using hlt, by simpa using h1, ?_⟩
          intro j' hj'
          simpa using h2 (j' + 1) (by omega)

theorem mq_find_from_none (ct : Nat) (pid : Option Nat) :
    ∀ (l : List mqtt_queued_message) (i0 : Nat),
      mqtt_mq_find_from ct pid l i0 = none ↔ ∀ msg ∈ l, ¬ mq_matches ct pid msg
  | [], i0 => by simp [mqtt_mq_find_from]
  | m :: rest, i0 => by
    rw [mq_find_from_cons]
    by_cases hm : mq_matches ct pid m
    · rw [if_pos hm]
      simp only [List.mem_cons, forall_eq_or_imp]
      constructor
      · intro h
        exact absurd h (by simp)
      · intro h
        exact absurd hm h.1
    · rw [if_neg hm, mq_find_from_none ct pid rest (i0 + 1)]
      simp only [List.mem_cons, forall_eq_or_imp]
      exact ⟨fun h => ⟨hm, h⟩, fun h => h.2⟩

/-- C19, as stated, fails: on a queue in which two ping requests have been registered
one after the other, both of them not Complete, `mqtt_mq_find` without a packet id
returns the descriptor `mqtt_mq_get(mq, 0)`, the one registered first (its message
starts at offset 0), not the most recently registered one, `mqtt_mq_get(mq, 1)`. -/
theorem mq_find_counterexample :
    (mqtt_mq_register sampleConsts
      (mqtt_mq_register sampleConsts (mqtt_mq_init sampleConsts (List.replicate 40 0) 40) 2
        { sampleMessage with control_type := MQTT_CONTROL_PINGREQ })
      2 { sampleMessage with control_type := MQTT_CONTROL_PINGREQ }).queue
      = [⟨0, 2, MQTTQueuedMessageState.MQTT_QUEUED_UNSENT, 0, MQTT_CONTROL_PINGREQ, 0⟩,
         ⟨2, 2, MQTTQueuedMessageState.MQTT_QUEUED_UNSENT, 0, MQTT_CONTROL_PINGREQ, 0⟩] ∧
    mqtt_mq_find
      (mqtt_mq_register sampleConsts
        (mqtt_mq_register sampleConsts (mqtt_mq_init sampleConsts (List.replicate 40 0) 40) 2
          { sampleMessage with control_type := MQTT_CONTROL_PINGREQ })
        2 { sampleMessage with control_type := MQTT_CONTROL_PINGREQ })
      MQTT_CONTROL_PINGREQ none = some 0 := by
  decide

/-- C19 (amended): `mqtt_mq_find` scans the descriptors from the one registered first,
`mqtt_mq_get(mq, 0)`, to the most recent one: it returns the index `i` exactly when
descriptor `i` matches (same control type, and either the given packet id or, when no
id is given, a state other than Complete) and no descriptor registered before it
matches; it returns none exactly when no descriptor matches. -/
theorem mq_find_first_match (mq : mqtt_message_queue) (control_type : Nat)
    (packet_id : Option Nat) :
    (∀ i : Nat, mqtt_mq_find mq control_type packet_id = some i ↔
      (i < mq.queue.length ∧
        mq_matches control_type packet_id (mq.queue.getD i sampleMessage) ∧
        ∀ j, j < i → ¬ mq_matches control_type packet_id (mq.queue.getD j sampleMessage))) ∧
    (mqtt_mq_find mq control_type packet_id = none ↔
      ∀ msg ∈ mq.queue, ¬ mq_matches control_type packet_id msg) := by
  refine ⟨?_, mq_find_from_none control_type packet_id mq.queue 0⟩
  intro i
  unfold mqtt_mq_find
  rw [mq_find_from_some]
  constructor
  · rintro ⟨j, hj, h⟩
    rw [Nat.zero_add] at hj
    subst hj
    exact h
  · intro h
    exact ⟨i, (Nat.zero_add i).symm, h⟩


/-! ## Compaction keeps the pending messages -/

theorem mq_clean_scan_take : ∀ l : List mqtt_queued_message,
    ∀ msg ∈ l.take (mqtt_mq_clean_scan l),
      msg.state = MQTTQueuedMessageState.MQTT_QUEUED_COMPLETE
  | [], msg, h => by simp at h
  | m :: rest, msg, h => by
    simp only [mqtt_mq_clean_scan] at h
    by_cases hm : m.state ≠ MQTTQueuedMessageState.MQTT_QUEUED_COMPLETE
    · simp [hm] at h
    · simp only [hm, if_false, List.take_succ_cons, List.mem_cons] at h
      rcases h with rfl | h
      · exact not_not.mp hm
      · exact mq_clean_scan_take rest msg h

theorem mq_chain_mem : ∀ (l : List mqtt_queued_message) (a b : Int), mq_chain l a b →
    ∀ msg ∈ l, a ≤ msg.start ∧ msg.start + (msg.size : Int) ≤ b
  | [], _, _, _, msg, h => by simp at h
  | m :: rest, a, b, hc, msg, h => by
    simp only [mq_chain] at hc
    have hle := mq_chain_le rest _ _ hc.2
    rcases List.mem_cons.mp h with rfl | h
    · omega
    · have := mq_chain_mem rest _ _ hc.2 msg h
      omega

theorem memmove_front (mem : List Nat) (src n off z : Nat) (h1 : src + n ≤ mem.length)
    (h2 : off + z ≤ n) :
    ((memmove mem 0 src n).drop off).take z = (mem.drop (src + off)).take z := by
  have hB : ((mem.drop src).take n).length = n := by
    rw [List.length_take, List.length_drop]
    omega
  have hmove : memmove mem 0 src n = (mem.drop src).take n ++ mem.drop n := by
    unfold memmove writeAt
    rw [List.take_zero, List.nil_append, Nat.sub_zero, List.take_of_length_le (by omega), hB,
      Nat.zero_add]
  have hdrop : ((mem.drop src).take n ++ mem.drop n).drop off
      = ((mem.drop src).take n).drop off ++ mem.drop n :=
    List.drop_append_of_le_length (by omega)
  have hlen : (((mem.drop src).take n).drop off).length = n - off := by
    rw [List.length_drop, hB]
  rw [hmove, hdrop, List.take_append_of_le_length (by omega), List.drop_take, List.take_take,
    List.drop_drop, Nat.min_eq_left (by omega)]


/-- C20: on a well-formed queue whose region is in memory, `mqtt_mq_clean` removes the
first `k` descriptors, all of them Complete, and keeps the others, hence every
descriptor that is not Complete, in the same order and with the same control type,
packet id, state, `time_sent` and size; the start of each surviving descriptor is
lowered by the same amount `slide`, the first surviving descriptor starts at offset 0,
the data front `curr` is lowered by `slide`, and the bytes at the new start of each
surviving descriptor are the bytes at its old start. -/
theorem clean_keeps_pending (K : Consts) (mq : mqtt_message_queue) (hwf : mq_well_formed K mq)
    (hmem : mq.mem_end ≤ (mq.mem.length : Int)) :
    ∃ (k slide : Nat),
      (∀ msg ∈ mq.queue.take k, msg.state = MQTTQueuedMessageState.MQTT_QUEUED_COMPLETE) ∧
      (mqtt_mq_clean K mq).queue
        = (mq.queue.drop k).map (fun msg => { msg with start := msg.start - (slide : Int) }) ∧
      (mqtt_mq_clean K mq).curr = mq.curr - (slide : Int) ∧
      (∀ msg ∈ (mqtt_mq_clean K mq).queue.head?, msg.start = 0) ∧
      (∀ msg ∈ mq.queue.drop k,
        ((mqtt_mq_clean K mq).mem.drop (msg.start - (slide : Int)).toNat).take msg.size
          = (mq.mem.drop msg.start.toNat).take msg.size) := by
  have hcurr0 := mq_chain_le _ _ _ hwf.chain
  have htail : mq.queue_tail K ≤ mq.mem_end := by
    unfold mqtt_message_queue.queue_tail
    have : (0 : Int) ≤ (K.sizeof_queued_message : Int) * (mq.queue.length : Int) :=
      Int.mul_nonneg (Int.ofNat_nonneg _) (Int.ofNat_nonneg _)
    omega
  have hno := hwf.no_overlap
  have hend := hwf.mem_end_lt
  by_cases hall : mq.queue.length ≤ mqtt_mq_clean_scan mq.queue
  · refine ⟨mq.queue.length, mq.curr.toNat, ?_, ?_, ?_, ?_, ?_⟩
    · have hk : mqtt_mq_clean_scan mq.queue = mq.queue.length :=
        le_antisymm (mq_clean_scan_le _) hall
      rw [← hk]
      exact mq_clean_scan_take mq.queue
    · simp [mqtt_mq_clean, hall]
    · simp only [mqtt_mq_clean, hall, if_true]
      omega
    · simp [mqtt_mq_clean, hall]
    · simp
  · by_cases hzero : mqtt_mq_clean_scan mq.queue = 0
    · have hclean : mqtt_mq_clean K mq = mq := by
        unfold mqtt_mq_clean
        simp only
        rw [if_neg hall, if_pos hzero]
      rw [hclean]
      refine ⟨0, 0, by simp, by simp, by simp, ?_, by simp⟩
      intro msg hmsg
      cases hq : mq.queue with
      | nil => rw [hq] at hmsg; simp at hmsg
      | cons m rest =>
        rw [hq] at hmsg
        simp only [List.head?_cons, Option.mem_def, Option.some.injEq] at hmsg
        have hc := hwf.chain
        rw [hq] at hc
        simp only [mq_chain] at hc
        rw [← hmsg]
        exact hc.1
    · have hlt : mqtt_mq_clean_scan mq.queue < mq.queue.length := by omega
      obtain ⟨hs0, hchain⟩ := mq_chain_drop
        ⟨0, 0, MQTTQueuedMessageState.MQTT_QUEUED_UNSENT, 0, 0, 0⟩ mq.queue
        (mqtt_mq_clean_scan mq.queue) 0 mq.curr hwf.chain hlt
      have hs1 := mq_chain_le _ _ _ hchain
      generalize hstart : (mq.queue.getD (mqtt_mq_clean_scan mq.queue)
        ⟨0, 0, MQTTQueuedMessageState.MQTT_QUEUED_UNSENT, 0, 0, 0⟩).start = start
        at hs0 hchain hs1
      have hrem : ((toUInt16 start : Nat) : Int) = start :=
        toUInt16_of_range start hs0 (by omega)
      have hn : ((toUInt16 (mq.curr - start) : Nat) : Int) = mq.curr - start :=
        toUInt16_of_range _ (by omega) (by omega)
      have hclean : mqtt_mq_clean K mq
          = { mq with
              mem := memmove mq.mem 0 start.toNat (toUInt16 (mq.curr - start)),
              curr := ((toUInt16 (mq.curr - start) : Nat) : Int),
              queue := (mq.queue.drop (mqtt_mq_clean_scan mq.queue)).map
                (fun msg => { msg with start := msg.start - ((toUInt16 start : Nat) : Int) }),
              curr_sz := K.mqtt_mq_currsz mq.mem_end ((toUInt16 (mq.curr - start) : Nat) : Int)
                (mq.mem_end - (K.sizeof_queued_message : Int)
                  * ((((mq.queue.drop (mqtt_mq_clean_scan mq.queue)).map
                      (fun msg => { msg with
                        start := msg.start - ((toUInt16 start : Nat) : Int) })).length : Nat)
                    : Int)) } := by
        simp only [mqtt_mq_clean, hall, hzero, if_false, hstart]
      refine ⟨mqtt_mq_clean_scan mq.queue, toUInt16 start, mq_clean_scan_take mq.queue, ?_, ?_,
        ?_, ?_⟩
      · rw [hclean]
      · rw [hclean]
        simp only
        omega
      · rw [hclean]
        simp only
        intro msg hmsg
        cases hq : mq.queue.drop (mqtt_mq_clean_scan mq.queue) with
        | nil => rw [hq] at hmsg; simp at hmsg
        | cons m rest =>
          rw [hq] at hmsg hchain
          simp only [List.map_cons, List.head?_cons, Option.mem_def, Option.some.injEq] at hmsg
          simp only [mq_chain] at hchain
          rw [← hmsg]
          simp only
          omega
      · intro msg hmsg
        obtain ⟨hm1, hm2⟩ := mq_chain_mem _ _ _ hchain msg hmsg
        rw [hclean]
        simp only
        have e1 : (msg.start - ((toUInt16 start : Nat) : Int)).toNat
            = msg.start.toNat - start.toNat := by omega
        have e2 : msg.start.toNat = start.toNat + (msg.start.toNat - start.toNat) := by omega
        rw [e1, memmove_front mq.mem start.toNat (toUInt16 (mq.curr - start))
          (msg.start.toNat - start.toNat) msg.size (by omega) (by omega), ← e2]


/-- Witness of `clean_keeps_pending`: the queue `pending_queue`, in which a completed
message of 3 bytes lies in front of a pending one of 2 bytes. -/
theorem clean_keeps_pending_witness :
    ∃ (k slide : Nat),
      (∀ msg ∈ (pending_queue sampleConsts).queue.take k,
        msg.state = MQTTQueuedMessageState.MQTT_QUEUED_COMPLETE) ∧
      (mqtt_mq_clean sampleConsts (pending_queue sampleConsts)).queue
        = ((pending_queue sampleConsts).queue.drop k).map
            (fun msg => { msg with start := msg.start - (slide : Int) }) ∧
      (mqtt_mq_clean sampleConsts (pending_queue sampleConsts)).curr
        = (pending_queue sampleConsts).curr - (slide : Int) ∧
      (∀ msg ∈ (mqtt_mq_clean sampleConsts (pending_queue sampleConsts)).queue.head?,
        msg.start = 0) ∧
      (∀ msg ∈ (pending_queue sampleConsts).queue.drop k,
        ((mqtt_mq_clean sampleConsts (pending_queue sampleConsts)).mem.drop
            (msg.start - (slide : Int)).toNat).take msg.size
          = ((pending_queue sampleConsts).mem.drop msg.start.toNat).take msg.size) :=
  clean_keeps_pending sampleConsts (pending_queue sampleConsts)
    ⟨by decide, by decide, by decide, by decide, by decide⟩ (by decide)


/-! ## What compaction removes -/

theorem mq_chain_sum : ∀ (l : List mqtt_queued_message) (a b : Int), mq_chain l a b →
    b = a + (((l.map (fun m => m.size)).sum : Nat) : Int)
  | [], a, b, h => by
    simp only [mq_chain] at h
    simp [h]
  | m :: rest, a, b, h => by
    simp only [mq_chain] at h
    have := mq_chain_sum rest _ _ h.2
    simp only [List.map_cons, List.sum_cons]
    simp only [Nat.cast_add]
    omega

theorem mq_chain_take_sum (d : mqtt_queued_message) :
    ∀ (l : List mqtt_queued_message) (k : Nat) (a b : Int), mq_chain l a b → k < l.length →
      (l.getD k d).start = a + ((((l.take k).map (fun m => m.size)).sum : Nat) : Int)
  | [], k, a, b, _, hk => by simp at hk
  | m :: rest, 0, a, b, h, _ => by
    simp only [mq_chain] at h
    simp [h.1]
  | m :: rest, k + 1, a, b, h, hk => by
    simp only [mq_chain] at h
    have := mq_chain_take_sum d rest k _ _ h.2 (by simpa using hk)
    simp only [List.getD_cons_succ, List.take_succ_cons, List.map_cons, List.sum_cons]
    rw [this]
    simp only [Nat.cast_add]
    omega


/-- C21, as stated, fails: on a queue with a pending message registered first and a
Complete one registered after it, `mqtt_mq_clean` removes nothing, although the run of
Complete descriptors at the most-recent end is that last descriptor; and on
`pending_queue`, where the Complete message is the one registered first and the
most recent one is pending, it removes the Complete one. -/
theorem clean_scan_direction_counterexample :
    ((mqtt_mq_set_state
        (mqtt_mq_register sampleConsts
          (mqtt_mq_register sampleConsts (mqtt_mq_init sampleConsts (List.range 40) 40) 3
            sampleMessage) 2 sampleMessage)
        1 MQTTQueuedMessageState.MQTT_QUEUED_COMPLETE).queue.map (fun m => m.state)
      = [MQTTQueuedMessageState.MQTT_QUEUED_UNSENT,
          MQTTQueuedMessageState.MQTT_QUEUED_COMPLETE]) ∧
    mqtt_mq_clean sampleConsts
        (mqtt_mq_set_state
          (mqtt_mq_register sampleConsts
            (mqtt_mq_register sampleConsts (mqtt_mq_init sampleConsts (List.range 40) 40) 3
              sampleMessage) 2 sampleMessage)
          1 MQTTQueuedMessageState.MQTT_QUEUED_COMPLETE)
      = mqtt_mq_set_state
          (mqtt_mq_register sampleConsts
            (mqtt_mq_register sampleConsts (mqtt_mq_init sampleConsts (List.range 40) 40) 3
              sampleMessage) 2 sampleMessage)
          1 MQTTQueuedMessageState.MQTT_QUEUED_COMPLETE ∧
    ((pending_queue sampleConsts).queue.map (fun m => m.state)
      = [MQTTQueuedMessageState.MQTT_QUEUED_COMPLETE,
          MQTTQueuedMessageState.MQTT_QUEUED_UNSENT]) ∧
    (mqtt_mq_clean sampleConsts (pending_queue sampleConsts)).queue
      = [⟨0, 2, MQTTQueuedMessageState.MQTT_QUEUED_UNSENT, 0, 0, 0⟩] := by
  decide

/-- C21 (amended): `mqtt_mq_clean` scans from the descriptor registered first,
`mqtt_mq_get(mq, 0)`, towards the most recent one while the state is Complete: on a
well-formed queue the descriptors it removes are exactly the maximal run of `k`
Complete descriptors at the oldest end of the queue (they are all Complete, and the
next descriptor, if there is one, is not), the others stay in order, and the data
front is lowered by the total size of the removed messages, which is the space
reclaimed. -/
theorem clean_removes_oldest_complete_run (K : Consts) (mq : mqtt_message_queue)
    (hwf : mq_well_formed K mq) :
    ∃ k : Nat, k ≤ mq.queue.length ∧
      (∀ msg ∈ mq.queue.take k, msg.state = MQTTQueuedMessageState.MQTT_QUEUED_COMPLETE) ∧
      (k < mq.queue.length →
        (mq.queue.getD k sampleMessage).state ≠ MQTTQueuedMessageState.MQTT_QUEUED_COMPLETE) ∧
      (mqtt_mq_clean K mq).queue.map (fun m => ({ m with start := 0 } : mqtt_queued_message))
        = (mq.queue.drop k).map (fun m => { m with start := 0 }) ∧
      (mqtt_mq_clean K mq).queue.length = mq.queue.length - k ∧
      mq.curr - (mqtt_mq_clean K mq).curr
        = ((((mq.queue.take k).map (fun m => m.size)).sum : Nat) : Int) := by
  have hcurr0 := mq_chain_le _ _ _ hwf.chain
  have htail : mq.queue_tail K ≤ mq.mem_end := by
    unfold mqtt_message_queue.queue_tail
    have : (0 : Int) ≤ (K.sizeof_queued_message : Int) * (mq.queue.length : Int) :=
      Int.mul_nonneg (Int.ofNat_nonneg _) (Int.ofNat_nonneg _)
    omega
  have hno := hwf.no_overlap
  have hend := hwf.mem_end_lt
  refine ⟨mqtt_mq_clean_scan mq.queue, mq_clean_scan_le _, mq_clean_scan_take mq.queue,
    mq_clean_scan_state sampleMessage mq.queue, ?_⟩
  by_cases hall : mq.queue.length ≤ mqtt_mq_clean_scan mq.queue
  · have hk : mqtt_mq_clean_scan mq.queue = mq.queue.length :=
      le_antisymm (mq_clean_scan_le _) hall
    have hclean : mqtt_mq_clean K mq
        = { mq with curr := 0, queue := [],
                    curr_sz := K.mqtt_mq_currsz mq.mem_end 0 mq.mem_end } := by
      unfold mqtt_mq_clean
      simp only
      rw [if_pos hall]
    have hsum := mq_chain_sum _ _ _ hwf.chain
    rw [hclean, hk]
    refine ⟨by simp, by simp, ?_⟩
    simp only [List.take_length]
    omega
  · by_cases hzero : mqtt_mq_clean_scan mq.queue = 0
    · have hclean : mqtt_mq_clean K mq = mq := by
        unfold mqtt_mq_clean
        simp only
        rw [if_neg hall, if_pos hzero]
      rw [hclean, hzero]
      simp
    · have hlt : mqtt_mq_clean_scan mq.queue < mq.queue.length := by omega
      obtain ⟨hs0, hchain⟩ := mq_chain_drop
        ⟨0, 0, MQTTQueuedMessageState.MQTT_QUEUED_UNSENT, 0, 0, 0⟩ mq.queue
        (mqtt_mq_clean_scan mq.queue) 0 mq.curr hwf.chain hlt
      have hs1 := mq_chain_le _ _ _ hchain
      have hsum := mq_chain_take_sum
        ⟨0, 0, MQTTQueuedMessageState.MQTT_QUEUED_UNSENT, 0, 0, 0⟩ mq.queue
        (mqtt_mq_clean_scan mq.queue) 0 mq.curr hwf.chain hlt
      generalize hstart : (mq.queue.getD (mqtt_mq_clean_scan mq.queue)
        ⟨0, 0, MQTTQueuedMessageState.MQTT_QUEUED_UNSENT, 0, 0, 0⟩).start = start
        at hs0 hchain hs1 hsum
      have hn : ((toUInt16 (mq.curr - start) : Nat) : Int) = mq.curr - start :=
        toUInt16_of_range _ (by omega) (by omega)
      have hq : (mqtt_mq_clean K mq).queue
          = (mq.queue.drop (mqtt_mq_clean_scan mq.queue)).map
              (fun msg => { msg with start := msg.start - ((toUInt16 start : Nat) : Int) }) := by
        simp only [mqtt_mq_clean, hall, hzero, if_false, hstart]
      have hc : (mqtt_mq_clean K mq).curr = ((toUInt16 (mq.curr - start) : Nat) : Int) := by
        simp only [mqtt_mq_clean, hall, hzero, if_false, hstart]
      rw [hq, hc, hn]
      refine ⟨?_, by simp, ?_⟩
      · rw [List.map_map]
        rfl
      · omega

/-- Witness of `clean_removes_oldest_complete_run`: the queue `pending_queue`, whose
first message is Complete and whose second one is pending. -/
theorem clean_removes_oldest_complete_run_witness :
    ∃ k : Nat, k ≤ (pending_queue sampleConsts).queue.length ∧
      (∀ msg ∈ (pending_queue sampleConsts).queue.take k,
        msg.state = MQTTQueuedMessageState.MQTT_QUEUED_COMPLETE) ∧
      (k < (pending_queue sampleConsts).queue.length →
        ((pending_queue sampleConsts).queue.getD k sampleMessage).state
          ≠ MQTTQueuedMessageState.MQTT_QUEUED_COMPLETE) ∧
      (mqtt_mq_clean sampleConsts (pending_queue sampleConsts)).queue.map
          (fun m => ({ m with start := 0 } : mqtt_queued_message))
        = ((pending_queue sampleConsts).queue.drop k).map (fun m => { m with start := 0 }) ∧
      (mqtt_mq_clean sampleConsts (pending_queue sampleConsts)).queue.length
        = (pending_queue sampleConsts).queue.length - k ∧
      (pending_queue sampleConsts).curr
          - (mqtt_mq_clean sampleConsts (pending_queue sampleConsts)).curr
        = (((((pending_queue sampleConsts).queue.take k).map (fun m => m.size)).sum : Nat)
            : Int) :=
  clean_removes_oldest_complete_run sampleConsts (pending_queue sampleConsts)
    ⟨by decide, by decide, by decide, by decide, by decide⟩


theorem mq_clean_scan_all_complete : ∀ l : List mqtt_queued_message,
    (∀ msg ∈ l, msg.state = MQTTQueuedMessageState.MQTT_QUEUED_COMPLETE) →
      mqtt_mq_clean_scan l = l.length
  | [], _ => rfl
  | m :: rest, h => by
    have hm := h m (List.mem_cons_self _ _)
    have := mq_clean_scan_all_complete rest (fun x hx => h x (List.mem_cons_of_mem _ hx))
    simp [mqtt_mq_clean_scan, hm, this]

/-- C22: on a queue in which every descriptor is Complete (a non-empty one in
particular), `mqtt_mq_clean` resets the queue to empty: the data front `curr` returns
to the start of the region, the descriptor front `queue_tail` returns to `mem_end`, the
queue length is 0, and `curr_sz` is that of a freshly initialised queue of the same
capacity. -/
theorem clean_all_complete_resets (K : Consts) (mq : mqtt_message_queue) (buf : List Nat)
    (bufsz : Nat) (hcap : mq.mem_end = (bufsz : Int))
    (hall : ∀ msg ∈ mq.queue, msg.state = MQTTQueuedMessageState.MQTT_QUEUED_COMPLETE) :
    (mqtt_mq_clean K mq).curr = 0 ∧
    (mqtt_mq_clean K mq).queue_tail K = (mqtt_mq_clean K mq).mem_end ∧
    (mqtt_mq_clean K mq).mem_end = mq.mem_end ∧
    mqtt_mq_length (mqtt_mq_clean K mq) = 0 ∧
    (mqtt_mq_clean K mq).curr_sz = (mqtt_mq_init K buf bufsz).curr_sz := by
  have hk := mq_clean_scan_all_complete mq.queue hall
  have hclean : mqtt_mq_clean K mq
      = { mq with curr := 0, queue := [],
                  curr_sz := K.mqtt_mq_currsz mq.mem_end 0 mq.mem_end } := by
    unfold mqtt_mq_clean
    simp only
    rw [if_pos (by omega)]
  rw [hclean]
  refine ⟨rfl, ?_, rfl, rfl, ?_⟩
  · simp [mqtt_message_queue.queue_tail]
  · simp [mqtt_mq_init, hcap]

/-- Witness of `clean_all_complete_resets`: on a fresh queue of 40 bytes two messages of
3 and 2 bytes are registered and both are marked Complete. -/
theorem clean_all_complete_resets_witness :
    (mqtt_mq_clean sampleConsts
        (mqtt_mq_set_state (pending_queue sampleConsts) 1
          MQTTQueuedMessageState.MQTT_QUEUED_COMPLETE)).curr = 0 ∧
    (mqtt_mq_clean sampleConsts
        (mqtt_mq_set_state (pending_queue sampleConsts) 1
          MQTTQueuedMessageState.MQTT_QUEUED_COMPLETE)).queue_tail sampleConsts
      = (mqtt_mq_clean sampleConsts
        (mqtt_mq_set_state (pending_queue sampleConsts) 1
          MQTTQueuedMessageState.MQTT_QUEUED_COMPLETE)).mem_end ∧
    (mqtt_mq_clean sampleConsts
        (mqtt_mq_set_state (pending_queue sampleConsts) 1
          MQTTQueuedMessageState.MQTT_QUEUED_COMPLETE)).mem_end
      = (mqtt_mq_set_state (pending_queue sampleConsts) 1
          MQTTQueuedMessageState.MQTT_QUEUED_COMPLETE).mem_end ∧
    mqtt_mq_length (mqtt_mq_clean sampleConsts
        (mqtt_mq_set_state (pending_queue sampleConsts) 1
          MQTTQueuedMessageState.MQTT_QUEUED_COMPLETE)) = 0 ∧
    (mqtt_mq_clean sampleConsts
        (mqtt_mq_set_state (pending_queue sampleConsts) 1
          MQTTQueuedMessageState.MQTT_QUEUED_COMPLETE)).curr_sz
      = (mqtt_mq_init sampleConsts (List.range 40) 40).curr_sz :=
  clean_all_complete_resets sampleConsts
    (mqtt_mq_set_state (pending_queue sampleConsts) 1
      MQTTQueuedMessageState.MQTT_QUEUED_COMPLETE)
    (List.range 40) 40 (by decide) (by decide)


theorem sampleConsts_currsz : sampleConsts.mqtt_mq_currsz = mqtt_mq_currsz_spec := by
  funext mem_end curr queue_tail
  simp only [sampleConsts, mqtt_mq_currsz_spec]
  congr 1
  omega

theorem available_space_init (K : Consts) (hK : K.mqtt_mq_currsz = mqtt_mq_currsz_spec)
    (buf : List Nat) (bufsz : Nat) :
    (mqtt_mq_init K buf bufsz).curr_sz = available_space K (mqtt_mq_init K buf bufsz) := by
  simp [mqtt_mq_init, available_space, mqtt_mq_length, hK, mqtt_mq_currsz_spec]

theorem available_space_register (K : Consts) (hK : K.mqtt_mq_currsz = mqtt_mq_currsz_spec)
    (mq : mqtt_message_queue) (nbytes : Nat) (stale : mqtt_queued_message) :
    (mqtt_mq_register K mq nbytes stale).curr_sz
      = available_space K (mqtt_mq_register K mq nbytes stale) := by
  simp only [mqtt_mq_register, available_space, mqtt_mq_length, hK, mqtt_mq_currsz_spec]
  congr 1
  omega

theorem available_space_clean (K : Consts) (hK : K.mqtt_mq_currsz = mqtt_mq_currsz_spec)
    (mq : mqtt_message_queue) (h : mq.curr_sz = available_space K mq) :
    (mqtt_mq_clean K mq).curr_sz = available_space K (mqtt_mq_clean K mq) := by
  unfold mqtt_mq_clean
  simp only
  split_ifs
  · simp [available_space, mqtt_mq_length, hK, mqtt_mq_currsz_spec]
  · exact h
  · simp only [available_space, mqtt_mq_length, hK, mqtt_mq_currsz_spec]
    congr 1
    omega

theorem available_space_run (K : Consts) (hK : K.mqtt_mq_currsz = mqtt_mq_currsz_spec) :
    ∀ (ops : List mq_op) (mq : mqtt_message_queue), mq.curr_sz = available_space K mq →
      (mq_run K mq ops).curr_sz = available_space K (mq_run K mq ops)
  | [], mq, h => h
  | op :: ops, mq, h => by
    simp only [mq_run]
    refine available_space_run K hK ops _ ?_
    cases op with
    | register nbytes stale => exact available_space_register K hK mq nbytes stale
    | clean => exact available_space_clean K hK mq h
    | set_state i state =>
      simp only [mq_step, mqtt_mq_set_state, available_space, mqtt_mq_length,
        List.length_modify]
      exact h

/-- C24: with `mqtt_mq_currsz` the available-space query of the spec, after
`mqtt_mq_init` and after every `mqtt_mq_register` and `mqtt_mq_clean` of a run of queue
operations that follows it, `curr_sz` equals the capacity minus the data-front offset
minus the bytes occupied by the existing descriptors (as an unsigned size: 0 when the
data front has passed the descriptor front). -/
theorem available_space_query (K : Consts) (hK : K.mqtt_mq_currsz = mqtt_mq_currsz_spec)
    (buf : List Nat) (bufsz : Nat) (ops : List mq_op) :
    (mq_run K (mqtt_mq_init K buf bufsz) ops).curr_sz
      = available_space K (mq_run K (mqtt_mq_init K buf bufsz) ops) :=
  available_space_run K hK ops _ (available_space_init K hK buf bufsz)

/-- Witness of `available_space_query`: with the constants `sampleConsts`, a queue of 40
bytes on which messages of 3 and 2 bytes are registered, the first is marked Complete
and the queue is cleaned. -/
theorem available_space_query_witness :
    (mq_run sampleConsts (mqtt_mq_init sampleConsts (List.range 40) 40)
        [.register 3 sampleMessage, .register 2 sampleMessage,
          .set_state 0 MQTTQueuedMessageState.MQTT_QUEUED_COMPLETE, .clean]).curr_sz
      = available_space sampleConsts
          (mq_run sampleConsts (mqtt_mq_init sampleConsts (List.range 40) 40)
            [.register 3 sampleMessage, .register 2 sampleMessage,
              .set_state 0 MQTTQueuedMessageState.MQTT_QUEUED_COMPLETE, .clean]) :=
  available_space_query sampleConsts sampleConsts_currsz (List.range 40) 40
    [.register 3 sampleMessage, .register 2 sampleMessage,
      .set_state 0 MQTTQueuedMessageState.MQTT_QUEUED_COMPLETE, .clean]


/-! ## Packet identifiers -/

theorem xor_B400_lt (y : Nat) (hy : y < 32768) : y ^^^ 0xB400 < 65536 :=
  Nat.xor_lt_two_pow (show y < 2 ^ 16 by omega) (by decide)

theorem xor_B400_ne_zero (y : Nat) (hy : y < 32768) : y ^^^ 0xB400 ≠ 0 := by
  intro h
  have : y = 0xB400 := Nat.xor_eq_zero.mp h
  omega

/-- One iteration of the loop of `__mqtt_next_pid` computes the step of the spec. -/
theorem next_pid_loop_succ (queue : List mqtt_queued_message) (fuel x : Nat) (hx : x < 65536) :
    __mqtt_next_pid_loop queue (fuel + 1) x
      = if ∃ msg ∈ queue, msg.packet_id = lfsr_step x then
          __mqtt_next_pid_loop queue fuel (lfsr_step x)
        else some (lfsr_step x) := by
  have hshift : x >>> 1 < 32768 := by
    rw [Nat.shiftRight_eq_div_pow]
    omega
  have hstep : (if x &&& 1 ≠ 0 then (x >>> 1 ^^^ 0xB400) % 65536 else x >>> 1)
      = lfsr_step x := by
    unfold lfsr_step
    rw [Nat.and_one_is_mod]
    by_cases hodd : x % 2 = 1
    · rw [if_pos (by omega), if_pos hodd, Nat.mod_eq_of_lt (xor_B400_lt _ hshift)]
    · rw [if_neg (by omega), if_neg hodd, Nat.xor_zero]
  simp only [__mqtt_next_pid_loop, hstep, List.any_eq_true, decide_eq_true_eq]

theorem lfsr_step_range (x : Nat) (h0 : 0 < x) (hx : x < 65536) :
    0 < lfsr_step x ∧ lfsr_step x < 65536 := by
  have hshift : x >>> 1 < 32768 := by
    rw [Nat.shiftRight_eq_div_pow]
    omega
  unfold lfsr_step
  by_cases hodd : x % 2 = 1
  · rw [if_pos hodd]
    exact ⟨Nat.pos_of_ne_zero (xor_B400_ne_zero _ hshift), xor_B400_lt _ hshift⟩
  · rw [if_neg hodd, Nat.xor_zero, Nat.shiftRight_eq_div_pow]
    omega

/-- What the loop returns: the first value of the sequence that no descriptor holds. -/
theorem next_pid_loop_some (queue : List mqtt_queued_message) :
    ∀ (fuel x pid : Nat), 0 < x → x < 65536 →
      __mqtt_next_pid_loop queue fuel x = some pid →
      0 < pid ∧ pid < 65536 ∧ (∀ msg ∈ queue, msg.packet_id ≠ pid) ∧
      ∃ k, 1 ≤ k ∧ k ≤ fuel ∧ pid = lfsr_step^[k] x ∧
        ∀ j, 1 ≤ j → j < k → ∃ msg ∈ queue, msg.packet_id = lfsr_step^[j] x := by
  intro fuel
  induction fuel with
  | zero =>
    intro x pid _ _ h
    simp [__mqtt_next_pid_loop] at h
  | succ fuel ih =>
    intro x pid h0 hx h
    obtain ⟨r0, r1⟩ := lfsr_step_range x h0 hx
    rw [next_pid_loop_succ queue fuel x hx] at h
    by_cases hheld : ∃ msg ∈ queue, msg.packet_id = lfsr_step x
    · rw [if_pos hheld] at h
      obtain ⟨p0, p1, pfree, k, hk1, hk2, hpid, hbefore⟩ := ih (lfsr_step x) pid r0 r1 h
      refine ⟨p0, p1, pfree, k + 1, by omega, by omega, ?_, ?_⟩
      · rw [Function.iterate_succ_apply]
        exact hpid
      · intro j hj1 hj2
        obtain ⟨i, rfl⟩ : ∃ i, j = i + 1 := ⟨j - 1, by omega⟩
        rw [Function.iterate_succ_apply]
        cases i with
        | zero => simpa using hheld
        | succ i => exact hbefore (i + 1) (by omega) (by omega)
    · rw [if_neg hheld] at h
      simp only [Option.some.injEq] at h
      subst h
      refine ⟨r0, r1, ?_, 1, le_refl _, by omega, rfl, ?_⟩
      · intro msg hmsg heq
        exact hheld ⟨msg, hmsg, heq⟩
      · intro j hj1 hj2
        omega

/-- The loop returns as soon as the fuel reaches a free value of the sequence. -/
theorem next_pid_loop_returns (queue : List mqtt_queued_message) :
    ∀ (k fuel x : Nat), 0 < x → x < 65536 → 1 ≤ k → k ≤ fuel →
      (∀ msg ∈ queue, msg.packet_id ≠ lfsr_step^[k] x) →
      ∃ pid, __mqtt_next_pid_loop queue fuel x = some pid := by
  intro k
  induction k with
  | zero => intro fuel x _ _ hk; omega
  | succ k ih =>
    intro fuel x h0 hx _ hfuel hfree
    obtain ⟨fuel', rfl⟩ : ∃ f, fuel = f + 1 := ⟨fuel - 1, by omega⟩
    obtain ⟨r0, r1⟩ := lfsr_step_range x h0 hx
    rw [next_pid_loop_succ queue fuel' x hx]
    by_cases hheld : ∃ msg ∈ queue, msg.packet_id = lfsr_step x
    · rw [if_pos hheld]
      rw [Function.iterate_succ_apply] at hfree
      cases k with
      | zero =>
        obtain ⟨msg, hmsg, heq⟩ := hheld
        exact absurd heq (hfree msg hmsg)
      | succ k => exact ih fuel' (lfsr_step x) r0 r1 (by omega) (by omega) hfree
    · rw [if_neg hheld]
      exact ⟨_, rfl⟩


theorem lfsr_seed_range (x : Nat) (hx : x < 65536) : 0 < lfsr_seed x ∧ lfsr_seed x < 65536 := by
  unfold lfsr_seed
  split_ifs <;> omega

theorem next_pid_eq (fuel : Nat) (client : mqtt_client) :
    __mqtt_next_pid fuel client
      = match __mqtt_next_pid_loop client.mq.queue fuel (lfsr_seed client.pid_lfsr) with
        | some pid => some (pid, { client with pid_lfsr := pid })
        | none => none := by
  unfold __mqtt_next_pid lfsr_seed
  by_cases h : client.pid_lfsr = 0
  · simp only [h, if_true]
  · simp only [h, if_false]

/-- C25: for a client whose `uint16_t` seed `pid_lfsr` is given, whenever
`__mqtt_next_pid` returns, the result is a non-zero 16-bit value that no descriptor of
the queue holds as its `packet_id`; it is the first such value in the sequence produced
from the stored seed (163 when the seed is 0) by repeating the step
`x -> (x >> 1) XOR (0xB400 if x is odd, else 0)`, and the stored seed afterwards is the
returned value.  The function returns as soon as the sequence reaches a value that no
descriptor holds, and the first id of a client with seed 0 and an empty queue is
`0xB451`. -/
theorem next_pid_first_free (client : mqtt_client) (hseed : client.pid_lfsr < 65536) :
    (∀ (fuel pid : Nat) (client' : mqtt_client),
      __mqtt_next_pid fuel client = some (pid, client') →
      pid ≠ 0 ∧ pid < 65536 ∧ (∀ msg ∈ client.mq.queue, msg.packet_id ≠ pid) ∧
      (∃ k, 1 ≤ k ∧ pid = lfsr_step^[k] (lfsr_seed client.pid_lfsr) ∧
        ∀ j, 1 ≤ j → j < k →
          ∃ msg ∈ client.mq.queue, msg.packet_id = lfsr_step^[j] (lfsr_seed client.pid_lfsr)) ∧
      client' = { client with pid_lfsr := pid }) ∧
    (∀ k fuel : Nat, 1 ≤ k → k ≤ fuel →
      (∀ msg ∈ client.mq.queue, msg.packet_id ≠ lfsr_step^[k] (lfsr_seed client.pid_lfsr)) →
      ∃ r, __mqtt_next_pid fuel client = some r) ∧
    (client.pid_lfsr = 0 → client.mq.queue = [] → ∀ fuel : Nat, 1 ≤ fuel →
      __mqtt_next_pid fuel client = some (0xB451, { client with pid_lfsr := 0xB451 })) := by
  obtain ⟨s0, s1⟩ := lfsr_seed_range client.pid_lfsr hseed
  refine ⟨?_, ?_, ?_⟩
  · intro fuel pid client' h
    rw [next_pid_eq] at h
    cases hloop : __mqtt_next_pid_loop client.mq.queue fuel (lfsr_seed client.pid_lfsr) with
    | none => rw [hloop] at h; simp at h
    | some p =>
      rw [hloop] at h
      simp only [Option.some.injEq, Prod.mk.injEq] at h
      obtain ⟨hp, hc⟩ := h
      subst hp
      obtain ⟨p0, p1, pfree, k, hk1, -, hpid, hbefore⟩ :=
        next_pid_loop_some client.mq.queue fuel _ p s0 s1 hloop
      exact ⟨by omega, p1, pfree, ⟨k, hk1, hpid, hbefore⟩, hc.symm⟩
  · intro k fuel hk hfuel hfree
    obtain ⟨pid, hpid⟩ := next_pid_loop_returns client.mq.queue k fuel _ s0 s1 hk hfuel hfree
    rw [next_pid_eq, hpid]
    exact ⟨_, rfl⟩
  · intro hzero hempty fuel hfuel
    obtain ⟨fuel', rfl⟩ : ∃ f, fuel = f + 1 := ⟨fuel - 1, by omega⟩
    rw [next_pid_eq, hzero, hempty, next_pid_loop_succ [] fuel' _ (by decide)]
    simp only [List.not_mem_nil, false_and, exists_false, if_false]
    rfl

/-- Witness of `next_pid_first_free`: the client `sampleClient`, whose seed is 0 and
whose only descriptor holds the packet id 0, gets the id `0xB451`. -/
theorem next_pid_first_free_witness :
    (0xB451 : Nat) ≠ 0 ∧ (0xB451 : Nat) < 65536 ∧
    (∀ msg ∈ (sampleClient []).mq.queue, msg.packet_id ≠ 0xB451) ∧
    (∃ k, 1 ≤ k ∧ 0xB451 = lfsr_step^[k] (lfsr_seed (sampleClient []).pid_lfsr) ∧
      ∀ j, 1 ≤ j → j < k →
        ∃ msg ∈ (sampleClient []).mq.queue,
          msg.packet_id = lfsr_step^[j] (lfsr_seed (sampleClient []).pid_lfsr)) ∧
    ({ sampleClient [] with pid_lfsr := 0xB451 } : mqtt_client)
      = { sampleClient [] with pid_lfsr := 0xB451 } :=
  (next_pid_first_free (sampleClient []) (by decide)).1 1 0xB451
    { sampleClient [] with pid_lfsr := 0xB451 } (by decide)


/-! ## Transitions of the send phase -/

/-- A `return` inside the loop of `__mqtt_send` is the result of `__mqtt_send`, with the
client as the loop leaves it. -/
theorem send_of_loop_return (K : Consts) (second_counter mqtt_start : Nat) (pal : Nat → Int)
    (stale : mqtt_queued_message) (client : mqtt_client) (rv : Int)
    (herr : ¬ send_blocked K client)
    (hloop : (__mqtt_send_loop K second_counter pal client.mq.queue 0 client).1 = some rv) :
    (__mqtt_send K second_counter mqtt_start pal stale client).rv = rv ∧
    (__mqtt_send K second_counter mqtt_start pal stale client).client.error
      = (__mqtt_send_loop K second_counter pal client.mq.queue 0 client).2.2.1.error := by
  unfold send_blocked at herr
  rcases hl : __mqtt_send_loop K second_counter pal client.mq.queue 0 client with
    ⟨r, queue, client', calls⟩
  rw [hl] at hloop
  simp only at hloop
  subst hloop
  simp [__mqtt_send, herr, hl]

/-- C26: let `msg` be the descriptor that the loop of `__mqtt_send` has reached, due
for a send at time `second_counter` (Unsent, and sent from `send_offset` on, or
AwaitingAck and timed out, and sent from offset 0 on), and let the transport accept all
the bytes offered.  Then the loop goes on with a client whose `send_offset` is 0 and
whose `time_of_last_send` is the current time, the descriptor has `time_sent` equal to
the current time, and its state is AwaitingAck when its control type is CONNECT,
SUBSCRIBE or PINGREQ and Complete when it is PUBLISH or DISCONNECT; for any other
control type the loop returns `MQTT_ERROR_MALFORMED_REQUEST` with that value stored in
`client->error`, and a value returned by the loop is the result of `__mqtt_send`. -/
theorem send_transition (K : Consts) (second_counter : Nat) (pal : Nat → Int)
    (msg : mqtt_queued_message) (rest : List mqtt_queued_message) (k : Nat)
    (client : mqtt_client) (off : Int)
    (hdue : (msg.state = MQTTQueuedMessageState.MQTT_QUEUED_UNSENT ∧ off = client.send_offset) ∨
      (msg.state = MQTTQueuedMessageState.MQTT_QUEUED_AWAITING_ACK ∧
        (second_counter : Int) > (msg.time_sent : Int) + client.response_timeout ∧ off = 0))
    (h0 : 0 ≤ pal k) (hfull : (msg.size : Int) ≤ off + pal k) :
    ∃ client1 : mqtt_client,
      client1.send_offset = 0 ∧ client1.time_of_last_send = second_counter ∧
      client1.mq = client.mq ∧ client1.error = client.error ∧
      (msg.control_type = MQTT_CONTROL_CONNECT ∨ msg.control_type = MQTT_CONTROL_SUBSCRIBE ∨
          msg.control_type = MQTT_CONTROL_PINGREQ →
        __mqtt_send_loop K second_counter pal (msg :: rest) k client
          = ((__mqtt_send_loop K second_counter pal rest (k + 1) client1).1,
              { msg with time_sent := second_counter,
                         state := MQTTQueuedMessageState.MQTT_QUEUED_AWAITING_ACK }
                :: (__mqtt_send_loop K second_counter pal rest (k + 1) client1).2.1,
              (__mqtt_send_loop K second_counter pal rest (k + 1) client1).2.2.1,
              ⟨msg.start + off, (msg.size : Int) - off⟩
                :: (__mqtt_send_loop K second_counter pal rest (k + 1) client1).2.2.2)) ∧
      (msg.control_type = MQTT_CONTROL_PUBLISH ∨ msg.control_type = MQTT_CONTROL_DISCONNECT →
        __mqtt_send_loop K second_counter pal (msg :: rest) k client
          = ((__mqtt_send_loop K second_counter pal rest (k + 1) client1).1,
              { msg with time_sent := second_counter,
                         state := MQTTQueuedMessageState.MQTT_QUEUED_COMPLETE }
                :: (__mqtt_send_loop K second_counter pal rest (k + 1) client1).2.1,
              (__mqtt_send_loop K second_counter pal rest (k + 1) client1).2.2.1,
              ⟨msg.start + off, (msg.size : Int) - off⟩
                :: (__mqtt_send_loop K second_counter pal rest (k + 1) client1).2.2.2)) ∧
      (¬ (msg.control_type = MQTT_CONTROL_CONNECT ∨ msg.control_type = MQTT_CONTROL_SUBSCRIBE ∨
          msg.control_type = MQTT_CONTROL_PINGREQ ∨ msg.control_type = MQTT_CONTROL_PUBLISH ∨
          msg.control_type = MQTT_CONTROL_DISCONNECT) →
        __mqtt_send_loop K second_counter pal (msg :: rest) k client
          = (some (K.code .MQTT_ERROR_MALFORMED_REQUEST),
              { msg with time_sent := second_counter } :: rest,
              { client1 with error := K.code .MQTT_ERROR_MALFORMED_REQUEST },
              [⟨msg.start + off, (msg.size : Int) - off⟩])) ∧
      (∀ (c : mqtt_client) (mqtt_start : Nat) (stale : mqtt_queued_message) (rv : Int),
        ¬ send_blocked K c →
        (__mqtt_send_loop K second_counter pal c.mq.queue 0 c).1 = some rv →
        (__mqtt_send K second_counter mqtt_start pal stale c).rv = rv ∧
        (__mqtt_send K second_counter mqtt_start pal stale c).client.error
          = (__mqtt_send_loop K second_counter pal c.mq.queue 0 c).2.2.1.error) := by
  have h0' : ¬ pal k < 0 := by omega
  rcases hdue with ⟨hstate, hoff⟩ | ⟨hstate, hto, hoff⟩
  · subst hoff
    have hfull' : ¬ client.send_offset + pal k < (msg.size : Int) := by omega
    refine ⟨{ client with send_offset := 0, time_of_last_send := second_counter }, rfl, rfl, rfl,
      rfl, ?_, ?_, ?_, ?_⟩
    · intro hct
      have hn : ¬ (msg.control_type = MQTT_CONTROL_DISCONNECT
          ∨ msg.control_type = MQTT_CONTROL_PUBLISH) := by
        simp only [MQTT_CONTROL_CONNECT, MQTT_CONTROL_SUBSCRIBE, MQTT_CONTROL_PINGREQ,
          MQTT_CONTROL_DISCONNECT, MQTT_CONTROL_PUBLISH] at hct ⊢
        omega
      simp [__mqtt_send_loop, hstate, h0', hfull', hn, hct]
    · intro hct
      have hct' : msg.control_type = MQTT_CONTROL_DISCONNECT
          ∨ msg.control_type = MQTT_CONTROL_PUBLISH := hct.symm
      simp [__mqtt_send_loop, hstate, h0', hfull', hct']
    · intro hct
      have hn1 : ¬ (msg.control_type = MQTT_CONTROL_DISCONNECT
          ∨ msg.control_type = MQTT_CONTROL_PUBLISH) := by tauto
      have hn2 : ¬ (msg.control_type = MQTT_CONTROL_CONNECT
          ∨ msg.control_type = MQTT_CONTROL_SUBSCRIBE
          ∨ msg.control_type = MQTT_CONTROL_PINGREQ) := by tauto
      simp [__mqtt_send_loop, hstate, h0', hfull', hn1, hn2]
    · intro c mqtt_start stale rv hb hl
      exact send_of_loop_return K second_counter mqtt_start pal stale c rv hb hl
  · subst hoff
    have hfull' : ¬ pal k < (msg.size : Int) := by omega
    refine ⟨{ client with number_of_timeouts := client.number_of_timeouts + 1,
                          send_offset := 0, time_of_last_send := second_counter },
      rfl, rfl, rfl, rfl, ?_, ?_, ?_, ?_⟩
    · intro hct
      have hn : ¬ (msg.control_type = MQTT_CONTROL_DISCONNECT
          ∨ msg.control_type = MQTT_CONTROL_PUBLISH) := by
        simp only [MQTT_CONTROL_CONNECT, MQTT_CONTROL_SUBSCRIBE, MQTT_CONTROL_PINGREQ,
          MQTT_CONTROL_DISCONNECT, MQTT_CONTROL_PUBLISH] at hct ⊢
        omega
      simp [__mqtt_send_loop, hstate, hto, h0', hfull', hn, hct]
    · intro hct
      have hct' : msg.control_type = MQTT_CONTROL_DISCONNECT
          ∨ msg.control_type = MQTT_CONTROL_PUBLISH := hct.symm
      simp [__mqtt_send_loop, hstate, hto, h0', hfull', hct']
    · intro hct
      have hn1 : ¬ (msg.control_type = MQTT_CONTROL_DISCONNECT
          ∨ msg.control_type = MQTT_CONTROL_PUBLISH) := by tauto
      have hn2 : ¬ (msg.control_type = MQTT_CONTROL_CONNECT
          ∨ msg.control_type = MQTT_CONTROL_SUBSCRIBE
          ∨ msg.control_type = MQTT_CONTROL_PINGREQ) := by tauto
      simp [__mqtt_send_loop, hstate, hto, h0', hfull', hn1, hn2]
    · intro c mqtt_start stale rv hb hl
      exact send_of_loop_return K second_counter mqtt_start pal stale c rv hb hl

/-- C26 (witness): a SUBSCRIBE sent at time 2 has timed out at time 40 (response timeout
30); the transport accepts its 10 bytes, and the descriptor is AwaitingAck again, with
`time_sent` 40. -/
theorem send_transition_witness :
    ∃ client1 : mqtt_client,
      client1.send_offset = 0 ∧ client1.time_of_last_send = 40 ∧
      __mqtt_send_loop sampleConsts 40 (fun _ => 10) [sampleSubscribe] 0
          (sampleSendClient sampleSubscribe)
        = (none,
            [{ sampleSubscribe with
                time_sent := 40, state := MQTTQueuedMessageState.MQTT_QUEUED_AWAITING_ACK }],
            client1, [⟨20, 10⟩]) :=
  Exists.elim
    (send_transition sampleConsts 40 (fun _ => 10) sampleSubscribe [] 0
      (sampleSendClient sampleSubscribe) 0 (Or.inr ⟨rfl, by decide, rfl⟩) (by decide)
      (by decide))
    (fun client1 h => ⟨client1, h.1, h.2.1, (h.2.2.2.2.1 (Or.inr (Or.inl rfl))).trans rfl⟩)


/-! ## An incomplete record in the receive phase -/

/-- C29: the three received bytes `20 02 00` are the start of a connack (remaining
length 2, one byte of it present): `mqtt_unpack_response` returns 0, and `__mqtt_recv`
nevertheless enters its `switch`, marks the queued CONNECT descriptor Complete and
reports the connack; the three bytes `30 05 00`, the start of a publication, make it
call the publish callback. -/
theorem recv_incomplete_record_handled :
    (mqtt_unpack_response sampleConsts sampleResponse [0x20, 0x02, 0x00] 3).1 = 0 ∧
    (sampleClient [0x20, 0x02, 0x00]).mq.queue
      = [⟨0, 20, MQTTQueuedMessageState.MQTT_QUEUED_AWAITING_ACK, 5, MQTT_CONTROL_CONNECT, 0⟩] ∧
    (__mqtt_recv sampleConsts 3 sampleResponse (sampleClient [0x20, 0x02, 0x00])).client.mq.queue
      = [⟨0, 20, MQTTQueuedMessageState.MQTT_QUEUED_COMPLETE, 5, MQTT_CONTROL_CONNECT, 0⟩] ∧
    (__mqtt_recv sampleConsts 3 sampleResponse
      (sampleClient [0x20, 0x02, 0x00])).connack_received = true ∧
    (mqtt_unpack_response sampleConsts sampleResponse [0x30, 0x05, 0x00] 3).1 = 0 ∧
    (__mqtt_recv sampleConsts 3 sampleResponse (sampleClient [0x30, 0x05, 0x00])).published
      = [sampleResponse.publish] := by
  decide


/-! ## Suback handling -/

theorem rule_violation_suback (K : Consts) (n : Nat) :
    mqtt_fixed_header_rule_violation K ⟨MQTT_CONTROL_SUBACK, 0, n⟩ = 0 := by
  simp [mqtt_fixed_header_rule_violation, MQTT_CONTROL_SUBACK, control_type_is_valid,
    required_flags, mask_required_flags]

/-- Decoding a suback record whose remaining length `rl` fits one byte:
`mqtt_unpack_response` consumes its `rl + 2` bytes and stores the packet id, the offset
of the return codes and their number. -/
theorem unpack_response_suback (K : Consts) (response : mqtt_response)
    (rl pid_hi pid_lo bufsz : Nat) (rest : List Nat) (hrl : 3 ≤ rl) (hrl' : rl ≤ 127)
    (hhi : pid_hi < 256) (hlo : pid_lo < 256) (hsz : rl + 2 ≤ bufsz) :
    mqtt_unpack_response K response (0x90 :: rl :: pid_hi :: pid_lo :: rest) bufsz
      = (((rl + 2 : Nat) : Int),
          { response with fixed_header := ⟨MQTT_CONTROL_SUBACK, 0, rl⟩,
                          suback := ⟨pid_hi * 256 + pid_lo, 4, rl - 2⟩ }) := by
  have henc : encode_remaining_length 5 rl = [rl] := by
    simp [encode_remaining_length, hrl']
  have hsize : remaining_length_size rl = 1 := by
    simp [remaining_length_size, henc]
  have hun := unpack_fixed_header_of_encode K response MQTT_CONTROL_SUBACK 0 rl bufsz
    (pid_hi :: pid_lo :: rest) (by decide) (by decide) (by omega)
    (fits_int_of_lt K rl (by omega)) (rule_violation_suback K rl) (by rw [hsize]; omega)
  rw [henc, hsize] at hun
  have hun' : mqtt_unpack_fixed_header K response (0x90 :: rl :: pid_hi :: pid_lo :: rest) bufsz
      = (2, { response with fixed_header := ⟨MQTT_CONTROL_SUBACK, 0, rl⟩ }) := hun
  have hlt : ¬ rl < 3 := by omega
  have hpid : __mqtt_unpack_uint16 (0x90 :: rl :: pid_hi :: pid_lo :: rest) 2
      = pid_hi * 256 + pid_lo := by
    simp [__mqtt_unpack_uint16, Nat.mod_eq_of_lt hhi, Nat.mod_eq_of_lt hlo]
  have h1 : toInt16 ((2 : Int) + ((rl - 2 : Nat) : Int)) = (rl : Int) := by
    unfold toInt16; omega
  have h2 : toInt16 ((2 : Int) + (rl : Int)) = ((rl + 2 : Nat) : Int) := by
    unfold toInt16; push_cast; omega
  have h3 : (rl - 2) % 65536 = rl - 2 := by omega
  have h4 : ¬ ((rl : Int) < 0) := by omega
  simp only [mqtt_unpack_response, hun']
  simp [MQTT_CONTROL_CONNACK, MQTT_CONTROL_PINGRESP, MQTT_CONTROL_PUBLISH, MQTT_CONTROL_SUBACK,
    mqtt_unpack_suback_response, hlt]
  rw [h1, if_neg h4, h2, hpid, h3]
  push_cast
  rfl

/-- C30: when a suback record (remaining length `rl`, packet id `pid_hi pid_lo`, first
return code `rc`) lies at the start of the receive buffer and a SUBSCRIBE descriptor
with that packet id is queued, `__mqtt_recv` marks the first such descriptor Complete
whatever the return code is, and changes nothing else in the queue; when the first
return code is the failure code 0x80 it returns and latches
`MQTT_ERROR_SUBSCRIBE_FAILED`, otherwise it returns `MQTT_OK` and leaves `client->error`
as it was. -/
theorem suback_handling (K : Consts) (uip_len : Nat) (response : mqtt_response)
    (client : mqtt_client) (rl pid_hi pid_lo rc : Nat) (rest : List Nat)
    (hbuf : client.recv_buffer.mem = 0x90 :: rl :: pid_hi :: pid_lo :: rc :: rest)
    (hcurr : client.recv_buffer.curr = 0) (hrl : 3 ≤ rl) (hrl' : rl ≤ 127)
    (hlen : rl + 2 ≤ uip_len) (hlen' : uip_len < 65536)
    (hhi : pid_hi < 256) (hlo : pid_lo < 256)
    (hq : ∃ msg ∈ client.mq.queue, msg.control_type = MQTT_CONTROL_SUBSCRIBE ∧
      msg.packet_id = pid_hi * 256 + pid_lo) :
    ∃ i, i < client.mq.queue.length ∧
      (client.mq.queue.getD i sampleMessage).control_type = MQTT_CONTROL_SUBSCRIBE ∧
      (client.mq.queue.getD i sampleMessage).packet_id = pid_hi * 256 + pid_lo ∧
      (∀ j, j < i → ¬ ((client.mq.queue.getD j sampleMessage).control_type
          = MQTT_CONTROL_SUBSCRIBE ∧
        (client.mq.queue.getD j sampleMessage).packet_id = pid_hi * 256 + pid_lo)) ∧
      (__mqtt_recv K uip_len response client).client.mq
        = mqtt_mq_set_state client.mq i MQTTQueuedMessageState.MQTT_QUEUED_COMPLETE ∧
      ((__mqtt_recv K uip_len response client).client.mq.queue.getD i sampleMessage).state
        = MQTTQueuedMessageState.MQTT_QUEUED_COMPLETE ∧
      (rc = MQTT_SUBACK_FAILURE →
        (__mqtt_recv K uip_len response client).rv = K.code .MQTT_ERROR_SUBSCRIBE_FAILED ∧
        (__mqtt_recv K uip_len response client).client.error
          = K.code .MQTT_ERROR_SUBSCRIBE_FAILED) ∧
      (rc ≠ MQTT_SUBACK_FAILURE →
        (__mqtt_recv K uip_len response client).rv = K.MQTT_OK ∧
        (__mqtt_recv K uip_len response client).client.error = client.error) := by
  have hex : ∃ i, mqtt_mq_find client.mq MQTT_CONTROL_SUBSCRIBE
      (some (pid_hi * 256 + pid_lo)) = some i := by
    cases hf : mqtt_mq_find client.mq MQTT_CONTROL_SUBSCRIBE (some (pid_hi * 256 + pid_lo)) with
    | some i => exact ⟨i, rfl⟩
    | none =>
      obtain ⟨msg, hmem, h1, h2⟩ := hq
      exact absurd ⟨h1, h2⟩
        ((mq_find_from_none MQTT_CONTROL_SUBSCRIBE _ client.mq.queue 0).mp hf msg hmem)
  obtain ⟨i, hfind⟩ := hex
  obtain ⟨j, hj, hlt, hm, hfirst⟩ :=
    (mq_find_from_some MQTT_CONTROL_SUBSCRIBE _ client.mq.queue 0 i).mp hfind
  have hij : i = j := by omega
  subst hij
  have hpos : uip_len > 0 := by omega
  have hsz : toUInt16 (0 + toInt16 (uip_len : Int)) = uip_len := toUInt16_toInt16 _ hlen'
  have hsz' : toUInt16 (toInt16 (uip_len : Int)) = uip_len := by
    have := hsz
    rwa [zero_add] at this
  have hdec := unpack_response_suback K response rl pid_hi pid_lo uip_len (rc :: rest) hrl hrl'
    hhi hlo hlen
  have hneg : ¬ (((rl + 2 : Nat) : Int) < 0) := by omega
  have hc1 : ¬ (MQTT_CONTROL_SUBACK = MQTT_CONTROL_CONNACK) := by decide
  have hc2 : ¬ (MQTT_CONTROL_SUBACK = MQTT_CONTROL_PUBLISH) := by decide
  have hneg' : ¬ ((rl : Int) + 2 < 0) := by omega
  have hget : (0x90 :: rl :: pid_hi :: pid_lo :: rc :: rest).getD 4 0 = rc := rfl
  refine ⟨i, hlt, hm.1, hm.2, fun j' hj' hp => hfirst j' hj' ⟨hp.1, hp.2⟩, ?_, ?_, ?_, ?_⟩
  · simp only [__mqtt_recv, hpos, if_true, hcurr, hsz, hbuf, hdec, hneg, if_false,
      __mqtt_recv_switch, hfind, hc1, hc2, hget]
    split_ifs <;> rfl
  · simp only [__mqtt_recv, hpos, if_true, hcurr, hsz, hbuf, hdec, hneg, if_false,
      __mqtt_recv_switch, hfind, hc1, hc2, hget]
    have := getD_modify_state MQTTQueuedMessageState.MQTT_QUEUED_COMPLETE client.mq.queue i hlt
    split_ifs <;> exact this
  · intro h0
    subst h0
    simp [__mqtt_recv, hpos, hcurr, hsz', hbuf, hdec, __mqtt_recv_switch, hfind, hc1, hc2, hneg']
  · intro h0
    simp [__mqtt_recv, hpos, hcurr, hsz', hbuf, hdec, __mqtt_recv_switch, hfind, hc1, hc2, h0,
      hneg']

/-- C30 (witness): the queued SUBSCRIBE has packet id 7 and the suback `90 03 00 07 00`
grants it: `__mqtt_recv` returns `MQTT_OK` and keeps `client->error`. -/
theorem suback_handling_witness :
    (__mqtt_recv sampleConsts 5 sampleResponse (sampleSubackClient [0x90, 3, 0, 7, 0])).rv
      = sampleConsts.MQTT_OK ∧
    (__mqtt_recv sampleConsts 5 sampleResponse
        (sampleSubackClient [0x90, 3, 0, 7, 0])).client.error
      = (sampleSubackClient [0x90, 3, 0, 7, 0]).error :=
  Exists.elim
    (suback_handling sampleConsts 5 sampleResponse (sampleSubackClient [0x90, 3, 0, 7, 0])
      3 0 7 0 [] rfl rfl (by decide) (by decide) (by decide) (by decide) (by decide) (by decide)
      ⟨sampleSubscribe, by decide, rfl, rfl⟩)
    (fun _ h => h.2.2.2.2.2.2.2 (by decide))

/-- C30 (counterexample): the suback `90 03 00 07 80` refuses the subscription with
packet id 7; `__mqtt_recv` returns and latches `MQTT_ERROR_SUBSCRIBE_FAILED`, and the
SUBSCRIBE descriptor, AwaitingAck before the call, is Complete after it. -/
theorem suback_failure_counterexample :
    ((sampleSubackClient [0x90, 3, 0, 7, 0x80]).mq.queue.getD 1 sampleMessage).control_type
      = MQTT_CONTROL_SUBSCRIBE ∧
    ((sampleSubackClient [0x90, 3, 0, 7, 0x80]).mq.queue.getD 1 sampleMessage).packet_id = 7 ∧
    ((sampleSubackClient [0x90, 3, 0, 7, 0x80]).mq.queue.getD 1 sampleMessage).state
      = MQTTQueuedMessageState.MQTT_QUEUED_AWAITING_ACK ∧
    (__mqtt_recv sampleConsts 5 sampleResponse (sampleSubackClient [0x90, 3, 0, 7, 0x80])).rv
      = sampleConsts.code .MQTT_ERROR_SUBSCRIBE_FAILED ∧
    (__mqtt_recv sampleConsts 5 sampleResponse
        (sampleSubackClient [0x90, 3, 0, 7, 0x80])).client.error
      = sampleConsts.code .MQTT_ERROR_SUBSCRIBE_FAILED ∧
    ((__mqtt_recv sampleConsts 5 sampleResponse
        (sampleSubackClient [0x90, 3, 0, 7, 0x80])).client.mq.queue.getD 1 sampleMessage).state
      = MQTTQueuedMessageState.MQTT_QUEUED_COMPLETE := by
  decide


/-! ## The state machine of a queued descriptor -/

theorem send_step_refl (a : mqtt_queued_message) : send_step a a :=
  ⟨rfl, rfl, rfl, rfl, fun _ => rfl, fun h => Or.inl h, fun h => h⟩

theorem send_step_refl_list : ∀ l : List mqtt_queued_message, List.Forall₂ send_step l l
  | [] => List.Forall₂.nil
  | a :: l => List.Forall₂.cons (send_step_refl a) (send_step_refl_list l)

/-- The loop of `__mqtt_send` takes every descriptor through an allowed step. -/
theorem send_loop_steps (K : Consts) (second_counter : Nat) (pal : Nat → Int) :
    ∀ (l : List mqtt_queued_message) (k : Nat) (client : mqtt_client),
      List.Forall₂ send_step l (__mqtt_send_loop K second_counter pal l k client).2.1
  | [], _, _ => List.Forall₂.nil
  | msg :: rest, k, client => by
    have ih := send_loop_steps K second_counter pal rest
    cases hs : msg.state with
    | MQTT_QUEUED_COMPLETE =>
      simp [__mqtt_send_loop, hs]
      exact ⟨send_step_refl msg, ih _ _⟩
    | MQTT_QUEUED_AWAITING_ACK =>
      by_cases hto : (second_counter : Int) > (msg.time_sent : Int) + client.response_timeout
      · by_cases h0 : pal k < 0
        · simp [__mqtt_send_loop, hs, hto, h0]
          exact ⟨send_step_refl msg, fun a _ => send_step_refl a⟩
        · by_cases hp : pal k < (msg.size : Int)
          · simp [__mqtt_send_loop, hs, hto, h0, hp]
            exact ⟨send_step_refl msg, fun a _ => send_step_refl a⟩
          · by_cases hc1 : msg.control_type = MQTT_CONTROL_DISCONNECT
                ∨ msg.control_type = MQTT_CONTROL_PUBLISH
            · simp [__mqtt_send_loop, hs, hto, h0, hp, hc1]
              refine ⟨⟨rfl, rfl, rfl, rfl, ?_, ?_, ?_⟩, ih _ _⟩
              · simp [hs]
              · intro _
                exact Or.inr hc1
              · simp
            · by_cases hc2 : msg.control_type = MQTT_CONTROL_CONNECT
                  ∨ msg.control_type = MQTT_CONTROL_SUBSCRIBE
                  ∨ msg.control_type = MQTT_CONTROL_PINGREQ
              · simp [__mqtt_send_loop, hs, hto, h0, hp, hc1, hc2]
                refine ⟨⟨rfl, rfl, rfl, rfl, ?_, ?_, ?_⟩, ih _ _⟩
                · simp [hs]
                · simp
                · simp
              · simp [__mqtt_send_loop, hs, hto, h0, hp, hc1, hc2]
                refine ⟨⟨rfl, rfl, rfl, rfl, ?_, ?_, ?_⟩, fun a _ => send_step_refl a⟩
                · simp [hs]
                · simp [hs]
                · simp [hs]
      · simp [__mqtt_send_loop, hs, hto]
        exact ⟨send_step_refl msg, ih _ _⟩
    | MQTT_QUEUED_UNSENT =>
      by_cases h0 : pal k < 0
      · simp [__mqtt_send_loop, hs, h0]
        exact ⟨send_step_refl msg, fun a _ => send_step_refl a⟩
      · by_cases hp : client.send_offset + pal k < (msg.size : Int)
        · simp [__mqtt_send_loop, hs, h0, hp]
          exact ⟨send_step_refl msg, fun a _ => send_step_refl a⟩
        · by_cases hc1 : msg.control_type = MQTT_CONTROL_DISCONNECT
              ∨ msg.control_type = MQTT_CONTROL_PUBLISH
          · simp [__mqtt_send_loop, hs, h0, hp, hc1]
            refine ⟨⟨rfl, rfl, rfl, rfl, ?_, ?_, ?_⟩, ih _ _⟩
            · simp [hs]
            · intro _
              exact Or.inr hc1
            · simp
          · by_cases hc2 : msg.control_type = MQTT_CONTROL_CONNECT
                ∨ msg.control_type = MQTT_CONTROL_SUBSCRIBE
                ∨ msg.control_type = MQTT_CONTROL_PINGREQ
            · simp [__mqtt_send_loop, hs, h0, hp, hc1, hc2]
              refine ⟨⟨rfl, rfl, rfl, rfl, ?_, ?_, ?_⟩, ih _ _⟩
              · simp [hs]
              · simp
              · simp
            · simp [__mqtt_send_loop, hs, h0, hp, hc1, hc2]
              refine ⟨⟨rfl, rfl, rfl, rfl, ?_, ?_, ?_⟩, fun a _ => send_step_refl a⟩
              · simp [hs]
              · simp [hs]
              · simp [hs]

/-- Every call of `mqtt_pal_sendall` in the loop of `__mqtt_send` offers the bytes of a
descriptor that is not Complete, from the start of its message or from
`client->send_offset` on. -/
theorem send_loop_calls (K : Consts) (second_counter : Nat) (pal : Nat → Int) :
    ∀ (l : List mqtt_queued_message) (k : Nat) (client : mqtt_client),
      ∀ c ∈ (__mqtt_send_loop K second_counter pal l k client).2.2.2,
        ∃ m ∈ l, m.state ≠ MQTTQueuedMessageState.MQTT_QUEUED_COMPLETE ∧
          (c = ⟨m.start, (m.size : Int)⟩ ∨
           c = ⟨m.start + client.send_offset, (m.size : Int) - client.send_offset⟩)
  | [], _, _ => by simp [__mqtt_send_loop]
  | msg :: rest, k, client => by
    have ih := send_loop_calls K second_counter pal rest
    have lift : ∀ (c : pal_call) (k' : Nat) (client' : mqtt_client),
        (client'.send_offset = 0 ∨ client'.send_offset = client.send_offset) →
        c ∈ (__mqtt_send_loop K second_counter pal rest k' client').2.2.2 →
        ∃ m ∈ msg :: rest, m.state ≠ MQTTQueuedMessageState.MQTT_QUEUED_COMPLETE ∧
          (c = ⟨m.start, (m.size : Int)⟩ ∨
           c = ⟨m.start + client.send_offset, (m.size : Int) - client.send_offset⟩) := by
      intro c k' client' hoff hc
      obtain ⟨m, hm, hne, h⟩ := ih k' client' c hc
      refine ⟨m, List.mem_cons_of_mem _ hm, hne, ?_⟩
      rcases hoff with h0 | h0
      · rw [h0] at h
        left
        simpa using h
      · rw [h0] at h
        exact h
    cases hs : msg.state with
    | MQTT_QUEUED_COMPLETE =>
      intro c hc
      simp [__mqtt_send_loop, hs] at hc
      exact lift c k client (Or.inr rfl) hc
    | MQTT_QUEUED_AWAITING_ACK =>
      have hne : msg.state ≠ MQTTQueuedMessageState.MQTT_QUEUED_COMPLETE := by simp [hs]
      have hself : ∀ c : pal_call, c = ⟨msg.start, (msg.size : Int)⟩ →
          ∃ m ∈ msg :: rest, m.state ≠ MQTTQueuedMessageState.MQTT_QUEUED_COMPLETE ∧
            (c = ⟨m.start, (m.size : Int)⟩ ∨
             c = ⟨m.start + client.send_offset, (m.size : Int) - client.send_offset⟩) :=
        fun c h => ⟨msg, List.mem_cons_self _ _, hne, Or.inl h⟩
      intro c hc
      by_cases hto : (second_counter : Int) > (msg.time_sent : Int) + client.response_timeout
      · by_cases h0 : pal k < 0
        · simp [__mqtt_send_loop, hs, hto, h0] at hc
          exact hself c hc
        · by_cases hp : pal k < (msg.size : Int)
          · simp [__mqtt_send_loop, hs, hto, h0, hp] at hc
            exact hself c hc
          · by_cases hc1 : msg.control_type = MQTT_CONTROL_DISCONNECT
                ∨ msg.control_type = MQTT_CONTROL_PUBLISH
            · simp [__mqtt_send_loop, hs, hto, h0, hp, hc1] at hc
              rcases hc with hc | hc
              · exact hself c hc
              · exact lift c _ _ (Or.inl rfl) hc
            · by_cases hc2 : msg.control_type = MQTT_CONTROL_CONNECT
                  ∨ msg.control_type = MQTT_CONTROL_SUBSCRIBE
                  ∨ msg.control_type = MQTT_CONTROL_PINGREQ
              · simp [__mqtt_send_loop, hs, hto, h0, hp, hc1, hc2] at hc
                rcases hc with hc | hc
                · exact hself c hc
                · exact lift c _ _ (Or.inl rfl) hc
              · simp [__mqtt_send_loop, hs, hto, h0, hp, hc1, hc2] at hc
                exact hself c hc
      · simp [__mqtt_send_loop, hs, hto] at hc
        exact lift c k client (Or.inr rfl) hc
    | MQTT_QUEUED_UNSENT =>
      have hne : msg.state ≠ MQTTQueuedMessageState.MQTT_QUEUED_COMPLETE := by simp [hs]
      have hself : ∀ c : pal_call,
          c = ⟨msg.start + client.send_offset, (msg.size : Int) - client.send_offset⟩ →
          ∃ m ∈ msg :: rest, m.state ≠ MQTTQueuedMessageState.MQTT_QUEUED_COMPLETE ∧
            (c = ⟨m.start, (m.size : Int)⟩ ∨
             c = ⟨m.start + client.send_offset, (m.size : Int) - client.send_offset⟩) :=
        fun c h => ⟨msg, List.mem_cons_self _ _, hne, Or.inr h⟩
      intro c hc
      by_cases h0 : pal k < 0
      · simp [__mqtt_send_loop, hs, h0] at hc
        exact hself c hc
      · by_cases hp : client.send_offset + pal k < (msg.size : Int)
        · simp [__mqtt_send_loop, hs, h0, hp] at hc
          exact hself c hc
        · by_cases hc1 : msg.control_type = MQTT_CONTROL_DISCONNECT
              ∨ msg.control_type = MQTT_CONTROL_PUBLISH
          · simp [__mqtt_send_loop, hs, h0, hp, hc1] at hc
            rcases hc with hc | hc
            · exact hself c hc
            · exact lift c _ _ (Or.inl rfl) hc
          · by_cases hc2 : msg.control_type = MQTT_CONTROL_CONNECT
                ∨ msg.control_type = MQTT_CONTROL_SUBSCRIBE
                ∨ msg.control_type = MQTT_CONTROL_PINGREQ
            · simp [__mqtt_send_loop, hs, h0, hp, hc1, hc2] at hc
              rcases hc with hc | hc
              · exact hself c hc
              · exact lift c _ _ (Or.inl rfl) hc
            · simp [__mqtt_send_loop, hs, h0, hp, hc1, hc2] at hc
              exact hself c hc


theorem map_shift_zero (l : List mqtt_queued_message) :
    l.map (fun m => { m with start := m.start - 0 }) = l := by
  simp

/-- The descriptors that `mqtt_mq_clean` leaves: the queue without the Complete
descriptors that the scan has passed, their `start` lowered by one amount. -/
theorem clean_queue_shape (K : Consts) (mq : mqtt_message_queue) :
    ∃ r : Int, (mqtt_mq_clean K mq).queue
      = (mq.queue.drop (mqtt_mq_clean_scan mq.queue)).map
          (fun m => { m with start := m.start - r }) := by
  unfold mqtt_mq_clean
  simp only
  split_ifs with h1 h2
  · exact ⟨0, by simp [List.drop_eq_nil_of_le h1]⟩
  · exact ⟨0, by rw [h2]; simp⟩
  · exact ⟨_, rfl⟩

theorem modify_append_last (f : mqtt_queued_message → mqtt_queued_message)
    (e : mqtt_queued_message) : ∀ xs : List mqtt_queued_message,
      (xs ++ [e]).modify f ((xs ++ [e]).length - 1) = xs ++ [f e]
  | [] => rfl
  | x :: xs => by
    have ih := modify_append_last f e xs
    have hlen : (x :: xs ++ [e]).length - 1 = ((xs ++ [e]).length - 1) + 1 := by
      simp
    rw [hlen]
    simp only [List.cons_append, List.modify_succ_cons, ih]

/-- The queue after `MQTT_CLIENT_TRY_PACK`: when the macro returns, the queue is as it
was or as `mqtt_mq_clean` leaves it; when it runs to its end, one Unsent descriptor
has been added behind such a queue. -/
theorem try_pack_queue_shape (K : Consts) (client : mqtt_client)
    (pack_call : Nat → Int × List Nat) (stale : mqtt_queued_message) :
    ∃ (k : Nat) (r : Int),
      (∀ m ∈ client.mq.queue.take k, m.state = MQTTQueuedMessageState.MQTT_QUEUED_COMPLETE) ∧
      ((MQTT_CLIENT_TRY_PACK K client pack_call stale).1 ≠ none →
        (MQTT_CLIENT_TRY_PACK K client pack_call stale).2.mq.queue
          = (client.mq.queue.drop k).map (fun m => { m with start := m.start - r })) ∧
      ((MQTT_CLIENT_TRY_PACK K client pack_call stale).1 = none →
        ∃ e : mqtt_queued_message, e.state = MQTTQueuedMessageState.MQTT_QUEUED_UNSENT ∧
          (MQTT_CLIENT_TRY_PACK K client pack_call stale).2.mq.queue
            = (client.mq.queue.drop k).map (fun m => { m with start := m.start - r })
                ++ [e]) := by
  obtain ⟨r, hr⟩ := clean_queue_shape K
    { client.mq with
      mem := writeAt client.mq.mem client.mq.curr.toNat (pack_call client.mq.curr_sz).2 }
  have hz : ∀ m ∈ client.mq.queue.take 0,
      m.state = MQTTQueuedMessageState.MQTT_QUEUED_COMPLETE := by simp
  unfold MQTT_CLIENT_TRY_PACK
  simp only
  split_ifs with h1 h2 h3 h4 h5
  · exact ⟨0, 0, hz, fun _ => by simp, fun h => by simp at h⟩
  · exact ⟨0, 0, hz, fun _ => by simp, fun h => by simp at h⟩
  · exact ⟨_, r, mq_clean_scan_take client.mq.queue, fun _ => hr, fun h => by simp at h⟩
  · exact ⟨_, r, mq_clean_scan_take client.mq.queue, fun _ => hr, fun h => by simp at h⟩
  · refine ⟨_, r, mq_clean_scan_take client.mq.queue, fun h => absurd rfl h, fun _ => ?_⟩
    exact ⟨_, rfl, by simp only [mqtt_mq_register]; rw [hr]⟩
  · refine ⟨0, 0, hz, fun h => absurd rfl h, fun _ => ?_⟩
    exact ⟨{ stale with start := client.mq.curr,
                        size := toUInt16 (pack_call client.mq.curr_sz).1,
                        state := MQTTQueuedMessageState.MQTT_QUEUED_UNSENT }, rfl,
      by simp [mqtt_mq_register]⟩

/-- The queue after `__mqtt_ping`: the queue as it was or as `mqtt_mq_clean` leaves it,
and behind it at most one new descriptor, an Unsent PINGREQ. -/
theorem ping_queue_shape (K : Consts) (client : mqtt_client) (stale : mqtt_queued_message) :
    ∃ (k : Nat) (r : Int) (extra : List mqtt_queued_message),
      (∀ m ∈ client.mq.queue.take k, m.state = MQTTQueuedMessageState.MQTT_QUEUED_COMPLETE) ∧
      (__mqtt_ping K client stale).2.mq.queue
        = (client.mq.queue.drop k).map (fun m => { m with start := m.start - r }) ++ extra ∧
      extra.length ≤ 1 ∧
      ∀ e ∈ extra, e.state = MQTTQueuedMessageState.MQTT_QUEUED_UNSENT ∧
        e.control_type = MQTT_CONTROL_PINGREQ := by
  obtain ⟨k, r, hk, hsome, hnone⟩ := try_pack_queue_shape K client
    (fun bufsz => mqtt_pack_ping_request K bufsz) stale
  unfold __mqtt_ping
  split
  · next rv c heq =>
    rw [heq] at hsome
    exact ⟨k, r, [], hk, by simpa using hsome (by simp), by simp, by simp⟩
  · next c heq =>
    rw [heq] at hnone
    obtain ⟨e, he, hq⟩ := hnone rfl
    refine ⟨k, r, [{ e with control_type := MQTT_CONTROL_PINGREQ }], hk, ?_, by simp, ?_⟩
    · simp only at hq
      simp only [set_last_control_type, hq]
      exact modify_append_last _ e _
    · intro x hx
      rw [List.mem_singleton] at hx
      subst hx
      exact ⟨he, rfl⟩

/-- The queue after `__mqtt_send`: the loop takes every descriptor through an allowed
step (`mid`); a keep-alive ping may then make `mqtt_mq_clean` remove the first `k`
descriptors, all Complete, and lower the `start` of the others by `r`, and may add one
Unsent PINGREQ behind them. -/
theorem send_queue_shape (K : Consts) (second_counter mqtt_start : Nat) (pal : Nat → Int)
    (stale : mqtt_queued_message) (client : mqtt_client) :
    ∃ (mid : List mqtt_queued_message) (k : Nat) (r : Int) (extra : List mqtt_queued_message),
      List.Forall₂ send_step client.mq.queue mid ∧
      (∀ m ∈ mid.take k, m.state = MQTTQueuedMessageState.MQTT_QUEUED_COMPLETE) ∧
      (__mqtt_send K second_counter mqtt_start pal stale client).client.mq.queue
        = (mid.drop k).map (fun m => { m with start := m.start - r }) ++ extra ∧
      extra.length ≤ 1 ∧
      ∀ e ∈ extra, e.state = MQTTQueuedMessageState.MQTT_QUEUED_UNSENT ∧
        e.control_type = MQTT_CONTROL_PINGREQ := by
  have hsteps := send_loop_steps K second_counter pal client.mq.queue 0 client
  unfold __mqtt_send
  split_ifs with hb
  · exact ⟨client.mq.queue, 0, 0, [], send_step_refl_list _, by simp, by simp, by simp, by simp⟩
  · rcases hl : __mqtt_send_loop K second_counter pal client.mq.queue 0 client with
      ⟨rv, queue, client', calls⟩
    rw [hl] at hsteps
    simp only at hsteps
    cases rv with
    | some rv =>
      exact ⟨queue, 0, 0, [], hsteps, by simp, by simp, by simp, by simp⟩
    | none =>
      simp only
      split_ifs with hka hrv
      · obtain ⟨k, r, extra, hk, hq, hlen, hex⟩ := ping_queue_shape K
          { client' with mq := { client'.mq with queue := queue } } stale
        exact ⟨queue, k, r, extra, hsteps, hk, hq, hlen, hex⟩
      · obtain ⟨k, r, extra, hk, hq, hlen, hex⟩ := ping_queue_shape K
          { client' with mq := { client'.mq with queue := queue } } stale
        exact ⟨queue, k, r, extra, hsteps, hk, hq, hlen, hex⟩
      · exact ⟨queue, 0, 0, [], hsteps, by simp, by simp, by simp, by simp⟩

/-- Every call of `mqtt_pal_sendall` in `__mqtt_send` offers the bytes of a descriptor
that is not Complete, from the start of its message or from `client->send_offset` on. -/
theorem send_calls_offered (K : Consts) (second_counter mqtt_start : Nat) (pal : Nat → Int)
    (stale : mqtt_queued_message) (client : mqtt_client) :
    ∀ c ∈ (__mqtt_send K second_counter mqtt_start pal stale client).calls,
      ∃ m ∈ client.mq.queue, m.state ≠ MQTTQueuedMessageState.MQTT_QUEUED_COMPLETE ∧
        (c = ⟨m.start, (m.size : Int)⟩ ∨
         c = ⟨m.start + client.send_offset, (m.size : Int) - client.send_offset⟩) := by
  have hcalls := send_loop_calls K second_counter pal client.mq.queue 0 client
  unfold __mqtt_send
  split_ifs with hb
  · simp
  · rcases hl : __mqtt_send_loop K second_counter pal client.mq.queue 0 client with
      ⟨rv, queue, client', calls⟩
    rw [hl] at hcalls
    simp only at hcalls
    cases rv with
    | some rv => exact hcalls
    | none =>
      simp only
      split_ifs <;> exact hcalls


theorem getD_modify (f : mqtt_queued_message → mqtt_queued_message) (d : mqtt_queued_message) :
    ∀ (l : List mqtt_queued_message) (i j : Nat), j < l.length →
      (l.modify f i).getD j d = if j = i then f (l.getD j d) else l.getD j d
  | [], _, _, h => by simp at h
  | m :: rest, 0, 0, _ => by simp [List.modify]
  | m :: rest, 0, j + 1, _ => by simp [List.modify]
  | m :: rest, i + 1, 0, _ => by simp [List.modify]
  | m :: rest, i + 1, j + 1, h => by
    simp only [List.modify_succ_cons, List.getD_cons_succ]
    rw [getD_modify f d rest i j (by simpa using h)]
    simp

/-- The queue after the `switch` of `__mqtt_recv`: it is as it was, or the descriptor
that `mqtt_mq_find` returns for the acknowledgement received (a CONNECT, a SUBSCRIBE or
a PINGREQ) has been marked Complete. -/
theorem recv_switch_queue_cases (K : Consts) (response : mqtt_response)
    (client : mqtt_client) :
    (__mqtt_recv_switch K response client).client.mq.queue = client.mq.queue ∨
    ∃ (i ct : Nat) (pid : Option Nat),
      (ct = MQTT_CONTROL_CONNECT ∨ ct = MQTT_CONTROL_SUBSCRIBE ∨ ct = MQTT_CONTROL_PINGREQ) ∧
      mqtt_mq_find client.mq ct pid = some i ∧
      (__mqtt_recv_switch K response client).client.mq.queue
        = client.mq.queue.modify
            (fun m => { m with state := MQTTQueuedMessageState.MQTT_QUEUED_COMPLETE }) i := by
  have d1 : ¬ MQTT_CONTROL_PUBLISH = MQTT_CONTROL_CONNACK := by decide
  have d2 : ¬ MQTT_CONTROL_SUBACK = MQTT_CONTROL_CONNACK := by decide
  have d3 : ¬ MQTT_CONTROL_SUBACK = MQTT_CONTROL_PUBLISH := by decide
  have d4 : ¬ MQTT_CONTROL_PINGRESP = MQTT_CONTROL_CONNACK := by decide
  have d5 : ¬ MQTT_CONTROL_PINGRESP = MQTT_CONTROL_PUBLISH := by decide
  have d6 : ¬ MQTT_CONTROL_PINGRESP = MQTT_CONTROL_SUBACK := by decide
  by_cases h1 : response.fixed_header.control_type = MQTT_CONTROL_CONNACK
  · cases hf : mqtt_mq_find client.mq MQTT_CONTROL_CONNECT none with
    | none =>
      left
      simp only [__mqtt_recv_switch, h1, if_true, hf]
    | some i =>
      right
      refine ⟨i, MQTT_CONTROL_CONNECT, none, Or.inl rfl, hf, ?_⟩
      simp only [__mqtt_recv_switch, h1, if_true, hf]
      split_ifs <;> rfl
  · by_cases h2 : response.fixed_header.control_type = MQTT_CONTROL_PUBLISH
    · left
      simp only [__mqtt_recv_switch, h2, d1, if_true, if_false]
    · by_cases h3 : response.fixed_header.control_type = MQTT_CONTROL_SUBACK
      · cases hf : mqtt_mq_find client.mq MQTT_CONTROL_SUBSCRIBE
            (some response.suback.packet_id) with
        | none =>
          left
          simp only [__mqtt_recv_switch, h3, d2, d3, if_true, if_false, hf]
        | some i =>
          right
          refine ⟨i, MQTT_CONTROL_SUBSCRIBE, some response.suback.packet_id,
            Or.inr (Or.inl rfl), hf, ?_⟩
          simp only [__mqtt_recv_switch, h3, d2, d3, if_true, if_false, hf]
          split_ifs <;> rfl
      · by_cases h4 : response.fixed_header.control_type = MQTT_CONTROL_PINGRESP
        · cases hf : mqtt_mq_find client.mq MQTT_CONTROL_PINGREQ none with
          | none =>
            left
            simp only [__mqtt_recv_switch, h4, d4, d5, d6, if_true, if_false, hf]
          | some i =>
            right
            refine ⟨i, MQTT_CONTROL_PINGREQ, none, Or.inr (Or.inr rfl), hf, ?_⟩
            simp only [__mqtt_recv_switch, h4, d4, d5, d6, if_true, if_false, hf]
            rfl
        · left
          simp only [__mqtt_recv_switch, h1, h2, h3, h4, if_false]

/-- The queue after `__mqtt_recv`: it is as it was, or the descriptor that `mqtt_mq_find`
returns for the acknowledgement received (a CONNECT, a SUBSCRIBE or a PINGREQ) has been
marked Complete. -/
theorem recv_queue_cases (K : Consts) (uip_len : Nat) (response : mqtt_response)
    (client : mqtt_client) :
    (__mqtt_recv K uip_len response client).client.mq.queue = client.mq.queue ∨
    ∃ (i ct : Nat) (pid : Option Nat),
      (ct = MQTT_CONTROL_CONNECT ∨ ct = MQTT_CONTROL_SUBSCRIBE ∨ ct = MQTT_CONTROL_PINGREQ) ∧
      mqtt_mq_find client.mq ct pid = some i ∧
      (__mqtt_recv K uip_len response client).client.mq.queue
        = client.mq.queue.modify
            (fun m => { m with state := MQTTQueuedMessageState.MQTT_QUEUED_COMPLETE }) i := by
  unfold __mqtt_recv
  simp only
  split_ifs <;> first | exact Or.inl rfl | exact recv_switch_queue_cases K _ _

theorem steps_getD : ∀ (l mid : List mqtt_queued_message), List.Forall₂ send_step l mid →
    ∀ i, i < l.length → send_step (l.getD i sampleMessage) (mid.getD i sampleMessage)
  | [], _, _, i, hi => by simp at hi
  | a :: l, [], h, _, _ => by cases h
  | a :: l, b :: mid, h, 0, _ => by
    rw [List.forall₂_cons] at h
    exact h.1
  | a :: l, b :: mid, h, i + 1, hi => by
    rw [List.forall₂_cons] at h
    simp only [List.getD_cons_succ]
    exact steps_getD l mid h.2 i (by simpa using hi)

theorem shape_getD (f : mqtt_queued_message → mqtt_queued_message)
    (mid extra : List mqtt_queued_message) (k i : Nat) (hk : k ≤ i) (hi : i < mid.length) :
    ((mid.drop k).map f ++ extra).getD (i - k) sampleMessage
      = f (mid.getD i sampleMessage) := by
  have h1 : i - k < ((mid.drop k).map f).length := by
    simp only [List.length_map, List.length_drop]
    omega
  rw [List.getD_append _ _ _ _ h1, List.getD_eq_getElem _ _ h1, List.getD_eq_getElem _ _ hi]
  simp only [List.getElem_map, List.getElem_drop]
  congr 2
  omega

theorem take_getD_mem (mid : List mqtt_queued_message) (k i : Nat) (hk : i < k)
    (hi : i < mid.length) : mid.getD i sampleMessage ∈ mid.take k := by
  rw [List.getD_eq_getElem _ _ hi]
  have h : i < (mid.take k).length := by
    simp only [List.length_take]
    omega
  have := List.getElem_mem h
  rwa [List.getElem_take] at this


theorem set_complete_of_complete (m : mqtt_queued_message)
    (h : m.state = MQTTQueuedMessageState.MQTT_QUEUED_COMPLETE) :
    { m with state := MQTTQueuedMessageState.MQTT_QUEUED_COMPLETE } = m := by
  cases m
  simp only at h
  subst h
  rfl

/-- The send phase when no keep-alive ping can be due: every descriptor of the queue
goes through an allowed step and stays at its index. -/
theorem send_steps_no_ping (K : Consts) (second_counter mqtt_start : Nat) (pal : Nat → Int)
    (stale : mqtt_queued_message) (client : mqtt_client)
    (hstart : mqtt_start ≠ K.MQTT_START_COMPLETE) :
    List.Forall₂ send_step client.mq.queue
      (__mqtt_send K second_counter mqtt_start pal stale client).client.mq.queue := by
  have hsteps := send_loop_steps K second_counter pal client.mq.queue 0 client
  unfold __mqtt_send
  split_ifs with hb
  · exact send_step_refl_list _
  · rcases hl : __mqtt_send_loop K second_counter pal client.mq.queue 0 client with
      ⟨rv, queue, client', calls⟩
    rw [hl] at hsteps
    simp only at hsteps
    cases rv with
    | some rv => exact hsteps
    | none =>
      simp only
      rw [if_neg (fun h => hstart h.2)]
      exact hsteps

/-- No transition leaves Complete.  A descriptor that is Complete before
`__mqtt_recv` is the same afterwards, at the same index of a queue of the same length;
so it is after the loop of `__mqtt_send`, and after `__mqtt_send` when no keep-alive
ping can be due (`mqtt_start` is not `MQTT_START_COMPLETE`).  In general the queue after
`__mqtt_send` consists of the descriptors `mid` that the loop leaves, without the first
`k` of them, which are all Complete and which the `mqtt_mq_clean` of a keep-alive ping
has removed, the others with `start` lowered by `r`, and of at most one new Unsent
PINGREQ; a Complete descriptor that is not removed is unchanged but for `start`.
Every call of `mqtt_pal_sendall` that `__mqtt_send` makes is computed from a descriptor
that is not Complete: from its `start` and `size`, or from `start + send_offset` and
`size - send_offset` for the `send_offset` at the entry, whatever that is. -/
theorem complete_is_final (K : Consts) (uip_len : Nat) (response : mqtt_response)
    (second_counter mqtt_start : Nat) (pal : Nat → Int) (stale : mqtt_queued_message)
    (client : mqtt_client) :
    ((__mqtt_recv K uip_len response client).client.mq.queue.length = client.mq.queue.length ∧
      ∀ i, i < client.mq.queue.length →
        (client.mq.queue.getD i sampleMessage).state
          = MQTTQueuedMessageState.MQTT_QUEUED_COMPLETE →
        (__mqtt_recv K uip_len response client).client.mq.queue.getD i sampleMessage
          = client.mq.queue.getD i sampleMessage) ∧
    ((__mqtt_send_loop K second_counter pal client.mq.queue 0 client).2.1.length
        = client.mq.queue.length ∧
      ∀ i, i < client.mq.queue.length →
        (client.mq.queue.getD i sampleMessage).state
          = MQTTQueuedMessageState.MQTT_QUEUED_COMPLETE →
        (__mqtt_send_loop K second_counter pal client.mq.queue 0 client).2.1.getD i sampleMessage
          = client.mq.queue.getD i sampleMessage) ∧
    (mqtt_start ≠ K.MQTT_START_COMPLETE →
      (__mqtt_send K second_counter mqtt_start pal stale client).client.mq.queue.length
        = client.mq.queue.length ∧
      ∀ i, i < client.mq.queue.length →
        (client.mq.queue.getD i sampleMessage).state
          = MQTTQueuedMessageState.MQTT_QUEUED_COMPLETE →
        (__mqtt_send K second_counter mqtt_start pal stale client).client.mq.queue.getD i
            sampleMessage
          = client.mq.queue.getD i sampleMessage) ∧
    (∃ (mid : List mqtt_queued_message) (k : Nat) (r : Int) (extra : List mqtt_queued_message),
      mid.length = client.mq.queue.length ∧
      (∀ m ∈ mid.take k, m.state = MQTTQueuedMessageState.MQTT_QUEUED_COMPLETE) ∧
      (__mqtt_send K second_counter mqtt_start pal stale client).client.mq.queue
        = (mid.drop k).map (fun m => { m with start := m.start - r }) ++ extra ∧
      extra.length ≤ 1 ∧
      (∀ e ∈ extra, e.state = MQTTQueuedMessageState.MQTT_QUEUED_UNSENT ∧
        e.control_type = MQTT_CONTROL_PINGREQ) ∧
      ∀ i, i < client.mq.queue.length →
        (client.mq.queue.getD i sampleMessage).state
          = MQTTQueuedMessageState.MQTT_QUEUED_COMPLETE →
        mid.getD i sampleMessage = client.mq.queue.getD i sampleMessage ∧
        (k ≤ i →
          (__mqtt_send K second_counter mqtt_start pal stale client).client.mq.queue.getD (i - k)
              sampleMessage
            = { client.mq.queue.getD i sampleMessage with
                start := (client.mq.queue.getD i sampleMessage).start - r })) ∧
    (∀ c ∈ (__mqtt_send K second_counter mqtt_start pal stale client).calls,
      ∃ m ∈ client.mq.queue, m.state ≠ MQTTQueuedMessageState.MQTT_QUEUED_COMPLETE ∧
        (c = ⟨m.start, (m.size : Int)⟩ ∨
         c = ⟨m.start + client.send_offset, (m.size : Int) - client.send_offset⟩)) := by
  refine ⟨?_, ?_, ?_, ?_, send_calls_offered K second_counter mqtt_start pal stale client⟩
  · rcases recv_queue_cases K uip_len response client with h | ⟨j, ct, pid, -, -, h⟩
    · rw [h]
      exact ⟨rfl, fun _ _ _ => rfl⟩
    · rw [h]
      refine ⟨List.length_modify _ _ _, fun i hi hc => ?_⟩
      rw [getD_modify _ _ _ _ _ hi]
      split_ifs
      · exact set_complete_of_complete _ hc
      · rfl
  · have hsteps := send_loop_steps K second_counter pal client.mq.queue 0 client
    exact ⟨hsteps.length_eq.symm, fun i hi hc => (steps_getD _ _ hsteps i hi).2.2.2.2.1 hc⟩
  · intro hstart
    have hsteps := send_steps_no_ping K second_counter mqtt_start pal stale client hstart
    exact ⟨hsteps.length_eq.symm, fun i hi hc => (steps_getD _ _ hsteps i hi).2.2.2.2.1 hc⟩
  · obtain ⟨mid, k, r, extra, hsteps, hk, hq, hlen, hex⟩ :=
      send_queue_shape K second_counter mqtt_start pal stale client
    refine ⟨mid, k, r, extra, hsteps.length_eq.symm, hk, hq, hlen, hex, fun i hi hc => ?_⟩
    have hmid := (steps_getD _ _ hsteps i hi).2.2.2.2.1 hc
    refine ⟨hmid, fun hki => ?_⟩
    rw [hq, shape_getD _ mid extra k i hki (by rw [← hsteps.length_eq]; exact hi), hmid]


set_option maxRecDepth 100000 in
/-- C27 at a failing run: `complete_offered_run` from a fresh client.  Before the last
`mqtt_sync` the queue holds the CONNECT request, which awaits its acknowledgement, the
ping request at the offsets 21 and 22, not yet sent, and the subscription at the offsets
23 to 34, which the suback has made Complete; `send_offset` is 10, from the CONNECT
request that was sent in part.  In the last `mqtt_sync` the connack completes the CONNECT
request and `__mqtt_send` offers the ping request from offset 10 on: the call starts at
offset 31, inside the bytes of the Complete subscription, with the length
`2 - 10 = -8`, which is 65528 as a `uint16_t`.  Every descriptor that is Complete is
still Complete afterwards. -/
theorem complete_bytes_offered :
    (client_run sampleConsts (List.take 6 complete_offered_run) freshClient).1.mq.queue
      = [⟨0, 21, MQTTQueuedMessageState.MQTT_QUEUED_AWAITING_ACK, 0, MQTT_CONTROL_CONNECT, 0⟩,
         ⟨21, 2, MQTTQueuedMessageState.MQTT_QUEUED_UNSENT, 0, MQTT_CONTROL_PINGREQ, 0⟩,
         ⟨23, 12, MQTTQueuedMessageState.MQTT_QUEUED_COMPLETE, 0, MQTT_CONTROL_SUBSCRIBE,
           0xB451⟩] ∧
    (client_run sampleConsts (List.take 6 complete_offered_run) freshClient).1.send_offset
      = 10 ∧
    (client_run sampleConsts complete_offered_run freshClient).2
      = [⟨some 1, []⟩, ⟨some 1, [⟨0, 21⟩]⟩, ⟨some 1, [⟨0, 21⟩]⟩, ⟨some 1, []⟩, ⟨some 1, []⟩,
         ⟨some 1, [⟨0, 21⟩]⟩, ⟨some 1, [⟨21 + 10, 2 - 10⟩]⟩] ∧
    ((23 : Int) ≤ 21 + 10 ∧ (21 + 10 : Int) < 23 + 12 ∧ toUInt16 (2 - 10) = 65528) ∧
    (client_run sampleConsts complete_offered_run freshClient).1.mq.queue
      = [⟨0, 21, MQTTQueuedMessageState.MQTT_QUEUED_COMPLETE, 0, MQTT_CONTROL_CONNECT, 0⟩,
         ⟨21, 2, MQTTQueuedMessageState.MQTT_QUEUED_AWAITING_ACK, 31, MQTT_CONTROL_PINGREQ, 0⟩,
         ⟨23, 12, MQTTQueuedMessageState.MQTT_QUEUED_COMPLETE, 0, MQTT_CONTROL_SUBSCRIBE,
           0xB451⟩] := by
  decide

/-- C28: the descriptors of the types that require an acknowledgement (CONNECT,
SUBSCRIBE, PINGREQ).  The send phase never makes such a descriptor Complete: one that
is not Complete before `__mqtt_send` is not Complete after its loop, is not among the
`k` descriptors that a keep-alive ping makes `mqtt_mq_clean` remove, and is not Complete
in the queue after `__mqtt_send` (where it has the index `i - k`).  The receive phase
makes a descriptor Complete only as the one that `mqtt_mq_find` returns for the
acknowledgement received, and its state before is not examined: it is Unsent or
AwaitingAck. -/
theorem ack_types_state_machine (K : Consts) (uip_len : Nat) (response : mqtt_response)
    (second_counter mqtt_start : Nat) (pal : Nat → Int) (stale : mqtt_queued_message)
    (client : mqtt_client) :
    (∀ i, i < client.mq.queue.length →
      ((client.mq.queue.getD i sampleMessage).control_type = MQTT_CONTROL_CONNECT ∨
        (client.mq.queue.getD i sampleMessage).control_type = MQTT_CONTROL_SUBSCRIBE ∨
        (client.mq.queue.getD i sampleMessage).control_type = MQTT_CONTROL_PINGREQ) →
      (client.mq.queue.getD i sampleMessage).state
        ≠ MQTTQueuedMessageState.MQTT_QUEUED_COMPLETE →
      ((__mqtt_send_loop K second_counter pal client.mq.queue 0 client).2.1.getD i
          sampleMessage).state ≠ MQTTQueuedMessageState.MQTT_QUEUED_COMPLETE) ∧
    (∃ (mid : List mqtt_queued_message) (k : Nat) (r : Int) (extra : List mqtt_queued_message),
      mid.length = client.mq.queue.length ∧
      (∀ m ∈ mid.take k, m.state = MQTTQueuedMessageState.MQTT_QUEUED_COMPLETE) ∧
      (__mqtt_send K second_counter mqtt_start pal stale client).client.mq.queue
        = (mid.drop k).map (fun m => { m with start := m.start - r }) ++ extra ∧
      extra.length ≤ 1 ∧
      (∀ e ∈ extra, e.state = MQTTQueuedMessageState.MQTT_QUEUED_UNSENT ∧
        e.control_type = MQTT_CONTROL_PINGREQ) ∧
      ∀ i, i < client.mq.queue.length →
        ((client.mq.queue.getD i sampleMessage).control_type = MQTT_CONTROL_CONNECT ∨
          (client.mq.queue.getD i sampleMessage).control_type = MQTT_CONTROL_SUBSCRIBE ∨
          (client.mq.queue.getD i sampleMessage).control_type = MQTT_CONTROL_PINGREQ) →
        (client.mq.queue.getD i sampleMessage).state
          ≠ MQTTQueuedMessageState.MQTT_QUEUED_COMPLETE →
        k ≤ i ∧
        ((__mqtt_send K second_counter mqtt_start pal stale client).client.mq.queue.getD (i - k)
            sampleMessage).control_type = (client.mq.queue.getD i sampleMessage).control_type ∧
        ((__mqtt_send K second_counter mqtt_start pal stale client).client.mq.queue.getD (i - k)
            sampleMessage).packet_id = (client.mq.queue.getD i sampleMessage).packet_id ∧
        ((__mqtt_send K second_counter mqtt_start pal stale client).client.mq.queue.getD (i - k)
            sampleMessage).state ≠ MQTTQueuedMessageState.MQTT_QUEUED_COMPLETE) ∧
    (∀ i, i < client.mq.queue.length →
      (client.mq.queue.getD i sampleMessage).state
        ≠ MQTTQueuedMessageState.MQTT_QUEUED_COMPLETE →
      ((__mqtt_recv K uip_len response client).client.mq.queue.getD i sampleMessage).state
        = MQTTQueuedMessageState.MQTT_QUEUED_COMPLETE →
      ((client.mq.queue.getD i sampleMessage).control_type = MQTT_CONTROL_CONNECT ∨
        (client.mq.queue.getD i sampleMessage).control_type = MQTT_CONTROL_SUBSCRIBE ∨
        (client.mq.queue.getD i sampleMessage).control_type = MQTT_CONTROL_PINGREQ) ∧
      ∃ pid, mqtt_mq_find client.mq (client.mq.queue.getD i sampleMessage).control_type pid
        = some i) := by
  have hack : ∀ a b : mqtt_queued_message, send_step a b →
      (a.control_type = MQTT_CONTROL_CONNECT ∨ a.control_type = MQTT_CONTROL_SUBSCRIBE ∨
        a.control_type = MQTT_CONTROL_PINGREQ) →
      a.state ≠ MQTTQueuedMessageState.MQTT_QUEUED_COMPLETE →
      b.state ≠ MQTTQueuedMessageState.MQTT_QUEUED_COMPLETE := by
    intro a b hab hct hne hb
    rcases hab.2.2.2.2.2.1 hb with h | h | h
    · exact hne h
    · rw [h] at hct
      revert hct
      decide
    · rw [h] at hct
      revert hct
      decide
  refine ⟨?_, ?_, ?_⟩
  · intro i hi hct hne
    have hsteps := send_loop_steps K second_counter pal client.mq.queue 0 client
    exact hack _ _ (steps_getD _ _ hsteps i hi) hct hne
  · obtain ⟨mid, k, r, extra, hsteps, hk, hq, hlen, hex⟩ :=
      send_queue_shape K second_counter mqtt_start pal stale client
    refine ⟨mid, k, r, extra, hsteps.length_eq.symm, hk, hq, hlen, hex, fun i hi hct hne => ?_⟩
    have hstep := steps_getD _ _ hsteps i hi
    have hmid := hack _ _ hstep hct hne
    have hi' : i < mid.length := by rw [← hsteps.length_eq]; exact hi
    have hki : k ≤ i := by
      by_contra hlt
      exact hmid (hk _ (take_getD_mem mid k i (by omega) hi'))
    rw [hq, shape_getD _ mid extra k i hki hi']
    exact ⟨hki, hstep.2.2.1, hstep.2.2.2.1, hmid⟩
  · intro i hi hne hc
    rcases recv_queue_cases K uip_len response client with h | ⟨j, ct, pid, hct, hfind, h⟩
    · rw [h] at hc
      exact absurd hc hne
    · rw [h, getD_modify _ _ _ _ _ hi] at hc
      by_cases hij : i = j
      · subst hij
        obtain ⟨j', hj', -, hm, -⟩ :=
          (mq_find_from_some ct pid client.mq.queue 0 i).mp hfind
        have hij' : j' = i := by omega
        subst hij'
        have hcteq : (client.mq.queue.getD j' sampleMessage).control_type = ct := hm.1
        rw [hcteq]
        exact ⟨hct, pid, hfind⟩
      · rw [if_neg hij] at hc
        exact absurd hc hne

/-- C28 (counterexample): a CONNECT that has not been sent yet is queued and the connack
`20 02 00 00` arrives: `__mqtt_recv` takes the descriptor from Unsent to Complete. -/
theorem unsent_to_complete_counterexample :
    (sampleUnsentClient [0x20, 2, 0, 0]).mq.queue
      = [⟨0, 20, MQTTQueuedMessageState.MQTT_QUEUED_UNSENT, 0, MQTT_CONTROL_CONNECT, 0⟩] ∧
    (__mqtt_recv sampleConsts 4 sampleResponse (sampleUnsentClient [0x20, 2, 0, 0])).rv
      = sampleConsts.MQTT_OK ∧
    (__mqtt_recv sampleConsts 4 sampleResponse
        (sampleUnsentClient [0x20, 2, 0, 0])).client.mq.queue
      = [⟨0, 20, MQTTQueuedMessageState.MQTT_QUEUED_COMPLETE, 0, MQTT_CONTROL_CONNECT, 0⟩] := by
  decide


/-! ## The period of the shift register -/

theorem lfsr_iterate_range (x : Nat) (h0 : 0 < x) (hx : x < 65536) :
    ∀ n, 0 < lfsr_step^[n] x ∧ lfsr_step^[n] x < 65536
  | 0 => ⟨h0, hx⟩
  | n + 1 => by
    rw [Function.iterate_succ_apply']
    exact lfsr_step_range _ (lfsr_iterate_range x h0 hx n).1 (lfsr_iterate_range x h0 hx n).2

theorem lfsr_run_eq : ∀ (n x : Nat), 0 < x → x < 65536 → lfsr_run n x = lfsr_step^[n] x
  | 0, _, _, _ => rfl
  | n + 1, x, h0, hx => by
    obtain ⟨s0, s1⟩ := lfsr_step_range x h0 hx
    rw [lfsr_run, Function.iterate_succ_apply]
    obtain ⟨y, hy⟩ : ∃ y, lfsr_step x = y + 1 := ⟨lfsr_step x - 1, by omega⟩
    rw [hy] at s0 s1 ⊢
    exact lfsr_run_eq n (y + 1) s0 s1

theorem lfsr_run_255 : lfsr_run 255 1 = 23921 := by decide!
theorem lfsr_run_3855 : lfsr_run 3600 23921 = 59374 := by decide!
theorem lfsr_run_13107 : lfsr_run 9252 59374 = 31708 := by decide!
theorem lfsr_run_21845 : lfsr_run 8738 31708 = 15502 := by decide!
theorem lfsr_run_65535 : lfsr_run 43690 15502 = 1 := by decide!

theorem lfsr_iterate_255 : lfsr_step^[255] 1 = 23921 := by
  rw [← lfsr_run_eq 255 1 (by decide) (by decide)]
  exact lfsr_run_255

theorem lfsr_iterate_3855 : lfsr_step^[3855] 1 = 59374 := by
  rw [show 3855 = 3600 + 255 from rfl, Function.iterate_add_apply, lfsr_iterate_255,
    ← lfsr_run_eq 3600 _ (by decide) (by decide)]
  exact lfsr_run_3855

theorem lfsr_iterate_13107 : lfsr_step^[13107] 1 = 31708 := by
  rw [show 13107 = 9252 + 3855 from rfl, Function.iterate_add_apply, lfsr_iterate_3855,
    ← lfsr_run_eq 9252 _ (by decide) (by decide)]
  exact lfsr_run_13107

theorem lfsr_iterate_21845 : lfsr_step^[21845] 1 = 15502 := by
  rw [show 21845 = 8738 + 13107 from rfl, Function.iterate_add_apply, lfsr_iterate_13107,
    ← lfsr_run_eq 8738 _ (by decide) (by decide)]
  exact lfsr_run_21845

theorem lfsr_iterate_65535 : lfsr_step^[65535] 1 = 1 := by
  rw [show 65535 = 43690 + 21845 from rfl, Function.iterate_add_apply, lfsr_iterate_21845,
    ← lfsr_run_eq 43690 _ (by decide) (by decide)]
  exact lfsr_run_65535

theorem period_dvd_cases (m : Nat) (hdvd : m ∣ 65535) (hne : m ≠ 65535) :
    m ∣ 21845 ∨ m ∣ 13107 ∨ m ∣ 3855 ∨ m ∣ 255 := by
  obtain ⟨e, he⟩ := hdvd
  have he1 : e ≠ 1 := by
    rintro rfl
    exact hne (by omega)
  obtain ⟨p, hp, e', rfl⟩ := Nat.exists_prime_and_dvd he1
  have hp65 : p ∣ 3 * 5 * 17 * 257 := ⟨m * e', by
    rw [show 3 * 5 * 17 * 257 = 65535 from rfl, he, Nat.mul_left_comm]⟩
  have key : ∀ q : Nat, 65535 = q * p → m ∣ q := by
    intro q hq
    refine ⟨e', ?_⟩
    apply Nat.eq_of_mul_eq_mul_right hp.pos
    rw [← hq, he, Nat.mul_assoc, Nat.mul_comm p e']
  have h3 : Nat.Prime 3 := by norm_num
  have h5 : Nat.Prime 5 := by norm_num
  have h17 : Nat.Prime 17 := by norm_num
  have h257 : Nat.Prime 257 := by norm_num
  rcases (Nat.Prime.dvd_mul hp).mp hp65 with h | h
  · rcases (Nat.Prime.dvd_mul hp).mp h with h | h
    · rcases (Nat.Prime.dvd_mul hp).mp h with h | h
      · have := (Nat.prime_dvd_prime_iff_eq hp h3).mp h
        subst this
        exact Or.inl (key 21845 rfl)
      · have := (Nat.prime_dvd_prime_iff_eq hp h5).mp h
        subst this
        exact Or.inr (Or.inl (key 13107 rfl))
    · have := (Nat.prime_dvd_prime_iff_eq hp h17).mp h
      subst this
      exact Or.inr (Or.inr (Or.inl (key 3855 rfl)))
  · have := (Nat.prime_dvd_prime_iff_eq hp h257).mp h
    subst this
    exact Or.inr (Or.inr (Or.inr (key 255 rfl)))

/-- The orbit of 1 under the step of the shift register has exactly 65535 elements. -/
theorem lfsr_minimalPeriod : Function.minimalPeriod lfsr_step 1 = 65535 := by
  have hper : Function.IsPeriodicPt lfsr_step 65535 1 := lfsr_iterate_65535
  have hmin := Function.isPeriodicPt_minimalPeriod lfsr_step 1
  by_contra hne
  rcases period_dvd_cases _ hper.minimalPeriod_dvd hne with h | h | h | h
  · have h' : lfsr_step^[21845] 1 = 1 := hmin.trans_dvd h
    rw [lfsr_iterate_21845] at h'
    exact absurd h' (by decide)
  · have h' : lfsr_step^[13107] 1 = 1 := hmin.trans_dvd h
    rw [lfsr_iterate_13107] at h'
    exact absurd h' (by decide)
  · have h' : lfsr_step^[3855] 1 = 1 := hmin.trans_dvd h
    rw [lfsr_iterate_3855] at h'
    exact absurd h' (by decide)
  · have h' : lfsr_step^[255] 1 = 1 := hmin.trans_dvd h
    rw [lfsr_iterate_255] at h'
    exact absurd h' (by decide)

/-- Every non-zero 16-bit value lies on the orbit of 1. -/
theorem lfsr_orbit_of_one (y : Nat) (h0 : 0 < y) (hy : y < 65536) :
    ∃ k, k < 65535 ∧ lfsr_step^[k] 1 = y := by
  have hinj : Set.InjOn (fun k => lfsr_step^[k] 1) (Set.Iio 65535) := by
    have h := Function.iterate_injOn_Iio_minimalPeriod (f := lfsr_step) (x := 1)
    rwa [lfsr_minimalPeriod] at h
  have hsub : (Finset.range 65535).image (fun k => lfsr_step^[k] 1) ⊆ Finset.Icc 1 65535 := by
    intro z hz
    obtain ⟨k, -, rfl⟩ := Finset.mem_image.mp hz
    obtain ⟨z0, z1⟩ := lfsr_iterate_range 1 (by decide) (by decide) k
    exact Finset.mem_Icc.mpr ⟨z0, by omega⟩
  have hcard : ((Finset.range 65535).image (fun k => lfsr_step^[k] 1)).card = 65535 := by
    rw [Finset.card_image_of_injOn, Finset.card_range]
    intro a ha b hb hab
    exact hinj (by simpa using ha) (by simpa using hb) hab
  have heq := Finset.eq_of_subset_of_card_le hsub (by rw [hcard]; simp)
  have hmem : y ∈ Finset.Icc 1 65535 := Finset.mem_Icc.mpr ⟨h0, by omega⟩
  rw [← heq] at hmem
  obtain ⟨k, hk, rfl⟩ := Finset.mem_image.mp hmem
  exact ⟨k, Finset.mem_range.mp hk, rfl⟩

/-- From every non-zero 16-bit value the shift register visits every non-zero 16-bit
value within 65535 steps. -/
theorem lfsr_visits_all (x y : Nat) (hx0 : 0 < x) (hx : x < 65536) (hy0 : 0 < y)
    (hy : y < 65536) : ∃ k, 1 ≤ k ∧ k ≤ 65535 ∧ lfsr_step^[k] x = y := by
  obtain ⟨a, ha, rfl⟩ := lfsr_orbit_of_one x hx0 hx
  obtain ⟨b, hb, rfl⟩ := lfsr_orbit_of_one y hy0 hy
  by_cases hab : a < b
  · refine ⟨b - a, by omega, by omega, ?_⟩
    rw [← Function.iterate_add_apply]
    congr 1
    omega
  · refine ⟨65535 + b - a, by omega, by omega, ?_⟩
    rw [← Function.iterate_add_apply, show 65535 + b - a + a = b + 65535 by omega,
      Function.iterate_add_apply, lfsr_iterate_65535]

/-- A queue of fewer than 65535 descriptors leaves a non-zero 16-bit value that no
descriptor holds as its packet id. -/
theorem exists_free_pid (queue : List mqtt_queued_message) (h : queue.length < 65535) :
    ∃ y, 0 < y ∧ y < 65536 ∧ ∀ msg ∈ queue, msg.packet_id ≠ y := by
  have hcard : (queue.map (fun m => m.packet_id)).toFinset.card < (Finset.Icc 1 65535).card := by
    calc (queue.map (fun m => m.packet_id)).toFinset.card
        ≤ (queue.map (fun m => m.packet_id)).length := List.toFinset_card_le _
      _ = queue.length := List.length_map _ _
      _ < 65535 := h
      _ = (Finset.Icc 1 65535).card := by simp
  by_contra hall
  have hsub : Finset.Icc 1 65535 ⊆ (queue.map (fun m => m.packet_id)).toFinset := by
    intro y hy
    rw [Finset.mem_Icc] at hy
    by_contra hny
    apply hall
    refine ⟨y, hy.1, by omega, fun msg hmsg heq => hny ?_⟩
    rw [List.mem_toFinset, List.mem_map]
    exact ⟨msg, hmsg, heq⟩
  have := Finset.card_le_card hsub
  omega

/-- `__mqtt_next_pid` returns within 65535 passes of its loop when some non-zero 16-bit
value is held by no descriptor. -/
theorem next_pid_returns (fuel : Nat) (hfuel : 65535 ≤ fuel) (client : mqtt_client)
    (hseed : client.pid_lfsr < 65536)
    (hfree : ∃ y, 0 < y ∧ y < 65536 ∧ ∀ msg ∈ client.mq.queue, msg.packet_id ≠ y) :
    ∃ pid, __mqtt_next_pid fuel client = some (pid, { client with pid_lfsr := pid }) := by
  obtain ⟨s0, s1⟩ := lfsr_seed_range client.pid_lfsr hseed
  obtain ⟨y, hy0, hy, hfree⟩ := hfree
  obtain ⟨k, hk1, hk, hky⟩ := lfsr_visits_all _ y s0 s1 hy0 hy
  obtain ⟨pid, hpid⟩ := next_pid_loop_returns client.mq.queue k fuel _ s0 s1 hk1 (by omega)
    (by rw [hky]; exact hfree)
  exact ⟨pid, by rw [next_pid_eq, hpid]⟩

/-- C36: the step `x -> (x >> 1) XOR (0xB400 if x is odd, else 0)` never maps a non-zero
16-bit value to 0 and, starting from any non-zero 16-bit value, visits every non-zero
16-bit value within 65535 steps; hence, for every `uint16_t` seed, `__mqtt_next_pid`
returns within 65535 passes of its loop whenever some non-zero 16-bit value is held by no
queued descriptor, which is the case when the queue has fewer than 65535 descriptors. -/
theorem next_pid_terminates (client : mqtt_client) (hseed : client.pid_lfsr < 65536) :
    (∀ x, 0 < x → x < 65536 → lfsr_step x ≠ 0 ∧ lfsr_step x < 65536) ∧
    (∀ x y, 0 < x → x < 65536 → 0 < y → y < 65536 →
      ∃ k, 1 ≤ k ∧ k ≤ 65535 ∧ lfsr_step^[k] x = y) ∧
    ((∃ y, 0 < y ∧ y < 65536 ∧ ∀ msg ∈ client.mq.queue, msg.packet_id ≠ y) →
      ∀ fuel, 65535 ≤ fuel → ∃ r, __mqtt_next_pid fuel client = some r) ∧
    (client.mq.queue.length < 65535 →
      ∀ fuel, 65535 ≤ fuel → ∃ r, __mqtt_next_pid fuel client = some r) := by
  refine ⟨fun x h0 hx => ?_, fun x y hx0 hx hy0 hy => lfsr_visits_all x y hx0 hx hy0 hy,
    fun hfree fuel hfuel => ?_, fun hlen fuel hfuel => ?_⟩
  · obtain ⟨h1, h2⟩ := lfsr_step_range x h0 hx
    exact ⟨by omega, h2⟩
  · obtain ⟨pid, h⟩ := next_pid_returns fuel hfuel client hseed hfree
    exact ⟨_, h⟩
  · obtain ⟨pid, h⟩ := next_pid_returns fuel hfuel client hseed
      (exists_free_pid _ hlen)
    exact ⟨_, h⟩

/-- C36 (witness): the client `sampleClient`, with seed 0 and one queued descriptor,
gets a packet id. -/
theorem next_pid_terminates_witness :
    ∃ r, __mqtt_next_pid 65535 (sampleClient []) = some r :=
  (next_pid_terminates (sampleClient []) (by decide)).2.2.2 (by decide) 65535 (le_refl _)

/-! ## DS18B20: accuracy of the Fahrenheit conversion -/

theorem all_below_spec (P : Nat → Bool) : ∀ n, all_below P n = true → ∀ k, k < n → P k = true
  | 0, _, k, hk => by omega
  | n + 1, h, k, hk => by
    simp only [all_below, Bool.and_eq_true] at h
    by_cases hkn : k = n
    · subst hkn
      exact h.1
    · exact all_below_spec P n h.2 k (by omega)

theorem shown_within_spec (t : temperature_string) (e : Int) (h : shown_within t e = true) :
    e - 8 * shown_tenths t ≤ 8 ∧ 8 * shown_tenths t - e ≤ 8 := by
  cases t with
  | mk s w d =>
    simp only [shown_within, decide_eq_true_eq] at h
    exact h

/-- The Fahrenheit conversion checked on each of the 2881 readings of the sensor range
(`n` stands for the reading `n - 880`): 80 times the exact value is `9 r + 2560`. -/
theorem fahrenheit_checked :
    all_below (fun n => shown_within (fahrenheit_string ((n : Int) - 880))
      (9 * ((n : Int) - 880) + 2560)) 2881 = true := by
  decide!

theorem fahrenheit_core (r : Int) (hlo : -880 ≤ r) (hhi : r ≤ 2000) :
    (9 * r + 2560) - 8 * shown_tenths (fahrenheit_string r) ≤ 8 ∧
    8 * shown_tenths (fahrenheit_string r) - (9 * r + 2560) ≤ 8 := by
  have h := all_below_spec _ _ fahrenheit_checked (r + 880).toNat (by omega)
  have hr : (((r + 880).toNat : Nat) : Int) - 880 = r := by omega
  simp only [hr] at h
  exact shown_within_spec _ _ h

/-- C39: for every raw reading `r` of the sensor range (-880 .. 2000 sixteenths of a
degree Celsius, that is -55 C .. +125 C) the value that `convert_temperature` shows in
Fahrenheit mode (sign, whole part and the decimal digit from `dec_temp`) differs by at
most 0.1 degree from the exact value `(r/16) * 9/5 + 32`, from that value rounded to one
decimal, and from every tenth `t/10` that is nearest to it; raw `0x0191` gives 77.1 and
raw `0xFE6F` gives -13.1. -/
theorem fahrenheit_accuracy (r : Int) (hlo : -880 ≤ r) (hhi : r ≤ 2000) :
    |(shown_tenths (fahrenheit_string r) : ℚ) / 10 - fahrenheit_exact r| ≤ 1 / 10 ∧
    |(shown_tenths (fahrenheit_string r) : ℚ) / 10 - round_one_decimal (fahrenheit_exact r)|
      ≤ 1 / 10 ∧
    (∀ t : Int, |10 * fahrenheit_exact r - (t : ℚ)| ≤ 1 / 2 →
      |(shown_tenths (fahrenheit_string r) : ℚ) / 10 - (t : ℚ) / 10| ≤ 1 / 10) ∧
    fahrenheit_string 0x0191 = ⟨32, 77, 49⟩ ∧
    fahrenheit_string (0xFE6F - 65536) = ⟨45, 13, 49⟩ := by
  obtain ⟨h1, h2⟩ := fahrenheit_core r hlo hhi
  have hex : fahrenheit_exact r = ((9 * r + 2560 : Int) : ℚ) / 80 := by
    unfold fahrenheit_exact
    push_cast
    ring
  have q1 : ((9 * r + 2560 : Int) : ℚ) - 8 * (shown_tenths (fahrenheit_string r) : ℚ) ≤ 8 := by
    exact_mod_cast h1
  have q2 : 8 * (shown_tenths (fahrenheit_string r) : ℚ) - ((9 * r + 2560 : Int) : ℚ) ≤ 8 := by
    exact_mod_cast h2
  have near : ∀ t : Int, |10 * fahrenheit_exact r - (t : ℚ)| ≤ 1 / 2 →
      |(shown_tenths (fahrenheit_string r) : ℚ) / 10 - (t : ℚ) / 10| ≤ 1 / 10 := by
    intro t ht
    rw [hex, abs_le] at ht
    have t1 : (9 * r + 2560) - 8 * t ≤ 4 := by
      have : ((9 * r + 2560 : Int) : ℚ) - 8 * (t : ℚ) ≤ 4 := by linarith [ht.2]
      exact_mod_cast this
    have t2 : 8 * t - (9 * r + 2560) ≤ 4 := by
      have : 8 * (t : ℚ) - ((9 * r + 2560 : Int) : ℚ) ≤ 4 := by linarith [ht.1]
      exact_mod_cast this
    have d1 : shown_tenths (fahrenheit_string r) - t ≤ 1 := by omega
    have d2 : t - shown_tenths (fahrenheit_string r) ≤ 1 := by omega
    have e1 : (shown_tenths (fahrenheit_string r) : ℚ) - (t : ℚ) ≤ 1 := by exact_mod_cast d1
    have e2 : (t : ℚ) - (shown_tenths (fahrenheit_string r) : ℚ) ≤ 1 := by exact_mod_cast d2
    rw [abs_le]
    constructor <;> linarith
  refine ⟨?_, ?_, near, by decide, by decide⟩
  · rw [hex, abs_le]
    constructor <;> linarith
  · unfold round_one_decimal
    exact near (round (10 * fahrenheit_exact r)) (abs_sub_round _)

/-- C39 (witness): the reading `0x0008`, +0.5 C, is shown as 32.9 F. -/
theorem fahrenheit_accuracy_witness :
    |(shown_tenths (fahrenheit_string 8) : ℚ) / 10 - fahrenheit_exact 8| ≤ 1 / 10 :=
  (fahrenheit_accuracy 8 (by decide) (by decide)).1

/-! ## DS18B20: the CRC of the ROM code -/

theorem shiftRight_one_xor (a b : Nat) : (a ^^^ b) >>> 1 = (a >>> 1) ^^^ (b >>> 1) := by
  apply Nat.eq_of_testBit_eq
  intro i
  simp only [Nat.testBit_shiftRight, Nat.testBit_xor]

theorem crc8_maxim_shift_lt (x : Nat) (hx : x < 256) : crc8_maxim_shift x < 256 := by
  unfold crc8_maxim_shift
  have h1 : x >>> 1 < 2 ^ 8 := by
    rw [Nat.shiftRight_eq_div_pow]
    omega
  split_ifs
  · exact Nat.xor_lt_two_pow h1 (by decide)
  · exact h1

/-- One pass of the inner loop of `dallas_crc8` is one shift step of the CRC on
`crc XOR inbyte`. -/
theorem dallas_crc8_bit_xor (crc inbyte : Nat) (hc : crc < 256) :
    (dallas_crc8_bit crc inbyte).1 ^^^ (dallas_crc8_bit crc inbyte).2
      = crc8_maxim_shift (crc ^^^ inbyte) ∧ (dallas_crc8_bit crc inbyte).1 < 256 ∧
    (dallas_crc8_bit crc inbyte).2 = inbyte >>> 1 := by
  have h1 : crc >>> 1 < 2 ^ 8 := by
    rw [Nat.shiftRight_eq_div_pow]
    omega
  have h2 : (crc >>> 1) ^^^ 0x8C < 256 := Nat.xor_lt_two_pow h1 (by decide)
  have h1' : crc >>> 1 < 256 := h1
  have hmix : ((crc ^^^ inbyte) &&& 0x01) % 256 = (crc ^^^ inbyte) % 2 := by
    rw [Nat.and_one_is_mod]
    omega
  unfold dallas_crc8_bit crc8_maxim_shift
  simp only [hmix]
  by_cases hodd : (crc ^^^ inbyte) % 2 = 1
  · have hne : (crc ^^^ inbyte) % 2 ≠ 0 := by omega
    rw [if_pos hne, if_pos hodd, Nat.mod_eq_of_lt h2, shiftRight_one_xor]
    refine ⟨?_, h2, trivial⟩
    rw [Nat.xor_assoc, Nat.xor_comm 0x8C, ← Nat.xor_assoc]
  · have he : ¬ (crc ^^^ inbyte) % 2 ≠ 0 := by omega
    rw [if_neg he, if_neg hodd, shiftRight_one_xor]
    exact ⟨rfl, h1', trivial⟩

theorem dallas_crc8_inner_xor : ∀ (n crc inbyte : Nat), crc < 256 → inbyte < 2 ^ n →
    dallas_crc8_inner n crc inbyte = crc8_maxim_shift^[n] (crc ^^^ inbyte) ∧
    dallas_crc8_inner n crc inbyte < 256
  | 0, crc, inbyte, hc, hi => by
    have : inbyte = 0 := by omega
    subst this
    simpa [dallas_crc8_inner] using hc
  | n + 1, crc, inbyte, hc, hi => by
    obtain ⟨h1, h2, h3⟩ := dallas_crc8_bit_xor crc inbyte hc
    have hi' : (dallas_crc8_bit crc inbyte).2 < 2 ^ n := by
      rw [h3, Nat.shiftRight_eq_div_pow]
      omega
    obtain ⟨ih1, ih2⟩ := dallas_crc8_inner_xor n _ _ h2 hi'
    simp only [dallas_crc8_inner, Function.iterate_succ, Function.comp_apply]
    rw [ih1, h1]
    exact ⟨rfl, by rw [← h1, ← ih1]; exact ih2⟩

theorem dallas_crc8_outer_foldl : ∀ (d pre : List Nat) (crc : Nat), crc < 256 →
    (∀ b ∈ d, b < 256) →
    dallas_crc8_outer (pre ++ d) d.length pre.length crc
      = d.foldl (fun crc byte => crc8_maxim_shift^[8] (crc ^^^ byte)) crc ∧
    dallas_crc8_outer (pre ++ d) d.length pre.length crc < 256
  | [], pre, crc, hc, _ => by simpa [dallas_crc8_outer] using hc
  | b :: d, pre, crc, hc, hd => by
    have hb : b < 256 := hd b (List.mem_cons_self _ _)
    have hget : (pre ++ b :: d).getD pre.length 0 % 256 = b := by
      rw [List.getD_append_right _ _ _ _ (le_refl _)]
      simpa using Nat.mod_eq_of_lt hb
    obtain ⟨h1, h2⟩ := dallas_crc8_inner_xor 8 crc b hc hb
    have ih := dallas_crc8_outer_foldl d (pre ++ [b]) (dallas_crc8_inner 8 crc b) h2
      (fun x hx => hd x (List.mem_cons_of_mem _ hx))
    simp only [List.append_assoc, List.singleton_append, List.length_append,
      List.length_singleton] at ih
    simp only [List.length_cons, dallas_crc8_outer, hget, List.foldl_cons]
    rw [← h1]
    exact ih

/-- On a sequence of at most 255 bytes `dallas_crc8` is the Dallas/Maxim CRC-8. -/
theorem dallas_crc8_eq (d : List Nat) (hlen : d.length ≤ 255) (hd : ∀ b ∈ d, b < 256) :
    dallas_crc8 d d.length = crc8_maxim d ∧ dallas_crc8 d d.length < 256 := by
  have h := dallas_crc8_outer_foldl d [] 0 (by decide) hd
  simp only [List.nil_append, List.length_nil] at h
  unfold dallas_crc8 crc8_maxim
  rw [Nat.mod_eq_of_lt (by omega)]
  exact h

theorem crc8_maxim_append (d : List Nat) (b : Nat) :
    crc8_maxim (d ++ [b]) = crc8_maxim_shift^[8] (crc8_maxim d ^^^ b) := by
  simp [crc8_maxim, List.foldl_append]

set_option maxRecDepth 100000 in
/-- The check value of the CRC-8/MAXIM: the CRC of the digits "123456789" is `0xA1`. -/
theorem dallas_crc8_check_value :
    dallas_crc8 [0x31, 0x32, 0x33, 0x34, 0x35, 0x36, 0x37, 0x38, 0x39] 9 = 0xA1 := by
  decide

/-- C40: on byte sequences of at most 255 bytes `dallas_crc8` is the Dallas/Maxim CRC-8
(initial value 0, reflected polynomial `0x8C`, bits consumed least-significant first;
its check value on the digits "123456789" is `0xA1`), and it is self-checking: for a
sequence `d` of fewer than 255 bytes, `dallas_crc8` of `d` followed by the byte
`dallas_crc8(d)` is 0. -/
theorem dallas_crc8_self_check (d : List Nat) (hd : ∀ b ∈ d, b < 256) :
    (d.length ≤ 255 → dallas_crc8 d d.length = crc8_maxim d ∧ dallas_crc8 d d.length < 256) ∧
    (d.length < 255 →
      dallas_crc8 (d ++ [dallas_crc8 d d.length]) (d.length + 1) = 0) ∧
    dallas_crc8 [0x31, 0x32, 0x33, 0x34, 0x35, 0x36, 0x37, 0x38, 0x39] 9 = 0xA1 := by
  refine ⟨fun hlen => dallas_crc8_eq d hlen hd, fun hlen => ?_, dallas_crc8_check_value⟩
  obtain ⟨h1, h2⟩ := dallas_crc8_eq d (by omega) hd
  have hd' : ∀ b ∈ d ++ [dallas_crc8 d d.length], b < 256 := by
    intro b hb
    rcases List.mem_append.mp hb with hb | hb
    · exact hd b hb
    · rw [List.mem_singleton.mp hb]
      exact h2
  have h3 := (dallas_crc8_eq (d ++ [dallas_crc8 d d.length])
    (by simp only [List.length_append, List.length_singleton]; omega) hd').1
  simp only [List.length_append, List.length_singleton] at h3
  rw [h3, crc8_maxim_append, ← h1, Nat.xor_self]
  decide

set_option maxRecDepth 100000 in
/-- C40 (witness): seven ROM bytes followed by their CRC give the CRC 0. -/
theorem dallas_crc8_self_check_witness :
    dallas_crc8 ([0x02, 0x1C, 0xB8, 0x01, 0x00, 0x00, 0x00]
        ++ [dallas_crc8 [0x02, 0x1C, 0xB8, 0x01, 0x00, 0x00, 0x00] 7]) (7 + 1) = 0 :=
  (dallas_crc8_self_check [0x02, 0x1C, 0xB8, 0x01, 0x00, 0x00, 0x00] (by decide)).2.1
    (by decide)


/-! ## Enqueuing a request -/

/-- Every operation is the statements before the macro, then `MQTT_CLIENT_TRY_PACK`,
then the assignments to the new descriptor. -/
theorem enqueue_eq (K : Consts) (fuel : Nat) (stale : mqtt_queued_message) (op : enqueue_op)
    (client : mqtt_client) :
    enqueue K fuel stale op client
      = match enqueue_entry K fuel op client with
        | none => none
        | some (c0, pack, pid) =>
          match MQTT_CLIENT_TRY_PACK K c0 pack stale with
          | (some rv, c) => some (rv, c)
          | (none, c) =>
            some (K.MQTT_OK,
              { c with
                mq := match pid with
                  | some p => set_last_packet_id (set_last_control_type c.mq op.control_type) p
                  | none => set_last_control_type c.mq op.control_type }) := by
  cases op with
  | connect client_id will_topic will_message will_message_size user_name password
      connect_flags keep_alive =>
    simp only [enqueue, enqueue_entry, mqtt_connect, enqueue_op.control_type]
    split <;> simp_all
  | publish topic_name application_message application_message_size publish_flags =>
    simp only [enqueue, enqueue_entry, mqtt_publish, enqueue_op.control_type]
    split <;> rfl
  | subscribe topic_name =>
    simp only [enqueue, enqueue_entry, mqtt_subscribe, enqueue_op.control_type]
    split <;> rfl
  | ping =>
    simp only [enqueue, enqueue_entry, mqtt_ping, __mqtt_ping, enqueue_op.control_type]
    split <;> simp_all
  | disconnect =>
    simp only [enqueue, enqueue_entry, mqtt_disconnect, enqueue_op.control_type]
    split <;> simp_all

/-- The statements before `MQTT_CLIENT_TRY_PACK` return (for `mqtt_publish` and
`mqtt_subscribe`: `__mqtt_next_pid` returns within 65535 passes) and leave the queue as
it is; they leave `client->error` as it is, except that `mqtt_connect` replaces
`MQTT_ERROR_CONNECT_NOT_CALLED` by `MQTT_OK`. -/
theorem enqueue_entry_some (K : Consts) (fuel : Nat) (op : enqueue_op) (client : mqtt_client)
    (hfuel : 65535 ≤ fuel) (hq : client.mq.queue.length < 65535)
    (hseed : client.pid_lfsr < 65536) :
    ∃ c0 pack pid, enqueue_entry K fuel op client = some (c0, pack, pid) ∧
      c0.mq = client.mq ∧
      (c0.error = client.error ∨
        (op.control_type = MQTT_CONTROL_CONNECT ∧
          client.error = K.code .MQTT_ERROR_CONNECT_NOT_CALLED ∧ c0.error = K.MQTT_OK)) := by
  cases op with
  | connect client_id will_topic will_message will_message_size user_name password
      connect_flags keep_alive =>
    by_cases h : client.error = K.code .MQTT_ERROR_CONNECT_NOT_CALLED
    · exact ⟨_, _, _, rfl, by simp only [h, if_true], Or.inr ⟨rfl, h, by simp only [h, if_true]⟩⟩
    · exact ⟨_, _, _, rfl, by simp only [h, if_false], Or.inl (by simp only [h, if_false])⟩
  | publish topic_name application_message application_message_size publish_flags =>
    obtain ⟨pid, hpid⟩ := next_pid_returns fuel hfuel client hseed (exists_free_pid _ hq)
    simp only [enqueue_entry, hpid]
    exact ⟨_, _, _, rfl, rfl, Or.inl rfl⟩
  | subscribe topic_name =>
    obtain ⟨pid, hpid⟩ := next_pid_returns fuel hfuel client hseed (exists_free_pid _ hq)
    simp only [enqueue_entry, hpid]
    exact ⟨_, _, _, rfl, rfl, Or.inl rfl⟩
  | ping => exact ⟨_, _, _, rfl, rfl, Or.inl rfl⟩
  | disconnect => exact ⟨_, _, _, rfl, rfl, Or.inl rfl⟩

theorem try_pack_refused (K : Consts) (client : mqtt_client)
    (pack_call : Nat → Int × List Nat) (stale : mqtt_queued_message) (h : client.error < 0) :
    MQTT_CLIENT_TRY_PACK K client pack_call stale = (some client.error, client) := by
  simp only [MQTT_CLIENT_TRY_PACK, h, if_true]

/-- `MQTT_CLIENT_TRY_PACK` when the pack call returns 0 on the capacity at hand: the
queue is cleaned once and the pack call is made once more, on the capacity of the
cleaned queue `mq1`. -/
theorem try_pack_exhaustion (K : Consts) (client : mqtt_client)
    (pack_call : Nat → Int × List Nat) (stale : mqtt_queued_message)
    (herr : 0 ≤ client.error) (hfull : (pack_call client.mq.curr_sz).1 = 0)
    (mq1 : mqtt_message_queue)
    (hmq1 : mq1 = mqtt_mq_clean K
      { client.mq with
        mem := writeAt client.mq.mem client.mq.curr.toNat (pack_call client.mq.curr_sz).2 }) :
    (0 < (pack_call mq1.curr_sz).1 →
      MQTT_CLIENT_TRY_PACK K client pack_call stale
        = (none,
            { client with
              mq := mqtt_mq_register K
                { mq1 with mem := writeAt mq1.mem mq1.curr.toNat (pack_call mq1.curr_sz).2 }
                (toUInt16 (pack_call mq1.curr_sz).1) stale })) ∧
    ((pack_call mq1.curr_sz).1 = 0 →
      MQTT_CLIENT_TRY_PACK K client pack_call stale
        = (some (K.code .MQTT_ERROR_SEND_BUFFER_IS_FULL),
            { client with
              mq := { mq1 with mem := writeAt mq1.mem mq1.curr.toNat (pack_call mq1.curr_sz).2 },
              error := K.code .MQTT_ERROR_SEND_BUFFER_IS_FULL })) ∧
    ((pack_call mq1.curr_sz).1 < 0 →
      MQTT_CLIENT_TRY_PACK K client pack_call stale
        = (some (pack_call mq1.curr_sz).1,
            { client with
              mq := { mq1 with mem := writeAt mq1.mem mq1.curr.toNat (pack_call mq1.curr_sz).2 },
              error := (pack_call mq1.curr_sz).1 })) := by
  subst hmq1
  have h0 : ¬ client.error < 0 := by omega
  refine ⟨fun h => ?_, fun h => ?_, fun h => ?_⟩
  · have h2 : ¬ (pack_call (mqtt_mq_clean K
        { client.mq with
          mem := writeAt client.mq.mem client.mq.curr.toNat
            (pack_call client.mq.curr_sz).2 }).curr_sz).1 < 0 := by omega
    have h3 : ¬ (pack_call (mqtt_mq_clean K
        { client.mq with
          mem := writeAt client.mq.mem client.mq.curr.toNat
            (pack_call client.mq.curr_sz).2 }).curr_sz).1 = 0 := by omega
    simp only [MQTT_CLIENT_TRY_PACK, h0, if_false, hfull, lt_self_iff_false, if_true, h2, h3]
  · have h2 : ¬ (pack_call (mqtt_mq_clean K
        { client.mq with
          mem := writeAt client.mq.mem client.mq.curr.toNat
            (pack_call client.mq.curr_sz).2 }).curr_sz).1 < 0 := by omega
    simp only [MQTT_CLIENT_TRY_PACK, h0, if_false, hfull, lt_self_iff_false, if_true, h2, h]
  · simp only [MQTT_CLIENT_TRY_PACK, h0, if_false, hfull, lt_self_iff_false, if_true, h]

theorem set_last_control_type_append (mq : mqtt_message_queue)
    (xs : List mqtt_queued_message) (e : mqtt_queued_message) (ct : Nat)
    (h : mq.queue = xs ++ [e]) :
    (set_last_control_type mq ct).queue = xs ++ [{ e with control_type := ct }] := by
  simp only [set_last_control_type, h]
  exact modify_append_last _ e xs

theorem set_last_packet_id_append (mq : mqtt_message_queue)
    (xs : List mqtt_queued_message) (e : mqtt_queued_message) (p : Nat)
    (h : mq.queue = xs ++ [e]) :
    (set_last_packet_id mq p).queue = xs ++ [{ e with packet_id := p }] := by
  simp only [set_last_packet_id, h]
  exact modify_append_last _ e xs

/-- An operation on a client whose `client->error` is negative (and, for
`mqtt_connect`, is not `MQTT_ERROR_CONNECT_NOT_CALLED`) returns that value and leaves the
queue and `client->error` as they are. -/
theorem enqueue_error_returned (K : Consts) (fuel : Nat) (stale : mqtt_queued_message)
    (op : enqueue_op) (client : mqtt_client) (hfuel : 65535 ≤ fuel)
    (hq : client.mq.queue.length < 65535) (hseed : client.pid_lfsr < 65536)
    (herr : client.error < 0)
    (hconn : op.control_type = MQTT_CONTROL_CONNECT →
      client.error ≠ K.code .MQTT_ERROR_CONNECT_NOT_CALLED) :
    ∃ c', enqueue K fuel stale op client = some (client.error, c') ∧ c'.mq = client.mq ∧
      c'.error = client.error := by
  obtain ⟨c0, pack, pid, hentry, hmq, he⟩ := enqueue_entry_some K fuel op client hfuel hq hseed
  have he' : c0.error = client.error := by
    rcases he with he | ⟨h1, h2, -⟩
    · exact he
    · exact absurd h2 (hconn h1)
  rw [enqueue_eq, hentry]
  simp only
  rw [try_pack_refused K c0 pack stale (by rw [he']; exact herr)]
  exact ⟨c0, by rw [he'], hmq, he'⟩

/-- C34: a client in an error state refuses to enqueue.  When `client->error` is
negative on entry (and, for `mqtt_connect`, is not `MQTT_ERROR_CONNECT_NOT_CALLED`), each
of `mqtt_connect`, `mqtt_publish`, `mqtt_subscribe`, `mqtt_ping` and `mqtt_disconnect`
returns (for a queue of fewer than 65535 descriptors and a `uint16_t` seed,
`__mqtt_next_pid` ends within 65535 passes), the value returned is that error, and the
message queue is unchanged: same descriptors, same data front, same data bytes. -/
theorem enqueue_refused (K : Consts) (fuel : Nat) (stale : mqtt_queued_message)
    (op : enqueue_op) (client : mqtt_client) (hfuel : 65535 ≤ fuel)
    (hq : client.mq.queue.length < 65535) (hseed : client.pid_lfsr < 65536)
    (herr : client.error < 0)
    (hconn : op.control_type = MQTT_CONTROL_CONNECT →
      client.error ≠ K.code .MQTT_ERROR_CONNECT_NOT_CALLED) :
    ∃ c', enqueue K fuel stale op client = some (client.error, c') ∧ c'.mq = client.mq ∧
      c'.error = client.error := by
  exact enqueue_error_returned K fuel stale op client hfuel hq hseed herr hconn

/-- C34 (witness): a client on which `__mqtt_recv` has latched
`MQTT_ERROR_CONNECTION_REFUSED` refuses `mqtt_publish`. -/
theorem enqueue_refused_witness :
    ∃ c', enqueue sampleConsts 65535 sampleMessage (.publish [116] [1, 2] 2 0)
        { sampleClient [] with
          error := sampleConsts.code .MQTT_ERROR_CONNECTION_REFUSED }
      = some (sampleConsts.code .MQTT_ERROR_CONNECTION_REFUSED, c') ∧
      c'.mq = (sampleClient []).mq ∧
      c'.error = sampleConsts.code .MQTT_ERROR_CONNECTION_REFUSED :=
  enqueue_refused sampleConsts 65535 sampleMessage (.publish [116] [1, 2] 2 0)
    { sampleClient [] with error := sampleConsts.code .MQTT_ERROR_CONNECTION_REFUSED }
    (le_refl _) (by decide) (by decide) (by decide) (by decide)

/-- The statements of an operation before `MQTT_CLIENT_TRY_PACK` leave the queue as it
is; they leave `client->error` as it is, except that `mqtt_connect` replaces
`MQTT_ERROR_CONNECT_NOT_CALLED` by `MQTT_OK`. -/
theorem enqueue_entry_spec (K : Consts) (fuel : Nat) (op : enqueue_op) (client c0 : mqtt_client)
    (pack : Nat → Int × List Nat) (pid : Option Nat)
    (hentry : enqueue_entry K fuel op client = some (c0, pack, pid)) :
    c0.mq = client.mq ∧
    (c0.error = client.error ∨
      (client.error = K.code .MQTT_ERROR_CONNECT_NOT_CALLED ∧ c0.error = K.MQTT_OK)) := by
  cases op with
  | connect client_id will_topic will_message will_message_size user_name password
      connect_flags keep_alive =>
    simp only [enqueue_entry, Option.some.injEq, Prod.mk.injEq] at hentry
    obtain ⟨hc, -, -⟩ := hentry
    subst hc
    by_cases h : client.error = K.code .MQTT_ERROR_CONNECT_NOT_CALLED
    · simp only [h, if_true]
      exact ⟨trivial, Or.inr ⟨trivial, trivial⟩⟩
    · simp only [h, if_false]
      exact ⟨trivial, Or.inl trivial⟩
  | publish topic_name application_message application_message_size publish_flags =>
    simp only [enqueue_entry, next_pid_eq] at hentry
    cases hl : __mqtt_next_pid_loop client.mq.queue fuel (lfsr_seed client.pid_lfsr) with
    | none => rw [hl] at hentry; simp at hentry
    | some p =>
      rw [hl] at hentry
      simp only [Option.some.injEq, Prod.mk.injEq] at hentry
      obtain ⟨hc, -, -⟩ := hentry
      subst hc
      exact ⟨rfl, Or.inl rfl⟩
  | subscribe topic_name =>
    simp only [enqueue_entry, next_pid_eq] at hentry
    cases hl : __mqtt_next_pid_loop client.mq.queue fuel (lfsr_seed client.pid_lfsr) with
    | none => rw [hl] at hentry; simp at hentry
    | some p =>
      rw [hl] at hentry
      simp only [Option.some.injEq, Prod.mk.injEq] at hentry
      obtain ⟨hc, -, -⟩ := hentry
      subst hc
      exact ⟨rfl, Or.inl rfl⟩
  | ping =>
    simp only [enqueue_entry, Option.some.injEq, Prod.mk.injEq] at hentry
    obtain ⟨hc, -, -⟩ := hentry
    subst hc
    exact ⟨rfl, Or.inl rfl⟩
  | disconnect =>
    simp only [enqueue_entry, Option.some.injEq, Prod.mk.injEq] at hentry
    obtain ⟨hc, -, -⟩ := hentry
    subst hc
    exact ⟨rfl, Or.inl rfl⟩

/-- C33: buffer exhaustion on enqueue.  Let `op` be one of the five operations, called on
a client with no latched error, let `c0` be the client and `pack` the pack call as
`MQTT_CLIENT_TRY_PACK` finds them, `c0->error` not being negative (the statements before
the macro leave the queue as it is, and the error too, except that `mqtt_connect`
replaces `MQTT_ERROR_CONNECT_NOT_CALLED` by `MQTT_OK`; they do return: for a queue of
fewer than 65535 descriptors `__mqtt_next_pid` ends within 65535 passes), and let the
pack call return 0 on the capacity at hand (the message does not fit).  Then the queue is
cleaned once (`mq1`) and the pack call is made once more, on the capacity of `mq1`: when
it returns a size, the operation returns `MQTT_OK`, the error is unchanged and the queue
is that of `mq1` with one descriptor more, Unsent, with the control type of the
operation, that starts at the data front of `mq1`; when it returns 0 again, the operation
returns `MQTT_ERROR_SEND_BUFFER_IS_FULL` with that value in `client->error`, and the
queue and the data front are those of `mq1`. -/
theorem enqueue_buffer_exhaustion (K : Consts) (fuel : Nat) (stale : mqtt_queued_message)
    (op : enqueue_op) (client c0 : mqtt_client) (pack : Nat → Int × List Nat)
    (pid : Option Nat) (mq1 : mqtt_message_queue)
    (herr : 0 ≤ c0.error)
    (hentry : enqueue_entry K fuel op client = some (c0, pack, pid))
    (hfull : (pack client.mq.curr_sz).1 = 0)
    (hmq1 : mq1 = mqtt_mq_clean K
      { client.mq with
        mem := writeAt client.mq.mem client.mq.curr.toNat (pack client.mq.curr_sz).2 }) :
    c0.mq = client.mq ∧
    (c0.error = client.error ∨
      (client.error = K.code .MQTT_ERROR_CONNECT_NOT_CALLED ∧ c0.error = K.MQTT_OK)) ∧
    (0 < (pack mq1.curr_sz).1 →
      ∃ c', enqueue K fuel stale op client = some (K.MQTT_OK, c') ∧
        c'.error = c0.error ∧
        c'.mq.queue = mq1.queue ++
          [{ stale with
              start := mq1.curr, size := toUInt16 (pack mq1.curr_sz).1,
              state := MQTTQueuedMessageState.MQTT_QUEUED_UNSENT,
              control_type := op.control_type,
              packet_id := pid.getD stale.packet_id }] ∧
        c'.mq.curr = mq1.curr + toUInt16 (pack mq1.curr_sz).1) ∧
    ((pack mq1.curr_sz).1 = 0 →
      ∃ c', enqueue K fuel stale op client
          = some (K.code .MQTT_ERROR_SEND_BUFFER_IS_FULL, c') ∧
        c'.error = K.code .MQTT_ERROR_SEND_BUFFER_IS_FULL ∧
        c'.mq.queue = mq1.queue ∧ c'.mq.curr = mq1.curr) ∧
    (∀ fuel', 65535 ≤ fuel' → client.mq.queue.length < 65535 → client.pid_lfsr < 65536 →
      ∃ e, enqueue_entry K fuel' op client = some e) := by
  obtain ⟨hmq, he⟩ := enqueue_entry_spec K fuel op client c0 pack pid hentry
  rw [← hmq] at hmq1 hfull
  obtain ⟨t1, t2, -⟩ := try_pack_exhaustion K c0 pack stale herr hfull mq1 hmq1
  refine ⟨hmq, he, fun h => ?_, fun h => ?_, fun fuel' hfuel hq hseed => ?_⟩
  · rw [enqueue_eq, hentry]
    simp only
    rw [t1 h]
    refine ⟨_, rfl, rfl, ?_, ?_⟩
    · have hreg : (mqtt_mq_register K
          { mq1 with mem := writeAt mq1.mem mq1.curr.toNat (pack mq1.curr_sz).2 }
          (toUInt16 (pack mq1.curr_sz).1) stale).queue
          = mq1.queue ++ [{ stale with
              start := mq1.curr, size := toUInt16 (pack mq1.curr_sz).1,
              state := MQTTQueuedMessageState.MQTT_QUEUED_UNSENT }] := rfl
      cases pid with
      | none =>
        simp only [Option.getD_none]
        exact set_last_control_type_append _ _ _ _ hreg
      | some p =>
        simp only [Option.getD_some]
        exact set_last_packet_id_append _ _ _ _
          (set_last_control_type_append _ _ _ _ hreg)
    · cases pid <;> rfl
  · rw [enqueue_eq, hentry]
    simp only
    rw [t2 h]
    exact ⟨_, rfl, rfl, rfl, rfl⟩
  · obtain ⟨c, p, i, h, -⟩ := enqueue_entry_some K fuel' op client hfuel hq hseed
    exact ⟨_, h⟩

/-- C33 (witness): `mqtt_disconnect` on `sampleFullClient`, where 1 byte is free: the
request of 2 bytes does not fit, the clean removes the Complete message, and the request
is registered at the start of the region. -/
theorem enqueue_buffer_exhaustion_witness :
    ∃ c', enqueue sampleConsts 0 sampleMessage .disconnect sampleFullClient
        = some (sampleConsts.MQTT_OK, c') ∧
      c'.error = sampleFullClient.error ∧
      c'.mq.queue = [⟨0, 2, MQTTQueuedMessageState.MQTT_QUEUED_UNSENT, 0,
        MQTT_CONTROL_DISCONNECT, 0⟩] ∧
      c'.mq.curr = 2 :=
  (enqueue_buffer_exhaustion sampleConsts 0 sampleMessage .disconnect sampleFullClient
    sampleFullClient (fun bufsz => mqtt_pack_disconnect sampleConsts bufsz) none
    (mqtt_mq_clean sampleConsts
      { sampleFullClient.mq with
        mem := writeAt sampleFullClient.mq.mem sampleFullClient.mq.curr.toNat
          (mqtt_pack_disconnect sampleConsts sampleFullClient.mq.curr_sz).2 })
    (by decide) rfl (by decide) rfl).2.2.1 (by decide)

/-! ## The round trip of a publication -/

/-- Decoding a complete PUBLISH record with header flags `f`, topic `topic` and payload
`message`, whose remaining length fits the `int` of the tool set: the response that
`mqtt_unpack_response` leaves, and its result, which is the size of the record when the
size of the body fits an `int16_t`. -/
theorem unpack_publish_record (K : Consts) (response : mqtt_response) (f : Nat)
    (topic message rest : List Nat) (bufsz : Nat) (hf : f < 16)
    (h4 : 4 ≤ 2 + topic.length + message.length)
    (hn : 2 + topic.length + message.length < 65536)
    (hfit : 2 + topic.length + message.length < 2 ^ (K.int_bits - 1))
    (hsz : packet_size (2 + topic.length + message.length) ≤ bufsz) :
    mqtt_unpack_response K response
        ((MQTT_CONTROL_PUBLISH * 16 + f)
          :: (encode_remaining_length 5 (2 + topic.length + message.length)
            ++ (length_prefixed topic ++ (message ++ rest)))) bufsz
      = (if toInt16 ((2 + topic.length + message.length : Nat) : Int) < 0 then
            toInt16 ((2 + topic.length + message.length : Nat) : Int)
          else
            toInt16 (((1 + remaining_length_size (2 + topic.length + message.length) : Nat) : Int)
              + toInt16 ((2 + topic.length + message.length : Nat) : Int)),
          { response with
            fixed_header := ⟨MQTT_CONTROL_PUBLISH, f, 2 + topic.length + message.length⟩,
            publish :=
              { dup_flag := f / 8 % 2, qos_level := f / 2 % 4, retain_flag := f % 2,
                topic_name_size := topic.length,
                topic_name := 1 + remaining_length_size (2 + topic.length + message.length) + 2,
                application_message :=
                  1 + remaining_length_size (2 + topic.length + message.length) + 2
                    + topic.length,
                application_message_size := message.length } }) := by
  have hun := unpack_fixed_header_of_encode K response MQTT_CONTROL_PUBLISH f
    (2 + topic.length + message.length) bufsz (length_prefixed topic ++ (message ++ rest))
    (by decide) hf (by omega) hfit (rule_violation_publish K _ _) hsz
  have hun' : mqtt_unpack_fixed_header K response
      ((MQTT_CONTROL_PUBLISH * 16 + f)
        :: (encode_remaining_length 5 (2 + topic.length + message.length)
          ++ (length_prefixed topic ++ (message ++ rest)))) bufsz
      = (((1 + remaining_length_size (2 + topic.length + message.length) : Nat) : Int),
          { response with
            fixed_header := ⟨MQTT_CONTROL_PUBLISH, f, 2 + topic.length + message.length⟩ }) :=
    hun
  obtain ⟨f1, f2, f3⟩ := publish_flag_bits f
  have hpre : ((MQTT_CONTROL_PUBLISH * 16 + f)
      :: encode_remaining_length 5 (2 + topic.length + message.length)).length
      = 1 + remaining_length_size (2 + topic.length + message.length) := by
    simp only [List.length_cons, remaining_length_size]
    omega
  have hL : __mqtt_unpack_uint16
      ((MQTT_CONTROL_PUBLISH * 16 + f)
        :: (encode_remaining_length 5 (2 + topic.length + message.length)
          ++ (length_prefixed topic ++ (message ++ rest))))
      (1 + remaining_length_size (2 + topic.length + message.length)) = topic.length := by
    have := unpack_uint16_uint16_be
      ((MQTT_CONTROL_PUBLISH * 16 + f)
        :: encode_remaining_length 5 (2 + topic.length + message.length))
      (topic ++ (message ++ rest)) topic.length (by omega)
    rw [hpre] at this
    simpa [length_prefixed, List.append_assoc] using this
  have hsize : toUInt16 (((2 + topic.length + message.length : Nat) : Int)
      - (topic.length : Int) - 2) = message.length := by
    unfold toUInt16
    omega
  have hpos : ¬ (((1 + remaining_length_size (2 + topic.length + message.length) : Nat) : Int)
      ≤ 0) := by
    push_cast
    omega
  have hrl : ¬ (2 + topic.length + message.length < 4) := by omega
  have hc1 : ¬ (MQTT_CONTROL_PUBLISH = MQTT_CONTROL_PINGRESP) := by decide
  have hc2 : ¬ (MQTT_CONTROL_PUBLISH = MQTT_CONTROL_CONNACK) := by decide
  have hsum : (2 : Int) + (topic.length : Int) + (message.length : Int)
      = ((2 + topic.length + message.length : Nat) : Int) := by
    push_cast
    ring
  simp only [mqtt_unpack_response, hun', hpos, if_false, hc1, hc2, true_or, or_true, if_true,
    Int.toNat_ofNat, mqtt_unpack_publish_response, hrl, hL, hsize, f1, f2, f3, hsum]
  split_ifs <;> rfl

set_option maxRecDepth 100000 in
/-- The header flags of a publish request made with the `uint8_t` argument
`publish_flags`: the dup bit is cleared, the quality and retain bits are kept. -/
theorem publish_request_flags : ∀ f < 256,
    ((f &&& (255 - MQTT_PUBLISH_DUP)) % 256) % 16 < 16 ∧
    ((f &&& (255 - MQTT_PUBLISH_DUP)) % 256) % 16 / 8 % 2 = 0 ∧
    ((f &&& (255 - MQTT_PUBLISH_DUP)) % 256) % 16 / 2 % 4 = f / 2 % 4 ∧
    ((f &&& (255 - MQTT_PUBLISH_DUP)) % 256) % 16 % 2 = f % 2 := by decide

/-- The bytes of a publish request, and these bytes followed by `rest`, decoded when the
remaining length fits the `int` of the tool set: what `mqtt_unpack_response` returns and
leaves. -/
theorem publish_round_trip_raw (K : Consts) (response : mqtt_response) (bufsz bufsz' : Nat)
    (topic message rest : List Nat) (packet_id publish_flags : Nat)
    (hb : bufsz < 65536) (ht : topic.length ≤ 32765)
    (h4 : 4 ≤ 2 + topic.length + message.length)
    (hn : 2 + topic.length + message.length < 65536)
    (hcap : packet_size (2 + topic.length + message.length) ≤ bufsz)
    (hcap' : packet_size (2 + topic.length + message.length) ≤ bufsz') :
    (mqtt_pack_publish_request K bufsz topic packet_id message message.length publish_flags)
      = (toInt16 (packet_size (2 + topic.length + message.length)),
         (MQTT_CONTROL_PUBLISH * 16 + ((publish_flags &&& (255 - MQTT_PUBLISH_DUP)) % 256) % 16)
           :: (encode_remaining_length 5 (2 + topic.length + message.length)
             ++ (length_prefixed topic ++ message))) ∧
    (2 + topic.length + message.length < 2 ^ (K.int_bits - 1) →
    mqtt_unpack_response K response
        ((mqtt_pack_publish_request K bufsz topic packet_id message message.length
          publish_flags).2 ++ rest) bufsz'
      = (if toInt16 ((2 + topic.length + message.length : Nat) : Int) < 0 then
            toInt16 ((2 + topic.length + message.length : Nat) : Int)
          else
            toInt16 (((1 + remaining_length_size (2 + topic.length + message.length) : Nat) : Int)
              + toInt16 ((2 + topic.length + message.length : Nat) : Int)),
          { response with
            fixed_header := ⟨MQTT_CONTROL_PUBLISH,
              ((publish_flags &&& (255 - MQTT_PUBLISH_DUP)) % 256) % 16,
              2 + topic.length + message.length⟩,
            publish :=
              { dup_flag := ((publish_flags &&& (255 - MQTT_PUBLISH_DUP)) % 256) % 16 / 8 % 2,
                qos_level := ((publish_flags &&& (255 - MQTT_PUBLISH_DUP)) % 256) % 16 / 2 % 4,
                retain_flag := ((publish_flags &&& (255 - MQTT_PUBLISH_DUP)) % 256) % 16 % 2,
                topic_name_size := topic.length,
                topic_name := 1 + remaining_length_size (2 + topic.length + message.length) + 2,
                application_message :=
                  1 + remaining_length_size (2 + topic.length + message.length) + 2
                    + topic.length,
                application_message_size := message.length } })) := by
  have hpack := pack_publish_request_fits K bufsz topic packet_id message message.length
    publish_flags hb ht hcap
  rw [memcpy_all] at hpack
  refine ⟨hpack, fun hfit => ?_⟩
  rw [hpack]
  have hdec := unpack_publish_record K response
    (((publish_flags &&& (255 - MQTT_PUBLISH_DUP)) % 256) % 16) topic message rest bufsz'
    (Nat.mod_lt _ (by decide)) h4 hn hfit hcap'
  simpa only [List.cons_append, List.append_assoc] using hdec

/-- C37 (amended): publish encode/decode round trip, for a request whose size fits an
`int16_t`.  For every topic and payload with `(2 + topic length) + payload length >= 4`
and a total size of at most 32767 bytes, every `uint8_t` value of `publish_flags` and
sufficient capacity, `mqtt_pack_publish_request` returns the number of bytes that it
writes, and `mqtt_unpack_response` applied to these bytes (whatever follows them) returns
the same number and yields a PUBLISH whose topic and application message are the packed
topic and payload, whose `qos_level` and `retain_flag` are the packed quality and retain
bits, and whose `dup_flag` is 0. -/
theorem publish_round_trip (K : Consts) (response : mqtt_response) (bufsz bufsz' : Nat)
    (topic message rest : List Nat) (packet_id publish_flags : Nat)
    (hb : bufsz < 65536) (hf : publish_flags < 256)
    (h4 : 4 ≤ 2 + topic.length + message.length)
    (hsize : packet_size (2 + topic.length + message.length) ≤ 32767)
    (hcap : packet_size (2 + topic.length + message.length) ≤ bufsz)
    (hcap' : packet_size (2 + topic.length + message.length) ≤ bufsz') :
    (mqtt_pack_publish_request K bufsz topic packet_id message message.length
        publish_flags).1
      = ((mqtt_pack_publish_request K bufsz topic packet_id message message.length
          publish_flags).2.length : Int) ∧
    (mqtt_unpack_response K response
        ((mqtt_pack_publish_request K bufsz topic packet_id message message.length
          publish_flags).2 ++ rest) bufsz').1
      = (mqtt_pack_publish_request K bufsz topic packet_id message message.length
          publish_flags).1 ∧
    (mqtt_unpack_response K response
        ((mqtt_pack_publish_request K bufsz topic packet_id message message.length
          publish_flags).2 ++ rest) bufsz').2.fixed_header.control_type
      = MQTT_CONTROL_PUBLISH ∧
    (((mqtt_pack_publish_request K bufsz topic packet_id message message.length
          publish_flags).2 ++ rest).drop
        (mqtt_unpack_response K response
          ((mqtt_pack_publish_request K bufsz topic packet_id message message.length
            publish_flags).2 ++ rest) bufsz').2.publish.topic_name).take
        (mqtt_unpack_response K response
          ((mqtt_pack_publish_request K bufsz topic packet_id message message.length
            publish_flags).2 ++ rest) bufsz').2.publish.topic_name_size = topic ∧
    (((mqtt_pack_publish_request K bufsz topic packet_id message message.length
          publish_flags).2 ++ rest).drop
        (mqtt_unpack_response K response
          ((mqtt_pack_publish_request K bufsz topic packet_id message message.length
            publish_flags).2 ++ rest) bufsz').2.publish.application_message).take
        (mqtt_unpack_response K response
          ((mqtt_pack_publish_request K bufsz topic packet_id message message.length
            publish_flags).2 ++ rest) bufsz').2.publish.application_message_size = message ∧
    (mqtt_unpack_response K response
        ((mqtt_pack_publish_request K bufsz topic packet_id message message.length
          publish_flags).2 ++ rest) bufsz').2.publish.qos_level = publish_flags / 2 % 4 ∧
    (mqtt_unpack_response K response
        ((mqtt_pack_publish_request K bufsz topic packet_id message message.length
          publish_flags).2 ++ rest) bufsz').2.publish.retain_flag = publish_flags % 2 ∧
    (mqtt_unpack_response K response
        ((mqtt_pack_publish_request K bufsz topic packet_id message message.length
          publish_flags).2 ++ rest) bufsz').2.publish.dup_flag = 0 := by
  have hpos := remaining_length_size_pos (2 + topic.length + message.length)
  have hps : packet_size (2 + topic.length + message.length)
      = 1 + remaining_length_size (2 + topic.length + message.length)
        + (2 + topic.length + message.length) := rfl
  obtain ⟨hpack, hdec⟩ := publish_round_trip_raw K response bufsz bufsz' topic message rest
    packet_id publish_flags hb (by omega) h4 (by omega) hcap hcap'
  replace hdec := hdec (fits_int_of_lt K _ (by omega))
  obtain ⟨-, g1, g2, g3⟩ := publish_request_flags publish_flags hf
  have hsmall : toInt16 ((2 + topic.length + message.length : Nat) : Int)
      = ((2 + topic.length + message.length : Nat) : Int) :=
    toInt16_of_range _ (by omega) (by omega)
  have hnn : ¬ (((2 + topic.length + message.length : Nat) : Int) < 0) := by omega
  have hlen : (encode_remaining_length 5 (2 + topic.length + message.length)).length
      = remaining_length_size (2 + topic.length + message.length) := rfl
  rw [hsmall, if_neg hnn] at hdec
  rw [hdec]
  simp only [g1, g2, g3]
  rw [hpack]
  refine ⟨?_, ?_, trivial, ?_, ?_, trivial, trivial, trivial⟩
  · rw [toInt16_of_range _ (by omega) (by omega)]
    simp only [List.length_cons, List.length_append, hlen, length_prefixed_length, hps]
    push_cast
    omega
  · refine congrArg toInt16 ?_
    rw [hps]
    push_cast
    omega
  · have h := drop_take_middle
      ((MQTT_CONTROL_PUBLISH * 16 + ((publish_flags &&& (255 - MQTT_PUBLISH_DUP)) % 256) % 16)
        :: (encode_remaining_length 5 (2 + topic.length + message.length)
          ++ uint16_be topic.length)) topic (message ++ rest)
    simp only [List.length_cons, List.length_append, hlen, uint16_be_length] at h
    rw [show remaining_length_size (2 + topic.length + message.length) + 2 + 1
      = 1 + remaining_length_size (2 + topic.length + message.length) + 2 by omega] at h
    simpa only [length_prefixed, List.cons_append, List.append_assoc] using h
  · have h := drop_take_middle
      ((MQTT_CONTROL_PUBLISH * 16 + ((publish_flags &&& (255 - MQTT_PUBLISH_DUP)) % 256) % 16)
        :: (encode_remaining_length 5 (2 + topic.length + message.length)
          ++ (uint16_be topic.length ++ topic))) message rest
    simp only [List.length_cons, List.length_append, hlen, uint16_be_length] at h
    rw [show remaining_length_size (2 + topic.length + message.length) + (2 + topic.length) + 1
      = 1 + remaining_length_size (2 + topic.length + message.length) + 2 + topic.length
      by omega] at h
    simpa only [length_prefixed, List.cons_append, List.append_assoc] using h

/-- C37 (witness): the topic "t" and the payload `01 02 03` with the retain bit set, in a
buffer of 140 bytes: the decoder returns what the encoder has returned. -/
theorem publish_round_trip_witness :
    (mqtt_unpack_response sampleConsts sampleResponse
        ((mqtt_pack_publish_request sampleConsts 140 [116] 0 [1, 2, 3] [1, 2, 3].length 1).2
          ++ []) 140).1
      = (mqtt_pack_publish_request sampleConsts 140 [116] 0 [1, 2, 3] [1, 2, 3].length 1).1 :=
  (publish_round_trip sampleConsts sampleResponse 140 140 [116] [1, 2, 3] [] 0 1
    (by decide) (by decide) (by decide) (by decide) (by decide) (by decide)).2.1

/-- The fixed header `30 C3 B8 02` (remaining length 40003) with an `int` of 16 bits:
`2 << 14` is evaluated in `int`, the remaining length stored is `0xFFFF9C43` and
`mqtt_unpack_fixed_header` returns 0. -/
theorem unpack_fixed_header_wrapped (K : Consts) (hbits : K.int_bits = 16)
    (response : mqtt_response) (tail : List Nat) :
    mqtt_unpack_fixed_header K response (0x30 :: 0xC3 :: 0xB8 :: 0x02 :: tail) 40007
      = (0, { response with fixed_header := ⟨3, 0, 0xFFFF9C43⟩ }) := by
  have h1 : unpack_length_loop K (0x30 :: 0xC3 :: 0xB8 :: 0x02 :: tail) 5 0 40007 0 0
      = (none, 3, 40004, 0xFFFF9C43) := by
    rw [unpack_length_loop_succ, if_neg (by decide), if_neg (by decide)]
    simp only [List.getD_cons_succ, List.getD_cons_zero, Nat.zero_add]
    rw [if_pos (by decide), unpack_length_loop_succ, if_neg (by decide), if_neg (by decide)]
    simp only [List.getD_cons_succ, List.getD_cons_zero, Nat.zero_add]
    rw [if_pos (by decide), unpack_length_loop_succ, if_neg (by decide), if_neg (by decide)]
    simp only [List.getD_cons_succ, List.getD_cons_zero, Nat.zero_add]
    rw [if_neg (by decide), hbits]
    decide
  have hv : mqtt_fixed_header_rule_violation K
      ⟨(0x30 >>> 4) % 256, (0x30 &&& 0x0F) % 256, 0xFFFF9C43⟩ = 0 :=
    rule_violation_publish K 0 0xFFFF9C43
  unfold mqtt_unpack_fixed_header
  rw [if_neg (by decide), h1]
  simp only [List.getD_cons_zero]
  rw [if_neg (by rw [hv]; decide), if_pos (by decide)]
  rfl

/-- A publish request with the topic "t" and a payload of 40000 bytes in a buffer of
65535 bytes: 40007 bytes are written and the `int16_t` result of the encoder is
negative; with an `int` of 16 bits the decoder returns 0 on these bytes. -/
theorem publish_round_trip_large (K : Consts) (hbits : K.int_bits = 16)
    (response : mqtt_response) (message : List Nat) (hl : message.length = 40000) :
    (mqtt_pack_publish_request K 65535 [116] 0 message message.length 0).2.length = 40007 ∧
    (mqtt_pack_publish_request K 65535 [116] 0 message message.length 0).1 = -25529 ∧
    (mqtt_unpack_response K response
      ((mqtt_pack_publish_request K 65535 [116] 0 message message.length 0).2 ++ [])
      40007).1 = 0 := by
  have hrls : remaining_length_size 40003 = 3 := by decide
  have hps : packet_size 40003 = 40007 := by
    unfold packet_size
    rw [hrls]
  have hn : 2 + [116].length + message.length = 40003 := by
    rw [hl]
    rfl
  obtain ⟨hpack, -⟩ := publish_round_trip_raw K response 65535 40007 [116] message
    [] 0 0 (by decide) (by decide) (by omega) (by omega)
    (by rw [hn, hps]; decide) (by rw [hn, hps])
  rw [hn, hps] at hpack
  have hlen : (encode_remaining_length 5 40003).length = 3 := hrls
  have henc : encode_remaining_length 5 40003 = [0xC3, 0xB8, 0x02] := by decide
  refine ⟨?_, ?_, ?_⟩
  · rw [hpack]
    simp only [List.length_cons, List.length_append, hlen, length_prefixed_length,
      List.length_singleton, List.length_nil, hl]
  · rw [hpack]
    show toInt16 ((40007 : Nat) : Int) = -25529
    decide
  · rw [hpack, henc]
    have hh := unpack_fixed_header_wrapped K hbits response
      (length_prefixed [116] ++ message ++ [])
    have h30 : MQTT_CONTROL_PUBLISH * 16 + (0 &&& (255 - MQTT_PUBLISH_DUP)) % 256 % 16 = 0x30 :=
      rfl
    rw [h30]
    simp only [List.cons_append, List.nil_append, List.append_assoc] at hh ⊢
    unfold mqtt_unpack_response
    rw [hh]
    simp only [le_refl, if_true]

/-- C37, as stated, fails for a payload of 40000 bytes: the encoder writes 40007 bytes
and returns -25529, and the decoder, with an `int` of 16 bits, returns 0 on these
bytes. -/
theorem publish_round_trip_counterexample :
    (mqtt_pack_publish_request sampleConsts 65535 [116] 0 (List.replicate 40000 0)
      (List.replicate 40000 0).length 0).2.length = 40007 ∧
    (mqtt_pack_publish_request sampleConsts 65535 [116] 0 (List.replicate 40000 0)
      (List.replicate 40000 0).length 0).1 = -25529 ∧
    (mqtt_unpack_response sampleConsts sampleResponse
      ((mqtt_pack_publish_request sampleConsts 65535 [116] 0 (List.replicate 40000 0)
        (List.replicate 40000 0).length 0).2 ++ []) 40007).1 = 0 :=
  publish_round_trip_large sampleConsts rfl sampleResponse (List.replicate 40000 0)
    (List.length_replicate _ _)

/-! ## Acknowledgements -/

/-- `__mqtt_recv` after its call of `mqtt_unpack_response` has returned a value that is
not negative: the `switch` decides, and only the receive buffer is touched after it. -/
theorem recv_of_unpack (K : Consts) (uip_len : Nat) (response : mqtt_response)
    (client : mqtt_client) (hc : 0 ≤ (__mqtt_recv_unpack K uip_len response client).1) :
    ∃ c0 : mqtt_client, c0.mq = client.mq ∧ c0.error = client.error ∧
      (__mqtt_recv K uip_len response client).rv
        = (__mqtt_recv_switch K (__mqtt_recv_unpack K uip_len response client).2 c0).rv ∧
      (__mqtt_recv K uip_len response client).client.mq
        = (__mqtt_recv_switch K (__mqtt_recv_unpack K uip_len response client).2 c0).client.mq ∧
      (__mqtt_recv K uip_len response client).client.error
        = (__mqtt_recv_switch K (__mqtt_recv_unpack K uip_len response client).2
            c0).client.error := by
  have hc' : ¬ (__mqtt_recv_unpack K uip_len response client).1 < 0 := by omega
  unfold __mqtt_recv_unpack at hc'
  simp only at hc'
  refine ⟨{ client with
      recv_buffer :=
        { client.recv_buffer with
          curr := client.recv_buffer.curr + (if uip_len > 0 then toInt16 uip_len else -1),
          curr_sz := client.recv_buffer.curr_sz
            - (if uip_len > 0 then toInt16 uip_len else -1) } }, rfl, rfl, ?_, ?_, ?_⟩
  all_goals
    unfold __mqtt_recv __mqtt_recv_unpack
    simp only [hc', if_false]

/-- The `switch` of `__mqtt_recv` when `mqtt_mq_find` returns `NULL` for the
acknowledgement received: `MQTT_ERROR_ACK_OF_UNKNOWN` is returned and latched, and the
queue is not touched. -/
theorem recv_switch_unknown (K : Consts) (response : mqtt_response) (client : mqtt_client)
    (h : (response.fixed_header.control_type = MQTT_CONTROL_CONNACK ∧
          mqtt_mq_find client.mq MQTT_CONTROL_CONNECT none = none) ∨
        (response.fixed_header.control_type = MQTT_CONTROL_SUBACK ∧
          mqtt_mq_find client.mq MQTT_CONTROL_SUBSCRIBE (some response.suback.packet_id)
            = none) ∨
        (response.fixed_header.control_type = MQTT_CONTROL_PINGRESP ∧
          mqtt_mq_find client.mq MQTT_CONTROL_PINGREQ none = none)) :
    (__mqtt_recv_switch K response client).rv = K.code .MQTT_ERROR_ACK_OF_UNKNOWN ∧
    (__mqtt_recv_switch K response client).client.error = K.code .MQTT_ERROR_ACK_OF_UNKNOWN ∧
    (__mqtt_recv_switch K response client).client.mq = client.mq := by
  have d1 : ¬ MQTT_CONTROL_SUBACK = MQTT_CONTROL_CONNACK := by decide
  have d2 : ¬ MQTT_CONTROL_SUBACK = MQTT_CONTROL_PUBLISH := by decide
  have d3 : ¬ MQTT_CONTROL_PINGRESP = MQTT_CONTROL_CONNACK := by decide
  have d4 : ¬ MQTT_CONTROL_PINGRESP = MQTT_CONTROL_PUBLISH := by decide
  have d5 : ¬ MQTT_CONTROL_PINGRESP = MQTT_CONTROL_SUBACK := by decide
  rcases h with ⟨h1, h2⟩ | ⟨h1, h2⟩ | ⟨h1, h2⟩
  · simp only [__mqtt_recv_switch, h1, if_true, h2]
    exact ⟨trivial, trivial, trivial⟩
  · simp only [__mqtt_recv_switch, h1, d1, d2, if_false, if_true, h2]
    exact ⟨trivial, trivial, trivial⟩
  · simp only [__mqtt_recv_switch, h1, d3, d4, d5, if_false, if_true, h2]
    exact ⟨trivial, trivial, trivial⟩

/-- The `switch` of `__mqtt_recv` on a PINGRESP for which `mqtt_mq_find` returns a
descriptor: the descriptor is marked Complete and `MQTT_OK` is returned. -/
theorem recv_switch_pingresp (K : Consts) (response : mqtt_response) (client : mqtt_client)
    (i : Nat) (h1 : response.fixed_header.control_type = MQTT_CONTROL_PINGRESP)
    (h2 : mqtt_mq_find client.mq MQTT_CONTROL_PINGREQ none = some i) :
    (__mqtt_recv_switch K response client).rv = K.MQTT_OK ∧
    (__mqtt_recv_switch K response client).client.error = client.error ∧
    (__mqtt_recv_switch K response client).client.mq
      = mqtt_mq_set_state client.mq i MQTTQueuedMessageState.MQTT_QUEUED_COMPLETE := by
  have d3 : ¬ MQTT_CONTROL_PINGRESP = MQTT_CONTROL_CONNACK := by decide
  have d4 : ¬ MQTT_CONTROL_PINGRESP = MQTT_CONTROL_PUBLISH := by decide
  have d5 : ¬ MQTT_CONTROL_PINGRESP = MQTT_CONTROL_SUBACK := by decide
  simp only [__mqtt_recv_switch, h1, d3, d4, d5, if_false, if_true, h2]
  exact ⟨trivial, trivial, trivial⟩

/-- C31: acknowledgement of an unknown request.  Let the call of `mqtt_unpack_response`
in `__mqtt_recv` return a value that is not negative.  When it has decoded a CONNACK and
no CONNECT descriptor that is not Complete is queued, or a SUBACK whose packet id no
SUBSCRIBE descriptor holds, or a PINGRESP and no PINGREQ descriptor that is not Complete is
queued, `__mqtt_recv` returns `MQTT_ERROR_ACK_OF_UNKNOWN`, latches it in `client->error`
and leaves the queue unchanged.  When it has decoded a PINGRESP and a PINGREQ descriptor
that is not Complete is queued, the first such descriptor (in the order of
`mqtt_mq_get`) is marked Complete, nothing else changes in the queue, `MQTT_OK` is
returned and `client->error` is unchanged. -/
theorem ack_of_unknown (K : Consts) (uip_len : Nat) (response : mqtt_response)
    (client : mqtt_client) (hc : 0 ≤ (__mqtt_recv_unpack K uip_len response client).1) :
    (((__mqtt_recv_unpack K uip_len response client).2.fixed_header.control_type
          = MQTT_CONTROL_CONNACK ∧
        ∀ msg ∈ client.mq.queue, ¬ (msg.control_type = MQTT_CONTROL_CONNECT ∧
          msg.state ≠ MQTTQueuedMessageState.MQTT_QUEUED_COMPLETE)) ∨
      ((__mqtt_recv_unpack K uip_len response client).2.fixed_header.control_type
          = MQTT_CONTROL_SUBACK ∧
        ∀ msg ∈ client.mq.queue, ¬ (msg.control_type = MQTT_CONTROL_SUBSCRIBE ∧
          msg.packet_id = (__mqtt_recv_unpack K uip_len response client).2.suback.packet_id)) ∨
      ((__mqtt_recv_unpack K uip_len response client).2.fixed_header.control_type
          = MQTT_CONTROL_PINGRESP ∧
        ∀ msg ∈ client.mq.queue, ¬ (msg.control_type = MQTT_CONTROL_PINGREQ ∧
          msg.state ≠ MQTTQueuedMessageState.MQTT_QUEUED_COMPLETE)) →
      (__mqtt_recv K uip_len response client).rv = K.code .MQTT_ERROR_ACK_OF_UNKNOWN ∧
      (__mqtt_recv K uip_len response client).client.error
        = K.code .MQTT_ERROR_ACK_OF_UNKNOWN ∧
      (__mqtt_recv K uip_len response client).client.mq = client.mq) ∧
    ((__mqtt_recv_unpack K uip_len response client).2.fixed_header.control_type
        = MQTT_CONTROL_PINGRESP →
      (∃ msg ∈ client.mq.queue, msg.control_type = MQTT_CONTROL_PINGREQ ∧
        msg.state ≠ MQTTQueuedMessageState.MQTT_QUEUED_COMPLETE) →
      ∃ i, i < client.mq.queue.length ∧
        (client.mq.queue.getD i sampleMessage).control_type = MQTT_CONTROL_PINGREQ ∧
        (client.mq.queue.getD i sampleMessage).state
          ≠ MQTTQueuedMessageState.MQTT_QUEUED_COMPLETE ∧
        (∀ j, j < i → ¬ ((client.mq.queue.getD j sampleMessage).control_type
            = MQTT_CONTROL_PINGREQ ∧
          (client.mq.queue.getD j sampleMessage).state
            ≠ MQTTQueuedMessageState.MQTT_QUEUED_COMPLETE)) ∧
        (__mqtt_recv K uip_len response client).rv = K.MQTT_OK ∧
        (__mqtt_recv K uip_len response client).client.error = client.error ∧
        (__mqtt_recv K uip_len response client).client.mq
          = mqtt_mq_set_state client.mq i MQTTQueuedMessageState.MQTT_QUEUED_COMPLETE ∧
        ((__mqtt_recv K uip_len response client).client.mq.queue.getD i sampleMessage).state
          = MQTTQueuedMessageState.MQTT_QUEUED_COMPLETE) := by
  obtain ⟨c0, hmq, herr, hrv, hq, he⟩ := recv_of_unpack K uip_len response client hc
  refine ⟨fun h => ?_, fun h1 h2 => ?_⟩
  · have hsw := recv_switch_unknown K (__mqtt_recv_unpack K uip_len response client).2 c0 (by
      rcases h with ⟨h1, h2⟩ | ⟨h1, h2⟩ | ⟨h1, h2⟩
      · exact Or.inl ⟨h1, by
          rw [mqtt_mq_find, hmq]
          exact (mq_find_from_none _ _ _ _).mpr h2⟩
      · exact Or.inr (Or.inl ⟨h1, by
          rw [mqtt_mq_find, hmq]
          exact (mq_find_from_none _ _ _ _).mpr h2⟩)
      · exact Or.inr (Or.inr ⟨h1, by
          rw [mqtt_mq_find, hmq]
          exact (mq_find_from_none _ _ _ _).mpr h2⟩))
    rw [hrv, hq, he, hsw.1, hsw.2.1, hsw.2.2, hmq]
    exact ⟨rfl, rfl, rfl⟩
  · have hex : ∃ i, mqtt_mq_find client.mq MQTT_CONTROL_PINGREQ none = some i := by
      cases hf : mqtt_mq_find client.mq MQTT_CONTROL_PINGREQ none with
      | some i => exact ⟨i, rfl⟩
      | none =>
        obtain ⟨msg, hmem, hm⟩ := h2
        exact absurd hm ((mq_find_from_none MQTT_CONTROL_PINGREQ none client.mq.queue 0).mp
          hf msg hmem)
    obtain ⟨i, hfind⟩ := hex
    obtain ⟨j, hj, hlt, hm, hfirst⟩ :=
      (mq_find_from_some MQTT_CONTROL_PINGREQ none client.mq.queue 0 i).mp hfind
    have hij : i = j := by omega
    subst hij
    have hfind' : mqtt_mq_find c0.mq MQTT_CONTROL_PINGREQ none = some i := by
      rw [mqtt_mq_find, hmq]
      exact hfind
    have hsw := recv_switch_pingresp K _ c0 i h1 hfind'
    refine ⟨i, hlt, hm.1, hm.2, fun j' hj' hp => hfirst j' hj' ⟨hp.1, hp.2⟩, ?_, ?_, ?_, ?_⟩
    · rw [hrv, hsw.1]
    · rw [he, hsw.2.1, herr]
    · rw [hq, hsw.2.2, hmq]
    · rw [hq, hsw.2.2, hmq]
      exact getD_modify_state MQTTQueuedMessageState.MQTT_QUEUED_COMPLETE client.mq.queue i hlt

/-- C31 (witness): the client `sampleClient` has no PINGREQ queued; on the PINGRESP
`D0 00` `__mqtt_recv` returns `MQTT_ERROR_ACK_OF_UNKNOWN` and the queue is unchanged. -/
theorem ack_of_unknown_witness :
    (__mqtt_recv sampleConsts 2 sampleResponse (sampleClient [0xD0, 0x00])).rv
      = sampleConsts.code .MQTT_ERROR_ACK_OF_UNKNOWN ∧
    (__mqtt_recv sampleConsts 2 sampleResponse (sampleClient [0xD0, 0x00])).client.error
      = sampleConsts.code .MQTT_ERROR_ACK_OF_UNKNOWN ∧
    (__mqtt_recv sampleConsts 2 sampleResponse (sampleClient [0xD0, 0x00])).client.mq
      = (sampleClient [0xD0, 0x00]).mq :=
  (ack_of_unknown sampleConsts 2 sampleResponse (sampleClient [0xD0, 0x00]) (by decide)).1
    (Or.inr (Or.inr ⟨by decide, by decide⟩))

/-! ## The partial-send offset over a run -/

set_option maxRecDepth 100000 in
/-- C38: the run `late_ack_run` from a fresh client.  Every call of the transport in it is
answered with a count between 0 and the length requested (21 of 21 bytes, then 10 of 21
bytes).  The connack that arrives while the CONNECT request is being sent again marks its
descriptor Complete, and `send_offset` keeps the value 10; in the next `__mqtt_send` the
ping request, a descriptor of 2 bytes, is offered from offset 10 on: the call starts 8
bytes behind the end of the message and its length `size - send_offset` is -8. -/
theorem send_offset_out_of_range :
    (client_run sampleConsts late_ack_run freshClient).2
      = [⟨some 1, []⟩, ⟨some 1, [⟨0, 21⟩]⟩, ⟨some 1, [⟨0, 21⟩]⟩, ⟨some 1, []⟩, ⟨some 1, []⟩] ∧
    (client_run sampleConsts late_ack_run freshClient).1.mq.queue
      = [⟨0, 21, MQTTQueuedMessageState.MQTT_QUEUED_COMPLETE, 0, MQTT_CONTROL_CONNECT, 0⟩,
          ⟨21, 2, MQTTQueuedMessageState.MQTT_QUEUED_UNSENT, 0, MQTT_CONTROL_PINGREQ, 0⟩] ∧
    (client_run sampleConsts late_ack_run freshClient).1.send_offset = 10 ∧
    (__mqtt_send sampleConsts 32 20 (fun _ => 0) sampleMessage
      (client_run sampleConsts late_ack_run freshClient).1).calls = [⟨21 + 10, 2 - 10⟩] := by
  decide

/-! ## A latched error -/

/-- The loop of `__mqtt_send` leaves a negative `client->error` negative. -/
theorem send_loop_error_neg (K : Consts) (second_counter : Nat) (pal : Nat → Int) :
    ∀ (l : List mqtt_queued_message) (k : Nat) (client : mqtt_client), client.error < 0 →
      (__mqtt_send_loop K second_counter pal l k client).2.2.1.error < 0
  | [], _, _, h => h
  | msg :: rest, k, client, h => by
    have ih := send_loop_error_neg K second_counter pal rest
    have hm := K.code_neg .MQTT_ERROR_MALFORMED_REQUEST
    cases hs : msg.state with
    | MQTT_QUEUED_COMPLETE =>
      simp [__mqtt_send_loop, hs]
      exact ih _ _ h
    | MQTT_QUEUED_AWAITING_ACK =>
      by_cases hto : (second_counter : Int) > (msg.time_sent : Int) + client.response_timeout
      · by_cases h0 : pal k < 0
        · simp [__mqtt_send_loop, hs, hto, h0]
        · by_cases hp : pal k < (msg.size : Int)
          · simp [__mqtt_send_loop, hs, hto, h0, hp]
            exact h
          · by_cases hc1 : msg.control_type = MQTT_CONTROL_DISCONNECT
                ∨ msg.control_type = MQTT_CONTROL_PUBLISH
            · simp [__mqtt_send_loop, hs, hto, h0, hp, hc1]
              exact ih _ _ h
            · by_cases hc2 : msg.control_type = MQTT_CONTROL_CONNECT
                  ∨ msg.control_type = MQTT_CONTROL_SUBSCRIBE
                  ∨ msg.control_type = MQTT_CONTROL_PINGREQ
              · simp [__mqtt_send_loop, hs, hto, h0, hp, hc1, hc2]
                exact ih _ _ h
              · simp [__mqtt_send_loop, hs, hto, h0, hp, hc1, hc2]
                exact hm
      · simp [__mqtt_send_loop, hs, hto]
        exact ih _ _ h
    | MQTT_QUEUED_UNSENT =>
      by_cases h0 : pal k < 0
      · simp [__mqtt_send_loop, hs, h0]
      · by_cases hp : client.send_offset + pal k < (msg.size : Int)
        · simp [__mqtt_send_loop, hs, h0, hp]
          exact h
        · by_cases hc1 : msg.control_type = MQTT_CONTROL_DISCONNECT
              ∨ msg.control_type = MQTT_CONTROL_PUBLISH
          · simp [__mqtt_send_loop, hs, h0, hp, hc1]
            exact ih _ _ h
          · by_cases hc2 : msg.control_type = MQTT_CONTROL_CONNECT
                ∨ msg.control_type = MQTT_CONTROL_SUBSCRIBE
                ∨ msg.control_type = MQTT_CONTROL_PINGREQ
            · simp [__mqtt_send_loop, hs, h0, hp, hc1, hc2]
              exact ih _ _ h
            · simp [__mqtt_send_loop, hs, h0, hp, hc1, hc2]
              exact hm

/-- `__mqtt_ping` on a client whose `client->error` is negative returns that value and
leaves the client as it is. -/
theorem ping_refused (K : Consts) (client : mqtt_client) (stale : mqtt_queued_message)
    (h : client.error < 0) : __mqtt_ping K client stale = (client.error, client) := by
  simp only [__mqtt_ping, try_pack_refused K client _ stale h]

/-- `__mqtt_send` leaves a negative `client->error` negative. -/
theorem send_error_neg (K : Consts) (second_counter mqtt_start : Nat) (pal : Nat → Int)
    (stale : mqtt_queued_message) (client : mqtt_client) (h : client.error < 0) :
    (__mqtt_send K second_counter mqtt_start pal stale client).client.error < 0 := by
  have hloop := send_loop_error_neg K second_counter pal client.mq.queue 0 client h
  unfold __mqtt_send
  split_ifs with hb
  · exact h
  · rcases hl : __mqtt_send_loop K second_counter pal client.mq.queue 0 client with
      ⟨rv, queue, client', calls⟩
    rw [hl] at hloop
    simp only at hloop
    cases rv with
    | some rv => exact hloop
    | none =>
      simp only
      have hp := ping_refused K { client' with mq := { client'.mq with queue := queue } } stale
        hloop
      split_ifs with hka hrv
      · rw [hp]
        exact hloop
      · rw [hp]
        exact hloop
      · exact hloop

/-- `__mqtt_recv` leaves a negative `client->error` negative. -/
theorem recv_error_neg (K : Consts) (uip_len : Nat) (response : mqtt_response)
    (client : mqtt_client) (h : client.error < 0) :
    (__mqtt_recv K uip_len response client).client.error < 0 := by
  have c1 := K.code_neg .MQTT_ERROR_ACK_OF_UNKNOWN
  have c2 := K.code_neg .MQTT_ERROR_CONNECT_CLIENT_ID_REFUSED
  have c3 := K.code_neg .MQTT_ERROR_CONNECTION_REFUSED
  have c4 := K.code_neg .MQTT_ERROR_SUBSCRIBE_FAILED
  have c5 := K.code_neg .MQTT_ERROR_MALFORMED_RESPONSE
  unfold __mqtt_recv
  simp only
  split_ifs with h1 h2 h3
  · exact h2
  · simp only [__mqtt_recv_switch]
    split_ifs <;> first | assumption | (split <;> assumption)
  · exact h3
  · simp only [__mqtt_recv_switch]
    split_ifs <;> first | assumption | (split <;> assumption)

/-- `mqtt_sync` leaves a negative `client->error` negative. -/
theorem sync_error_neg (K : Consts) (uip_newdata uip_acked : Bool) (uip_len : Nat)
    (response : mqtt_response) (second_counter mqtt_start : Nat) (pal : Nat → Int)
    (stale : mqtt_queued_message) (client : mqtt_client) (h : client.error < 0) :
    (mqtt_sync K uip_newdata uip_acked uip_len response second_counter mqtt_start pal stale
      client).client.error < 0 := by
  have hr := recv_error_neg K uip_len response client h
  unfold mqtt_sync
  by_cases hd : (uip_newdata || uip_acked) = true ∧ uip_len > 0
  · simp only [hd, and_self, if_true]
    by_cases h2 : (__mqtt_recv K uip_len response client).rv ≠ K.MQTT_OK
    · rw [if_pos h2]
      exact hr
    · rw [if_neg h2]
      exact send_error_neg K second_counter mqtt_start pal stale _ hr
  · simp only [hd, if_false]
    exact send_error_neg K second_counter mqtt_start pal stale _ h

/-- A run of calls of `mqtt_sync` leaves a negative `client->error` negative. -/
theorem run_error_neg (K : Consts) :
    ∀ (ops : List client_op) (client : mqtt_client),
      (∀ o ∈ ops, client_op.is_sync o = true) → client.error < 0 →
      (client_run K ops client).1.error < 0
  | [], _, _, h => h
  | o :: ops, client, hs, h => by
    have ho := hs o (List.mem_cons_self _ _)
    have hrest : ∀ o' ∈ ops, client_op.is_sync o' = true :=
      fun o' ho' => hs o' (List.mem_cons_of_mem _ ho')
    cases o with
    | enqueue op stale => exact absurd ho (by simp [client_op.is_sync])
    | sync inbound uip_newdata uip_acked uip_len response second_counter mqtt_start pal stale =>
      simp only [client_run, client_step]
      exact run_error_neg K ops _ hrest
        (sync_error_neg K uip_newdata uip_acked uip_len response second_counter mqtt_start pal
          stale _ h)

/-- C35 (as the code has it): buffer-full lets `__mqtt_send` go on, and refuses every
later enqueue.  For a client on which `MQTT_ERROR_SEND_BUFFER_IS_FULL` is latched,
`__mqtt_send` offers the queued requests to the transport as its loop finds them; after
any run of calls of `mqtt_sync`, whatever is received, sent and completed,
`client->error` is still negative, and an operation called then (`mqtt_publish`,
`mqtt_subscribe`, `mqtt_ping`, `mqtt_disconnect`, and `mqtt_connect` unless the error is
`MQTT_ERROR_CONNECT_NOT_CALLED`) returns that negative value, not `MQTT_OK`, and
registers nothing: the queue is unchanged. -/
theorem buffer_full_latched (K : Consts) (fuel : Nat) (second_counter mqtt_start : Nat)
    (pal : Nat → Int) (stale : mqtt_queued_message) (client : mqtt_client)
    (ops : List client_op) (op : enqueue_op)
    (hfull : client.error = K.code .MQTT_ERROR_SEND_BUFFER_IS_FULL)
    (hsync : ∀ o ∈ ops, client_op.is_sync o = true)
    (hfuel : 65535 ≤ fuel)
    (hq : (client_run K ops client).1.mq.queue.length < 65535)
    (hseed : (client_run K ops client).1.pid_lfsr < 65536)
    (hconn : op.control_type = MQTT_CONTROL_CONNECT →
      (client_run K ops client).1.error ≠ K.code .MQTT_ERROR_CONNECT_NOT_CALLED) :
    (__mqtt_send K second_counter mqtt_start pal stale client).calls
      = (__mqtt_send_loop K second_counter pal client.mq.queue 0 client).2.2.2 ∧
    (client_run K ops client).1.error < 0 ∧
    ∃ c', enqueue K fuel stale op (client_run K ops client).1
        = some ((client_run K ops client).1.error, c') ∧
      (client_run K ops client).1.error ≠ K.MQTT_OK ∧
      c'.mq = (client_run K ops client).1.mq ∧
      c'.error = (client_run K ops client).1.error := by
  have hneg : client.error < 0 := by
    rw [hfull]
    exact K.code_neg _
  have hrun := run_error_neg K ops client hsync hneg
  refine ⟨(send_calls_timeouts K second_counter mqtt_start pal stale client
    (fun hb => hb.2 hfull)).1, hrun, ?_⟩
  obtain ⟨c', h1, h2, h3⟩ :=
    enqueue_error_returned K fuel stale op _ hfuel hq hseed hrun hconn
  exact ⟨c', h1, fun h => absurd K.ok_nonneg (by rw [← h]; exact not_le.mpr hrun), h2, h3⟩

set_option maxRecDepth 100000 in
/-- C35 (witness): the client of `buffer_full_run` once the publication of 115 bytes has
been refused, the two calls of `mqtt_sync` of that run, and the publication of 6
bytes. -/
theorem buffer_full_latched_witness :
    bufferFullClient.error = sampleConsts.code .MQTT_ERROR_SEND_BUFFER_IS_FULL ∧
    (__mqtt_send sampleConsts 0 20 (fun _ => 21) sampleMessage bufferFullClient).calls
      = (__mqtt_send_loop sampleConsts 0 (fun _ => 21) bufferFullClient.mq.queue 0
          bufferFullClient).2.2.2 ∧
    (client_run sampleConsts (List.take 2 (List.drop 2 buffer_full_run))
      bufferFullClient).1.error < 0 ∧
    ∃ c', enqueue sampleConsts 65535 sampleMessage (.publish [116] [1] 1 0)
        (client_run sampleConsts (List.take 2 (List.drop 2 buffer_full_run))
          bufferFullClient).1
        = some ((client_run sampleConsts (List.take 2 (List.drop 2 buffer_full_run))
          bufferFullClient).1.error, c') ∧
      (client_run sampleConsts (List.take 2 (List.drop 2 buffer_full_run))
        bufferFullClient).1.error ≠ sampleConsts.MQTT_OK ∧
      c'.mq = (client_run sampleConsts (List.take 2 (List.drop 2 buffer_full_run))
        bufferFullClient).1.mq ∧
      c'.error = (client_run sampleConsts (List.take 2 (List.drop 2 buffer_full_run))
        bufferFullClient).1.error :=
  ⟨by decide,
   buffer_full_latched sampleConsts 65535 0 20 (fun _ => 21) sampleMessage bufferFullClient
    (List.take 2 (List.drop 2 buffer_full_run)) (.publish [116] [1] 1 0)
    (by decide) (by decide) (le_refl _) (by decide) (by decide) (by decide)⟩

set_option maxRecDepth 100000 in
/-- C35 (counterexample): the run `buffer_full_run` from a fresh client.  The CONNECT
request is registered; the publication of 115 bytes is refused with
`MQTT_ERROR_SEND_BUFFER_IS_FULL`; the next `mqtt_sync` sends the 21 bytes of the CONNECT
request and the one after receives the connack, so that the only descriptor is Complete
and a clean would free all 140 bytes; the publication of 6 bytes, which fits, is refused
with `MQTT_ERROR_SEND_BUFFER_IS_FULL` and nothing is registered. -/
theorem buffer_full_counterexample :
    (client_run sampleConsts buffer_full_run freshClient).2
      = [⟨some 1, []⟩, ⟨some (sampleConsts.code .MQTT_ERROR_SEND_BUFFER_IS_FULL), []⟩,
         ⟨some 1, [⟨0, 21⟩]⟩, ⟨some 1, []⟩,
         ⟨some (sampleConsts.code .MQTT_ERROR_SEND_BUFFER_IS_FULL), []⟩] ∧
    sampleConsts.MQTT_OK = 1 ∧
    (client_run sampleConsts buffer_full_run freshClient).1.mq.queue
      = [⟨0, 21, MQTTQueuedMessageState.MQTT_QUEUED_COMPLETE, 0, MQTT_CONTROL_CONNECT, 0⟩] ∧
    (mqtt_mq_clean sampleConsts
      (client_run sampleConsts buffer_full_run freshClient).1.mq).curr_sz = 140 ∧
    (mqtt_pack_publish_request sampleConsts 140 [116] 1 [1] 1 0).1 = 6 := by
  decide

/-! ## Keep-alive -/

/-- The loop of `__mqtt_send` leaves `client->keep_alive` as it is. -/
theorem send_loop_keep_alive (K : Consts) (second_counter : Nat) (pal : Nat → Int) :
    ∀ (l : List mqtt_queued_message) (k : Nat) (client : mqtt_client),
      (__mqtt_send_loop K second_counter pal l k client).2.2.1.keep_alive = client.keep_alive
  | [], _, _ => rfl
  | msg :: rest, k, client => by
    have ih := send_loop_keep_alive K second_counter pal rest
    cases hs : msg.state with
    | MQTT_QUEUED_COMPLETE =>
      simp [__mqtt_send_loop, hs]
      exact ih _ _
    | MQTT_QUEUED_AWAITING_ACK =>
      by_cases hto : (second_counter : Int) > (msg.time_sent : Int) + client.response_timeout
      · by_cases h0 : pal k < 0
        · simp [__mqtt_send_loop, hs, hto, h0]
        · by_cases hp : pal k < (msg.size : Int)
          · simp [__mqtt_send_loop, hs, hto, h0, hp]
          · by_cases hc1 : msg.control_type = MQTT_CONTROL_DISCONNECT
                ∨ msg.control_type = MQTT_CONTROL_PUBLISH
            · simp [__mqtt_send_loop, hs, hto, h0, hp, hc1]
              rw [ih]
            · by_cases hc2 : msg.control_type = MQTT_CONTROL_CONNECT
                  ∨ msg.control_type = MQTT_CONTROL_SUBSCRIBE
                  ∨ msg.control_type = MQTT_CONTROL_PINGREQ
              · simp [__mqtt_send_loop, hs, hto, h0, hp, hc1, hc2]
                rw [ih]
              · simp [__mqtt_send_loop, hs, hto, h0, hp, hc1, hc2]
      · simp [__mqtt_send_loop, hs, hto]
        exact ih _ _
    | MQTT_QUEUED_UNSENT =>
      by_cases h0 : pal k < 0
      · simp [__mqtt_send_loop, hs, h0]
      · by_cases hp : client.send_offset + pal k < (msg.size : Int)
        · simp [__mqtt_send_loop, hs, h0, hp]
        · by_cases hc1 : msg.control_type = MQTT_CONTROL_DISCONNECT
              ∨ msg.control_type = MQTT_CONTROL_PUBLISH
          · simp [__mqtt_send_loop, hs, h0, hp, hc1]
            rw [ih]
          · by_cases hc2 : msg.control_type = MQTT_CONTROL_CONNECT
                ∨ msg.control_type = MQTT_CONTROL_SUBSCRIBE
                ∨ msg.control_type = MQTT_CONTROL_PINGREQ
            · simp [__mqtt_send_loop, hs, h0, hp, hc1, hc2]
              rw [ih]
            · simp [__mqtt_send_loop, hs, h0, hp, hc1, hc2]

/-- When `MQTT_CLIENT_TRY_PACK` returns, the value is negative and is latched in
`client->error`. -/
theorem try_pack_returns_neg (K : Consts) (client : mqtt_client)
    (pack_call : Nat → Int × List Nat) (stale : mqtt_queued_message) (rv : Int)
    (c : mqtt_client) (h : MQTT_CLIENT_TRY_PACK K client pack_call stale = (some rv, c)) :
    rv < 0 ∧ c.error = rv := by
  have hb := K.code_neg .MQTT_ERROR_SEND_BUFFER_IS_FULL
  unfold MQTT_CLIENT_TRY_PACK at h
  simp only at h
  split_ifs at h with h1 h2 h3 h4 h5 <;>
    simp only [Prod.mk.injEq, Option.some.injEq, reduceCtorEq, false_and] at h <;>
    obtain ⟨hrv, hc⟩ := h <;> subst hrv <;> subst hc <;> first
      | exact ⟨h1, rfl⟩ | exact ⟨h2, rfl⟩ | exact ⟨h4, rfl⟩ | exact ⟨hb, rfl⟩

/-- The two outcomes of `__mqtt_ping`.  Either it returns `MQTT_OK` and one Unsent
PINGREQ descriptor stands behind the queue, or it returns a negative value, which is
latched in `client->error`, and no descriptor has been added.  In both the queue before
is as it was or as `mqtt_mq_clean` leaves it. -/
theorem ping_outcome (K : Consts) (client : mqtt_client) (stale : mqtt_queued_message) :
    ∃ (k : Nat) (r : Int),
      (∀ m ∈ client.mq.queue.take k, m.state = MQTTQueuedMessageState.MQTT_QUEUED_COMPLETE) ∧
      (((__mqtt_ping K client stale).1 = K.MQTT_OK ∧
          ∃ e : mqtt_queued_message, e.state = MQTTQueuedMessageState.MQTT_QUEUED_UNSENT ∧
            e.control_type = MQTT_CONTROL_PINGREQ ∧
            (__mqtt_ping K client stale).2.mq.queue
              = (client.mq.queue.drop k).map (fun m => { m with start := m.start - r })
                  ++ [e]) ∨
        ((__mqtt_ping K client stale).1 < 0 ∧
          (__mqtt_ping K client stale).2.error = (__mqtt_ping K client stale).1 ∧
          (__mqtt_ping K client stale).2.mq.queue
            = (client.mq.queue.drop k).map (fun m => { m with start := m.start - r }))) := by
  obtain ⟨k, r, hk, hsome, hnone⟩ := try_pack_queue_shape K client
    (fun bufsz => mqtt_pack_ping_request K bufsz) stale
  refine ⟨k, r, hk, ?_⟩
  unfold __mqtt_ping
  rcases heq : MQTT_CLIENT_TRY_PACK K client (fun bufsz => mqtt_pack_ping_request K bufsz)
    stale with ⟨rv, c⟩
  rw [heq] at hsome hnone
  cases rv with
  | some rv =>
    obtain ⟨h1, h2⟩ := try_pack_returns_neg K client _ stale rv c heq
    exact Or.inr ⟨h1, h2, hsome (by simp)⟩
  | none =>
    obtain ⟨e, he, hq⟩ := hnone rfl
    refine Or.inl ⟨rfl, { e with control_type := MQTT_CONTROL_PINGREQ }, he, rfl, ?_⟩
    simp only at hq
    simp only [set_last_control_type, hq]
    exact modify_append_last _ e _

/-- The offset of the keep-alive test when the product `client->keep_alive * 3` fits the
width of `int`: three quarters of the keep-alive interval, rounded down. -/
theorem keep_alive_offset (K : Consts) (keep_alive : Nat)
    (h : keep_alive * 3 < 2 ^ K.int_bits) :
    (keep_alive * 3) % 2 ^ K.int_bits / 4 = 3 * keep_alive / 4 := by
  rw [Nat.mod_eq_of_lt h, Nat.mul_comm]

/-- The product `client->keep_alive * 3` fits an `int` of 16 bits up to a keep-alive
interval of 21845 seconds, and an `int` of 18 bits or more for every `uint16_t`. -/
theorem keep_alive_fits (K : Consts) (keep_alive : Nat)
    (h : keep_alive ≤ 21845 ∨ (keep_alive < 65536 ∧ 18 ≤ K.int_bits)) :
    keep_alive * 3 < 2 ^ K.int_bits := by
  rcases h with h | ⟨h, hb⟩
  · calc keep_alive * 3 < 2 ^ 16 := by omega
      _ ≤ 2 ^ K.int_bits := Nat.pow_le_pow_right (by decide) K.int_bits_ge
  · calc keep_alive * 3 < 2 ^ 18 := by omega
      _ ≤ 2 ^ K.int_bits := Nat.pow_le_pow_right (by decide) hb

/-- `MQTT_CLIENT_TRY_PACK` when the pack call returns a size on the capacity at hand: the
message is registered at once. -/
theorem try_pack_fits (K : Consts) (client : mqtt_client)
    (pack_call : Nat → Int × List Nat) (stale : mqtt_queued_message)
    (herr : 0 ≤ client.error) (hfit : 0 < (pack_call client.mq.curr_sz).1) :
    MQTT_CLIENT_TRY_PACK K client pack_call stale
      = (none,
          { client with
            mq := mqtt_mq_register K
              { client.mq with
                mem := writeAt client.mq.mem client.mq.curr.toNat
                  (pack_call client.mq.curr_sz).2 }
              (toUInt16 (pack_call client.mq.curr_sz).1) stale }) := by
  have h0 : ¬ client.error < 0 := by omega
  have h1 : ¬ (pack_call client.mq.curr_sz).1 < 0 := by omega
  have h2 : ¬ (pack_call client.mq.curr_sz).1 = 0 := by omega
  simp only [MQTT_CLIENT_TRY_PACK, h0, if_false, h1, h2]

/-- The descriptor of a ping request registered at the data front `curr`: 2 bytes,
Unsent, of control type PINGREQ; the other fields are what the slot held. -/
theorem ping_registered (K : Consts) (mq : mqtt_message_queue) (stale : mqtt_queued_message) :
    (set_last_control_type (mqtt_mq_register K mq (toUInt16 2) stale)
        MQTT_CONTROL_PINGREQ).queue
      = mq.queue ++ [{ stale with start := mq.curr, size := 2,
                                  state := MQTTQueuedMessageState.MQTT_QUEUED_UNSENT,
                                  control_type := MQTT_CONTROL_PINGREQ }] := by
  rw [set_last_control_type_append _ mq.queue
    { stale with start := mq.curr, size := toUInt16 2,
                 state := MQTTQueuedMessageState.MQTT_QUEUED_UNSENT } _ rfl]
  rfl

/-- The outcome of `__mqtt_ping`, case by case.  With a negative `client->error` it
returns that value and changes nothing.  Otherwise, when the capacity at hand holds the 2
bytes of the request, it returns `MQTT_OK` and one Unsent PINGREQ descriptor stands
behind the queue; when it does not, the queue is cleaned once (`mq1`), and either the
capacity then holds the request, which is registered behind the queue of `mq1`, or
`MQTT_ERROR_SEND_BUFFER_IS_FULL` is returned and latched and the queue is that of
`mq1`. -/
theorem ping_cases (K : Consts) (client : mqtt_client) (stale : mqtt_queued_message) :
    (client.error < 0 → __mqtt_ping K client stale = (client.error, client)) ∧
    (0 ≤ client.error → 2 ≤ client.mq.curr_sz →
      (__mqtt_ping K client stale).1 = K.MQTT_OK ∧
      (__mqtt_ping K client stale).2.error = client.error ∧
      (__mqtt_ping K client stale).2.mq.queue
        = client.mq.queue ++ [{ stale with start := client.mq.curr, size := 2,
                                           state := MQTTQueuedMessageState.MQTT_QUEUED_UNSENT,
                                           control_type := MQTT_CONTROL_PINGREQ }]) ∧
    (0 ≤ client.error → client.mq.curr_sz < 2 →
      ∀ mq1 : mqtt_message_queue,
        mq1 = mqtt_mq_clean K
          { client.mq with
            mem := writeAt client.mq.mem client.mq.curr.toNat
              (mqtt_pack_ping_request K client.mq.curr_sz).2 } →
        (2 ≤ mq1.curr_sz →
          (__mqtt_ping K client stale).1 = K.MQTT_OK ∧
          (__mqtt_ping K client stale).2.error = client.error ∧
          (__mqtt_ping K client stale).2.mq.queue
            = mq1.queue ++ [{ stale with start := mq1.curr, size := 2,
                                         state := MQTTQueuedMessageState.MQTT_QUEUED_UNSENT,
                                         control_type := MQTT_CONTROL_PINGREQ }]) ∧
        (mq1.curr_sz < 2 →
          (__mqtt_ping K client stale).1 = K.code .MQTT_ERROR_SEND_BUFFER_IS_FULL ∧
          (__mqtt_ping K client stale).2.error = K.code .MQTT_ERROR_SEND_BUFFER_IS_FULL ∧
          (__mqtt_ping K client stale).2.mq.queue = mq1.queue)) := by
  refine ⟨fun h => ping_refused K client stale h, fun herr hsz => ?_, fun herr hsz mq1 hmq1 => ?_⟩
  · have hp : (mqtt_pack_ping_request K client.mq.curr_sz).1 = 2 := by
      rw [pack_ping_request_eq, if_neg (by omega)]
    have ht := try_pack_fits K client (fun bufsz => mqtt_pack_ping_request K bufsz) stale herr
      (by simp only [hp]; decide)
    simp only [hp] at ht
    unfold __mqtt_ping
    rw [ht]
    exact ⟨rfl, rfl, ping_registered K _ stale⟩
  · have hp : (mqtt_pack_ping_request K client.mq.curr_sz).1 = 0 := by
      rw [pack_ping_request_eq, if_pos hsz]
    obtain ⟨h1, h2, -⟩ := try_pack_exhaustion K client
      (fun bufsz => mqtt_pack_ping_request K bufsz) stale herr hp mq1 hmq1
    refine ⟨fun hroom => ?_, fun hfull => ?_⟩
    · have hp1 : (mqtt_pack_ping_request K mq1.curr_sz).1 = 2 := by
        rw [pack_ping_request_eq, if_neg (by omega)]
      have ht := h1 (by simp only [hp1]; decide)
      simp only [hp1] at ht
      unfold __mqtt_ping
      rw [ht]
      exact ⟨rfl, rfl, ping_registered K _ stale⟩
    · have hp1 : (mqtt_pack_ping_request K mq1.curr_sz).1 = 0 := by
        rw [pack_ping_request_eq, if_pos hfull]
      have ht := h2 hp1
      unfold __mqtt_ping
      rw [ht]
      exact ⟨rfl, rfl, rfl⟩

/-- C32 (as the code has it): the keep-alive phase of `__mqtt_send`.  Let the loop over
the queue raise no error and leave the descriptors `queue` and the client `client1`.
When the product `client->keep_alive * 3` fits the width of `int` (a keep-alive interval
of at most 21845 seconds for an `int` of 16 bits, every `uint16_t` interval for an `int`
of 18 bits or more), `__mqtt_ping` is called exactly when `second_counter` is greater
than `time_of_last_send + floor(3 * keep_alive / 4)` (in `uint32_t`) and `mqtt_start` is
`MQTT_START_COMPLETE`.  When it is not called, `__mqtt_send` returns `MQTT_OK` with the
queue as the loop leaves it.  When it is called, what `__mqtt_send` returns and leaves
is fixed by `client->error` and the capacity `curr_sz`: with a negative error (the
latched buffer-full) it returns that error and the queue is as the loop leaves it; with
room for the 2 bytes it returns `MQTT_OK` and exactly one descriptor, an Unsent PINGREQ of
2 bytes at the data front, stands behind the queue; without room the queue is cleaned
once (`mq1`), and either the request then fits and is registered behind the queue of
`mq1`, or `MQTT_ERROR_SEND_BUFFER_IS_FULL` is returned and latched and no descriptor is
added. -/
theorem keep_alive_ping (K : Consts) (second_counter mqtt_start : Nat) (pal : Nat → Int)
    (stale : mqtt_queued_message) (client : mqtt_client)
    (queue : List mqtt_queued_message) (client1 : mqtt_client) (calls : List pal_call)
    (herr : ¬ send_blocked K client)
    (hloop : __mqtt_send_loop K second_counter pal client.mq.queue 0 client
      = (none, queue, client1, calls))
    (hfit : client.keep_alive ≤ 21845 ∨ (client.keep_alive < 65536 ∧ 18 ≤ K.int_bits)) :
    (¬ (second_counter
          > (client1.time_of_last_send + (3 * client.keep_alive / 4) % 2 ^ 32) % 2 ^ 32 ∧
        mqtt_start = K.MQTT_START_COMPLETE) →
      __mqtt_send K second_counter mqtt_start pal stale client
        = { rv := K.MQTT_OK,
            client := { client1 with mq := { client1.mq with queue := queue } },
            calls := calls }) ∧
    ((second_counter
          > (client1.time_of_last_send + (3 * client.keep_alive / 4) % 2 ^ 32) % 2 ^ 32 ∧
        mqtt_start = K.MQTT_START_COMPLETE) →
      (__mqtt_send K second_counter mqtt_start pal stale client).calls = calls ∧
      (client1.error < 0 →
        (__mqtt_send K second_counter mqtt_start pal stale client).rv = client1.error ∧
        (__mqtt_send K second_counter mqtt_start pal stale client).client.error
          = client1.error ∧
        (__mqtt_send K second_counter mqtt_start pal stale client).client.mq.queue = queue) ∧
      (0 ≤ client1.error → 2 ≤ client1.mq.curr_sz →
        (__mqtt_send K second_counter mqtt_start pal stale client).rv = K.MQTT_OK ∧
        (__mqtt_send K second_counter mqtt_start pal stale client).client.error
          = client1.error ∧
        (__mqtt_send K second_counter mqtt_start pal stale client).client.mq.queue
          = queue ++ [{ stale with start := client1.mq.curr, size := 2,
                                   state := MQTTQueuedMessageState.MQTT_QUEUED_UNSENT,
                                   control_type := MQTT_CONTROL_PINGREQ }]) ∧
      (0 ≤ client1.error → client1.mq.curr_sz < 2 →
        ∀ mq1 : mqtt_message_queue,
          mq1 = mqtt_mq_clean K
            { client1.mq with
              queue := queue,
              mem := writeAt client1.mq.mem client1.mq.curr.toNat
                (mqtt_pack_ping_request K client1.mq.curr_sz).2 } →
          (2 ≤ mq1.curr_sz →
            (__mqtt_send K second_counter mqtt_start pal stale client).rv = K.MQTT_OK ∧
            (__mqtt_send K second_counter mqtt_start pal stale client).client.error
              = client1.error ∧
            (__mqtt_send K second_counter mqtt_start pal stale client).client.mq.queue
              = mq1.queue ++ [{ stale with start := mq1.curr, size := 2,
                                           state := MQTTQueuedMessageState.MQTT_QUEUED_UNSENT,
                                           control_type := MQTT_CONTROL_PINGREQ }]) ∧
          (mq1.curr_sz < 2 →
            (__mqtt_send K second_counter mqtt_start pal stale client).rv
              = K.code .MQTT_ERROR_SEND_BUFFER_IS_FULL ∧
            (__mqtt_send K second_counter mqtt_start pal stale client).client.error
              = K.code .MQTT_ERROR_SEND_BUFFER_IS_FULL ∧
            (__mqtt_send K second_counter mqtt_start pal stale client).client.mq.queue
              = mq1.queue))) := by
  have hka := send_loop_keep_alive K second_counter pal client.mq.queue 0 client
  rw [hloop] at hka
  simp only at hka
  have hoff := keep_alive_offset K client.keep_alive (keep_alive_fits K client.keep_alive hfit)
  rw [← hka] at hoff
  rw [← hka]
  unfold send_blocked at herr
  have hneg : ∀ rv : Int, rv < 0 → rv ≠ K.MQTT_OK :=
    fun rv h e => absurd K.ok_nonneg (by rw [← e]; exact not_le.mpr h)
  constructor
  · intro hnd
    simp only [__mqtt_send, herr, if_false, hloop, hoff]
    rw [if_neg hnd]
  · intro hd
    obtain ⟨p1, p2, p3⟩ := ping_cases K
      { client1 with mq := { client1.mq with queue := queue } } stale
    simp only [__mqtt_send, herr, if_false, hloop, hoff]
    rw [if_pos hd]
    refine ⟨?_, fun he => ?_, fun he hsz => ?_, fun he hsz mq1 hmq1 => ⟨fun hroom => ?_,
      fun hfull => ?_⟩⟩
    · split_ifs <;> rfl
    · rw [p1 he, if_pos (hneg _ he)]
      exact ⟨rfl, rfl, rfl⟩
    · obtain ⟨q1, q2, q3⟩ := p2 he hsz
      rw [if_neg (not_not.mpr q1)]
      exact ⟨rfl, q2, q3⟩
    · obtain ⟨q1, q2, q3⟩ := (p3 he hsz mq1 hmq1).1 hroom
      rw [if_neg (not_not.mpr q1)]
      exact ⟨rfl, q2, q3⟩
    · obtain ⟨q1, q2, q3⟩ := (p3 he hsz mq1 hmq1).2 hfull
      rw [if_pos (by rw [q1]; exact hneg _ (K.code_neg _))]
      exact ⟨q1, q1, q3⟩

set_option maxRecDepth 100000 in
/-- C32 (witness): a connected client with a keep-alive interval of 60 seconds whose last
send was at time 0, with no error latched and room in the send buffer.  At time 46 the
ping is due; `__mqtt_send` returns `MQTT_OK` and one Unsent PINGREQ of 2 bytes, at the
data front, stands behind the queue. -/
theorem keep_alive_ping_witness :
    ¬ send_blocked sampleConsts (connectedClient 60) ∧
    __mqtt_send_loop sampleConsts 46 (fun _ => 0) (connectedClient 60).mq.queue 0
        (connectedClient 60)
      = (none, (connectedClient 60).mq.queue, connectedClient 60, []) ∧
    (46 > ((connectedClient 60).time_of_last_send
            + (3 * (connectedClient 60).keep_alive / 4) % 2 ^ 32) % 2 ^ 32 ∧
      20 = sampleConsts.MQTT_START_COMPLETE) ∧
    0 ≤ (connectedClient 60).error ∧ 2 ≤ (connectedClient 60).mq.curr_sz ∧
    (__mqtt_send sampleConsts 46 20 (fun _ => 0) sampleMessage (connectedClient 60)).rv
      = sampleConsts.MQTT_OK ∧
    (__mqtt_send sampleConsts 46 20 (fun _ => 0) sampleMessage
        (connectedClient 60)).client.error = (connectedClient 60).error ∧
    (__mqtt_send sampleConsts 46 20 (fun _ => 0) sampleMessage
        (connectedClient 60)).client.mq.queue
      = (connectedClient 60).mq.queue
          ++ [{ sampleMessage with start := (connectedClient 60).mq.curr, size := 2,
                                   state := MQTTQueuedMessageState.MQTT_QUEUED_UNSENT,
                                   control_type := MQTT_CONTROL_PINGREQ }] :=
  ⟨by decide, by decide, by decide, by decide, by decide,
   ((keep_alive_ping sampleConsts 46 20 (fun _ => 0) sampleMessage (connectedClient 60)
      (connectedClient 60).mq.queue (connectedClient 60) [] (by decide) (by decide)
      (Or.inl (by decide))).2 (by decide)).2.2.1 (by decide) (by decide)⟩

set_option maxRecDepth 100000 in
/-- C32 (counterexample): a connected client on which `MQTT_ERROR_SEND_BUFFER_IS_FULL` is
latched (keep-alive interval 60, last send at time 0) gets no ping request at time 47,
though the loop raises no error and the ping is due: `__mqtt_send` returns the error and
the queue is as it was.  And with an `int` of 16 bits, a connected client with a
keep-alive interval of 30000 seconds whose last send was at time 0 gets a ping request at
time 6117, long before `floor(3 * 30000 / 4) = 22500`: the product 90000 is reduced to
24464. -/
theorem keep_alive_ping_counterexample :
    ((client_run sampleConsts (List.take 4 buffer_full_run) freshClient).1.keep_alive = 60 ∧
      (client_run sampleConsts (List.take 4 buffer_full_run) freshClient).1.time_of_last_send
        = 0 ∧
      (__mqtt_send_loop sampleConsts 47 (fun _ => 0)
        (client_run sampleConsts (List.take 4 buffer_full_run) freshClient).1.mq.queue 0
        (client_run sampleConsts (List.take 4 buffer_full_run) freshClient).1).1 = none ∧
      47 > 0 + 3 * 60 / 4 ∧ 20 = sampleConsts.MQTT_START_COMPLETE ∧
      (__mqtt_send sampleConsts 47 20 (fun _ => 0) sampleMessage
          (client_run sampleConsts (List.take 4 buffer_full_run) freshClient).1).rv
        = sampleConsts.code .MQTT_ERROR_SEND_BUFFER_IS_FULL ∧
      (__mqtt_send sampleConsts 47 20 (fun _ => 0) sampleMessage
          (client_run sampleConsts (List.take 4 buffer_full_run) freshClient).1).client.mq.queue
        = [⟨0, 21, MQTTQueuedMessageState.MQTT_QUEUED_COMPLETE, 0, MQTT_CONTROL_CONNECT,
            0⟩]) ∧
    sampleConsts.int_bits = 16 ∧
    ((connectedClient 30000).keep_alive = 30000 ∧
      (connectedClient 30000).time_of_last_send = 0 ∧
      (__mqtt_send_loop sampleConsts 6117 (fun _ => 0) (connectedClient 30000).mq.queue 0
        (connectedClient 30000)).1 = none ∧
      ¬ 6117 > 0 + 3 * 30000 / 4 ∧
      (__mqtt_send sampleConsts 6117 20 (fun _ => 0) sampleMessage
          (connectedClient 30000)).client.mq.queue
        = [⟨0, 21, MQTTQueuedMessageState.MQTT_QUEUED_COMPLETE, 0, MQTT_CONTROL_CONNECT, 0⟩,
           ⟨21, 2, MQTTQueuedMessageState.MQTT_QUEUED_UNSENT, 0, MQTT_CONTROL_PINGREQ, 0⟩]) := by
  decide

end MQTT
